import Mathlib

/-!
# ChampSim cache module: queue admission and set/way indexing

A shallow embedding of `src/src/cache.cc` (with the constants of
`src/inc/memory_class.h`).  Every member function of `CACHE` becomes a pure
function from the cache state (and the packet it is handed) to the new state,
the packet as the callee leaves it, the integer it returns and the list of
`return_data` calls it makes on producers.

Conventions.
* `cache.cc` defines `NDEBUG` unless `SANITY_CHECK` is set, so `assert` is not
  part of the behaviour that is modelled; every assertion is recorded in the
  comment of the function that carries it.
* Unsigned machine words are `Nat`, the signed `inv_ongoing` is `Int`.  None of
  the operations embedded here can overflow a 64 bit word for inputs that fit
  one (shifts to the right, masks, comparisons, counters that grow by one).
  `get_set` and `get_way` return `uint32_t`; their values are bounded by
  `NUM_SET` and `NUM_WAY`, which are 32 bit quantities, so that conversion is
  the identity and is not written.
* `std::find_if` over a container is `List.findIdx`: the iterator is the index
  of the first match and `end()` is the length of the container.
-/

namespace ChampSim

/-! ## Constants of `memory_class.h` -/

/-- Access type `LOAD`. -/
def LOAD : Nat := 0

/-- Access type `RFO`. -/
def RFO : Nat := 1

/-- Access type `PREFETCH`. -/
def PREFETCH : Nat := 2

/-- Access type `WRITEBACK`. -/
def WRITEBACK : Nat := 3

/-- Access type `TRANSLATION`. -/
def TRANSLATION : Nat := 4

/-- Access type `INVALIDATE`. -/
def INVALIDATE : Nat := 5

/-- Access type `WRITEBACK_EXCLUSIVE`. -/
def WRITEBACK_EXCLUSIVE : Nat := 6

/-- Access type `NON_VALID`. -/
def NON_VALID : Nat := 7

/-- Number of access types. -/
def NUM_TYPES : Nat := 8

/-- Cache type `INCLUSIVE`. -/
def INCLUSIVE : Nat := 0

/-- Cache type `EXCLUSIVE`. -/
def EXCLUSIVE : Nat := 1

/-- Cache type `NINE`. -/
def NINE : Nat := 2

/-- Cache type `NOT_CACHE`. -/
def NOT_CACHE : Nat := 3

/-! ## Data model -/

/-- The class `BLOCK` of `memory_class.h`, field by field, with its default
member initialisers (`lru` starts at `UINT32_MAX >> 1`). -/
structure BLOCK where
  valid : Bool := false
  prefetch : Bool := false
  dirty : Bool := false
  address : Nat := 0
  v_address : Nat := 0
  tag : Nat := 0
  data : Nat := 0
  ip : Nat := 0
  cpu : Nat := 0
  instr_id : Nat := 0
  lru : Nat := 2147483647
  deriving DecidableEq, Repr

/-- Modelled from the spec: the declaration of `PACKET` (`block.h`) is not among
the sources.  The fields are the ones `cache.cc` reads and writes, grouped as in
section 3 of the specification; `inv_ongoing` is the signed counter, the
dependency lists and `to_return` are ordered lists (producers are named by a
number), and `event_cycle` of a fresh packet is the largest 64 bit value. -/
structure PACKET where
  scheduled : Bool := false
  test_packet : Bool := false
  data_valid : Bool := false
  type : Nat := 0
  fill_level : Nat := 0
  pf_origin_level : Nat := 0
  pf_metadata : Nat := 0
  cpu : Nat := 0
  address : Nat := 0
  v_address : Nat := 0
  data : Nat := 0
  instr_id : Nat := 0
  ip : Nat := 0
  event_cycle : Nat := 18446744073709551615
  cycle_enqueued : Nat := 0
  translation_level : Nat := 0
  init_translation_level : Nat := 0
  asid0 : Nat := 0
  asid1 : Nat := 0
  inv_ongoing : Int := 0
  merge_count : Nat := 0
  mshr_invalid_count : Nat := 0
  mshr_return_data_invalid_count : Nat := 0
  lq_index_depend_on_me : List Nat := []
  sq_index_depend_on_me : List Nat := []
  instr_depend_on_me : List Nat := []
  to_return : List Nat := []
  deriving DecidableEq, Repr

/-- Modelled from the spec: `champsim::delay_queue<PACKET>` (`delay_queue.hpp`)
is not among the sources.  Section 2 describes it as a bounded FIFO with
occupancy, readiness (enqueue-time latency) and iteration: `sz` is the fixed
capacity, `latency` the enqueue-to-ready latency, and `buf` the entries from
the front to the back, each with the cycles it still has to wait. -/
structure delay_queue where
  sz : Nat := 0
  latency : Nat := 0
  buf : List (PACKET × Nat) := []
  deriving DecidableEq, Repr

namespace delay_queue

/-- Modelled from the spec: the capacity, `size()` of `delay_queue.hpp`. -/
def size (q : delay_queue) : Nat := q.sz

/-- Modelled from the spec: the number of entries held, `occupancy()` of
`delay_queue.hpp`. -/
def occupancy (q : delay_queue) : Nat := q.buf.length

/-- Modelled from the spec: `full()` of `delay_queue.hpp`, a queue at capacity:
the occupancy equals the size. -/
def full (q : delay_queue) : Bool := q.occupancy == q.size

/-- Modelled from the spec: the entries in iteration order, `begin()` to `end()`
of `delay_queue.hpp`. -/
def packets (q : delay_queue) : List PACKET := q.buf.map Prod.fst

/-- Modelled from the spec: `push_back` of `delay_queue.hpp` appends an entry
that becomes ready after the queue latency. -/
def push_back (q : delay_queue) (p : PACKET) : delay_queue :=
  { q with buf := q.buf ++ [(p, q.latency)] }

/-- Modelled from the spec: `push_back_ready` of `delay_queue.hpp` appends an
entry that is ready at once. -/
def push_back_ready (q : delay_queue) (p : PACKET) : delay_queue :=
  { q with buf := q.buf ++ [(p, 0)] }

/-- The iterator `std::find_if(q.begin(), q.end(), pred)` as an index; the
length of the queue stands for `q.end()`. -/
def find_if (q : delay_queue) (pred : PACKET → Bool) : Nat :=
  q.packets.findIdx pred

/-- The iterator `q.end()`: the index one past the last entry. -/
def past_end (q : delay_queue) : Nat := q.packets.length

/-- The entry an iterator points at (a fresh packet past the end, which the
code never dereferences). -/
def deref (q : delay_queue) (i : Nat) : PACKET := q.packets.getD i {}

/-- Write through an iterator: the packet at index `i` becomes `f` of it, its
waiting time and every other entry are kept. -/
def modify_at (q : delay_queue) (i : Nat) (f : PACKET → PACKET) : delay_queue :=
  { q with buf := List.modify (fun e => (f e.1, e.2)) i q.buf }

end delay_queue

/-- Modelled from the spec: the declaration of `CACHE` (`cache.h`) is not among
the sources.  The fields are the members `cache.cc` uses: the configuration of
section 3, the block array, the MSHR, the five queues, the credits, the retry
flags of `filllike_miss` and the counters.  `warmup_complete` is the global
array of that name, indexed by cpu.  The arrays `sim_access`, `sim_hit` and
`sim_miss`, indexed by cpu and access type, are kept as tallies: one pair
`(cpu, type)` for every increment.  `this_id` is the number that names this
cache as a producer (the pointer `this` in a `to_return` list). -/
structure CACHE where
  NUM_SET : Nat := 1
  NUM_WAY : Nat := 1
  OFFSET_BITS : Nat := 6
  FILL_LATENCY : Nat := 0
  MSHR_SIZE : Nat := 0
  MAX_READ : Nat := 1
  MAX_WRITE : Nat := 1
  fill_level : Nat := 1
  cache_type : Nat := 0
  prefetch_as_load : Bool := false
  match_offset_bits : Bool := false
  virtual_prefetch : Bool := false
  ever_seen_data : Bool := false
  pref_activate_mask : Nat := 0
  cpu : Nat := 0
  current_cycle : Nat := 0
  warmup_complete : List Bool := []
  block : List BLOCK := []
  MSHR : List PACKET := []
  RQ : delay_queue := {}
  WQ : delay_queue := {}
  PQ : delay_queue := {}
  IVQ : delay_queue := {}
  VAPQ : delay_queue := {}
  reads_available_this_cycle : Nat := 0
  writes_available_this_cycle : Nat := 0
  invalid_available_this_cycle : Nat := 0
  send_wb_valid : Bool := true
  send_inv_valid0 : Bool := true
  send_inv_valid1 : Bool := true
  RQ_ACCESS : Nat := 0
  RQ_MERGED : Nat := 0
  RQ_FULL : Nat := 0
  RQ_TO_CACHE : Nat := 0
  WQ_ACCESS : Nat := 0
  WQ_MERGED : Nat := 0
  WQ_FULL : Nat := 0
  WQ_FORWARD : Nat := 0
  WQ_TO_CACHE : Nat := 0
  PQ_ACCESS : Nat := 0
  PQ_MERGED : Nat := 0
  PQ_FULL : Nat := 0
  PQ_TO_CACHE : Nat := 0
  IVQ_ACCESS : Nat := 0
  IVQ_MERGED : Nat := 0
  IVQ_FULL : Nat := 0
  IVQ_TO_CACHE : Nat := 0
  pf_requested : Nat := 0
  pf_issued : Nat := 0
  pf_useful : Nat := 0
  pf_useless : Nat := 0
  pf_fill : Nat := 0
  total_miss_latency : Nat := 0
  sim_access : List (Nat × Nat) := []
  sim_hit : List (Nat × Nat) := []
  sim_miss : List (Nat × Nat) := []
  this_id : Nat := 0
  deriving DecidableEq, Repr

/-! ## Helpers of `util.h` -/

/-- Modelled from the spec: the halving loop behind `lg2` (`util.h`, not among
the sources), with the number of halvings still allowed. -/
def lg2_aux : Nat → Nat → Nat
  | 0, _ => 0
  | fuel + 1, n => if n < 2 then 0 else 1 + lg2_aux fuel (n / 2)

/-- Modelled from the spec: `lg2` (`util.h`) is not among the sources.  It is
the binary logarithm rounded down, `lg2(n) = n < 2 ? 0 : 1 + lg2(n / 2)`, which
is what lets section 4.1 read the mask `bitmask(lg2(NUM_SET))` as a reduction
modulo a set count that is a power of two. -/
def lg2 (n : Nat) : Nat := lg2_aux n n

/-- Modelled from the spec: `bitmask` (`util.h`) is not among the sources.  With
one argument it is the word whose `k` low bits are set. -/
def bitmask (k : Nat) : Nat := 2 ^ k - 1

/-- Modelled from the spec: `eq_addr<BLOCK>` (`util.h`) is not among the
sources.  Section 4.1: a block matches when it is valid and its address agrees
with the searched one above the low `shamt` bits. -/
def eq_addr_BLOCK (val shamt : Nat) (test : BLOCK) : Bool :=
  test.valid && (test.address >>> shamt == val >>> shamt)

/-- Modelled from the spec: `eq_addr<PACKET>` (`util.h`) is not among the
sources.  Section 4.11 searches the queues for an entry of the same block at a
given granularity: the addresses agree above the low `shamt` bits (the
specification gives a packet no validity bit). -/
def eq_addr_PACKET (val shamt : Nat) (test : PACKET) : Bool :=
  test.address >>> shamt == val >>> shamt

/-- Modelled from the spec: `packet_dep_merge` (`util.h`) is not among the
sources.  Section 9 treats the merged lists as append-only collections and
section 8 states the merged `to_return` as the concatenation of both callers:
the source list is appended to the destination. -/
def packet_dep_merge (dest src : List Nat) : List Nat := dest ++ src

/-! ## Set and way indexing (`cache.cc`, lines 571 to 589) -/

/-- The function `CACHE::get_set`:
`(address >> OFFSET_BITS) & bitmask(lg2(NUM_SET))`. -/
def get_set (c : CACHE) (address : Nat) : Nat :=
  (address >>> c.OFFSET_BITS) &&& bitmask (lg2 c.NUM_SET)

/-- The function `CACHE::get_way`: `find_if` with `eq_addr<BLOCK>` over the
`NUM_WAY` blocks that start at `set * NUM_WAY`, returned as the distance from
the start of the set. -/
def get_way (c : CACHE) (address set : Nat) : Nat :=
  ((c.block.drop (set * c.NUM_WAY)).take c.NUM_WAY).findIdx
    (eq_addr_BLOCK address c.OFFSET_BITS)

/-! ## Queue admission (`cache.cc`, lines 591 to 843 and 1022 to 1085) -/

/-- What a call `add_rq`, `add_wq`, `add_pq` or `add_ivq` leaves behind: the
integer it returns, the packet of the caller as the callee leaves it (it is
passed by pointer), the cache afterwards, and the calls `ret->return_data` it
made, in order, each with the producer and the packet handed over. -/
structure Admission where
  result : Int
  packet : PACKET
  cache : CACHE
  returned : List (Nat × PACKET) := []
  deriving DecidableEq, Repr

/-- The test `warmup_complete[cpu]` on the cpu of the cache. -/
def warm (c : CACHE) : Bool := c.warmup_complete.getD c.cpu false

/-- The choice between `push_back` (after warmup) and `push_back_ready`. -/
def enqueue (c : CACHE) (q : delay_queue) (packet : PACKET) : delay_queue :=
  if warm c then q.push_back packet else q.push_back_ready packet

/-- The granularity `match_offset_bits ? 0 : OFFSET_BITS` of the searches that
compare whole addresses when `match_offset_bits` is set. -/
def match_shamt (c : CACHE) : Nat := if c.match_offset_bits then 0 else c.OFFSET_BITS

/-- The function `CACHE::add_rq` (it asserts `packet->address != 0`).  A test
packet on a cache that is not `NOT_CACHE` only reports: `-2` when the IVQ holds
the block, the RQ occupancy otherwise.  Any other packet is forwarded from the
WQ (`-1`), merged into the RQ (`0`), refused by a full RQ (`-2`) or pushed. -/
def add_rq (c : CACHE) (packet : PACKET) : Admission :=
  if packet.test_packet && c.cache_type != NOT_CACHE then
    let found_ivq := c.IVQ.find_if (eq_addr_PACKET packet.address c.OFFSET_BITS)
    if found_ivq != c.IVQ.past_end then
      { result := -2, packet := packet, cache := c }
    else
      { result := c.RQ.occupancy, packet := packet, cache := c }
  else
    let c1 := { c with RQ_ACCESS := c.RQ_ACCESS + 1 }
    let found_wq := c1.WQ.find_if (eq_addr_PACKET packet.address (match_shamt c1))
    if found_wq != c1.WQ.past_end && (c1.WQ.deref found_wq).inv_ongoing == 0 then
      let packet1 := { packet with data := (c1.WQ.deref found_wq).data }
      { result := -1, packet := packet1,
        cache := { c1 with WQ_FORWARD := c1.WQ_FORWARD + 1 },
        returned := packet1.to_return.map (fun ret => (ret, packet1)) }
    else
      let found_rq := c1.RQ.find_if (eq_addr_PACKET packet.address c1.OFFSET_BITS)
      if found_rq != c1.RQ.past_end then
        let RQ1 := c1.RQ.modify_at found_rq (fun e =>
          { e with
            lq_index_depend_on_me :=
              packet_dep_merge e.lq_index_depend_on_me packet.lq_index_depend_on_me,
            sq_index_depend_on_me :=
              packet_dep_merge e.sq_index_depend_on_me packet.sq_index_depend_on_me,
            instr_depend_on_me :=
              packet_dep_merge e.instr_depend_on_me packet.instr_depend_on_me,
            to_return := packet_dep_merge e.to_return packet.to_return })
        { result := 0, packet := packet,
          cache := { c1 with RQ := RQ1, RQ_MERGED := c1.RQ_MERGED + 1 } }
      else if c1.RQ.full then
        { result := -2, packet := packet, cache := { c1 with RQ_FULL := c1.RQ_FULL + 1 } }
      else
        let RQ1 := enqueue c1 c1.RQ packet
        { result := RQ1.occupancy, packet := packet,
          cache := { c1 with RQ := RQ1, RQ_TO_CACHE := c1.RQ_TO_CACHE + 1 } }

/-- The function `CACHE::add_wq`.  A `WRITEBACK_EXCLUSIVE` is dropped (`0`) by a
cache that is not `EXCLUSIVE`; otherwise the packet is merged (`0`), refused by
a full WQ (`-2`) or pushed.  `WQ_ACCESS` is counted twice on a push. -/
def add_wq (c : CACHE) (packet : PACKET) : Admission :=
  if c.cache_type != EXCLUSIVE && packet.type == WRITEBACK_EXCLUSIVE then
    { result := 0, packet := packet, cache := c }
  else
    let c1 := { c with WQ_ACCESS := c.WQ_ACCESS + 1 }
    let found_wq := c1.WQ.find_if (eq_addr_PACKET packet.address (match_shamt c1))
    if found_wq != c1.WQ.past_end then
      { result := 0, packet := packet, cache := { c1 with WQ_MERGED := c1.WQ_MERGED + 1 } }
    else if c1.WQ.full then
      { result := -2, packet := packet, cache := { c1 with WQ_FULL := c1.WQ_FULL + 1 } }
    else
      let WQ1 := enqueue c1 c1.WQ packet
      { result := WQ1.occupancy, packet := packet,
        cache := { c1 with WQ := WQ1, WQ_TO_CACHE := c1.WQ_TO_CACHE + 1,
                           WQ_ACCESS := c1.WQ_ACCESS + 1 } }

/-- The function `CACHE::add_pq` (it asserts `packet->address != 0`): an IVQ
conflict (`-2`), then forwarding from the WQ (`-1`), then a merge into the PQ
(`0`), then a full PQ (`-2`), then the push. -/
def add_pq (c : CACHE) (packet : PACKET) : Admission :=
  let c1 := { c with PQ_ACCESS := c.PQ_ACCESS + 1 }
  let found_ivq := c1.IVQ.find_if (eq_addr_PACKET packet.address (match_shamt c1))
  if found_ivq != c1.IVQ.past_end then
    { result := -2, packet := packet, cache := c1 }
  else
    let found_wq := c1.WQ.find_if (eq_addr_PACKET packet.address (match_shamt c1))
    if found_wq != c1.WQ.past_end then
      let packet1 := { packet with data := (c1.WQ.deref found_wq).data }
      { result := -1, packet := packet1,
        cache := { c1 with WQ_FORWARD := c1.WQ_FORWARD + 1 },
        returned := packet1.to_return.map (fun ret => (ret, packet1)) }
    else
      let found := c1.PQ.find_if (eq_addr_PACKET packet.address c1.OFFSET_BITS)
      if found != c1.PQ.past_end then
        let PQ1 := c1.PQ.modify_at found (fun e =>
          { e with
            fill_level := min e.fill_level packet.fill_level,
            to_return := packet_dep_merge e.to_return packet.to_return })
        { result := 0, packet := packet,
          cache := { c1 with PQ := PQ1, PQ_MERGED := c1.PQ_MERGED + 1 } }
      else if c1.PQ.full then
        { result := -2, packet := packet, cache := { c1 with PQ_FULL := c1.PQ_FULL + 1 } }
      else
        let PQ1 := enqueue c1 c1.PQ packet
        { result := PQ1.occupancy, packet := packet,
          cache := { c1 with PQ := PQ1, PQ_TO_CACHE := c1.PQ_TO_CACHE + 1 } }

/-- The last part of `CACHE::add_ivq` (lines 1065 to 1084): the packet is merged
into the IVQ entry of its block (`-4`: `merge_count` grows when the fill levels
agree, and `fill_level` becomes the larger of the two) or pushed. -/
def add_ivq_queue (c : CACHE) (packet : PACKET) : Admission :=
  let found := c.IVQ.find_if (eq_addr_PACKET packet.address c.OFFSET_BITS)
  if found != c.IVQ.past_end then
    let IVQ1 := c.IVQ.modify_at found (fun e =>
      { e with
        merge_count :=
          if e.fill_level == packet.fill_level then e.merge_count + 1 else e.merge_count,
        fill_level := max e.fill_level packet.fill_level })
    { result := -4, packet := packet,
      cache := { c with IVQ := IVQ1, IVQ_MERGED := c.IVQ_MERGED + 1 } }
  else
    let IVQ1 := enqueue c c.IVQ packet
    { result := IVQ1.occupancy, packet := packet,
      cache := { c with IVQ := IVQ1, IVQ_TO_CACHE := c.IVQ_TO_CACHE + 1 } }

/-- The function `CACHE::add_ivq` (it asserts `packet->type == INVALIDATE`, and
`found_wq->inv_ongoing >= 0` after the decrement).  A full IVQ refuses (`-2`).
A WQ entry of the block with the `fill_level` of the packet absorbs the invalidation
(`-3`); one with a smaller `fill_level` is cancelled (`NON_VALID`) after donating
its data to a packet without data, unless it is a `WRITEBACK_EXCLUSIVE`; a larger
`fill_level` is the `assert(0)` branch.  Then comes the IVQ part. -/
def add_ivq (c : CACHE) (packet : PACKET) : Admission :=
  let c1 := { c with IVQ_ACCESS := c.IVQ_ACCESS + 1 }
  if c1.IVQ.full then
    { result := -2, packet := packet, cache := { c1 with IVQ_FULL := c1.IVQ_FULL + 1 } }
  else
    let found_wq := c1.WQ.find_if (eq_addr_PACKET packet.address c1.OFFSET_BITS)
    if found_wq != c1.WQ.past_end then
      let w := c1.WQ.deref found_wq
      if w.fill_level == packet.fill_level then
        let WQ1 := c1.WQ.modify_at found_wq (fun e =>
          { e with
            data := if packet.data_valid then packet.data else e.data,
            inv_ongoing := e.inv_ongoing - (packet.merge_count : Int) })
        { result := -3, packet := packet, cache := { c1 with WQ := WQ1 } }
      else if w.fill_level < packet.fill_level then
        let packet1 : PACKET :=
          if !packet.data_valid && w.type != WRITEBACK_EXCLUSIVE then
            { packet with data := w.data, data_valid := true }
          else packet
        let WQ1 := c1.WQ.modify_at found_wq (fun e => { e with type := NON_VALID })
        add_ivq_queue { c1 with WQ := WQ1, IVQ_MERGED := c1.IVQ_MERGED + 1 } packet1
      else
        add_ivq_queue { c1 with IVQ_MERGED := c1.IVQ_MERGED + 1 } packet
    else
      add_ivq_queue c1 packet

/-! ## Vocabulary of the statements -/

/-- Way `w` of set `s` holds a valid block whose address agrees with `address`
above the low `OFFSET_BITS` bits. -/
def way_hit (c : CACHE) (address s w : Nat) : Prop :=
  ∃ b, c.block[s * c.NUM_WAY + w]? = some b ∧ b.valid = true ∧
    b.address >>> c.OFFSET_BITS = address >>> c.OFFSET_BITS

/-- The queue holds an entry whose address agrees with `address` above the low
`shamt` bits. -/
def delay_queue.holds (q : delay_queue) (address shamt : Nat) : Prop :=
  ∃ e ∈ q.packets, e.address >>> shamt = address >>> shamt

instance (q : delay_queue) (address shamt : Nat) : Decidable (q.holds address shamt) := by
  unfold delay_queue.holds
  infer_instance

/-- The occupancies of the five queues, in the order RQ, WQ, PQ, IVQ, VAPQ. -/
def queue_occupancies (c : CACHE) : List Nat :=
  [c.RQ.occupancy, c.WQ.occupancy, c.PQ.occupancy, c.IVQ.occupancy, c.VAPQ.occupancy]

/-- The result `r` reports a push of `p` onto `q` that gave `q1`: `r` is
positive, it is the occupancy of `q1`, which is one more than that of `q`, and
the entries of `q1` are those of `q` followed by `p`. -/
def appended (q q1 : delay_queue) (p : PACKET) (r : Int) : Prop :=
  0 < r ∧ r = (q1.occupancy : Int) ∧ q1.occupancy = q.occupancy + 1 ∧
    q1.packets = q.packets ++ [p]

variable {W : Type}

/-! ## The delay queue as a pipeline source -/

namespace delay_queue

/-- Modelled from the spec: `has_ready()` of `delay_queue.hpp`, the head of the
queue exists and has waited out its latency. -/
def has_ready (q : delay_queue) : Bool :=
  match q.buf with
  | [] => false
  | e :: _ => e.2 == 0

/-- Modelled from the spec: `front()` of `delay_queue.hpp`, the oldest entry (a
fresh packet when the queue is empty, which the code never asks for). -/
def front (q : delay_queue) : PACKET := q.deref 0

/-- Modelled from the spec: `pop_front()` of `delay_queue.hpp` removes the
oldest entry. -/
def pop_front (q : delay_queue) : delay_queue := { q with buf := q.buf.tail }

/-- Modelled from the spec: `operate()` of `delay_queue.hpp` advances the ready
timer: every entry that still waits has one cycle less to wait. -/
def operate (q : delay_queue) : delay_queue :=
  { q with buf := q.buf.map (fun e => (e.1, e.2 - 1)) }

end delay_queue

/-! ## The neighbours of a cache -/

/-- A call this cache makes on a neighbour, with the packet as it is handed
over and, for the admission calls, the integer that comes back: the four
admission calls on `lower_level`, `add_ivq` on `upper_level[i]`, and
`return_data` on the producer `ret`. -/
inductive Call where
  | add_rq (packet : PACKET) (result : Int)
  | add_wq (packet : PACKET) (result : Int)
  | add_pq (packet : PACKET) (result : Int)
  | add_ivq (packet : PACKET) (result : Int)
  | upper_add_ivq (i : Nat) (packet : PACKET) (result : Int)
  | return_data (ret : Nat) (packet : PACKET)
  deriving DecidableEq, Repr

/-- The answer of a neighbour to an admission call: the integer it returns, the
packet as the neighbour leaves it (it is passed by pointer), the state of the
neighbours afterwards, and the packets the neighbour handed to `return_data` of
this cache while the call ran, in order. -/
structure Reply (W : Type) where
  result : Int
  packet : PACKET
  world : W
  returned : List PACKET := []

/-- The answer of a neighbour to `add_wq` or `add_ivq`, the two admission calls
that never hand data back: the integer returned, the packet as the neighbour
leaves it, and the state of the neighbours afterwards. -/
structure Ack (W : Type) where
  result : Int
  packet : PACKET
  world : W

/-- Modelled from the spec: the neighbours and policy hooks of section 6, which
are not among the sources.  `W` is the state of everything outside this cache;
every call on a neighbour is a transition of that state.  The lower level is a
`MemoryRequestConsumer` (`lower_present` tells whether the pointer is not
null), the upper levels answer `add_ivq`, the producers take `return_data`, and
the replacement policy, the prefetcher and the virtual memory are oracles that
mutate their private state only.  Data comes back through `return_data` of this
cache only while `add_rq` or `add_pq` of the lower level runs (the forwarding
case `-1` of section 4.11).  The producers named in the `to_return` lists of
the entries of this cache are objects other than this cache. -/
structure Neighbours (W : Type) where
  lower_present : Bool
  lower_fill_level : Nat
  lower_add_rq : W → PACKET → Reply W
  lower_add_wq : W → PACKET → Ack W
  lower_add_pq : W → PACKET → Reply W
  lower_add_ivq : W → PACKET → Ack W
  lower_get_occupancy : W → Nat → Nat → Nat
  lower_get_size : W → Nat → Nat → Nat
  upper_present : Nat → Bool
  upper_add_ivq : Nat → W → PACKET → Ack W
  producer_return_data : Nat → W → PACKET → W
  find_victim : W → Nat → Nat → Nat → List BLOCK → Nat → Nat → Nat → Nat × W
  update_state : W → Nat → Nat → Nat → Nat → Nat → Nat → Nat → Nat → W
  prefetcher_cache_operate : W → Nat → Nat → Nat → Nat → Nat → Nat × W
  prefetcher_cache_fill : W → Nat → Nat → Nat → Bool → Nat → Nat → Nat × W
  prefetcher_cycle_operate : W → W
  va_to_pa : W → Nat → Nat → Nat × W

/-- The cache together with the state of its neighbours and the calls made on
them so far, oldest first. -/
structure Sys (W : Type) where
  cache : CACHE
  world : W
  trace : List Call := []

/-! ## The return path (`cache.cc`, lines 845 to 879) -/

/-- The largest 64 bit value, `std::numeric_limits<uint64_t>::max()`, which
marks an MSHR entry whose data has not returned. -/
def UINT64_MAX : Nat := 18446744073709551615

/-- The exchange `std::iter_swap` of the entries at two positions of a list.
An index past the end is the iterator `end()`, which the code must not swap
with: the list is then left as it is. -/
def iter_swap (l : List PACKET) (i j : Nat) : List PACKET :=
  if i < l.length ∧ j < l.length then
    (l.set i (l.getD j {})).set j (l.getD i {})
  else l

/-- The writes of `CACHE::return_data` into the MSHR entry it found (lines 862
to 865): the entry takes the data, the prefetch metadata and, as
`mshr_return_data_invalid_count`, the invalidation count of the packet, and
becomes due at `current_cycle + FILL_LATENCY` (at `current_cycle` during warmup,
modulo 2^64). -/
def take_data (c : CACHE) (packet e : PACKET) : PACKET :=
  { e with
    data := packet.data,
    pf_metadata := packet.pf_metadata,
    event_cycle := (c.current_cycle + (if warm c then c.FILL_LATENCY else 0)) % 2 ^ 64,
    mshr_return_data_invalid_count := packet.mshr_invalid_count }

/-- The function `CACHE::return_data`: the first MSHR entry of the block of the
packet takes the data of the packet; it is then exchanged with the first entry
that was not returned when the call began.  Without a matching entry the code
fails its sanity check (`assert(0)`) and has no defined behaviour; the cache is
then left as it is. -/
def return_data (c : CACHE) (packet : PACKET) : CACHE :=
  let mshr_entry := c.MSHR.findIdx (eq_addr_PACKET packet.address c.OFFSET_BITS)
  let first_unreturned := c.MSHR.findIdx (fun x => x.event_cycle == UINT64_MAX)
  if mshr_entry = c.MSHR.length then c
  else
    let MSHR1 := List.modify (take_data c packet) mshr_entry c.MSHR
    { c with MSHR := iter_swap MSHR1 mshr_entry first_unreturned }

/-- The packets a neighbour handed to `return_data` of this cache during a
call, applied in order. -/
def deliver (c : CACHE) (returned : List PACKET) : CACHE :=
  returned.foldl return_data c

/-! ## Calls on the neighbours -/

/-- What an admission call on a neighbour leaves behind: the integer returned,
the packet as the neighbour leaves it, and the system afterwards. -/
structure Called (W : Type) where
  result : Int
  packet : PACKET
  sys : Sys W

/-- The bookkeeping of an admission call on a neighbour: the packets handed
back through `return_data` while the call ran are delivered to the cache, the
neighbours move to their new state, and the call is recorded. -/
def called (s : Sys W) (r : Reply W) (call : Call) : Called W :=
  { result := r.result, packet := r.packet,
    sys := { cache := deliver s.cache r.returned, world := r.world,
             trace := s.trace ++ [call] } }

/-- The call `lower_level->add_rq(&packet)`. -/
def call_add_rq (n : Neighbours W) (s : Sys W) (packet : PACKET) : Called W :=
  called s (n.lower_add_rq s.world packet)
    (Call.add_rq packet (n.lower_add_rq s.world packet).result)

/-- The bookkeeping of a call `add_wq` or `add_ivq` on a neighbour: the
neighbours move to their new state and the call is recorded. -/
def acked (s : Sys W) (r : Ack W) (call : Call) : Called W :=
  { result := r.result, packet := r.packet,
    sys := { cache := s.cache, world := r.world, trace := s.trace ++ [call] } }

/-- The call `lower_level->add_wq(&packet)`. -/
def call_add_wq (n : Neighbours W) (s : Sys W) (packet : PACKET) : Called W :=
  acked s (n.lower_add_wq s.world packet)
    (Call.add_wq packet (n.lower_add_wq s.world packet).result)

/-- The call `lower_level->add_pq(&packet)`. -/
def call_add_pq (n : Neighbours W) (s : Sys W) (packet : PACKET) : Called W :=
  called s (n.lower_add_pq s.world packet)
    (Call.add_pq packet (n.lower_add_pq s.world packet).result)

/-- The call `lower_level->add_ivq(&packet)`. -/
def call_add_ivq (n : Neighbours W) (s : Sys W) (packet : PACKET) : Called W :=
  acked s (n.lower_add_ivq s.world packet)
    (Call.add_ivq packet (n.lower_add_ivq s.world packet).result)

/-- The call `upper_level[i]->add_ivq(&packet)`. -/
def call_upper_add_ivq (n : Neighbours W) (i : Nat) (s : Sys W) (packet : PACKET) :
    Called W :=
  acked s (n.upper_add_ivq i s.world packet)
    (Call.upper_add_ivq i packet (n.upper_add_ivq i s.world packet).result)

/-- The loop `for (auto ret : packet.to_return) ret->return_data(&packet)`: the
producers are objects outside this cache. -/
def return_to_producers (n : Neighbours W) (s : Sys W) (packet : PACKET) : Sys W :=
  packet.to_return.foldl
    (fun t ret => { t with world := n.producer_return_data ret t.world packet,
                           trace := t.trace ++ [Call.return_data ret packet] }) s

/-! ## Hits, misses and fills (`cache.cc`, lines 249 to 528 and 580 to 589) -/

/-- The test `CACHE::should_activate_prefetcher`:
`(1 << type) & pref_activate_mask`. -/
def should_activate_prefetcher (c : CACHE) (type : Nat) : Bool :=
  ((1 <<< type) &&& c.pref_activate_mask) != 0

/-- The address `a & ~bitmask(match_offset_bits ? 0 : OFFSET_BITS)`: the low
bits below the match granularity are cleared. -/
def base_addr (c : CACHE) (a : Nat) : Nat := (a >>> match_shamt c) <<< match_shamt c

/-- The block `block[i]` (a fresh block past the end of the array). -/
def block_at (c : CACHE) (i : Nat) : BLOCK := c.block.getD i {}

/-- The function `CACHE::invalidate_entry`: the block that `get_way` finds for
the address, if any, gets `valid = false`; the way is returned. -/
def invalidate_entry (c : CACHE) (inval_addr : Nat) : Nat × CACHE :=
  let set := get_set c inval_addr
  let way := get_way c inval_addr set
  if way < c.NUM_WAY then
    let block1 := List.modify (fun b => { b with valid := false }) (set * c.NUM_WAY + way) c.block
    (way, { c with block := block1 })
  else (way, c)

/-- The prefetcher training shared by `readlike_hit` and `readlike_miss`: when
the access type activates the prefetcher and the packet comes from above this
level, the cache takes the cpu of the packet and the packet takes the metadata
the prefetcher returns. -/
def train_prefetcher (n : Neighbours W) (s : Sys W) (handle_pkt : PACKET) (hit : Nat) :
    PACKET × Sys W :=
  if should_activate_prefetcher s.cache handle_pkt.type
      && decide (handle_pkt.pf_origin_level < s.cache.fill_level) then
    let c1 := { s.cache with cpu := handle_pkt.cpu }
    let pf_base_addr :=
      base_addr c1 (if c1.virtual_prefetch then handle_pkt.v_address else handle_pkt.address)
    let r := n.prefetcher_cache_operate s.world pf_base_addr handle_pkt.ip hit
      handle_pkt.type handle_pkt.pf_metadata
    ({ handle_pkt with pf_metadata := r.1 }, { s with cache := c1, world := r.2 })
  else (handle_pkt, s)

/-- The packet of a hit after lines 262 to 265 of `readlike_hit`: it takes the
data of the block, and `data_valid` is set when the block is dirty (and left as
it is otherwise). -/
def hit_packet (hit_block : BLOCK) (handle_pkt : PACKET) : PACKET :=
  { handle_pkt with
    data := hit_block.data,
    data_valid := if hit_block.dirty then true else handle_pkt.data_valid }

/-- The read hit of an `EXCLUSIVE` cache (lines 274 to 277): the block of the
address is invalidated. -/
def exclusive_invalidate (c : CACHE) (address : Nat) : CACHE :=
  if c.cache_type == EXCLUSIVE then (invalidate_entry c address).2 else c

/-- The tallies of a hit (lines 283 and 284). -/
def tally_hit (c : CACHE) (pkt : PACKET) : CACHE :=
  { c with sim_hit := (pkt.cpu, pkt.type) :: c.sim_hit,
           sim_access := (pkt.cpu, pkt.type) :: c.sim_access }

/-- The end of `readlike_hit` (lines 290 to 293): a hit on a prefetched block
counts a useful prefetch and clears the prefetch bit. -/
def clear_prefetch (c : CACHE) (set way : Nat) : CACHE :=
  if (block_at c (set * c.NUM_WAY + way)).prefetch then
    let block1 := List.modify (fun b => { b with prefetch := false })
      (set * c.NUM_WAY + way) c.block
    { c with pf_useful := c.pf_useful + 1, block := block1 }
  else c

/-- The function `CACHE::readlike_hit`: the packet takes the data of the
block, the prefetcher is trained, an `EXCLUSIVE` cache invalidates the block,
the replacement state is updated, the hit is tallied, the packet is returned to
its producers, and the prefetch bit of the block is cleared.  The result is the
packet as the function leaves it and the system. -/
def readlike_hit (n : Neighbours W) (s : Sys W) (set way : Nat) (handle_pkt : PACKET) :
    PACKET × Sys W :=
  let t := train_prefetcher n s
    (hit_packet (block_at s.cache (set * s.cache.NUM_WAY + way)) handle_pkt) 1
  let c3 := exclusive_invalidate t.2.cache t.1.address
  let w4 := n.update_state t.2.world t.1.cpu set way
    (block_at c3 (set * c3.NUM_WAY + way)).address t.1.ip 0 t.1.type 1
  let s6 := return_to_producers n { t.2 with cache := tally_hit c3 t.1, world := w4 } t.1
  (t.1, { s6 with cache := clear_prefetch s6.cache set way })

/-- What `readlike_miss` and `filllike_miss` leave behind: the boolean returned
(`false` is a stall), the packet handed in by reference as the callee leaves it,
and the system afterwards. -/
structure Outcome (W : Type) where
  success : Bool
  packet : PACKET
  sys : Sys W

/-- The merge of a packet into the MSHR entry of its block (`readlike_miss`,
lines 316 to 321): the tighter fill level and the merged lists. -/
def mshr_merge (e handle_pkt : PACKET) : PACKET :=
  { e with
    fill_level := min e.fill_level handle_pkt.fill_level,
    lq_index_depend_on_me :=
      packet_dep_merge e.lq_index_depend_on_me handle_pkt.lq_index_depend_on_me,
    sq_index_depend_on_me :=
      packet_dep_merge e.sq_index_depend_on_me handle_pkt.sq_index_depend_on_me,
    instr_depend_on_me :=
      packet_dep_merge e.instr_depend_on_me handle_pkt.instr_depend_on_me,
    to_return := packet_dep_merge e.to_return handle_pkt.to_return }

/-- The branch of `readlike_miss` for a miss already in flight (lines 314 to
333): the packet is merged into the MSHR entry at `mshr_entry`, and a prefetch
entry met by another access type is replaced by the packet, keeping
`event_cycle` (and counting a useful prefetch when it came from this level). -/
def merge_inflight (c : CACHE) (mshr_entry : Nat) (handle_pkt : PACKET) : CACHE :=
  let merged := mshr_merge (c.MSHR.getD mshr_entry {}) handle_pkt
  if merged.type == PREFETCH && handle_pkt.type != PREFETCH then
    { c with
      pf_useful := if merged.pf_origin_level == c.fill_level then c.pf_useful + 1
                   else c.pf_useful,
      MSHR := c.MSHR.set mshr_entry { handle_pkt with event_cycle := merged.event_cycle } }
  else { c with MSHR := c.MSHR.set mshr_entry merged }

/-- The probe of the lower level in `readlike_miss` and `handle_fill`: unless
this cache is `NOT_CACHE`, the packet goes to `add_rq` of the lower level with
`test_packet` set; otherwise the result is 0. -/
def probe_lower (n : Neighbours W) (s : Sys W) (packet : PACKET) : Called W :=
  if s.cache.cache_type != NOT_CACHE then
    call_add_rq n s { packet with test_packet := true }
  else { result := 0, packet := { packet with test_packet := true }, sys := s }

/-- The refusal test after the probe: the lower queue the packet is bound for
(1 is the RQ, 3 the PQ) is full, or the probe returned `-2`. -/
def probe_refused (n : Neighbours W) (probe : Called W) (is_read : Bool) : Bool :=
  n.lower_get_occupancy probe.sys.world (if is_read then 1 else 3) probe.packet.address
      == n.lower_get_size probe.sys.world (if is_read then 1 else 3) probe.packet.address
    || probe.result == -2

/-- The rule `prefetch_as_load || type != PREFETCH` that sends a miss to the
read queue of the lower level rather than to its prefetch queue. -/
def is_read (c : CACHE) (packet : PACKET) : Bool :=
  c.prefetch_as_load || packet.type != PREFETCH

/-- The packet as it is forwarded to the lower level: `to_return` is this cache
when the packet fills this level, and nothing otherwise. -/
def forwarded (c : CACHE) (packet : PACKET) : PACKET :=
  { packet with to_return := if packet.fill_level ≤ c.fill_level then [c.this_id] else [] }

/-- The forward `lower_level->add_rq` or `lower_level->add_pq`. -/
def forward (n : Neighbours W) (s : Sys W) (read : Bool) (packet : PACKET) : Called W :=
  if read then call_add_rq n s packet else call_add_pq n s packet

/-- The allocation in `readlike_miss` (lines 351 to 369) once the probe is
accepted: `test_packet` is cleared, a packet that fills this level is appended
to the MSHR with `cycle_enqueued` now and `event_cycle` at the maximum, and the
packet is forwarded. -/
def allocate (n : Neighbours W) (probe : Called W) (read : Bool) : Called W :=
  let pkt2 : PACKET := { probe.packet with test_packet := false }
  let c2 := probe.sys.cache
  let c3 : CACHE :=
    if pkt2.fill_level ≤ c2.fill_level then
      { c2 with MSHR := c2.MSHR ++
          [{ pkt2 with cycle_enqueued := c2.current_cycle, event_cycle := UINT64_MAX }] }
    else c2
  forward n { probe.sys with cache := c3 } read (forwarded c2 pkt2)

/-- The branch of `readlike_miss` for a miss already in flight, with the
training of the prefetcher that ends the function: it returns true. -/
def merge_miss (n : Neighbours W) (s : Sys W) (mshr_entry : Nat) (handle_pkt : PACKET) :
    Outcome W :=
  let t := train_prefetcher n { s with cache := merge_inflight s.cache mshr_entry handle_pkt }
    handle_pkt 0
  { success := true, packet := t.1, sys := t.2 }

/-- The branch of `readlike_miss` for a new miss with room in the MSHR (lines
339 to 377): the lower level is probed and a refusal stalls, leaving
`test_packet` set; then the packet is allocated and forwarded, the result of
the forward is not looked at, and the prefetcher is trained. -/
def issue_miss (n : Neighbours W) (s : Sys W) (handle_pkt : PACKET) : Outcome W :=
  let probe := probe_lower n s handle_pkt
  if probe_refused n probe (is_read s.cache handle_pkt) then
    { success := false, packet := probe.packet, sys := probe.sys }
  else
    let fwd := allocate n probe (is_read s.cache handle_pkt)
    let t := train_prefetcher n fwd.sys fwd.packet 0
    { success := true, packet := t.1, sys := t.2 }

/-- The function `CACHE::readlike_miss`.  A miss already in flight is merged
into its MSHR entry.  Otherwise a full MSHR stalls, and a new miss is issued
to the lower level. -/
def readlike_miss (n : Neighbours W) (s : Sys W) (handle_pkt : PACKET) : Outcome W :=
  let c := s.cache
  let mshr_entry := c.MSHR.findIdx (eq_addr_PACKET handle_pkt.address c.OFFSET_BITS)
  let mshr_full : Bool := c.MSHR.length == c.MSHR_SIZE
  if mshr_entry != c.MSHR.length then merge_miss n s mshr_entry handle_pkt
  else if mshr_full then { success := false, packet := handle_pkt, sys := s }
  else issue_miss n s handle_pkt

/-- The flag `send_inv_valid[i]`. -/
def send_inv_valid (c : CACHE) (i : Nat) : Bool :=
  if i = 0 then c.send_inv_valid0 else c.send_inv_valid1

/-- The assignment `send_inv_valid[i] = b`. -/
def set_send_inv_valid (c : CACHE) (i : Nat) (b : Bool) : CACHE :=
  if i = 0 then { c with send_inv_valid0 := b } else { c with send_inv_valid1 := b }

/-- One round of the loop over the upper levels in `filllike_miss` (lines 459
to 466): an upper level that is present and whose flag is set is sent the
invalidation; acceptance clears the flag, `-2` asks for a skip.  The result is
the skip request, the packet as the upper level leaves it, and the system. -/
def send_invalidation (n : Neighbours W) (i : Nat) (s : Sys W) (packet : PACKET) :
    Bool × PACKET × Sys W :=
  if n.upper_present i && send_inv_valid s.cache i then
    let r := call_upper_add_ivq n i s packet
    if r.result != -2 then
      (false, r.packet, { r.sys with cache := set_send_inv_valid r.sys.cache i false })
    else (true, r.packet, r.sys)
  else (false, packet, s)

/-- The packet `writeback_packet` of `filllike_miss` (lines 412 to 419), with
the type it is given before it is sent. -/
def writeback_packet (n : Neighbours W) (c : CACHE) (fill_block : BLOCK)
    (handle_pkt : PACKET) (type : Nat) : PACKET :=
  { fill_level := n.lower_fill_level, cpu := handle_pkt.cpu, address := fill_block.address,
    data := fill_block.data, instr_id := handle_pkt.instr_id, ip := 0,
    inv_ongoing := if c.cache_type == INCLUSIVE then 2 else 0, type := type }

/-- The packet `invalidation_packet` of `filllike_miss` (lines 442 to 448). -/
def invalidation_packet (n : Neighbours W) (fill_block : BLOCK) (handle_pkt : PACKET) :
    PACKET :=
  { fill_level := n.lower_fill_level, cpu := handle_pkt.cpu, address := fill_block.address,
    instr_id := handle_pkt.instr_id, ip := 0, type := INVALIDATE }

/-- The writeback of a valid victim in `filllike_miss` (lines 411 to 439),
guarded by `send_wb_valid`: a `NOT_CACHE` instance writes back a dirty victim
only, any other cache type offers the victim to the lower level as a
`WRITEBACK` when it is dirty and as a `WRITEBACK_EXCLUSIVE` otherwise.  The
answer `-2` stalls (`false`); otherwise `send_wb_valid` is cleared. -/
def send_writeback (n : Neighbours W) (s : Sys W) (fill_block : BLOCK) (evicting_dirty : Bool)
    (handle_pkt : PACKET) : Bool × Sys W :=
  if s.cache.send_wb_valid then
    if s.cache.cache_type == NOT_CACHE then
      if evicting_dirty then
        let r := call_add_wq n s (writeback_packet n s.cache fill_block handle_pkt WRITEBACK)
        if r.result == -2 then (false, r.sys)
        else (true, { r.sys with cache := { r.sys.cache with send_wb_valid := false } })
      else (true, { s with cache := { s.cache with send_wb_valid := false } })
    else
      if n.lower_present then
        let r := call_add_wq n s (writeback_packet n s.cache fill_block handle_pkt
          (if evicting_dirty then WRITEBACK else WRITEBACK_EXCLUSIVE))
        if r.result == -2 then (false, r.sys)
        else (true, { r.sys with cache := { r.sys.cache with send_wb_valid := false } })
      else (true, { s with cache := { s.cache with send_wb_valid := false } })
  else (true, s)

/-- The loop over the two upper levels in `filllike_miss` (lines 457 to 467):
the second is sent the packet as the first left it; the result is the `skip`
flag and the system. -/
def broadcast (n : Neighbours W) (s : Sys W) (packet : PACKET) : Bool × Sys W :=
  let u0 := send_invalidation n 0 s packet
  let u1 := send_invalidation n 1 u0.2.2 u0.2.1
  (u0.1 || u1.1, u1.2.2)

/-- The invalidation of the upper levels in `filllike_miss` (lines 441 to 475),
for an `INCLUSIVE` cache: a skip stalls (`false`), otherwise both
`send_inv_valid` flags are set again. -/
def invalidate_uppers (n : Neighbours W) (s : Sys W) (fill_block : BLOCK)
    (handle_pkt : PACKET) : Bool × Sys W :=
  if s.cache.cache_type == INCLUSIVE then
    let b := broadcast n s (invalidation_packet n fill_block handle_pkt)
    if b.1 then (false, b.2)
    else (true, { b.2 with cache :=
      { b.2.cache with send_inv_valid0 := true, send_inv_valid1 := true } })
  else (true, s)

/-- The eviction part of `filllike_miss` for a valid victim (lines 411 to 476):
the writeback, then the invalidation of the upper levels, then `send_wb_valid`
is set again.  The result tells whether the fill may go on; `false` is a
stall. -/
def evict (n : Neighbours W) (s : Sys W) (fill_block : BLOCK) (evicting_dirty : Bool)
    (handle_pkt : PACKET) : Bool × Sys W :=
  let wb := send_writeback n s fill_block evicting_dirty handle_pkt
  if !wb.1 then (false, wb.2)
  else
    let inv := invalidate_uppers n wb.2 fill_block handle_pkt
    if !inv.1 then (false, inv.2)
    else (true, { inv.2 with cache := { inv.2.cache with send_wb_valid := true } })

/-- The block that `filllike_miss` installs over `fill_block` (lines 492 to
504). -/
def installed (c : CACHE) (fill_block : BLOCK) (handle_pkt : PACKET) : BLOCK :=
  { fill_block with
    valid := true,
    prefetch := handle_pkt.type == PREFETCH && handle_pkt.pf_origin_level == c.fill_level,
    dirty := handle_pkt.type == WRITEBACK
      || (handle_pkt.type == RFO && handle_pkt.to_return.isEmpty) || handle_pkt.data_valid,
    address := handle_pkt.address,
    v_address := handle_pkt.v_address,
    data := handle_pkt.data,
    ip := handle_pkt.ip,
    cpu := handle_pkt.cpu,
    instr_id := handle_pkt.instr_id }

/-- The last part of `filllike_miss` (lines 507 to 527): the miss latency
(modulo 2^64), the cpu of the packet, the prefetcher fill hook, whose metadata
the packet takes, the replacement update and the miss and access tallies. -/
def fill_accounting (n : Neighbours W) (s : Sys W) (set way : Nat) (handle_pkt : PACKET)
    (evicting_address : Nat) : Outcome W :=
  let c := s.cache
  let c1 : CACHE :=
    if c.warmup_complete.getD handle_pkt.cpu false && handle_pkt.cycle_enqueued != 0 then
      { c with total_miss_latency :=
          (c.total_miss_latency + c.current_cycle + (2 ^ 64 - handle_pkt.cycle_enqueued % 2 ^ 64))
            % 2 ^ 64 }
    else c
  let c2 : CACHE := { c1 with cpu := handle_pkt.cpu }
  let r := n.prefetcher_cache_fill s.world
    (base_addr c2 (if c2.virtual_prefetch then handle_pkt.v_address else handle_pkt.address))
    set way (handle_pkt.type == PREFETCH) evicting_address handle_pkt.pf_metadata
  let pkt1 : PACKET := { handle_pkt with pf_metadata := r.1 }
  let w2 := n.update_state r.2 pkt1.cpu set way pkt1.address pkt1.ip 0 pkt1.type 0
  let c3 : CACHE :=
    { c2 with sim_miss := (pkt1.cpu, pkt1.type) :: c2.sim_miss,
              sim_access := (pkt1.cpu, pkt1.type) :: c2.sim_access }
  { success := true, packet := pkt1, sys := { s with cache := c3, world := w2 } }

/-- The eviction of the victim `block[set * NUM_WAY + way]` in `filllike_miss`
(lines 405 to 477): nothing for an invalid victim; `evicting_dirty` is the
dirty bit of the victim when the lower level exists. -/
def victim_evict (n : Neighbours W) (s : Sys W) (set way : Nat) (handle_pkt : PACKET) :
    Bool × Sys W :=
  let fill_block := block_at s.cache (set * s.cache.NUM_WAY + way)
  if fill_block.valid then
    evict n s fill_block (n.lower_present && fill_block.dirty) handle_pkt
  else (true, s)

/-- The address `evicting_address` handed to the prefetcher (lines 479 to
482). -/
def evicting_address (c : CACHE) (set way : Nat) : Nat :=
  let fill_block := block_at c (set * c.NUM_WAY + way)
  if c.ever_seen_data then base_addr c fill_block.address else base_addr c fill_block.v_address

/-- The installation of the packet in `block[set * NUM_WAY + way]` (lines 484
to 504), with the prefetch counters. -/
def install (c : CACHE) (set way : Nat) (handle_pkt : PACKET) : CACHE :=
  let fill_block := block_at c (set * c.NUM_WAY + way)
  { c with
    pf_useless := if fill_block.prefetch && fill_block.valid then c.pf_useless + 1
                  else c.pf_useless,
    pf_fill := if handle_pkt.type == PREFETCH then c.pf_fill + 1 else c.pf_fill,
    block := List.modify (fun b => installed c b handle_pkt) (set * c.NUM_WAY + way) c.block }

/-- The function `CACHE::filllike_miss` (it asserts that a `WRITEBACK` is not
bypassed and that the packet is no `INVALIDATE`; without `LLC_BYPASS` it also
asserts `way != NUM_WAY`).  With `way = NUM_WAY` nothing is installed.
Otherwise a valid victim is evicted first, which may stall, and the packet is
installed in `block[set * NUM_WAY + way]`. -/
def filllike_miss (n : Neighbours W) (s : Sys W) (set way : Nat) (handle_pkt : PACKET) :
    Outcome W :=
  if way == s.cache.NUM_WAY then
    fill_accounting n s set way handle_pkt 0
  else
    let ev := victim_evict n s set way handle_pkt
    if ev.1 then
      fill_accounting n { ev.2 with cache := install ev.2.cache set way handle_pkt } set way
        handle_pkt (evicting_address ev.2.cache set way)
    else { success := false, packet := handle_pkt, sys := ev.2 }

/-! ## The pipelines (`cache.cc`, lines 18 to 247 and 928 to 1020) -/

/-- The loop `while (credit > 0) { ... }` of the pipelines, by the credit that
is left: `step k` is one round, run with `k + 1` credits; it tells whether the
loop goes on (having taken one credit, so that `k` are left) or the function
returns. -/
def credit_loop (step : Nat → Sys W → Bool × Sys W) : Nat → Sys W → Sys W
  | 0, s => s
  | k + 1, s => if (step k s).1 then credit_loop step k (step k s).2 else (step k s).2

/-- The function `CACHE::copy_packet` into a fresh packet: every field is
copied except `test_packet`, and `v_address` takes the physical address. -/
def copy_packet (old_packet : PACKET) : PACKET :=
  { old_packet with v_address := old_packet.address, test_packet := false }

/-- The way `handle_fill` and `handle_writeback` choose for a fill: the first
invalid way of the set, or the way the replacement policy names when every way
is valid. -/
def choose_way (n : Neighbours W) (s : Sys W) (set : Nat) (pkt : PACKET) : Nat × Sys W :=
  let c := s.cache
  let ways := (c.block.drop (set * c.NUM_WAY)).take c.NUM_WAY
  let way := ways.findIdx (fun b => !b.valid)
  if way == c.NUM_WAY then
    let r := n.find_victim s.world pkt.cpu pkt.instr_id set ways pkt.ip pkt.address pkt.type
    (r.1, { s with world := r.2 })
  else (way, s)

/-- The allocation of the re-issue in `handle_fill` (lines 51 to 65) once the
probe is accepted: `test_packet` is cleared, the packet is appended to the MSHR
with `event_cycle` at the maximum, and it is forwarded to the lower level. -/
def reallocate (n : Neighbours W) (probe : Called W) (read : Bool) : Called W :=
  let pkt2 : PACKET := { probe.packet with test_packet := false }
  let c2 := probe.sys.cache
  let c3 : CACHE := { c2 with MSHR := c2.MSHR ++ [{ pkt2 with event_cycle := UINT64_MAX }] }
  forward n { probe.sys with cache := c3 } read (forwarded c2 pkt2)

/-- The erasure `MSHR.erase(fill_mshr)` of the first position of the MSHR. -/
def erase_first (s : Sys W) : Sys W :=
  { s with cache := { s.cache with MSHR := s.cache.MSHR.tail } }

/-- The branch of `handle_fill` for an entry that was invalidated in flight
(lines 33 to 68): a copy of the entry is probed at the lower level; when the
probe is accepted the copy is appended to the MSHR with `event_cycle` at the
maximum, forwarded to the lower level, and the first MSHR position is
erased. -/
def reissue (n : Neighbours W) (s : Sys W) (fill_mshr : PACKET) : Sys W :=
  let read := is_read s.cache fill_mshr
  let probe := probe_lower n s (copy_packet fill_mshr)
  if probe_refused n probe read then probe.sys
  else erase_first (reallocate n probe read).sys

/-- The end of a round of `handle_fill` (lines 109 and 110): the first MSHR
position is erased and one write credit is taken, leaving `k`. -/
def retire (k : Nat) (s : Sys W) : Sys W :=
  { s with cache :=
    { s.cache with MSHR := s.cache.MSHR.tail, writes_available_this_cycle := k } }

/-- The normal fill of `handle_fill` (lines 70 to 102) on a cache that is not
`EXCLUSIVE`: the way is chosen, `filllike_miss` runs, and on success the entry,
with the data of the installed block, is returned to its producers (not when
the fill was bypassed, `way = NUM_WAY`). -/
def fill_entry (n : Neighbours W) (s : Sys W) (fill_mshr : PACKET) : Bool × Sys W :=
  let set := get_set s.cache fill_mshr.address
  let v := choose_way n s set fill_mshr
  let o := filllike_miss n v.2 set v.1 fill_mshr
  if o.success then
    if v.1 != o.sys.cache.NUM_WAY then
      (true, return_to_producers n o.sys
        { o.packet with data := (block_at o.sys.cache (set * o.sys.cache.NUM_WAY + v.1)).data })
    else (true, o.sys)
  else (false, o.sys)

/-- One round of the loop of `CACHE::handle_fill`, entered with `k + 1` write
credits. -/
def handle_fill_step (n : Neighbours W) (k : Nat) (s : Sys W) : Bool × Sys W :=
  match s.cache.MSHR with
  | [] => (false, s)
  | fill_mshr :: _ =>
    if fill_mshr.event_cycle > s.cache.current_cycle then (false, s)
    else if s.cache.cache_type != NOT_CACHE
        && decide (fill_mshr.mshr_return_data_invalid_count < fill_mshr.mshr_invalid_count) then
      (false, reissue n s fill_mshr)
    else if s.cache.cache_type != EXCLUSIVE then
      let f := fill_entry n s fill_mshr
      if f.1 then (true, retire k f.2) else (false, f.2)
    else (true, retire k (return_to_producers n s fill_mshr))

/-- The function `CACHE::handle_fill`: while write credit is left, the first
MSHR entry, once due, is issued again when it was invalidated in flight (and the
function returns), or filled into the cache and returned to its producers, or,
on an `EXCLUSIVE` cache, returned to its producers only. -/
def handle_fill (n : Neighbours W) (s : Sys W) : Sys W :=
  credit_loop (handle_fill_step n) s.cache.writes_available_this_cycle s

/-- The end of a round of `handle_writeback` (lines 180 and 181): one write
credit is taken, leaving `k`, and the head of the WQ is popped. -/
def pop_WQ (k : Nat) (s : Sys W) : Sys W :=
  { s with cache :=
    { s.cache with writes_available_this_cycle := k, WQ := s.cache.WQ.pop_front } }

/-- The miss branch of `handle_writeback` (lines 158 to 174): a store of the
cpu (an `RFO` without producers) is handled as a read miss, any other packet
is filled into the way chosen as in `handle_fill`. -/
def writeback_miss (n : Neighbours W) (s : Sys W) (set : Nat) (handle_pkt : PACKET) :
    Outcome W :=
  if handle_pkt.type == RFO && handle_pkt.to_return.isEmpty then
    readlike_miss n s handle_pkt
  else
    let v := choose_way n s set handle_pkt
    filllike_miss n v.2 set v.1 handle_pkt

/-- One round of the loop of `CACHE::handle_writeback`, entered with `k + 1`
write credits.  The head is a reference into the WQ: on a stall it stays in
the queue as the callee left it. -/
def handle_writeback_step (n : Neighbours W) (k : Nat) (s : Sys W) : Bool × Sys W :=
  let c := s.cache
  if !c.WQ.has_ready then (false, s)
  else
    let handle_pkt := c.WQ.front
    if handle_pkt.type == NON_VALID then
      (false, pop_WQ k { s with cache :=
        { c with sim_access := (handle_pkt.cpu, handle_pkt.type) :: c.sim_access,
                 sim_hit := (handle_pkt.cpu, handle_pkt.type) :: c.sim_hit } })
    else
      let set := get_set c handle_pkt.address
      let way := get_way c handle_pkt.address set
      let fill_block := block_at c (set * c.NUM_WAY + way)
      if decide (way < c.NUM_WAY) && fill_block.valid then
        let w1 := n.update_state s.world handle_pkt.cpu set way fill_block.address
          handle_pkt.ip 0 handle_pkt.type 1
        let block1 := List.modify (fun b => { b with dirty := true })
          (set * c.NUM_WAY + way) c.block
        (true, pop_WQ k { s with world := w1, cache :=
          { c with sim_hit := (handle_pkt.cpu, handle_pkt.type) :: c.sim_hit,
                   sim_access := (handle_pkt.cpu, handle_pkt.type) :: c.sim_access,
                   block := block1 } })
      else
        let o := writeback_miss n s set handle_pkt
        if o.success then (true, pop_WQ k o.sys)
        else
          (false, { o.sys with cache :=
            { o.sys.cache with WQ := o.sys.cache.WQ.modify_at 0 (fun _ => o.packet) } })

/-- The function `CACHE::handle_writeback`: while write credit is left, the
ready head of the WQ is popped when it was cancelled (and the function
returns), marks its block dirty on a hit, and on a miss is handled as a read
miss or filled into the cache. -/
def handle_writeback (n : Neighbours W) (s : Sys W) : Sys W :=
  credit_loop (handle_writeback_step n) s.cache.writes_available_this_cycle s

/-- The first step of a round of `handle_invalid` (lines 948 to 951): the MSHR
entry of the block of the packet, if there is one, counts one more
invalidation. -/
def count_invalidation (c : CACHE) (handle_pkt : PACKET) : CACHE :=
  let mshr_entry := c.MSHR.findIdx (eq_addr_PACKET handle_pkt.address c.OFFSET_BITS)
  let MSHR1 := List.modify
    (fun e => { e with mshr_invalid_count := e.mshr_invalid_count + 1 }) mshr_entry c.MSHR
  { c with MSHR := MSHR1 }

/-- The end of a round of `handle_invalid` (lines 1013 to 1017): the head of
the IVQ is popped, one invalidate credit is taken, leaving `k`, and the access
is tallied. -/
def pop_IVQ (k : Nat) (t : Sys W) (pkt : PACKET) : Sys W :=
  { t with cache :=
    { t.cache with IVQ := t.cache.IVQ.pop_front,
                   invalid_available_this_cycle := k,
                   sim_access := (pkt.cpu, pkt.type) :: t.cache.sim_access } }

/-- The write of the packet `pkt` into the head of the IVQ (the head is a
reference into the queue). -/
def store_IVQ_front (t : Sys W) (pkt : PACKET) : Sys W :=
  { t with cache := { t.cache with IVQ := t.cache.IVQ.modify_at 0 (fun _ => pkt) } }

/-- The test `way < NUM_WAY && block[set * NUM_WAY + way].valid` of
`handle_invalid` for the block of the packet. -/
def local_hit (c : CACHE) (handle_pkt : PACKET) : Bool :=
  let set := get_set c handle_pkt.address
  let way := get_way c handle_pkt.address set
  decide (way < c.NUM_WAY) && (block_at c (set * c.NUM_WAY + way)).valid

/-- The packet of a pass-through invalidation as it goes down (lines 957 to
967): on a local hit, a packet without data takes the data of a dirty
block. -/
def with_local_data (c : CACHE) (handle_pkt : PACKET) : PACKET :=
  let set := get_set c handle_pkt.address
  let way := get_way c handle_pkt.address set
  let fill_block := block_at c (set * c.NUM_WAY + way)
  if local_hit c handle_pkt && !handle_pkt.data_valid && fill_block.dirty then
    { handle_pkt with data := fill_block.data, data_valid := true }
  else handle_pkt

/-- The tally of a pass-through invalidation (lines 976 to 980): a hit or a
miss. -/
def tally_passed (c : CACHE) (hit : Bool) (pkt : PACKET) : CACHE :=
  if hit then { c with sim_hit := (pkt.cpu, pkt.type) :: c.sim_hit }
  else { c with sim_miss := (pkt.cpu, pkt.type) :: c.sim_miss }

/-- The branch of `handle_invalid` for a packet bound for a level below this
one (lines 957 to 981): the packet takes the data of a valid dirty local block
when it carries none, goes to `add_ivq` of the lower level, where `-2` stalls,
and then the hit or miss is tallied and the local block is invalidated.  The
lower level does not touch the blocks of this cache, so the hit test after the
call is the one before it. -/
def pass_down (n : Neighbours W) (k : Nat) (s : Sys W) (handle_pkt : PACKET) : Bool × Sys W :=
  let r := call_add_ivq n s (with_local_data s.cache handle_pkt)
  let s2 := store_IVQ_front r.sys r.packet
  if r.result == -2 then (false, s2)
  else
    let c3 := tally_passed s2.cache (local_hit s.cache handle_pkt) r.packet
    (true, pop_IVQ k { s2 with cache := (invalidate_entry c3 r.packet.address).2 } r.packet)

/-- The write of an invalidation that ends at this level into the block that
`get_way` found (lines 986 to 989): a packet that carries data leaves it in the
block and makes the block dirty. -/
def write_back_data (c : CACHE) (handle_pkt : PACKET) : List BLOCK :=
  let set := get_set c handle_pkt.address
  let way := get_way c handle_pkt.address set
  if handle_pkt.data_valid then
    List.modify (fun b => { b with data := handle_pkt.data, dirty := true })
      (set * c.NUM_WAY + way) c.block
  else c.block

/-- The branch of `handle_invalid` for a packet that ends at this level (lines
984 to 1007): a block found by `get_way` takes the data of a packet that
carries data and becomes dirty; when no block is found, a packet that carries
data goes down to `add_ivq` of the lower level, where `-2` stalls. -/
def end_here (n : Neighbours W) (k : Nat) (s : Sys W) (handle_pkt : PACKET) : Bool × Sys W :=
  let c := s.cache
  let set := get_set c handle_pkt.address
  let way := get_way c handle_pkt.address set
  if way < c.NUM_WAY then
    let c2 : CACHE :=
      { c with block := write_back_data c handle_pkt,
               sim_hit := (handle_pkt.cpu, handle_pkt.type) :: c.sim_hit }
    (true, pop_IVQ k { s with cache := c2 } handle_pkt)
  else if handle_pkt.data_valid then
    let r := call_add_ivq n s { handle_pkt with fill_level := n.lower_fill_level }
    let s2 := store_IVQ_front r.sys r.packet
    if r.result == -2 then (false, s2) else (true, pop_IVQ k s2 r.packet)
  else (true, pop_IVQ k s handle_pkt)

/-- One round of the loop of `CACHE::handle_invalid`, entered with `k + 1`
invalidate credits (the function asserts that the head is an `INVALIDATE`; a
`fill_level` below the one of this cache is the `assert(0)` branch, which does
nothing when asserts are compiled out). -/
def handle_invalid_step (n : Neighbours W) (k : Nat) (s : Sys W) : Bool × Sys W :=
  if !s.cache.IVQ.has_ready then (false, s)
  else
    let handle_pkt := s.cache.IVQ.front
    let s1 : Sys W := { s with cache := count_invalidation s.cache handle_pkt }
    if handle_pkt.fill_level > s1.cache.fill_level then pass_down n k s1 handle_pkt
    else if handle_pkt.fill_level == s1.cache.fill_level then end_here n k s1 handle_pkt
    else (true, pop_IVQ k s1 handle_pkt)

/-- The function `CACHE::handle_invalid`: while invalidate credit is left, the
ready head of the IVQ raises `mshr_invalid_count` of the MSHR entry of its
block, then passes through to the lower level or ends at this level; `-2`
from the lower level stalls. -/
def handle_invalid (n : Neighbours W) (s : Sys W) : Sys W :=
  credit_loop (handle_invalid_step n) s.cache.invalid_available_this_cycle s

/-- The queue `handle_read` (`is_rq` set) or `handle_prefetch` works on. -/
def read_queue (is_rq : Bool) (c : CACHE) : delay_queue := if is_rq then c.RQ else c.PQ

/-- The assignment to the queue `handle_read` or `handle_prefetch` works
on. -/
def set_read_queue (is_rq : Bool) (c : CACHE) (q : delay_queue) : CACHE :=
  if is_rq then { c with RQ := q } else { c with PQ := q }

/-- The end of a round of `handle_read` and `handle_prefetch`: the head of the
queue is popped and one read credit is taken, leaving `k`. -/
def pop_read (is_rq : Bool) (k : Nat) (t : Sys W) : Sys W :=
  let c1 := set_read_queue is_rq t.cache (read_queue is_rq t.cache).pop_front
  { t with cache := { c1 with reads_available_this_cycle := k } }

/-- One round of the loop shared by `CACHE::handle_read` (on the RQ, `is_rq`
set) and `CACHE::handle_prefetch` (on the PQ), entered with `k + 1` read
credits.  `handle_read` also updates `ever_seen_data` from the head.  The head
is a reference into the queue: on a stall it stays as `readlike_miss` left
it. -/
def handle_readlike_step (n : Neighbours W) (is_rq : Bool) (k : Nat) (s : Sys W) :
    Bool × Sys W :=
  if !(read_queue is_rq s.cache).has_ready then (false, s)
  else
    let handle_pkt := (read_queue is_rq s.cache).front
    let c : CACHE :=
      if is_rq then
        { s.cache with ever_seen_data :=
            s.cache.ever_seen_data || handle_pkt.v_address != handle_pkt.ip }
      else s.cache
    let set := get_set c handle_pkt.address
    let way := get_way c handle_pkt.address set
    let fill_block := block_at c (set * c.NUM_WAY + way)
    if decide (way < c.NUM_WAY) && fill_block.valid then
      (true, pop_read is_rq k (readlike_hit n { s with cache := c } set way handle_pkt).2)
    else
      let o := readlike_miss n { s with cache := c } handle_pkt
      if o.success then (true, pop_read is_rq k o.sys)
      else
        let q1 := (read_queue is_rq o.sys.cache).modify_at 0 (fun _ => o.packet)
        (false, { o.sys with cache := set_read_queue is_rq o.sys.cache q1 })

/-- The function `CACHE::handle_read`. -/
def handle_read (n : Neighbours W) (s : Sys W) : Sys W :=
  credit_loop (handle_readlike_step n true) s.cache.reads_available_this_cycle s

/-- The function `CACHE::handle_prefetch`. -/
def handle_prefetch (n : Neighbours W) (s : Sys W) : Sys W :=
  credit_loop (handle_readlike_step n false) s.cache.reads_available_this_cycle s

/-! ## Prefetch requests (`cache.cc`, lines 714 to 776) -/

/-- The packet `pf_packet` that `prefetch_line` builds (lines 718 to 725). -/
def pf_packet (n : Neighbours W) (c : CACHE) (pf_addr : Nat) (fill_this_level : Bool)
    (prefetch_metadata : Nat) : PACKET :=
  { type := PREFETCH,
    fill_level := if fill_this_level then c.fill_level else n.lower_fill_level,
    pf_origin_level := c.fill_level,
    pf_metadata := prefetch_metadata,
    cpu := c.cpu,
    address := pf_addr,
    v_address := if c.virtual_prefetch then pf_addr else 0 }

/-- The function `CACHE::prefetch_line(pf_addr, fill_this_level,
prefetch_metadata)`: the integer returned and the cache afterwards.  With
virtual prefetch the packet goes to the VAPQ unless it is full; otherwise it
goes to `add_pq`, `pf_issued` is counted when the result is positive, and 1 is
returned unless the result is `-2`.  The prefetch packet has no producer, so
`add_pq` calls nobody. -/
def prefetch_line (n : Neighbours W) (c : CACHE) (pf_addr : Nat) (fill_this_level : Bool)
    (prefetch_metadata : Nat) : Int × CACHE :=
  let c1 : CACHE := { c with pf_requested := c.pf_requested + 1 }
  let pkt := pf_packet n c1 pf_addr fill_this_level prefetch_metadata
  if c1.virtual_prefetch then
    if !c1.VAPQ.full then (1, { c1 with VAPQ := c1.VAPQ.push_back pkt })
    else (0, c1)
  else
    let r := add_pq c1 pkt
    if r.result != -2 then
      (1, if r.result > 0 then { r.cache with pf_issued := r.cache.pf_issued + 1 } else r.cache)
    else (0, r.cache)

/-- The function `CACHE::va_translate_prefetches`: the ready head of the VAPQ
is translated and offered to `add_pq`; it leaves the VAPQ unless the answer is
`-2`, and a push counts as issued. -/
def va_translate_prefetches (n : Neighbours W) (s : Sys W) : Sys W :=
  let c := s.cache
  if c.VAPQ.has_ready then
    let t := n.va_to_pa s.world c.cpu c.VAPQ.front.v_address
    let head : PACKET := { c.VAPQ.front with address := t.1 }
    let r := add_pq { c with VAPQ := c.VAPQ.modify_at 0 (fun _ => head) } head
    let c1 : CACHE := { r.cache with VAPQ := r.cache.VAPQ.modify_at 0 (fun _ => r.packet) }
    let c2 : CACHE := if r.result != -2 then { c1 with VAPQ := c1.VAPQ.pop_front } else c1
    let c3 : CACHE := if r.result > 0 then { c2 with pf_issued := c2.pf_issued + 1 } else c2
    let s1 : Sys W := { s with cache := c3, world := t.2 }
    r.returned.foldl
      (fun u x => { u with world := n.producer_return_data x.1 u.world x.2,
                           trace := u.trace ++ [Call.return_data x.1 x.2] }) s1
  else s

/-! ## The cycle (`cache.cc`, lines 530 to 569) -/

/-- The start of `operate_invalid`: the invalidate credit is `MAX_WRITE`. -/
def start_invalid (s : Sys W) : Sys W :=
  { s with cache := { s.cache with invalid_available_this_cycle := s.cache.MAX_WRITE } }

/-- The function `CACHE::operate_invalid`. -/
def operate_invalid (n : Neighbours W) (s : Sys W) : Sys W :=
  let s1 := handle_invalid n (start_invalid s)
  { s1 with cache := { s1.cache with IVQ := s1.cache.IVQ.operate } }

/-- The start of `operate_writes`: the write credit is what is left of the
invalidate credit. -/
def start_writes (s : Sys W) : Sys W :=
  { s with cache :=
    { s.cache with writes_available_this_cycle := s.cache.invalid_available_this_cycle } }

/-- The function `CACHE::operate_writes`. -/
def operate_writes (n : Neighbours W) (s : Sys W) : Sys W :=
  let s2 := handle_writeback n (handle_fill n (start_writes s))
  { s2 with cache := { s2.cache with WQ := s2.cache.WQ.operate } }

/-- The start of `operate_reads`: the read credit is `MAX_READ`. -/
def start_reads (s : Sys W) : Sys W :=
  { s with cache := { s.cache with reads_available_this_cycle := s.cache.MAX_READ } }

/-- The function `CACHE::operate_reads`. -/
def operate_reads (n : Neighbours W) (s : Sys W) : Sys W :=
  let s3 := handle_prefetch n (va_translate_prefetches n (handle_read n (start_reads s)))
  { s3 with cache :=
    { s3.cache with RQ := s3.cache.RQ.operate, PQ := s3.cache.PQ.operate,
                    VAPQ := s3.cache.VAPQ.operate } }

/-- The function `CACHE::operate`. -/
def operate (n : Neighbours W) (s : Sys W) : Sys W :=
  let s3 := operate_reads n (operate_writes n (operate_invalid n s))
  { s3 with world := n.prefetcher_cycle_operate s3.world }

/-! ## Occupancy queries (`cache.cc`, lines 881 to 910) -/

/-- The function `CACHE::get_occupancy`: queue type 0 is the MSHR, 1 the RQ, 2
the WQ, 3 the PQ and 4 the IVQ; any other type gives 0.  Modelled from the
spec: `is_valid<PACKET>` (`util.h`), which queue type 0 counts with, is not
among the sources, and the specification gives a packet no validity bit, so
every MSHR entry is counted. -/
def get_occupancy (c : CACHE) (queue_type address : Nat) : Nat :=
  if queue_type = 0 then c.MSHR.length
  else if queue_type = 1 then c.RQ.occupancy
  else if queue_type = 2 then c.WQ.occupancy
  else if queue_type = 3 then c.PQ.occupancy
  else if queue_type = 4 then c.IVQ.occupancy
  else 0

/-- The function `CACHE::get_size`: the capacity for the same queue types. -/
def get_size (c : CACHE) (queue_type address : Nat) : Nat :=
  if queue_type = 0 then c.MSHR_SIZE
  else if queue_type = 1 then c.RQ.size
  else if queue_type = 2 then c.WQ.size
  else if queue_type = 3 then c.PQ.size
  else if queue_type = 4 then c.IVQ.size
  else 0

/-- The packets that an admission call of a cache below hands to `return_data`
of the producer `this_id`. -/
def handed_to (this_id : Nat) (returned : List (Nat × PACKET)) : List PACKET :=
  (returned.filter (fun x => x.1 == this_id)).map Prod.snd

/-! ## Vocabulary of the statements about the pipelines -/

/-- The cache `d` differs from `c` in the MSHR only. -/
def only_MSHR (c d : CACHE) : Prop := d = { c with MSHR := d.MSHR }

/-- The cache `d` differs from `c` in the retry flags of `filllike_miss`
only. -/
def only_flags (c d : CACHE) : Prop :=
  d = { c with send_wb_valid := d.send_wb_valid, send_inv_valid0 := d.send_inv_valid0,
               send_inv_valid1 := d.send_inv_valid1 }

/-- The cache `d` differs from `c` in the statistics and the cpu only. -/
def only_stats (c d : CACHE) : Prop :=
  d = { c with total_miss_latency := d.total_miss_latency, cpu := d.cpu,
               sim_miss := d.sim_miss, sim_access := d.sim_access }

/-- The cache `d` differs from `c` in the MSHR, the useful prefetch counter and
the cpu only: what `readlike_miss` may change. -/
def only_miss (c d : CACHE) : Prop :=
  d = { c with MSHR := d.MSHR, pf_useful := d.pf_useful, cpu := d.cpu }

/-- The cache `d` differs from `c` in what `filllike_miss` may change only: the
block array, the retry flags, the prefetch and latency counters, the cpu and
the miss and access tallies. -/
def only_fill (c d : CACHE) : Prop :=
  d = { c with block := d.block, send_wb_valid := d.send_wb_valid,
               send_inv_valid0 := d.send_inv_valid0, send_inv_valid1 := d.send_inv_valid1,
               pf_useless := d.pf_useless, pf_fill := d.pf_fill,
               total_miss_latency := d.total_miss_latency, cpu := d.cpu,
               sim_miss := d.sim_miss, sim_access := d.sim_access }

/-- The sizes that bound the cache and the five queues: everything the
capacity bounds speak of except the MSHR itself. -/
def queues (c : CACHE) : Nat × delay_queue × delay_queue × delay_queue × delay_queue × delay_queue :=
  (c.MSHR_SIZE, c.RQ, c.WQ, c.PQ, c.IVQ, c.VAPQ)

/-- The invariant of the loop of `handle_fill` for the capacity bounds: the
sizes and the queues are those of `c`, and the MSHR is not longer. -/
def fill_frame (c d : CACHE) : Prop := queues d = queues c ∧ d.MSHR.length ≤ c.MSHR.length

/-- The occupancy of the queue is at most its capacity. -/
def fits (q : delay_queue) : Prop := q.occupancy ≤ q.size

instance (q : delay_queue) : Decidable (fits q) := by
  unfold fits
  infer_instance

/-- The capacity bounds of section 3: the MSHR holds at most `MSHR_SIZE`
entries and each of the five queues at most its capacity. -/
def capacity_ok (c : CACHE) : Prop :=
  c.MSHR.length ≤ c.MSHR_SIZE ∧ fits c.RQ ∧ fits c.WQ ∧ fits c.PQ ∧ fits c.IVQ ∧ fits c.VAPQ

instance (c : CACHE) : Decidable (capacity_ok c) := by
  unfold capacity_ok
  infer_instance

/-- The data of the MSHR entry has returned: its `event_cycle` is not the
maximum. -/
def is_returned (e : PACKET) : Bool := e.event_cycle != UINT64_MAX

/-- The returned entries form a contiguous prefix of the MSHR: from the first
entry that is not returned on, no entry is returned. -/
def returned_first : List PACKET → Bool
  | [] => true
  | e :: l => if is_returned e then returned_first l else l.all (fun x => !is_returned x)

/-- The lower level hands no data back while one of its admission calls runs:
no call of `return_data` on this cache is nested in `add_rq` or `add_pq`. -/
def quiet (n : Neighbours W) : Prop :=
  ∀ w p, (n.lower_add_rq w p).returned = [] ∧ (n.lower_add_pq w p).returned = []

/-- The invalidation counts of the MSHR entry agree with section 4.9: the count
stored by `return_data` is at most the count of invalidations seen. -/
def counts_ok (e : PACKET) : Bool :=
  decide (e.mshr_return_data_invalid_count ≤ e.mshr_invalid_count)

/-- The cache `d` differs from `c` in what a round of `handle_invalid` may
change after the invalidation is counted only: the block array, the IVQ, the
invalidate credit and the tallies. -/
def only_inval (c d : CACHE) : Prop :=
  d = { c with block := d.block, IVQ := d.IVQ,
               invalid_available_this_cycle := d.invalid_available_this_cycle,
               sim_access := d.sim_access, sim_hit := d.sim_hit, sim_miss := d.sim_miss }

/-- The block invariant of section 3: a dirty block is valid. -/
def dirty_valid (c : CACHE) : Prop := ∀ b ∈ c.block, b.dirty = true → b.valid = true

instance (c : CACHE) : Decidable (dirty_valid c) := by
  unfold dirty_valid
  infer_instance

/-- The calls a re-issue of the MSHR entry `e` by `handle_fill` makes on a cache
that is not `NOT_CACHE`: the probe `add_rq` with `test_packet` set and, when
the probe is not refused, the forward `add_rq` or `add_pq` of the packet the
probe left. -/
def reissue_calls (n : Neighbours W) (s : Sys W) (e : PACKET) : List Call :=
  let tp : PACKET := { copy_packet e with test_packet := true }
  let r := n.lower_add_rq s.world tp
  let fp := forwarded s.cache { r.packet with test_packet := false }
  if probe_refused n (probe_lower n s (copy_packet e)) (is_read s.cache e) then
    [Call.add_rq tp r.result]
  else if is_read s.cache e then
    [Call.add_rq tp r.result, Call.add_rq fp (n.lower_add_rq r.world fp).result]
  else [Call.add_rq tp r.result, Call.add_pq fp (n.lower_add_pq r.world fp).result]

/-- The cache `d` differs from `c` in what `readlike_hit` may change only: the
block array, the cpu, the useful prefetch counter and the hit and access
tallies. -/
def only_hit (c d : CACHE) : Prop :=
  d = { c with block := d.block, cpu := d.cpu, pf_useful := d.pf_useful,
               sim_hit := d.sim_hit, sim_access := d.sim_access }

/-- The packets of the calls `lower_level->add_wq` in a trace, in order. -/
def wq_calls (t : List Call) : List PACKET :=
  t.filterMap (fun c => match c with
    | Call.add_wq p _ => some p
    | _ => none)

/-- The results of the calls `upper_level[i]->add_ivq` in a trace, in order. -/
def inv_results (i : Nat) (t : List Call) : List Int :=
  t.filterMap (fun c => match c with
    | Call.upper_add_ivq j _ r => if j = i then some r else none
    | _ => none)

/-- Every call of the list was refused with `-2`. -/
def all_refused (rs : List Int) : Bool := rs.all (fun r => r == -2)

/-- The calls of the list were refused with `-2` until one, the last, was
accepted: exactly one acceptance, and no call after it. -/
def refused_then_accepted (rs : List Int) : Bool :=
  match rs.getLast? with
  | none => false
  | some r => r != -2 && all_refused rs.dropLast

/-- The state of an `INCLUSIVE` cache right after the lower level accepted the
writeback of the victim `fill_block`: the call is recorded and `send_wb_valid`
is cleared. -/
def written_back (n : Neighbours W) (s : Sys W) (fill_block : BLOCK) (handle_pkt : PACKET) :
    Sys W :=
  let r := call_add_wq n s (writeback_packet n s.cache fill_block handle_pkt
    (if n.lower_present && fill_block.dirty then WRITEBACK else WRITEBACK_EXCLUSIVE))
  { r.sys with cache := { r.sys.cache with send_wb_valid := false } }

/-- The record of the calls on upper level `i` since the fill began agrees
with its flag: an upper level that is absent was not called and keeps its flag;
while the flag is set every call was refused; once the flag is cleared the
calls were refused until the last one was accepted. -/
def upper_record (n : Neighbours W) (i : Nat) (flag : Bool) (rs : List Int) : Prop :=
  (n.upper_present i = false → rs = [] ∧ flag = true) ∧
  (flag = true → all_refused rs = true) ∧
  (flag = false → refused_then_accepted rs = true)

/-- The call that one round of the loop over the upper levels makes: one
`add_ivq` on upper level `i` when it is present and its flag is set, none
otherwise. -/
def inv_call (n : Neighbours W) (i : Nat) (t : Sys W) (p : PACKET) : List Call :=
  if n.upper_present i && send_inv_valid t.cache i then
    [Call.upper_add_ivq i p (n.upper_add_ivq i t.world p).result]
  else []

/-- A fill of an `INCLUSIVE` cache that has written its victim back and waits
for the upper levels: since the fill began (after the calls `base`) the
writeback `wb` was the one call of `add_wq`, `send_wb_valid` is cleared, and
the record of each upper level agrees with its flag. -/
def fill_pending (n : Neighbours W) (base : List Call) (wb : PACKET) (t : Sys W) : Prop :=
  t.cache.send_wb_valid = false ∧
  ∃ seg, t.trace = base ++ seg ∧ wq_calls seg = [wb] ∧
    upper_record n 0 (send_inv_valid t.cache 0) (inv_results 0 seg) ∧
    upper_record n 1 (send_inv_valid t.cache 1) (inv_results 1 seg)

/-- A fill of an `INCLUSIVE` cache whose eviction is complete: since the fill
began (after the calls `base`) the writeback `wb` was the one call of `add_wq`,
every upper level that is present refused until it accepted once, the other
upper levels were not called, and the three flags are set again. -/
def fill_done (n : Neighbours W) (base : List Call) (wb : PACKET) (t : Sys W) : Prop :=
  t.cache.send_wb_valid = true ∧ send_inv_valid t.cache 0 = true ∧
  send_inv_valid t.cache 1 = true ∧
  ∃ seg, t.trace = base ++ seg ∧ wq_calls seg = [wb] ∧
    ∀ i, i < 2 →
      (n.upper_present i = true → refused_then_accepted (inv_results i seg) = true) ∧
      (n.upper_present i = false → inv_results i seg = [])

/-- The calls `upper_level[i]->add_ivq` in a trace, in order: the packet
handed over and the result. -/
def inv_sent (i : Nat) (t : List Call) : List (PACKET × Int) :=
  t.filterMap (fun c => match c with
    | Call.upper_add_ivq j p r => if j = i then some (p, r) else none
    | _ => none)

/-- The packet `writeback_packet` that an `INCLUSIVE` cache with a lower level
sends for the victim `fill_block`: a `WRITEBACK` for a dirty victim, a
`WRITEBACK_EXCLUSIVE` for a clean one. -/
def victim_writeback (n : Neighbours W) (s : Sys W) (fill_block : BLOCK) (handle_pkt : PACKET) :
    PACKET :=
  writeback_packet n s.cache fill_block handle_pkt
    (if n.lower_present && fill_block.dirty then WRITEBACK else WRITEBACK_EXCLUSIVE)

/-- The calls of an eviction that goes through at once on an `INCLUSIVE` cache
whose three flags are set: the writeback of the victim, then the invalidation
on upper level 0, then on upper level 1 the packet as upper level 0 left
it. -/
def eviction_calls (n : Neighbours W) (s : Sys W) (fill_block : BLOCK) (handle_pkt : PACKET) :
    List Call :=
  let wb := victim_writeback n s fill_block handle_pkt
  let t := written_back n s fill_block handle_pkt
  let u0 := send_invalidation n 0 t (invalidation_packet n fill_block handle_pkt)
  Call.add_wq wb (n.lower_add_wq s.world wb).result
    :: (inv_call n 0 t (invalidation_packet n fill_block handle_pkt)
        ++ inv_call n 1 u0.2.2 u0.2.1)

/-- The state of a cycle after `handle_invalid`, before the IVQ timer
advances. -/
def after_invalid (n : Neighbours W) (s : Sys W) : Sys W := handle_invalid n (start_invalid s)

/-- The state of a cycle after `handle_fill`. -/
def after_fill (n : Neighbours W) (s : Sys W) : Sys W :=
  handle_fill n (start_writes (operate_invalid n s))

/-- The state of a cycle after `handle_writeback`, before the WQ timer
advances. -/
def after_writeback (n : Neighbours W) (s : Sys W) : Sys W :=
  handle_writeback n (after_fill n s)

/-- The state of `operate_reads` after `handle_read`. -/
def after_read (n : Neighbours W) (s : Sys W) : Sys W := handle_read n (start_reads s)

/-- The state of `operate_reads` after `va_translate_prefetches`. -/
def after_translate (n : Neighbours W) (s : Sys W) : Sys W :=
  va_translate_prefetches n (after_read n s)

/-- The state of `operate_reads` after `handle_prefetch`, before the timers
of the queues advance. -/
def after_prefetch (n : Neighbours W) (s : Sys W) : Sys W :=
  handle_prefetch n (after_translate n s)

/-- What the set and way lookups read of a cache: the set and way counts, the
offset width and the block array. -/
def geometry (c : CACHE) : Nat × Nat × Nat × List BLOCK :=
  (c.NUM_SET, c.NUM_WAY, c.OFFSET_BITS, c.block)

/-- The blocks at indices `i` and `j` of the block array lie in one set, are
both valid and have the same block address. -/
def clash (c : CACHE) (i j : Nat) : Bool :=
  decide (i / c.NUM_WAY = j / c.NUM_WAY) && (block_at c i).valid && (block_at c j).valid
    && ((block_at c i).address >>> c.OFFSET_BITS == (block_at c j).address >>> c.OFFSET_BITS)

/-- Unique residency: no set of the block array holds two valid blocks of the
same block address. -/
def unique_residency (c : CACHE) : Prop :=
  ∀ j, j < c.block.length → ∀ i, i < j → clash c i j = false

instance (c : CACHE) : Decidable (unique_residency c) := by
  unfold unique_residency
  infer_instance

/-- The block addresses of the MSHR entries, in order. -/
def mshr_blocks (c : CACHE) : List Nat := c.MSHR.map (fun e => e.address >>> c.OFFSET_BITS)

/-! ## Contracts of the lower level and runs of the cache -/

/-- The answer `r` to the request `p` is one that `add_rq` and `add_pq` of
`cache.cc` give: the address of the packet is left as it is, and what is handed
back to `return_data` of this cache carries the address of the request and is
at most one packet for every producer in the `to_return` list of the
request. -/
def echo (p : PACKET) (r : Reply W) : Prop :=
  r.packet.address = p.address ∧ r.returned.length ≤ p.to_return.length ∧
  ∀ q ∈ r.returned, q.address = p.address

/-- The lower level hands back, while `add_rq` or `add_pq` runs, packets of
the block of the request only, at most one for every producer of the request,
and nothing when `add_rq` is called with a probe (`test_packet`). -/
def echoes (n : Neighbours W) : Prop :=
  ∀ w p, echo p (n.lower_add_rq w p) ∧ echo p (n.lower_add_pq w p) ∧
    (p.test_packet = true → (n.lower_add_rq w p).returned = [])

/-- Every packet of the queue has its invalidation counts in order. -/
def queue_counts_ok (q : delay_queue) : Prop := ∀ x ∈ q.buf, counts_ok x.1 = true

instance (q : delay_queue) : Decidable (queue_counts_ok q) := by
  unfold queue_counts_ok
  infer_instance

/-- The invalidation counts are in order,
`mshr_return_data_invalid_count <= mshr_invalid_count`, on every MSHR entry and
on every packet that waits in the RQ, the WQ, the PQ or the VAPQ, the queues
whose packets become MSHR entries. -/
def counts_kept (c : CACHE) : Prop :=
  (∀ e ∈ c.MSHR, counts_ok e = true) ∧ queue_counts_ok c.RQ ∧ queue_counts_ok c.WQ ∧
  queue_counts_ok c.PQ ∧ queue_counts_ok c.VAPQ

instance (c : CACHE) : Decidable (counts_kept c) := by
  unfold counts_kept
  infer_instance

/-- The answer `r` to the request `p` leaves the two invalidation counts of the
packet as they are, and what it hands back carries the `mshr_invalid_count` of
the request. -/
def keeps_counts (p : PACKET) (r : Reply W) : Prop :=
  r.packet.mshr_invalid_count = p.mshr_invalid_count ∧
  r.packet.mshr_return_data_invalid_count = p.mshr_return_data_invalid_count ∧
  ∀ q ∈ r.returned, q.mshr_invalid_count = p.mshr_invalid_count

/-- The lower level answers `add_rq` and `add_pq` as `cache.cc` does: it hands
back packets of the block of the request only, at most one for every producer
of the request and none for a probe, and does not touch the invalidation
counts. -/
def faithful (n : Neighbours W) : Prop :=
  echoes n ∧ ∀ w p, keeps_counts p (n.lower_add_rq w p) ∧ keeps_counts p (n.lower_add_pq w p)

/-- A call on the cache from outside: the four admission calls of an upper
level, a request of the prefetcher, one cycle, and the return of data by the
lower level. -/
inductive Event where
  | add_rq (p : PACKET)
  | add_wq (p : PACKET)
  | add_pq (p : PACKET)
  | add_ivq (p : PACKET)
  | prefetch_line (pf_addr : Nat) (fill_this_level : Bool) (prefetch_metadata : Nat)
  | operate
  | return_data (p : PACKET)

/-- The system after an admission call from outside: the cache is the one the
call left, and the producers the call returned data to have taken it. -/
def after_call (n : Neighbours W) (s : Sys W) (a : Admission) : Sys W :=
  a.returned.foldl
    (fun u x => { u with world := n.producer_return_data x.1 u.world x.2,
                         trace := u.trace ++ [Call.return_data x.1 x.2] })
    { s with cache := a.cache }

/-- The system after one call from outside. -/
def apply_event (n : Neighbours W) (s : Sys W) : Event → Sys W
  | Event.add_rq p => after_call n s (add_rq s.cache p)
  | Event.add_wq p => after_call n s (add_wq s.cache p)
  | Event.add_pq p => after_call n s (add_pq s.cache p)
  | Event.add_ivq p => after_call n s (add_ivq s.cache p)
  | Event.prefetch_line a f m => { s with cache := (prefetch_line n s.cache a f m).2 }
  | Event.operate => operate n s
  | Event.return_data p => { s with cache := return_data s.cache p }

/-- The system after a sequence of calls from outside, oldest first. -/
def run (n : Neighbours W) (s : Sys W) (events : List Event) : Sys W :=
  events.foldl (apply_event n) s

/-- What the invalidation counts ask of a call from outside: a packet offered
to `add_rq`, `add_wq` or `add_pq` has its counts in order, and a packet handed
to `return_data` carries an `mshr_invalid_count` that is at most the one of the
MSHR entry it is for, the first entry of its block. -/
def legal (c : CACHE) : Event → Bool
  | Event.add_rq p => counts_ok p
  | Event.add_wq p => counts_ok p
  | Event.add_pq p => counts_ok p
  | Event.add_ivq _ => true
  | Event.prefetch_line _ _ _ => true
  | Event.operate => true
  | Event.return_data p =>
    match c.MSHR.find? (eq_addr_PACKET p.address c.OFFSET_BITS) with
    | some e => decide (p.mshr_invalid_count ≤ e.mshr_invalid_count)
    | none => true

/-- Every call of the sequence is legal in the state it is made in. -/
def legal_run (n : Neighbours W) : List Event → Sys W → Bool
  | [], _ => true
  | ev :: events, s => legal s.cache ev && legal_run n events (apply_event n s ev)

/-- The three flags `send_wb_valid`, `send_inv_valid[0]` and
`send_inv_valid[1]`. -/
def flags (c : CACHE) : Bool × Bool × Bool :=
  (c.send_wb_valid, c.send_inv_valid0, c.send_inv_valid1)

/-! ## Concrete packets and caches -/

/-- A load of block 2 (address 0x80) for producer 1. -/
def load_a : PACKET := { address := 0x80, type := LOAD, to_return := [1] }

/-- A load of block 2 at the next byte, for producer 2. -/
def load_b : PACKET := { address := 0x81, type := LOAD, to_return := [2] }

/-- A load of block 12 (address 0x310) for producers 1 and 2. -/
def load_c : PACKET := { address := 0x310, type := LOAD, to_return := [1, 2] }

/-- A prefetch of block 12 with fill level 1. -/
def pref_c : PACKET := { address := 0x310, type := PREFETCH, fill_level := 1 }

/-- A prefetch of block 2. -/
def pref_a : PACKET := { address := 0x80, type := PREFETCH, fill_level := 1 }

/-- A probe of block 1. -/
def probe_a : PACKET := { address := 0x40, type := LOAD, test_packet := true }

/-- A dirty writeback of block 2. -/
def wb_a : PACKET := { address := 0x80, type := WRITEBACK, data := 5, fill_level := 2 }

/-- A writeback of block 12 that waits for two invalidation acknowledgements. -/
def wb_pending : PACKET :=
  { address := 0x300, type := WRITEBACK, data := 77, fill_level := 2, inv_ongoing := 2 }

/-- A writeback of block 12 that waits for no acknowledgement. -/
def wb_ready : PACKET :=
  { address := 0x300, type := WRITEBACK, data := 77, fill_level := 2, inv_ongoing := 0 }

/-- An invalidation of block 12 at fill level 2 that carries data. -/
def inval_same_level : PACKET :=
  { address := 0x300, type := INVALIDATE, fill_level := 2, merge_count := 1,
    data := 99, data_valid := true }

/-- An invalidation of block 12 at fill level 3 without data. -/
def inval_higher_level : PACKET :=
  { address := 0x300, type := INVALIDATE, fill_level := 3, merge_count := 1 }

/-- An invalidation of block 2. -/
def inval_a : PACKET := { address := 0x80, type := INVALIDATE, fill_level := 2, merge_count := 1 }

/-- An inclusive cache with an empty read queue of capacity 1. -/
def cache_a : CACHE := { cache_type := INCLUSIVE, RQ := { sz := 1 } }

/-- A cache of type `NOT_CACHE` with an empty read queue of capacity 1. -/
def not_cache_a : CACHE := { cache_type := NOT_CACHE, RQ := { sz := 1 } }

/-- A cache whose read queue of capacity 1 holds `load_a`. -/
def cache_rq_full : CACHE := { RQ := { sz := 1, buf := [(load_a, 0)] } }

/-- A cache whose write queue holds `wb_pending`; the other queues are empty
with room for four entries. -/
def cache_wb_pending : CACHE :=
  { WQ := { sz := 4, buf := [(wb_pending, 0)] }, IVQ := { sz := 4 }, RQ := { sz := 4 },
    PQ := { sz := 4 } }

/-- A cache whose write queue holds `wb_ready`; the other queues are empty with
room for four entries. -/
def cache_wb_ready : CACHE :=
  { WQ := { sz := 4, buf := [(wb_ready, 0)] }, IVQ := { sz := 4 }, RQ := { sz := 4 },
    PQ := { sz := 4 } }

/-- The cache `cache_wb_ready` with `match_offset_bits` set. -/
def cache_wb_ready_exact : CACHE := { cache_wb_ready with match_offset_bits := true }

/-- A cache with `match_offset_bits` set whose IVQ holds `inval_same_level`. -/
def cache_ivq_exact : CACHE :=
  { match_offset_bits := true, IVQ := { sz := 4, buf := [(inval_same_level, 0)] },
    PQ := { sz := 4 }, WQ := { sz := 4 } }

/-- A cache whose four queues are full, each with one entry of block 12. -/
def cache_all_full : CACHE :=
  { RQ := { sz := 1, buf := [(load_c, 0)] }, WQ := { sz := 1, buf := [(wb_ready, 0)] },
    PQ := { sz := 1, buf := [(pref_c, 0)] }, IVQ := { sz := 1, buf := [(inval_same_level, 0)] } }

/-- A prefetch of block 12 with fill level 4 for producer 7, as a queue entry. -/
def pref_held : PACKET := { pref_c with fill_level := 4, to_return := [7] }

/-- A cache whose prefetch queue holds `pref_held` behind a prefetch of block 2. -/
def cache_pq_held : CACHE := { PQ := { sz := 4, buf := [(pref_a, 0), (pref_held, 3)] } }

/-- Two sets of two ways; set 1 holds block 1 in way 0 and block 3 in way 1. -/
def cache_two_sets : CACHE :=
  { NUM_SET := 2, NUM_WAY := 2,
    block := [{}, {}, { valid := true, address := 0x40 }, { valid := true, address := 0xC0 }] }

/-- A cache with three sets. -/
def cache_three_sets : CACHE := { NUM_SET := 3 }

/-- A cache with four sets. -/
def cache_four_sets : CACHE := { NUM_SET := 4 }

/-! ## Concrete neighbours and pipeline states -/

/-- Neighbours for the examples.  The state of the world is the number of
times upper level 0 will still refuse an invalidation.  The lower level is
present at fill level 2, accepts every call with result 1, leaves the packet as
it is, hands no data back, and reports queues of size 8 that are empty.  Both
upper levels are present; upper level 1 always accepts.  The replacement
policy names way 0, and the other hooks do nothing. -/
def nbrs : Neighbours Nat :=
  { lower_present := true,
    lower_fill_level := 2,
    lower_add_rq := fun w p => { result := 1, packet := p, world := w },
    lower_add_wq := fun w p => { result := 1, packet := p, world := w },
    lower_add_pq := fun w p => { result := 1, packet := p, world := w },
    lower_add_ivq := fun w p => { result := 1, packet := p, world := w },
    lower_get_occupancy := fun _ _ _ => 0,
    lower_get_size := fun _ _ _ => 8,
    upper_present := fun i => decide (i < 2),
    upper_add_ivq := fun i w p =>
      if i = 0 ∧ 0 < w then { result := -2, packet := p, world := w - 1 }
      else { result := 1, packet := p, world := w },
    producer_return_data := fun _ w _ => w,
    find_victim := fun w _ _ _ _ _ _ _ => (0, w),
    update_state := fun w _ _ _ _ _ _ _ _ => w,
    prefetcher_cache_operate := fun w _ _ _ _ m => (m, w),
    prefetcher_cache_fill := fun w _ _ _ _ _ m => (m, w),
    prefetcher_cycle_operate := fun w => w,
    va_to_pa := fun w _ v => (v, w) }

/-- A prefetch of block 2 in flight, returned at cycle 7. -/
def pref_inflight : PACKET :=
  { address := 0x80, type := PREFETCH, fill_level := 1, pf_origin_level := 1, event_cycle := 7 }

/-- A cache with room for four misses whose MSHR holds `pref_inflight`. -/
def sys_pref_inflight : Sys Nat :=
  { cache := { MSHR_SIZE := 4, MSHR := [pref_inflight], RQ := { sz := 2 } }, world := 0 }

/-- A miss on block 1 that returned at cycle 3. -/
def miss_returned : PACKET := { address := 0x40, type := LOAD, fill_level := 1, event_cycle := 3 }

/-- A miss on block 2 that has not returned. -/
def miss_b : PACKET := { address := 0x80, type := LOAD, fill_level := 1 }

/-- A miss on block 3 that has not returned. -/
def miss_c : PACKET := { address := 0xC0, type := LOAD, fill_level := 1 }

/-- The data of block 3 on its way back. -/
def data_c : PACKET := { address := 0xC0, type := LOAD, data := 11 }

/-- The data of block 1 on its way back once more. -/
def data_a_again : PACKET := { address := 0x40, type := LOAD, data := 12 }

/-- A cache at cycle 10 whose MSHR holds one returned miss followed by two
misses that have not returned. -/
def sys_three_misses : Sys Nat :=
  { cache := { MSHR_SIZE := 4, current_cycle := 10, MSHR := [miss_returned, miss_b, miss_c] },
    world := 0 }

/-- A cache at cycle 10 whose MSHR holds a returned miss followed by one that
has not returned. -/
def cache_two_misses : CACHE :=
  { MSHR_SIZE := 4, current_cycle := 10, MSHR := [miss_returned, miss_b] }

/-- A cache of one set and two ways, both invalid. -/
def sys_two_ways : Sys Nat :=
  { cache := { NUM_SET := 1, NUM_WAY := 2, block := [{}, {}] }, world := 0 }

/-- A store of the cpu to block 1, carrying data 9. -/
def fill_a : PACKET := { address := 0x40, type := LOAD, data := 9, cpu := 0, to_return := [7] }

/-- A cache with room for four misses and two reads, and nothing in it: one
set of one invalid way. -/
def cache_empty : CACHE := { MSHR_SIZE := 4, RQ := { sz := 2 }, block := [{}] }

/-- The data of block 2 on its way back from a lower level that counted one
invalidation of the block. -/
def data_invalidated : PACKET := { address := 0x80, type := LOAD, data := 5, mshr_invalid_count := 1 }

/-- The empty cache after `add_rq` of the load `load_a`. -/
def sys_one_load : Sys Nat := { cache := (add_rq cache_empty load_a).cache, world := 0 }

/-- Neighbours as `nbrs`, except that the lower level refuses an invalidation
with `-2` while the state of the world, the number of refusals to come, is
positive. -/
def nbrs_busy : Neighbours Nat :=
  { nbrs with
    lower_add_ivq := fun w p =>
      if 0 < w then { result := -2, packet := p, world := w - 1 }
      else { result := 1, packet := p, world := w } }

/-- Neighbours whose lower level is a second cache of this model: the state of
the world is that cache, the admission calls are its `add_rq`, `add_wq`,
`add_pq` and `add_ivq`, and what it hands to producer 0, this cache, comes
back through `return_data`.  No upper level is present, and the hooks do
nothing. -/
def stacked : Neighbours CACHE :=
  { lower_present := true,
    lower_fill_level := 2,
    lower_add_rq := fun w p =>
      { result := (add_rq w p).result, packet := (add_rq w p).packet,
        world := (add_rq w p).cache, returned := handed_to 0 (add_rq w p).returned },
    lower_add_wq := fun w p =>
      { result := (add_wq w p).result, packet := (add_wq w p).packet,
        world := (add_wq w p).cache },
    lower_add_pq := fun w p =>
      { result := (add_pq w p).result, packet := (add_pq w p).packet,
        world := (add_pq w p).cache, returned := handed_to 0 (add_pq w p).returned },
    lower_add_ivq := fun w p =>
      { result := (add_ivq w p).result, packet := (add_ivq w p).packet,
        world := (add_ivq w p).cache },
    lower_get_occupancy := fun w t a => get_occupancy w t a,
    lower_get_size := fun w t a => get_size w t a,
    upper_present := fun _ => false,
    upper_add_ivq := fun _ w p => { result := 1, packet := p, world := w },
    producer_return_data := fun _ w _ => w,
    find_victim := fun w _ _ _ _ _ _ _ => (0, w),
    update_state := fun w _ _ _ _ _ _ _ _ => w,
    prefetcher_cache_operate := fun w _ _ _ _ m => (m, w),
    prefetcher_cache_fill := fun w _ _ _ _ _ m => (m, w),
    prefetcher_cycle_operate := fun w => w,
    va_to_pa := fun w _ v => (v, w) }

/-- A miss on block 1 that returned at cycle 0 with data 3 for producer 7,
after one invalidation of the block was seen. -/
def entry_invalidated : PACKET :=
  { address := 0x40, type := LOAD, fill_level := 1, event_cycle := 0, data := 3,
    mshr_invalid_count := 1, to_return := [7] }

/-- A cache of one invalid block with one write credit whose MSHR holds
`entry_invalidated`. -/
def cache_invalidated : CACHE :=
  { NUM_SET := 1, NUM_WAY := 1, block := [{}], MSHR_SIZE := 4, MSHR := [entry_invalidated],
    writes_available_this_cycle := 1 }

/-- The cache `cache_invalidated` as an `INCLUSIVE` cache among `nbrs`. -/
def sys_invalidated : Sys Nat := { cache := cache_invalidated, world := 0 }

/-- The cache `cache_invalidated` as a `NOT_CACHE` instance among `nbrs`. -/
def sys_not_cache_invalidated : Sys Nat :=
  { cache := { cache_invalidated with cache_type := NOT_CACHE }, world := 0 }

/-- An `INCLUSIVE` cache of one block, valid and dirty, of block 2. -/
def cache_dirty_victim : CACHE :=
  { NUM_SET := 1, NUM_WAY := 1, cache_type := INCLUSIVE,
    block := [{ valid := true, dirty := true, address := 0x80, data := 4 }] }

/-- The cache `cache_dirty_victim` among `nbrs`, with upper level 0 about to
refuse twice. -/
def sys_dirty_victim : Sys Nat := { cache := cache_dirty_victim, world := 2 }

/-- An `INCLUSIVE` cache of one block, valid and clean, of block 2. -/
def cache_clean_victim : CACHE :=
  { NUM_SET := 1, NUM_WAY := 1, cache_type := INCLUSIVE,
    block := [{ valid := true, address := 0x80, data := 4 }] }

/-- The cache `cache_clean_victim` among `nbrs`, which accept at once. -/
def sys_clean_victim : Sys Nat := { cache := cache_clean_victim, world := 0 }

/-- A load of block 2 that already carries valid data. -/
def load_with_data : PACKET := { address := 0x80, type := LOAD, data := 1, data_valid := true }

/-- A writeback of block 1 with data 5. -/
def wb_block_one : PACKET := { address := 0x40, type := WRITEBACK, data := 5 }

/-- A miss on block 1 for producer 7 that has not returned. -/
def miss_block_one : PACKET := { address := 0x40, type := LOAD, fill_level := 1, to_return := [7] }

/-- The data of block 1 on its way back. -/
def data_block_one : PACKET := { address := 0x40, type := LOAD, data := 9 }

/-- A `NINE` cache of one set and two invalid ways, with a miss on block 1 in
flight and a writeback of block 1 ready in the WQ. -/
def cache_racing : CACHE :=
  { NUM_SET := 1, NUM_WAY := 2, cache_type := NINE, block := [{}, {}], MSHR_SIZE := 4,
    MSHR := [miss_block_one], WQ := { sz := 2, buf := [(wb_block_one, 0)] } }

/-- The cache `cache_racing` among `nbrs`. -/
def sys_racing : Sys Nat := { cache := cache_racing, world := 0 }

/-- The state of `sys_racing` after one cycle: the writeback is in the
cache. -/
def sys_racing_written : Sys Nat := operate nbrs sys_racing

/-- The state of `sys_racing_written` after the data of the miss came back. -/
def sys_racing_returned : Sys Nat :=
  { sys_racing_written with cache := return_data sys_racing_written.cache data_block_one }

/-- The state of `sys_racing_returned` after one more cycle. -/
def sys_racing_filled : Sys Nat := operate nbrs sys_racing_returned

/-- An invalidation of block 2 bound for the level below. -/
def inval_b : PACKET := { address := 0x80, type := INVALIDATE, fill_level := 2 }

/-- A cache at fill level 1 with one invalidate credit, a miss on block 2 in
flight and `inval_b` ready in the IVQ. -/
def cache_inval_pending : CACHE :=
  { NUM_SET := 1, NUM_WAY := 1, block := [{}], MSHR_SIZE := 4, MSHR := [miss_b],
    IVQ := { sz := 2, buf := [(inval_b, 0)] }, invalid_available_this_cycle := 1 }

/-- The cache `cache_inval_pending` among `nbrs_busy`, with the lower level
about to refuse once. -/
def sys_inval_pending : Sys Nat := { cache := cache_inval_pending, world := 1 }

/-- A prefetch with virtual address 0x100 that waits for its translation. -/
def pref_virtual : PACKET := { v_address := 0x100, type := PREFETCH, fill_level := 1 }

/-- A cache with one read credit per cycle, the load `load_a` ready in the RQ
and `pref_virtual` ready in the VAPQ. -/
def cache_read_and_translate : CACHE :=
  { NUM_SET := 1, NUM_WAY := 1, block := [{}], MSHR_SIZE := 4, MAX_READ := 1,
    RQ := { sz := 2, buf := [(load_a, 0)] }, PQ := { sz := 2 },
    VAPQ := { sz := 2, buf := [(pref_virtual, 0)] } }

/-- The cache `cache_read_and_translate` among `nbrs`. -/
def sys_read_and_translate : Sys Nat := { cache := cache_read_and_translate, world := 0 }

/-- A prefetch of block 2 from the level above, in flight for producer 3, with
one invalidation of the block seen. -/
def pref_from_above : PACKET :=
  { address := 0x80, type := PREFETCH, fill_level := 1, pf_origin_level := 0,
    mshr_invalid_count := 1, to_return := [3] }

/-- A load of block 2 for producer 1 that fills level 2 only. -/
def load_far : PACKET := { address := 0x80, type := LOAD, fill_level := 2, to_return := [1] }

/-- A cache whose MSHR holds `pref_from_above`. -/
def sys_pref_from_above : Sys Nat :=
  { cache := { MSHR_SIZE := 4, MSHR := [pref_from_above] }, world := 0 }

/-- A miss on block 1 that returned at cycle 0. -/
def due_a : PACKET := { address := 0x40, type := LOAD, fill_level := 1, event_cycle := 0 }

/-- A miss on block 2 that returned at cycle 0. -/
def due_b : PACKET := { address := 0x80, type := LOAD, fill_level := 1, event_cycle := 0 }

/-- A `NINE` cache of one set and two invalid ways with two write credits whose
MSHR holds two misses that are due. -/
def cache_two_due : CACHE :=
  { NUM_SET := 1, NUM_WAY := 2, cache_type := NINE, block := [{}, {}], MSHR_SIZE := 4,
    MSHR := [due_a, due_b], writes_available_this_cycle := 2 }

/-- The cache `cache_two_due` among `nbrs`. -/
def sys_two_due : Sys Nat := { cache := cache_two_due, world := 0 }

/-- A writeback of block 2 that an invalidation cancelled. -/
def wb_cancelled : PACKET := { address := 0x80, type := NON_VALID, cpu := 0 }

/-- A cache with one write credit and `wb_cancelled` ready in the WQ. -/
def cache_cancelled : CACHE :=
  { block := [{}], WQ := { sz := 2, buf := [(wb_cancelled, 0), (wb_block_one, 0)] },
    writes_available_this_cycle := 1 }

/-- The cache `cache_cancelled` among `nbrs`. -/
def sys_cancelled : Sys Nat := { cache := cache_cancelled, world := 0 }

/-- A cache at fill level 2 whose WQ holds a writeback of block 1 that no
invalidation is waiting for. -/
def lower_with_writeback : CACHE :=
  { fill_level := 2, RQ := { sz := 4 }, PQ := { sz := 4 },
    WQ := { sz := 4, buf := [(wb_block_one, 0)] } }

/-- A miss on block 1 that returned at cycle 3, after one invalidation of the
block was seen. -/
def returned_invalidated : PACKET :=
  { address := 0x40, type := LOAD, fill_level := 1, event_cycle := 3, mshr_invalid_count := 1 }

/-- A cache at cycle 10 with one write credit whose MSHR holds
`returned_invalidated` and the miss `miss_b`, which has not returned. -/
def cache_reissue : CACHE :=
  { NUM_SET := 1, NUM_WAY := 1, block := [{}], MSHR_SIZE := 4, current_cycle := 10,
    MSHR := [returned_invalidated, miss_b], writes_available_this_cycle := 1 }

/-- The cache `cache_reissue` above the cache `lower_with_writeback`. -/
def sys_reissue : Sys CACHE := { cache := cache_reissue, world := lower_with_writeback }

/-- An `INCLUSIVE` cache at fill level 1 of one set and two ways, way 0 valid
and dirty with block 2, with one invalidate credit and `inval_b` ready in the
IVQ. -/
def cache_pass_through : CACHE :=
  { NUM_SET := 1, NUM_WAY := 2,
    block := [{ valid := true, dirty := true, address := 0x80, data := 4 }, {}],
    IVQ := { sz := 2, buf := [(inval_b, 0)] }, invalid_available_this_cycle := 1 }

/-- The cache `cache_pass_through` among `nbrs`. -/
def sys_pass_through : Sys Nat := { cache := cache_pass_through, world := 0 }

/-- A writeback of block 3 with data 6. -/
def wb_block_three : PACKET := { address := 0xC0, type := WRITEBACK, data := 6 }

/-- An `INCLUSIVE` cache of two sets of one way with two write credits per
cycle: set 0 holds block 4 and set 1 holds block 1, both valid and dirty; the
miss `due_b` on block 2, of set 0, has returned, and the writeback
`wb_block_three` of block 3, of set 1, is ready in the WQ.  The three flags of
`filllike_miss` are set. -/
def cache_shared_flags : CACHE :=
  { NUM_SET := 2, NUM_WAY := 1, cache_type := INCLUSIVE, MAX_WRITE := 2, MSHR_SIZE := 4,
    block := [{ valid := true, dirty := true, address := 0x100, data := 4 },
              { valid := true, dirty := true, address := 0x40, data := 5 }],
    MSHR := [due_b], WQ := { sz := 2, buf := [(wb_block_three, 0)] } }

/-- The cache `cache_shared_flags` among `nbrs`, with upper level 0 about to
refuse once. -/
def sys_shared_flags : Sys Nat := { cache := cache_shared_flags, world := 1 }

/-- A cache below this one that is a cache proper: its type is not
`NOT_CACHE`, so that `add_rq` answers a probe without a side effect. -/
structure LowerCache where
  cache : CACHE
  proper : cache.cache_type ≠ NOT_CACHE

/-- The lower cache after `add_rq`. -/
def LowerCache.after_rq (w : LowerCache) (p : PACKET) : LowerCache :=
  ⟨(add_rq w.cache p).cache, by unfold add_rq; dsimp only; split_ifs <;> exact w.proper⟩

/-- The lower cache after `add_wq`. -/
def LowerCache.after_wq (w : LowerCache) (p : PACKET) : LowerCache :=
  ⟨(add_wq w.cache p).cache, by unfold add_wq; dsimp only; split_ifs <;> exact w.proper⟩

/-- The lower cache after `add_pq`. -/
def LowerCache.after_pq (w : LowerCache) (p : PACKET) : LowerCache :=
  ⟨(add_pq w.cache p).cache, by unfold add_pq; dsimp only; split_ifs <;> exact w.proper⟩

/-- The lower cache after `add_ivq`. -/
def LowerCache.after_ivq (w : LowerCache) (p : PACKET) : LowerCache :=
  ⟨(add_ivq w.cache p).cache, by
    unfold add_ivq add_ivq_queue; dsimp only; split_ifs <;> exact w.proper⟩

/-- Neighbours whose lower level is a second cache of this model that is not
`NOT_CACHE`: the state of the world is that cache, the admission calls are its
`add_rq`, `add_wq`, `add_pq` and `add_ivq`, and what it hands to producer 0,
this cache, comes back through `return_data`.  No upper level is present, and
the hooks do nothing. -/
def stacked_cache : Neighbours LowerCache :=
  { lower_present := true,
    lower_fill_level := 2,
    lower_add_rq := fun w p =>
      { result := (add_rq w.cache p).result, packet := (add_rq w.cache p).packet,
        world := w.after_rq p, returned := handed_to 0 (add_rq w.cache p).returned },
    lower_add_wq := fun w p =>
      { result := (add_wq w.cache p).result, packet := (add_wq w.cache p).packet,
        world := w.after_wq p },
    lower_add_pq := fun w p =>
      { result := (add_pq w.cache p).result, packet := (add_pq w.cache p).packet,
        world := w.after_pq p, returned := handed_to 0 (add_pq w.cache p).returned },
    lower_add_ivq := fun w p =>
      { result := (add_ivq w.cache p).result, packet := (add_ivq w.cache p).packet,
        world := w.after_ivq p },
    lower_get_occupancy := fun w t a => get_occupancy w.cache t a,
    lower_get_size := fun w t a => get_size w.cache t a,
    upper_present := fun _ => false,
    upper_add_ivq := fun _ w p => { result := 1, packet := p, world := w },
    producer_return_data := fun _ w _ => w,
    find_victim := fun w _ _ _ _ _ _ _ => (0, w),
    update_state := fun w _ _ _ _ _ _ _ _ => w,
    prefetcher_cache_operate := fun w _ _ _ _ m => (m, w),
    prefetcher_cache_fill := fun w _ _ _ _ _ m => (m, w),
    prefetcher_cycle_operate := fun w => w,
    va_to_pa := fun w _ v => (v, w) }

/-- A cache at fill level 2 with room in every queue whose WQ holds writebacks
of the blocks 1, 2 and 3 that no invalidation is waiting for. -/
def lower_three_writebacks : LowerCache :=
  ⟨{ fill_level := 2, RQ := { sz := 4 }, PQ := { sz := 4 }, IVQ := { sz := 4 },
     WQ := { sz := 4, buf := [(wb_block_one, 0),
       ({ address := 0x80, type := WRITEBACK, data := 8 }, 0),
       ({ address := 0xC0, type := WRITEBACK, data := 6 }, 0)] } }, by decide⟩

/-- A miss on block 4 that has not returned. -/
def miss_d : PACKET := { address := 0x100, type := LOAD, fill_level := 1 }

/-- The neighbours `nbrs` with a lower level that hands every request that is
not a probe back twice while `add_rq` runs. -/
def nbrs_twice : Neighbours Nat :=
  { nbrs with
    lower_add_rq := fun w p =>
      { result := 1, packet := p, world := w,
        returned := if p.test_packet then [] else [p, p] } }

/-- The cache `cache_reissue` above the cache `lower_three_writebacks`. -/
def sys_stacked_reissue : Sys LowerCache :=
  { cache := cache_reissue, world := lower_three_writebacks }

/-- A `NINE` cache with nothing in it: one set of one invalid way, room for
four misses, two reads and two invalidations, and two write credits per
cycle. -/
def cache_idle : CACHE :=
  { MSHR_SIZE := 4, MAX_WRITE := 2, cache_type := NINE, RQ := { sz := 2 }, IVQ := { sz := 2 },
    block := [{}] }

/-- A load, a cycle, an invalidation of the block of the load at the level of
the cache, and one more cycle. -/
def load_then_invalidate : List Event :=
  [Event.add_rq load_a, Event.operate, Event.add_ivq { inval_a with fill_level := 1 },
   Event.operate]

/-! # Theorems -/

/-! ## Lists and queues -/

/-- The first match of a list that splits as `pre ++ e :: post`, with no match
in `pre` and `e` a match, is at index `pre.length`. -/
theorem findIdx_split {α : Type} (pred : α → Bool) (pre post : List α) (e : α)
    (hpre : ∀ x ∈ pre, pred x = false) (he : pred e = true) :
    (pre ++ e :: post).findIdx pred = pre.length := by
  induction pre with
  | nil => simp [List.findIdx_cons, he]
  | cons x xs ih =>
    have hx : pred x = false := hpre x (List.mem_cons_self _ _)
    have hxs : ∀ y ∈ xs, pred y = false := fun y hy => hpre y (List.mem_cons_of_mem _ hy)
    simp only [List.cons_append, List.findIdx_cons, hx, cond_false, List.length_cons]
    rw [ih hxs]

/-- Reading `pre ++ e :: post` at index `pre.length` gives `e`. -/
theorem getD_split {α : Type} (pre post : List α) (e d : α) :
    (pre ++ e :: post).getD pre.length d = e := by
  induction pre with
  | nil => rfl
  | cons x xs ih => simpa using ih

/-- Modifying `pre ++ e :: post` at index `pre.length` changes `e` only. -/
theorem modify_split {α : Type} (f : α → α) (pre post : List α) (e : α) :
    List.modify f pre.length (pre ++ e :: post) = pre ++ f e :: post := by
  induction pre with
  | nil => simp
  | cons x xs ih => simp [ih]

/-- When `find?` returns `e`, `findIdx` is not the length and points at `e`. -/
theorem find_getD {α : Type} (pred : α → Bool) (d e : α) :
    ∀ l : List α, l.find? pred = some e →
      l.findIdx pred ≠ l.length ∧ l.getD (l.findIdx pred) d = e := by
  intro l
  induction l with
  | nil => intro h; simp at h
  | cons x xs ih =>
    intro h
    rw [List.find?_cons] at h
    rw [List.findIdx_cons]
    cases hx : pred x with
    | true =>
      rw [hx] at h
      simp only [Option.some.injEq] at h
      simp [h]
    | false =>
      rw [hx] at h
      have := ih h
      simp only [cond_false, List.length_cons, ne_eq, add_left_inj]
      exact ⟨this.1, by simpa using this.2⟩

/-- The search of a queue ends at `end()` exactly when the queue holds no entry
of the searched address. -/
theorem delay_queue.find_if_eq_past_end (q : delay_queue) (address shamt : Nat) :
    q.find_if (eq_addr_PACKET address shamt) = q.past_end ↔ ¬ q.holds address shamt := by
  unfold delay_queue.find_if delay_queue.past_end delay_queue.holds
  rw [List.findIdx_eq_length]
  simp [eq_addr_PACKET]

/-- The search of a queue stops at the first matching entry. -/
theorem delay_queue.find_if_split (q : delay_queue) (pred : PACKET → Bool)
    (pre post : List (PACKET × Nat)) (e : PACKET) (d : Nat)
    (h : q.buf = pre ++ (e, d) :: post)
    (hpre : ∀ x ∈ pre, pred x.1 = false) (he : pred e = true) :
    q.find_if pred = pre.length := by
  unfold delay_queue.find_if delay_queue.packets
  rw [h, List.map_append, List.map_cons]
  have := findIdx_split pred (pre.map Prod.fst) (post.map Prod.fst) e
    (by intro x hx
        obtain ⟨y, hy, rfl⟩ := List.mem_map.1 hx
        exact hpre y hy) he
  simpa using this

/-- An index inside the queue is not `end()`. -/
theorem delay_queue.past_end_split (q : delay_queue) (pre post : List (PACKET × Nat))
    (x : PACKET × Nat) (h : q.buf = pre ++ x :: post) : pre.length ≠ q.past_end := by
  unfold delay_queue.past_end delay_queue.packets
  rw [h]
  simp

/-- Dereferencing the iterator at `pre.length` gives the entry after `pre`. -/
theorem delay_queue.deref_split (q : delay_queue) (pre post : List (PACKET × Nat))
    (e : PACKET) (d : Nat) (h : q.buf = pre ++ (e, d) :: post) : q.deref pre.length = e := by
  unfold delay_queue.deref delay_queue.packets
  rw [h, List.map_append, List.map_cons]
  have := getD_split (pre.map Prod.fst) (post.map Prod.fst) e ({} : PACKET)
  simpa using this

/-- Writing through the iterator at `pre.length` changes that entry only. -/
theorem delay_queue.modify_at_split (q : delay_queue) (pre post : List (PACKET × Nat))
    (e : PACKET) (d : Nat) (f : PACKET → PACKET) (h : q.buf = pre ++ (e, d) :: post) :
    (q.modify_at pre.length f).buf = pre ++ (f e, d) :: post := by
  unfold delay_queue.modify_at
  simp only
  rw [h, modify_split]

/-- Writing through an iterator keeps the occupancy. -/
theorem delay_queue.modify_at_occupancy (q : delay_queue) (i : Nat) (f : PACKET → PACKET) :
    (q.modify_at i f).occupancy = q.occupancy := by
  simp [delay_queue.modify_at, delay_queue.occupancy]

/-- When the first match of a queue is `e`, the search does not end at `end()`
and the iterator points at `e`. -/
theorem delay_queue.find_if_of_find (q : delay_queue) (pred : PACKET → Bool) (e : PACKET)
    (h : q.packets.find? pred = some e) :
    q.find_if pred ≠ q.past_end ∧ q.deref (q.find_if pred) = e :=
  find_getD pred {} e q.packets h

/-- Enqueueing appends the packet. -/
theorem enqueue_packets (c : CACHE) (q : delay_queue) (p : PACKET) :
    (enqueue c q p).packets = q.packets ++ [p] := by
  unfold enqueue
  split <;> simp [delay_queue.push_back, delay_queue.push_back_ready, delay_queue.packets]

/-- Enqueueing raises the occupancy by one. -/
theorem enqueue_occupancy (c : CACHE) (q : delay_queue) (p : PACKET) :
    (enqueue c q p).occupancy = q.occupancy + 1 := by
  unfold enqueue
  split <;> simp [delay_queue.push_back, delay_queue.push_back_ready, delay_queue.occupancy]

/-- Enqueueing appends the packet with some waiting time. -/
theorem enqueue_buf (c : CACHE) (q : delay_queue) (p : PACKET) :
    ∃ d, (enqueue c q p).buf = q.buf ++ [(p, d)] := by
  unfold enqueue
  split
  · exact ⟨q.latency, rfl⟩
  · exact ⟨0, rfl⟩

/-- The result of an enqueue reports a push. -/
theorem appended_enqueue (c : CACHE) (q : delay_queue) (p : PACKET) :
    appended q (enqueue c q p) p ((enqueue c q p).occupancy : Int) := by
  refine ⟨?_, rfl, enqueue_occupancy c q p, enqueue_packets c q p⟩
  rw [enqueue_occupancy]
  exact_mod_cast Nat.succ_pos _

/-! ## C1: the admission probe -/

/-- C1 (as amended): on a cache whose `cache_type` is not `NOT_CACHE`, `add_rq`
of a packet with `test_packet` set leaves the whole cache as it was (the RQ, WQ,
PQ, IVQ, the MSHR and the block array included), leaves the packet as it was,
calls no producer, and returns `-2` or the RQ occupancy. -/
theorem add_rq_probe_no_effect (c : CACHE) (p : PACKET)
    (ht : p.test_packet = true) (hc : c.cache_type ≠ NOT_CACHE) :
    (add_rq c p).cache = c ∧ (add_rq c p).packet = p ∧ (add_rq c p).returned = [] ∧
    ((add_rq c p).result = -2 ∨ (add_rq c p).result = c.RQ.occupancy) := by
  have hcond : (p.test_packet && c.cache_type != NOT_CACHE) = true := by
    simp [ht, hc]
  unfold add_rq
  rw [if_pos hcond]
  dsimp only
  split <;> simp

/-- C1, witness: the probe `probe_a` on the inclusive cache `cache_a`. -/
theorem add_rq_probe_no_effect_witness :
    (add_rq cache_a probe_a).cache = cache_a ∧ (add_rq cache_a probe_a).packet = probe_a ∧
    (add_rq cache_a probe_a).returned = [] ∧
    ((add_rq cache_a probe_a).result = -2 ∨
      (add_rq cache_a probe_a).result = cache_a.RQ.occupancy) :=
  add_rq_probe_no_effect cache_a probe_a (by decide) (by decide)

/-- C1, counterexample: on the `NOT_CACHE` cache `not_cache_a` the probe
`probe_a` (nonzero address, `test_packet` set) is pushed onto the empty RQ. -/
theorem add_rq_probe_not_cache_enqueues :
    probe_a.test_packet = true ∧ probe_a.address ≠ 0 ∧
    not_cache_a.RQ.packets = [] ∧
    (add_rq not_cache_a probe_a).cache.RQ.packets = [probe_a] ∧
    (add_rq not_cache_a probe_a).cache.RQ ≠ not_cache_a.RQ := by
  decide

/-! ## C2: adds against a full queue -/

/-- C2 (as amended): `add_ivq` against a full IVQ returns `-2`; `add_rq`,
`add_wq` and `add_pq` against a full RQ, WQ, PQ return `-2` when none of the
cases tried before the capacity check applies: the packet is no probe and
neither the WQ nor the RQ holds its address (`add_rq`); the packet is not a
`WRITEBACK_EXCLUSIVE` dropped by a cache that is not `EXCLUSIVE` and the WQ does
not hold its address (`add_wq`); none of the IVQ, WQ and PQ holds its address
(`add_pq`).  The WQ, and the IVQ in `add_pq`, are searched at the granularity
`match_shamt`, the RQ and PQ at `OFFSET_BITS`. -/
theorem full_queue_refusal (c : CACHE) (p : PACKET) :
    (c.IVQ.full = true → (add_ivq c p).result = -2) ∧
    (c.RQ.full = true → p.test_packet = false →
      ¬ c.WQ.holds p.address (match_shamt c) → ¬ c.RQ.holds p.address c.OFFSET_BITS →
      (add_rq c p).result = -2) ∧
    (c.WQ.full = true → ¬ (c.cache_type ≠ EXCLUSIVE ∧ p.type = WRITEBACK_EXCLUSIVE) →
      ¬ c.WQ.holds p.address (match_shamt c) →
      (add_wq c p).result = -2) ∧
    (c.PQ.full = true → ¬ c.IVQ.holds p.address (match_shamt c) →
      ¬ c.WQ.holds p.address (match_shamt c) → ¬ c.PQ.holds p.address c.OFFSET_BITS →
      (add_pq c p).result = -2) := by
  refine ⟨?_, ?_, ?_, ?_⟩
  · intro hfull
    unfold add_ivq
    dsimp only
    rw [if_pos hfull]
  · intro hfull ht hwq hrq
    rw [← delay_queue.find_if_eq_past_end] at hwq hrq
    unfold add_rq
    dsimp only [match_shamt] at hwq ⊢
    simp [ht, hwq, hrq, hfull]
  · intro hfull hx hwq
    rw [← delay_queue.find_if_eq_past_end] at hwq
    have hx2 : (c.cache_type != EXCLUSIVE && p.type == WRITEBACK_EXCLUSIVE) = false := by
      by_contra h
      simp at h
      exact hx ⟨h.1, h.2⟩
    unfold add_wq
    dsimp only [match_shamt] at hwq ⊢
    simp [hx2, hwq, hfull]
  · intro hfull hivq hwq hpq
    rw [← delay_queue.find_if_eq_past_end] at hivq hwq hpq
    unfold add_pq
    dsimp only [match_shamt] at hivq hwq ⊢
    simp [hivq, hwq, hpq, hfull]

/-- C2, witness: the four queues of `cache_all_full` are full with entries of
block 12, and packets of block 2 are refused by each of the four adds. -/
theorem full_queue_refusal_witness :
    (add_ivq cache_all_full inval_a).result = -2 ∧
    (add_rq cache_all_full load_a).result = -2 ∧
    (add_wq cache_all_full wb_a).result = -2 ∧
    (add_pq cache_all_full pref_a).result = -2 :=
  ⟨(full_queue_refusal cache_all_full inval_a).1 (by decide),
   (full_queue_refusal cache_all_full load_a).2.1 (by decide) (by decide) (by decide)
     (by decide),
   (full_queue_refusal cache_all_full wb_a).2.2.1 (by decide) (by decide) (by decide),
   (full_queue_refusal cache_all_full pref_a).2.2.2 (by decide) (by decide) (by decide)
     (by decide)⟩

/-- C2, counterexample: the RQ of `cache_rq_full` is at capacity and holds a
load of block 2; `add_rq` of the load `load_b` of the same block, which is no
probe, is merged and returns `0`, not `-2`. -/
theorem add_rq_full_queue_merges :
    cache_rq_full.RQ.full = true ∧ load_b.test_packet = false ∧
    (add_rq cache_rq_full load_b).result = 0 ∧ (add_rq cache_rq_full load_b).result ≠ -2 := by
  decide

/-! ## C3: the return codes -/

/-- The IVQ part of `add_ivq` leaves the packet as it is. -/
theorem add_ivq_queue_packet (c : CACHE) (p : PACKET) : (add_ivq_queue c p).packet = p := by
  unfold add_ivq_queue
  dsimp only
  split <;> rfl

/-- The IVQ part of `add_ivq` leaves the WQ as it is. -/
theorem add_ivq_queue_WQ (c : CACHE) (p : PACKET) : (add_ivq_queue c p).cache.WQ = c.WQ := by
  unfold add_ivq_queue
  dsimp only
  split <;> rfl

/-- The IVQ part of `add_ivq` returns `-4` and keeps every occupancy, or pushes
the packet onto the IVQ and reports it. -/
theorem add_ivq_queue_result (c : CACHE) (p : PACKET) :
    ((add_ivq_queue c p).result = -4 ∧
      queue_occupancies (add_ivq_queue c p).cache = queue_occupancies c) ∨
    (appended c.IVQ (add_ivq_queue c p).cache.IVQ p (add_ivq_queue c p).result ∧
      queue_occupancies (add_ivq_queue c p).cache =
        [c.RQ.occupancy, c.WQ.occupancy, c.PQ.occupancy, c.IVQ.occupancy + 1,
          c.VAPQ.occupancy]) := by
  unfold add_ivq_queue
  dsimp only
  split
  · left
    simp [queue_occupancies, delay_queue.modify_at_occupancy]
  · right
    exact ⟨appended_enqueue c c.IVQ p, by simp [queue_occupancies, enqueue_occupancy]⟩

/-- C3 (as amended): a probe (`test_packet` on a cache that is not `NOT_CACHE`)
makes `add_rq` return `-2` or the current RQ occupancy and change nothing.
Otherwise `add_rq` and `add_pq` return `-2`, `-1` or `0` with every queue
occupancy unchanged, or a positive value; `add_wq` returns `-2` or `0` with
every occupancy unchanged, or a positive value; `add_ivq` returns `-4`, `-3` or
`-2` with every occupancy unchanged, or a positive value.  A positive value is
the occupancy of the target queue after the call, one more than before: the
packet (for `add_ivq`, the packet as the call leaves it) was appended to the
target queue and the occupancy of every other queue is unchanged. -/
theorem return_code_contract (c : CACHE) (p : PACKET) :
    ((p.test_packet && c.cache_type != NOT_CACHE) = true →
      ((add_rq c p).result = -2 ∨ (add_rq c p).result = c.RQ.occupancy) ∧
      (add_rq c p).cache = c) ∧
    ((p.test_packet && c.cache_type != NOT_CACHE) = false →
      (((add_rq c p).result = -2 ∨ (add_rq c p).result = -1 ∨ (add_rq c p).result = 0) ∧
        queue_occupancies (add_rq c p).cache = queue_occupancies c) ∨
      (appended c.RQ (add_rq c p).cache.RQ p (add_rq c p).result ∧
        queue_occupancies (add_rq c p).cache =
          [c.RQ.occupancy + 1, c.WQ.occupancy, c.PQ.occupancy, c.IVQ.occupancy,
            c.VAPQ.occupancy])) ∧
    ((((add_wq c p).result = -2 ∨ (add_wq c p).result = 0) ∧
        queue_occupancies (add_wq c p).cache = queue_occupancies c) ∨
      (appended c.WQ (add_wq c p).cache.WQ p (add_wq c p).result ∧
        queue_occupancies (add_wq c p).cache =
          [c.RQ.occupancy, c.WQ.occupancy + 1, c.PQ.occupancy, c.IVQ.occupancy,
            c.VAPQ.occupancy])) ∧
    ((((add_pq c p).result = -2 ∨ (add_pq c p).result = -1 ∨ (add_pq c p).result = 0) ∧
        queue_occupancies (add_pq c p).cache = queue_occupancies c) ∨
      (appended c.PQ (add_pq c p).cache.PQ p (add_pq c p).result ∧
        queue_occupancies (add_pq c p).cache =
          [c.RQ.occupancy, c.WQ.occupancy, c.PQ.occupancy + 1, c.IVQ.occupancy,
            c.VAPQ.occupancy])) ∧
    ((((add_ivq c p).result = -4 ∨ (add_ivq c p).result = -3 ∨ (add_ivq c p).result = -2) ∧
        queue_occupancies (add_ivq c p).cache = queue_occupancies c) ∨
      (appended c.IVQ (add_ivq c p).cache.IVQ (add_ivq c p).packet (add_ivq c p).result ∧
        queue_occupancies (add_ivq c p).cache =
          [c.RQ.occupancy, c.WQ.occupancy, c.PQ.occupancy, c.IVQ.occupancy + 1,
            c.VAPQ.occupancy])) := by
  refine ⟨?_, ?_, ?_, ?_, ?_⟩
  · intro h
    unfold add_rq
    rw [if_pos h]
    dsimp only
    split <;> simp
  · intro h
    unfold add_rq
    rw [if_neg (by rw [h]; exact Bool.false_ne_true)]
    dsimp only
    split
    · left; simp [queue_occupancies]
    · split
      · left; simp [queue_occupancies, delay_queue.modify_at_occupancy]
      · split
        · left; simp [queue_occupancies]
        · right
          exact ⟨appended_enqueue _ c.RQ p, by simp [queue_occupancies, enqueue_occupancy]⟩
  · unfold add_wq
    dsimp only
    split
    · left; simp [queue_occupancies]
    · split
      · left; simp [queue_occupancies]
      · split
        · left; simp [queue_occupancies]
        · right
          exact ⟨appended_enqueue _ c.WQ p, by simp [queue_occupancies, enqueue_occupancy]⟩
  · unfold add_pq
    dsimp only
    split
    · left; simp [queue_occupancies]
    · split
      · left; simp [queue_occupancies]
      · split
        · left; simp [queue_occupancies, delay_queue.modify_at_occupancy]
        · split
          · left; simp [queue_occupancies]
          · right
            exact ⟨appended_enqueue _ c.PQ p, by simp [queue_occupancies, enqueue_occupancy]⟩
  · unfold add_ivq
    dsimp only
    split
    · left; simp [queue_occupancies]
    · split
      · split
        · left; simp [queue_occupancies, delay_queue.modify_at_occupancy]
        · split
          · rw [add_ivq_queue_packet]
            rcases add_ivq_queue_result _ _ with h | h
            · left
              refine ⟨Or.inl h.1, ?_⟩
              rw [h.2]
              simp [queue_occupancies, delay_queue.modify_at_occupancy]
            · right
              refine ⟨h.1, ?_⟩
              rw [h.2]
              simp [delay_queue.modify_at_occupancy]
          · rw [add_ivq_queue_packet]
            rcases add_ivq_queue_result _ p with h | h
            · left
              exact ⟨Or.inl h.1, by rw [h.2]; simp [queue_occupancies]⟩
            · right
              exact ⟨h.1, by rw [h.2]⟩
      · rw [add_ivq_queue_packet]
        rcases add_ivq_queue_result _ p with h | h
        · left
          exact ⟨Or.inl h.1, by rw [h.2]; simp [queue_occupancies]⟩
        · right
          exact ⟨h.1, by rw [h.2]⟩

/-- C3, witness: the probe `probe_a` and the load `load_a` on `cache_a`. -/
theorem return_code_contract_witness :
    (((add_rq cache_a probe_a).result = -2 ∨
        (add_rq cache_a probe_a).result = cache_a.RQ.occupancy) ∧
      (add_rq cache_a probe_a).cache = cache_a) ∧
    ((((add_rq cache_a load_a).result = -2 ∨ (add_rq cache_a load_a).result = -1 ∨
          (add_rq cache_a load_a).result = 0) ∧
        queue_occupancies (add_rq cache_a load_a).cache = queue_occupancies cache_a) ∨
      (appended cache_a.RQ (add_rq cache_a load_a).cache.RQ load_a
          (add_rq cache_a load_a).result ∧
        queue_occupancies (add_rq cache_a load_a).cache =
          [cache_a.RQ.occupancy + 1, cache_a.WQ.occupancy, cache_a.PQ.occupancy,
            cache_a.IVQ.occupancy, cache_a.VAPQ.occupancy])) :=
  ⟨(return_code_contract cache_a probe_a).1 (by decide),
   (return_code_contract cache_a load_a).2.1 (by decide)⟩

/-- C3, counterexample: `add_ivq` of the invalidation `inval_same_level` on
`cache_wb_pending` returns `-3`, which is none of `-2`, `-1`, `0` or a positive
value; and the probe `probe_a` on `cache_rq_full` returns the positive value 1
although the RQ occupancy stays 1. -/
theorem add_ivq_returns_minus_three :
    inval_same_level.type = INVALIDATE ∧
    (add_ivq cache_wb_pending inval_same_level).result = -3 ∧
    (add_rq cache_rq_full probe_a).result = 1 ∧
    cache_rq_full.RQ.occupancy = 1 ∧
    (add_rq cache_rq_full probe_a).cache.RQ.occupancy = 1 := by
  decide

/-! ## C4: forwarding from the write queue -/

/-- C4 (as amended): when `p` is no probe and the first WQ entry whose address
agrees with `p.address` at the WQ search granularity (the whole address when
`match_offset_bits` is set, the block otherwise) is `e` with `inv_ongoing = 0`,
`add_rq` returns `-1`, the packet comes back with `data = e.data` and otherwise
unchanged, every producer of `p.to_return` is handed that packet, in order, and
the RQ, WQ, PQ, IVQ, the MSHR and the block array are unchanged. -/
theorem add_rq_forwarded_from_WQ (c : CACHE) (p e : PACKET)
    (ht : p.test_packet = false)
    (hfind : c.WQ.packets.find? (eq_addr_PACKET p.address (match_shamt c)) = some e)
    (hinv : e.inv_ongoing = 0) :
    (add_rq c p).result = -1 ∧
    (add_rq c p).packet = { p with data := e.data } ∧
    (add_rq c p).returned = p.to_return.map (fun ret => (ret, { p with data := e.data })) ∧
    (add_rq c p).cache.RQ = c.RQ ∧ (add_rq c p).cache.WQ = c.WQ ∧
    (add_rq c p).cache.PQ = c.PQ ∧ (add_rq c p).cache.IVQ = c.IVQ ∧
    (add_rq c p).cache.MSHR = c.MSHR ∧ (add_rq c p).cache.block = c.block := by
  obtain ⟨h1, h2⟩ := c.WQ.find_if_of_find _ e hfind
  unfold add_rq
  dsimp only [match_shamt] at h1 h2 ⊢
  simp [ht, h1, h2, hinv]

/-- C4, witness: the load `load_c` of block 12 on `cache_wb_ready`, whose WQ
holds the writeback `wb_ready` of that block. -/
theorem add_rq_forwarded_from_WQ_witness :
    (add_rq cache_wb_ready load_c).result = -1 ∧
    (add_rq cache_wb_ready load_c).packet = { load_c with data := wb_ready.data } ∧
    (add_rq cache_wb_ready load_c).returned =
      load_c.to_return.map (fun ret => (ret, { load_c with data := wb_ready.data })) ∧
    (add_rq cache_wb_ready load_c).cache.RQ = cache_wb_ready.RQ ∧
    (add_rq cache_wb_ready load_c).cache.WQ = cache_wb_ready.WQ ∧
    (add_rq cache_wb_ready load_c).cache.PQ = cache_wb_ready.PQ ∧
    (add_rq cache_wb_ready load_c).cache.IVQ = cache_wb_ready.IVQ ∧
    (add_rq cache_wb_ready load_c).cache.MSHR = cache_wb_ready.MSHR ∧
    (add_rq cache_wb_ready load_c).cache.block = cache_wb_ready.block :=
  add_rq_forwarded_from_WQ cache_wb_ready load_c wb_ready (by decide) (by decide) (by decide)

/-- C4, counterexample: with `match_offset_bits` set, the WQ of
`cache_wb_ready_exact` holds the writeback `wb_ready` of block 12 (not
`NON_VALID`, `inv_ongoing = 0`), yet `add_rq` of the load `load_c` of block 12,
at another byte of the block, is not forwarded: it is pushed onto the RQ and
returns 1. -/
theorem add_rq_not_forwarded_exact_match :
    wb_ready ∈ cache_wb_ready_exact.WQ.packets ∧
    wb_ready.type ≠ NON_VALID ∧ wb_ready.inv_ongoing = 0 ∧
    wb_ready.address >>> cache_wb_ready_exact.OFFSET_BITS =
      load_c.address >>> cache_wb_ready_exact.OFFSET_BITS ∧
    load_c.test_packet = false ∧
    (add_rq cache_wb_ready_exact load_c).result = 1 ∧
    (add_rq cache_wb_ready_exact load_c).cache.RQ.packets = [load_c] := by
  decide

/-! ## C5: two loads of one block -/

/-- A packet that is no probe is pushed onto an empty RQ with room when the WQ
is empty. -/
theorem add_rq_push_empty (c : CACHE) (p1 : PACKET)
    (hWQ : c.WQ.buf = []) (hRQ : c.RQ.buf = []) (hfull : c.RQ.full = false)
    (h1 : p1.test_packet = false) :
    (add_rq c p1).result = 1 ∧ (add_rq c p1).cache.WQ = c.WQ ∧
    (add_rq c p1).cache.OFFSET_BITS = c.OFFSET_BITS ∧
    ∃ d, (add_rq c p1).cache.RQ.buf = [(p1, d)] := by
  unfold add_rq
  simp only [h1, Bool.false_and, Bool.false_eq_true, if_false]
  have e1 : ∀ s, c.WQ.find_if (eq_addr_PACKET p1.address s) = c.WQ.past_end := by
    intro s; simp [delay_queue.find_if, delay_queue.past_end, delay_queue.packets, hWQ]
  have e2 : c.RQ.find_if (eq_addr_PACKET p1.address c.OFFSET_BITS) = c.RQ.past_end := by
    simp [delay_queue.find_if, delay_queue.past_end, delay_queue.packets, hRQ]
  simp only [e1, e2, bne_self_eq_false, Bool.false_and, Bool.false_eq_true, if_false, hfull]
  refine ⟨?_, trivial, trivial, ?_⟩
  · rw [enqueue_occupancy]
    simp [delay_queue.occupancy, hRQ]
  · obtain ⟨d, hd⟩ := enqueue_buf
      { c with RQ_ACCESS := c.RQ_ACCESS + 1 } c.RQ p1
    exact ⟨d, by rw [hd, hRQ]; rfl⟩

/-- A packet that is no probe is merged into an RQ that holds one entry of its
block when the WQ is empty. -/
theorem add_rq_merge_single (c : CACHE) (p1 p2 : PACKET) (d : Nat)
    (hWQ : c.WQ.buf = []) (hRQ : c.RQ.buf = [(p1, d)])
    (h2 : p2.test_packet = false)
    (hblk : p1.address >>> c.OFFSET_BITS = p2.address >>> c.OFFSET_BITS) :
    (add_rq c p2).result = 0 ∧
    (add_rq c p2).cache.RQ.packets =
      [{ p1 with
          lq_index_depend_on_me := p1.lq_index_depend_on_me ++ p2.lq_index_depend_on_me,
          sq_index_depend_on_me := p1.sq_index_depend_on_me ++ p2.sq_index_depend_on_me,
          instr_depend_on_me := p1.instr_depend_on_me ++ p2.instr_depend_on_me,
          to_return := p1.to_return ++ p2.to_return }] := by
  have hd : c.RQ.buf = [] ++ (p1, d) :: [] := hRQ
  have hidx := delay_queue.find_if_split c.RQ
    (eq_addr_PACKET p2.address c.OFFSET_BITS) [] [] p1 d hd (by simp)
    (by simp [eq_addr_PACKET, hblk])
  have hmod := fun f => delay_queue.modify_at_split c.RQ [] [] p1 d f hd
  have hne := delay_queue.past_end_split c.RQ [] [] (p1, d) hd
  have e1 : ∀ s, c.WQ.find_if (eq_addr_PACKET p2.address s) = c.WQ.past_end := by
    intro s; simp [delay_queue.find_if, delay_queue.past_end, delay_queue.packets, hWQ]
  unfold add_rq
  simp only [h2, Bool.false_and, Bool.false_eq_true, if_false]
  simp only [e1, bne_self_eq_false, Bool.false_and, Bool.false_eq_true, if_false]
  rw [hidx]
  have hne2 : ((([] : List (PACKET × Nat)).length != c.RQ.past_end) = true) := by
    simpa using hne
  rw [if_pos hne2]
  refine ⟨rfl, ?_⟩
  simp only [delay_queue.packets, hmod, packet_dep_merge]
  rfl

/-- C5: on a cache with an empty WQ and an empty RQ that is not full, for two
packets `p1`, `p2` that are no probes and lie in the same block, `add_rq p1`
returns 1 and the following `add_rq p2` returns 0; afterwards the RQ holds
exactly one entry, which is `p1` with the dependency lists of `p2` appended to
its own and with `to_return` the producers of `p1` followed by those of `p2`. -/
theorem add_rq_twice_merges (c : CACHE) (p1 p2 : PACKET)
    (hWQ : c.WQ.buf = []) (hRQ : c.RQ.buf = []) (hfull : c.RQ.full = false)
    (h1 : p1.test_packet = false) (h2 : p2.test_packet = false)
    (hblk : p1.address >>> c.OFFSET_BITS = p2.address >>> c.OFFSET_BITS) :
    (add_rq c p1).result = 1 ∧
    (add_rq (add_rq c p1).cache p2).result = 0 ∧
    (add_rq (add_rq c p1).cache p2).cache.RQ.packets =
      [{ p1 with
          lq_index_depend_on_me := p1.lq_index_depend_on_me ++ p2.lq_index_depend_on_me,
          sq_index_depend_on_me := p1.sq_index_depend_on_me ++ p2.sq_index_depend_on_me,
          instr_depend_on_me := p1.instr_depend_on_me ++ p2.instr_depend_on_me,
          to_return := p1.to_return ++ p2.to_return }] := by
  obtain ⟨hr, hW, hO, d, hd⟩ := add_rq_push_empty c p1 hWQ hRQ hfull h1
  refine ⟨hr, ?_⟩
  exact add_rq_merge_single (add_rq c p1).cache p1 p2 d (by rw [hW]; exact hWQ) hd h2
    (by rw [hO]; exact hblk)

/-- C5, witness: the loads `load_a` and `load_b` of block 2 on `cache_a`. -/
theorem add_rq_twice_merges_witness :
    (add_rq cache_a load_a).result = 1 ∧
    (add_rq (add_rq cache_a load_a).cache load_b).result = 0 ∧
    (add_rq (add_rq cache_a load_a).cache load_b).cache.RQ.packets =
      [{ load_a with
          lq_index_depend_on_me := load_a.lq_index_depend_on_me ++ load_b.lq_index_depend_on_me,
          sq_index_depend_on_me := load_a.sq_index_depend_on_me ++ load_b.sq_index_depend_on_me,
          instr_depend_on_me := load_a.instr_depend_on_me ++ load_b.instr_depend_on_me,
          to_return := load_a.to_return ++ load_b.to_return }] :=
  add_rq_twice_merges cache_a load_a load_b (by decide) (by decide) (by decide) (by decide)
    (by decide) (by decide)

/-! ## C6: the decision order of `add_pq` -/

/-- C6 (as amended): with the IVQ and the WQ searched at the granularity
`match_shamt` (the whole address when `match_offset_bits` is set, the block
otherwise) and the PQ searched by block, `add_pq` returns `-2` with the PQ
unchanged when the IVQ holds the address; otherwise `-1` with `p.data = w.data`
and the PQ unchanged, `w` being the first WQ entry of the address; otherwise `0`
when the PQ holds an entry of the block, the first such entry `f` getting
`fill_level = min f.fill_level p.fill_level` and the producers of `p` appended
to its `to_return`, and the rest of the PQ unchanged; otherwise `-2` with the PQ
unchanged when the PQ is full; otherwise `p` is appended and the result is the
new PQ occupancy. -/
theorem add_pq_decision_order (c : CACHE) (p : PACKET) :
    (c.IVQ.holds p.address (match_shamt c) →
      (add_pq c p).result = -2 ∧ (add_pq c p).cache.PQ = c.PQ) ∧
    (¬ c.IVQ.holds p.address (match_shamt c) →
      ∀ w, c.WQ.packets.find? (eq_addr_PACKET p.address (match_shamt c)) = some w →
        (add_pq c p).result = -1 ∧ (add_pq c p).packet.data = w.data ∧
        (add_pq c p).cache.PQ = c.PQ) ∧
    (¬ c.IVQ.holds p.address (match_shamt c) → ¬ c.WQ.holds p.address (match_shamt c) →
      ∀ pre f d post, c.PQ.buf = pre ++ (f, d) :: post →
        (∀ x ∈ pre, x.1.address >>> c.OFFSET_BITS ≠ p.address >>> c.OFFSET_BITS) →
        f.address >>> c.OFFSET_BITS = p.address >>> c.OFFSET_BITS →
        (add_pq c p).result = 0 ∧
        (add_pq c p).cache.PQ.buf =
          pre ++ ({ f with fill_level := min f.fill_level p.fill_level,
                           to_return := f.to_return ++ p.to_return }, d) :: post ∧
        (add_pq c p).cache.PQ.occupancy = c.PQ.occupancy) ∧
    (¬ c.IVQ.holds p.address (match_shamt c) → ¬ c.WQ.holds p.address (match_shamt c) →
      ¬ c.PQ.holds p.address c.OFFSET_BITS → c.PQ.full = true →
      (add_pq c p).result = -2 ∧ (add_pq c p).cache.PQ = c.PQ) ∧
    (¬ c.IVQ.holds p.address (match_shamt c) → ¬ c.WQ.holds p.address (match_shamt c) →
      ¬ c.PQ.holds p.address c.OFFSET_BITS → c.PQ.full = false →
      appended c.PQ (add_pq c p).cache.PQ p (add_pq c p).result) := by
  refine ⟨?_, ?_, ?_, ?_, ?_⟩
  · intro hivq
    have h : c.IVQ.find_if (eq_addr_PACKET p.address (match_shamt c)) ≠ c.IVQ.past_end :=
      fun h => ((c.IVQ.find_if_eq_past_end _ _).1 h) hivq
    unfold add_pq
    dsimp only [match_shamt] at h ⊢
    simp [h]
  · intro hivq w hw
    rw [← delay_queue.find_if_eq_past_end] at hivq
    obtain ⟨h1, h2⟩ := c.WQ.find_if_of_find _ w hw
    unfold add_pq
    dsimp only [match_shamt] at hivq h1 h2 ⊢
    simp [hivq, h1, h2]
  · intro hivq hwq pre f d post hbuf hpre hf
    rw [← delay_queue.find_if_eq_past_end] at hivq hwq
    have hidx := delay_queue.find_if_split c.PQ
      (eq_addr_PACKET p.address c.OFFSET_BITS) pre post f d hbuf
      (by intro x hx; simpa [eq_addr_PACKET] using hpre x hx)
      (by simp [eq_addr_PACKET, hf])
    have hmod := fun g => delay_queue.modify_at_split c.PQ pre post f d g hbuf
    have hne := delay_queue.past_end_split c.PQ pre post (f, d) hbuf
    unfold add_pq
    dsimp only [match_shamt] at hivq hwq ⊢
    simp only [hivq, hwq, bne_self_eq_false, Bool.false_eq_true, if_false]
    rw [hidx]
    have hne2 : ((pre.length != c.PQ.past_end) = true) := by simpa using hne
    rw [if_pos hne2]
    refine ⟨rfl, ?_, ?_⟩
    · simp only [hmod, packet_dep_merge]
    · simp only [delay_queue.modify_at_occupancy]
  · intro hivq hwq hpq hfull
    rw [← delay_queue.find_if_eq_past_end] at hivq hwq hpq
    unfold add_pq
    dsimp only [match_shamt] at hivq hwq ⊢
    simp [hivq, hwq, hpq, hfull]
  · intro hivq hwq hpq hfull
    rw [← delay_queue.find_if_eq_past_end] at hivq hwq hpq
    unfold add_pq
    dsimp only [match_shamt] at hivq hwq ⊢
    simp only [hivq, hwq, hpq, hfull, bne_self_eq_false, Bool.false_eq_true, if_false]
    exact appended_enqueue _ c.PQ p

/-- C6, witness: the prefetch `pref_c` of block 12 is forwarded from the WQ of
`cache_wb_ready`, and merged into the second PQ entry of `cache_pq_held`, whose
fill level drops from 4 to 1. -/
theorem add_pq_decision_order_witness :
    ((add_pq cache_wb_ready pref_c).result = -1 ∧
      (add_pq cache_wb_ready pref_c).packet.data = wb_ready.data ∧
      (add_pq cache_wb_ready pref_c).cache.PQ = cache_wb_ready.PQ) ∧
    ((add_pq cache_pq_held pref_c).result = 0 ∧
      (add_pq cache_pq_held pref_c).cache.PQ.buf =
        [(pref_a, 0)] ++
          ({ pref_held with fill_level := min pref_held.fill_level pref_c.fill_level,
                            to_return := pref_held.to_return ++ pref_c.to_return }, 3) :: [] ∧
      (add_pq cache_pq_held pref_c).cache.PQ.occupancy = cache_pq_held.PQ.occupancy) :=
  ⟨(add_pq_decision_order cache_wb_ready pref_c).2.1 (by decide) wb_ready (by decide),
   (add_pq_decision_order cache_pq_held pref_c).2.2.1 (by decide) (by decide)
     [(pref_a, 0)] pref_held 3 [] (by decide) (by decide) (by decide)⟩

/-- C6, counterexample: with `match_offset_bits` set, the IVQ of
`cache_ivq_exact` holds an entry of block 12, yet `add_pq` of the prefetch
`pref_c` of block 12, at another byte of the block, is pushed and returns 1
instead of `-2`. -/
theorem add_pq_no_conflict_exact_match :
    pref_c.address ≠ 0 ∧
    cache_ivq_exact.IVQ.holds pref_c.address cache_ivq_exact.OFFSET_BITS ∧
    (add_pq cache_ivq_exact pref_c).result = 1 ∧
    (add_pq cache_ivq_exact pref_c).cache.PQ.packets = [pref_c] := by
  decide

/-! ## C7 and C8: an invalidation that meets a pending writeback -/

/-- C7: when the IVQ is not full and the WQ entry that `add_ivq` finds for the
block of `p` (the first one of the block) is `e` with `e.fill_level =
p.fill_level`, `add_ivq` returns `-3`; in the WQ that entry has `inv_ongoing`
decreased by `p.merge_count` and `data` replaced by `p.data` if `p.data_valid`
(kept otherwise), and nothing else in the WQ changes; the IVQ and the packet are
unchanged. -/
theorem add_ivq_merged_into_WQ (c : CACHE) (p e : PACKET) (pre post : List (PACKET × Nat))
    (d : Nat) (hfull : c.IVQ.full = false)
    (hbuf : c.WQ.buf = pre ++ (e, d) :: post)
    (hpre : ∀ x ∈ pre, x.1.address >>> c.OFFSET_BITS ≠ p.address >>> c.OFFSET_BITS)
    (he : e.address >>> c.OFFSET_BITS = p.address >>> c.OFFSET_BITS)
    (hfl : e.fill_level = p.fill_level) :
    (add_ivq c p).result = -3 ∧
    (add_ivq c p).cache.WQ.buf =
      pre ++ ({ e with data := if p.data_valid then p.data else e.data,
                       inv_ongoing := e.inv_ongoing - (p.merge_count : Int) }, d) :: post ∧
    (add_ivq c p).cache.IVQ = c.IVQ ∧ (add_ivq c p).packet = p := by
  have hidx := delay_queue.find_if_split c.WQ
    (eq_addr_PACKET p.address c.OFFSET_BITS) pre post e d hbuf
    (by intro x hx; simpa [eq_addr_PACKET] using hpre x hx)
    (by simp [eq_addr_PACKET, he])
  have hmod := fun g => delay_queue.modify_at_split c.WQ pre post e d g hbuf
  have hne := delay_queue.past_end_split c.WQ pre post (e, d) hbuf
  have hde := delay_queue.deref_split c.WQ pre post e d hbuf
  have hne2 : ((pre.length != c.WQ.past_end) = true) := by simpa using hne
  unfold add_ivq
  dsimp only
  rw [if_neg (by rw [hfull]; exact Bool.false_ne_true), hidx, if_pos hne2, hde,
    if_pos (by simp [hfl])]
  exact ⟨rfl, hmod _, rfl, rfl⟩

/-- C7, witness: the invalidation `inval_same_level` (fill level 2, data 99,
`merge_count` 1) meets the writeback `wb_pending` (fill level 2, `inv_ongoing`
2) in the WQ of `cache_wb_pending`. -/
theorem add_ivq_merged_into_WQ_witness :
    (add_ivq cache_wb_pending inval_same_level).result = -3 ∧
    (add_ivq cache_wb_pending inval_same_level).cache.WQ.buf =
      [] ++ ({ wb_pending with
                data := if inval_same_level.data_valid then inval_same_level.data
                        else wb_pending.data,
                inv_ongoing := wb_pending.inv_ongoing - (inval_same_level.merge_count : Int) },
             0) :: [] ∧
    (add_ivq cache_wb_pending inval_same_level).cache.IVQ = cache_wb_pending.IVQ ∧
    (add_ivq cache_wb_pending inval_same_level).packet = inval_same_level :=
  add_ivq_merged_into_WQ cache_wb_pending inval_same_level wb_pending [] [] 0 (by decide)
    (by decide) (by decide) (by decide) (by decide)

/-- C8: when the IVQ is not full and the WQ entry that `add_ivq` finds for the
block of `p` (the first one of the block) is `e` with `e.fill_level <
p.fill_level`, then after `add_ivq` that entry has type `NON_VALID` and the rest
of the WQ is unchanged, so the WQ occupancy is unchanged; if `e` was a
`WRITEBACK` and `p` had no valid data, the packet comes back with `data =
e.data` and `data_valid` set; a packet that had `data_valid` comes back
unchanged. -/
theorem add_ivq_cancels_writeback (c : CACHE) (p e : PACKET) (pre post : List (PACKET × Nat))
    (d : Nat) (hfull : c.IVQ.full = false)
    (hbuf : c.WQ.buf = pre ++ (e, d) :: post)
    (hpre : ∀ x ∈ pre, x.1.address >>> c.OFFSET_BITS ≠ p.address >>> c.OFFSET_BITS)
    (he : e.address >>> c.OFFSET_BITS = p.address >>> c.OFFSET_BITS)
    (hfl : e.fill_level < p.fill_level) :
    (add_ivq c p).cache.WQ.buf = pre ++ ({ e with type := NON_VALID }, d) :: post ∧
    (add_ivq c p).cache.WQ.occupancy = c.WQ.occupancy ∧
    (e.type = WRITEBACK → p.data_valid = false →
      (add_ivq c p).packet.data = e.data ∧ (add_ivq c p).packet.data_valid = true) ∧
    (p.data_valid = true → (add_ivq c p).packet = p) := by
  have hidx := delay_queue.find_if_split c.WQ
    (eq_addr_PACKET p.address c.OFFSET_BITS) pre post e d hbuf
    (by intro x hx; simpa [eq_addr_PACKET] using hpre x hx)
    (by simp [eq_addr_PACKET, he])
  have hmod := fun g => delay_queue.modify_at_split c.WQ pre post e d g hbuf
  have hne := delay_queue.past_end_split c.WQ pre post (e, d) hbuf
  have hde := delay_queue.deref_split c.WQ pre post e d hbuf
  have hne2 : ((pre.length != c.WQ.past_end) = true) := by simpa using hne
  unfold add_ivq
  dsimp only
  rw [if_neg (by rw [hfull]; exact Bool.false_ne_true), hidx, if_pos hne2, hde,
    if_neg (by simp; omega), if_pos hfl]
  rw [add_ivq_queue_WQ, add_ivq_queue_packet]
  refine ⟨hmod _, ?_, ?_, ?_⟩
  · simp [delay_queue.occupancy, hmod, hbuf]
  · intro hty hdv
    simp [hty, hdv, WRITEBACK, WRITEBACK_EXCLUSIVE]
  · intro hdv
    simp [hdv]

/-- C8, witness: the invalidation `inval_higher_level` (fill level 3, no data)
meets the writeback `wb_pending` (fill level 2) in the WQ of
`cache_wb_pending`. -/
theorem add_ivq_cancels_writeback_witness :
    (add_ivq cache_wb_pending inval_higher_level).cache.WQ.buf =
      [] ++ ({ wb_pending with type := NON_VALID }, 0) :: [] ∧
    (add_ivq cache_wb_pending inval_higher_level).cache.WQ.occupancy =
      cache_wb_pending.WQ.occupancy ∧
    (wb_pending.type = WRITEBACK → inval_higher_level.data_valid = false →
      (add_ivq cache_wb_pending inval_higher_level).packet.data = wb_pending.data ∧
      (add_ivq cache_wb_pending inval_higher_level).packet.data_valid = true) ∧
    (inval_higher_level.data_valid = true →
      (add_ivq cache_wb_pending inval_higher_level).packet = inval_higher_level) :=
  add_ivq_cancels_writeback cache_wb_pending inval_higher_level wb_pending [] [] 0 (by decide)
    (by decide) (by decide) (by decide) (by decide)

/-! ## C9: the set index -/

/-- The halving loop returns an exponent whose power of two is at most `n`. -/
theorem lg2_aux_pow_le (fuel : Nat) : ∀ n, 1 ≤ n → 2 ^ lg2_aux fuel n ≤ n := by
  induction fuel with
  | zero => intro n hn; simpa [lg2_aux] using hn
  | succ f ih =>
    intro n hn
    unfold lg2_aux
    split
    · simpa using hn
    · have h2 : 1 ≤ n / 2 := by omega
      have := ih (n / 2) h2
      rw [pow_add, pow_one]
      omega

/-- The halving loop recovers the exponent of a power of two. -/
theorem lg2_aux_pow (k : Nat) : ∀ fuel, k ≤ fuel → lg2_aux fuel (2 ^ k) = k := by
  induction k with
  | zero =>
    intro fuel _
    cases fuel <;> simp [lg2_aux]
  | succ k ih =>
    intro fuel hf
    obtain ⟨f, rfl⟩ : ∃ f, fuel = f + 1 := ⟨fuel - 1, by omega⟩
    have h2 : ¬ 2 ^ (k + 1) < 2 := by
      have : 1 ≤ 2 ^ k := Nat.one_le_two_pow
      rw [pow_succ]; omega
    have hdiv : 2 ^ (k + 1) / 2 = 2 ^ k := by
      rw [pow_succ]; simp
    unfold lg2_aux
    rw [if_neg h2, hdiv, ih f (by omega)]
    omega

/-- The logarithm of a power of two is its exponent. -/
theorem lg2_pow (k : Nat) : lg2 (2 ^ k) = k :=
  lg2_aux_pow k (2 ^ k) (Nat.lt_two_pow k).le

/-- Two to the logarithm of `n` is at most `n`. -/
theorem lg2_pow_le (n : Nat) (hn : 1 ≤ n) : 2 ^ lg2 n ≤ n :=
  lg2_aux_pow_le n n hn

/-- Whatever the mask, masking is not the reduction modulo 3: the set index of
a cache with three sets cannot be `mod NUM_SET` for any value of
`bitmask(lg2(NUM_SET))`. -/
theorem no_mask_reduces_mod_three (m : Nat) : ¬ ∀ a : Nat, a &&& m = a % 3 := by
  intro h
  have a : (1 &&& m).testBit 0 = (1 % 3).testBit 0 := by rw [h 1]
  have b : (3 &&& m).testBit 0 = (3 % 3).testBit 0 := by rw [h 3]
  rw [Nat.testBit_and] at a b
  have t1 : Nat.testBit 1 0 = true := by decide
  have t3 : Nat.testBit 3 0 = true := by decide
  have t0 : Nat.testBit (3 % 3) 0 = false := by decide
  have t11 : Nat.testBit (1 % 3) 0 = true := by decide
  have a1 : m.testBit 0 = true := by simpa [t1, t11] using a
  have b1 : m.testBit 0 = false := by simpa [t3, t0] using b
  rw [a1] at b1
  exact Bool.noConfusion b1

/-- C9 (as amended): for every address and every configuration with `NUM_SET >=
1`, `get_set` is strictly less than `NUM_SET`; and when `NUM_SET` is a power of
two, `get_set` equals `(address >> OFFSET_BITS) mod NUM_SET`. -/
theorem get_set_bound_and_mod (c : CACHE) (address : Nat) (hN : 1 ≤ c.NUM_SET) :
    get_set c address < c.NUM_SET ∧
    ∀ k, c.NUM_SET = 2 ^ k →
      get_set c address = (address >>> c.OFFSET_BITS) % c.NUM_SET := by
  constructor
  · have h1 : get_set c address ≤ bitmask (lg2 c.NUM_SET) := Nat.and_le_right
    have h2 := lg2_pow_le c.NUM_SET hN
    have h3 : 1 ≤ 2 ^ lg2 c.NUM_SET := Nat.one_le_two_pow
    unfold bitmask at h1
    omega
  · intro k hk
    unfold get_set bitmask
    rw [hk, lg2_pow, Nat.and_pow_two_sub_one_eq_mod]

/-- C9, witness: address 0x1C0 (block 7) in a cache of four sets is in set 3. -/
theorem get_set_bound_and_mod_witness :
    get_set cache_four_sets 0x1C0 < cache_four_sets.NUM_SET ∧
    get_set cache_four_sets 0x1C0 =
      (0x1C0 >>> cache_four_sets.OFFSET_BITS) % cache_four_sets.NUM_SET :=
  ⟨(get_set_bound_and_mod cache_four_sets 0x1C0 (by decide)).1,
   (get_set_bound_and_mod cache_four_sets 0x1C0 (by decide)).2 2 (by decide)⟩

/-- C9, counterexample: in a cache of three sets, address 0x80 (block 2) is
mapped to set 0, while `(0x80 >> OFFSET_BITS) mod 3` is 2. -/
theorem get_set_three_sets :
    1 ≤ cache_three_sets.NUM_SET ∧
    get_set cache_three_sets 0x80 = 0 ∧
    (0x80 >>> cache_three_sets.OFFSET_BITS) % cache_three_sets.NUM_SET = 2 ∧
    get_set cache_three_sets 0x80 ≠
      (0x80 >>> cache_three_sets.OFFSET_BITS) % cache_three_sets.NUM_SET := by
  decide

/-! ## C10: the way lookup -/

/-- The slice of the block array that `get_way` scans has `NUM_WAY` blocks. -/
theorem set_slice_length (c : CACHE) (s : Nat)
    (hlen : c.block.length = c.NUM_SET * c.NUM_WAY) (hs : s < c.NUM_SET) :
    ((c.block.drop (s * c.NUM_WAY)).take c.NUM_WAY).length = c.NUM_WAY := by
  rw [List.length_take, List.length_drop, hlen]
  have : (s + 1) * c.NUM_WAY ≤ c.NUM_SET * c.NUM_WAY := Nat.mul_le_mul_right _ hs
  rw [Nat.add_mul, Nat.one_mul] at this
  omega

/-- Way `w` of the scanned slice is the block at `s * NUM_WAY + w`. -/
theorem set_slice_get (c : CACHE) (s w : Nat) (hw : w < c.NUM_WAY) :
    ((c.block.drop (s * c.NUM_WAY)).take c.NUM_WAY)[w]? = c.block[s * c.NUM_WAY + w]? := by
  rw [List.getElem?_take_of_lt hw, List.getElem?_drop]

/-- A way is a hit exactly when `eq_addr<BLOCK>` accepts its block. -/
theorem way_hit_iff (c : CACHE) (address s w : Nat) (hw : w < c.NUM_WAY)
    (hl : w < ((c.block.drop (s * c.NUM_WAY)).take c.NUM_WAY).length) :
    way_hit c address s w ↔
      eq_addr_BLOCK address c.OFFSET_BITS
        (((c.block.drop (s * c.NUM_WAY)).take c.NUM_WAY)[w]) = true := by
  have h := set_slice_get c s w hw
  rw [List.getElem?_eq_getElem hl] at h
  unfold way_hit eq_addr_BLOCK
  rw [← h]
  simp

/-- C10: for a block array of `NUM_SET * NUM_WAY` blocks, every address and
every set `s < NUM_SET`, `get_way` is at most `NUM_WAY`; when it is less than
`NUM_WAY` it is a way of the set that holds a valid block of the block of the address
and no smaller way does; and it is `NUM_WAY` exactly when no way of the set
holds a valid block of the block of the address. -/
theorem get_way_first_valid_match (c : CACHE) (address s : Nat)
    (hlen : c.block.length = c.NUM_SET * c.NUM_WAY) (hs : s < c.NUM_SET) :
    get_way c address s ≤ c.NUM_WAY ∧
    (get_way c address s < c.NUM_WAY →
      way_hit c address s (get_way c address s) ∧
      ∀ w, w < get_way c address s → ¬ way_hit c address s w) ∧
    (get_way c address s = c.NUM_WAY ↔ ∀ w, w < c.NUM_WAY → ¬ way_hit c address s w) := by
  have hL := set_slice_length c s hlen hs
  have hle : get_way c address s ≤ c.NUM_WAY := by
    have := @List.findIdx_le_length _ (eq_addr_BLOCK address c.OFFSET_BITS)
      ((c.block.drop (s * c.NUM_WAY)).take c.NUM_WAY)
    rw [hL] at this
    exact this
  refine ⟨hle, ?_, ?_⟩
  · intro hlt
    have hlt2 : get_way c address s <
        ((c.block.drop (s * c.NUM_WAY)).take c.NUM_WAY).length := by rw [hL]; exact hlt
    constructor
    · rw [way_hit_iff c address s _ hlt hlt2]
      exact List.findIdx_getElem
    · intro w hw
      have hwW : w < c.NUM_WAY := lt_trans hw hlt
      rw [way_hit_iff c address s w hwW (by rw [hL]; exact hwW)]
      have := @List.not_of_lt_findIdx _ (eq_addr_BLOCK address c.OFFSET_BITS)
        ((c.block.drop (s * c.NUM_WAY)).take c.NUM_WAY) w hw
      rw [this]
      exact Bool.false_ne_true
  · constructor
    · intro heq w hw
      rw [way_hit_iff c address s w hw (by rw [hL]; exact hw)]
      have hw2 : w < get_way c address s := by rw [heq]; exact hw
      have := @List.not_of_lt_findIdx _ (eq_addr_BLOCK address c.OFFSET_BITS)
        ((c.block.drop (s * c.NUM_WAY)).take c.NUM_WAY) w hw2
      rw [this]
      exact Bool.false_ne_true
    · intro hall
      by_contra hne
      have hlt : get_way c address s < c.NUM_WAY := lt_of_le_of_ne hle hne
      have hlt2 : get_way c address s <
          ((c.block.drop (s * c.NUM_WAY)).take c.NUM_WAY).length := by rw [hL]; exact hlt
      apply hall _ hlt
      rw [way_hit_iff c address s _ hlt hlt2]
      exact List.findIdx_getElem

/-- C10, witness: the lookup of address 0xC0 (block 3) in set 1 of
`cache_two_sets`, which holds block 1 in way 0 and block 3 in way 1. -/
theorem get_way_first_valid_match_witness :
    get_way cache_two_sets 0xC0 1 ≤ cache_two_sets.NUM_WAY ∧
    (get_way cache_two_sets 0xC0 1 < cache_two_sets.NUM_WAY →
      way_hit cache_two_sets 0xC0 1 (get_way cache_two_sets 0xC0 1) ∧
      ∀ w, w < get_way cache_two_sets 0xC0 1 → ¬ way_hit cache_two_sets 0xC0 1 w) ∧
    (get_way cache_two_sets 0xC0 1 = cache_two_sets.NUM_WAY ↔
      ∀ w, w < cache_two_sets.NUM_WAY → ¬ way_hit cache_two_sets 0xC0 1 w) :=
  get_way_first_valid_match cache_two_sets 0xC0 1 (by decide) (by decide)

/-! ## C15: a demand miss on a prefetch in flight -/

theorem iter_swap_length (l : List PACKET) (i j : Nat) : (iter_swap l i j).length = l.length := by
  unfold iter_swap
  split <;> simp

theorem return_data_only_MSHR (c : CACHE) (p : PACKET) : only_MSHR c (return_data c p) := by
  unfold only_MSHR return_data
  dsimp only
  split <;> rfl

theorem return_data_length (c : CACHE) (p : PACKET) :
    (return_data c p).MSHR.length = c.MSHR.length := by
  unfold return_data
  dsimp only
  split
  · rfl
  · simp [iter_swap_length]

theorem only_MSHR_refl (c : CACHE) : only_MSHR c c := rfl

theorem only_MSHR_trans {c d e : CACHE} (h1 : only_MSHR c d) (h2 : only_MSHR d e) :
    only_MSHR c e := by
  unfold only_MSHR at *
  rw [h2, h1]

theorem deliver_only_MSHR (l : List PACKET) : ∀ c : CACHE, only_MSHR c (deliver c l) := by
  induction l with
  | nil => intro c; exact only_MSHR_refl c
  | cons x xs ih =>
    intro c
    exact only_MSHR_trans (return_data_only_MSHR c x) (ih (return_data c x))

theorem deliver_length (l : List PACKET) : ∀ c : CACHE,
    (deliver c l).MSHR.length = c.MSHR.length := by
  induction l with
  | nil => intro c; rfl
  | cons x xs ih =>
    intro c
    show (deliver (return_data c x) xs).MSHR.length = _
    rw [ih, return_data_length]

theorem train_prefetcher_cache (n : Neighbours W) (s : Sys W) (p : PACKET) (hit : Nat) :
    (train_prefetcher n s p hit).2.cache = { s.cache with cpu := (train_prefetcher n s p hit).2.cache.cpu } ∧
    (train_prefetcher n s p hit).2.trace = s.trace := by
  unfold train_prefetcher
  split <;> exact ⟨rfl, rfl⟩

theorem getD_split_PACKET (pre post : List PACKET) (e d : PACKET) :
    (pre ++ e :: post).getD pre.length d = e := getD_split pre post e d

theorem set_split {α : Type} (pre post : List α) (e x : α) :
    (pre ++ e :: post).set pre.length x = pre ++ x :: post := by
  induction pre with
  | nil => rfl
  | cons y ys ih => simp [ih]

theorem readlike_miss_inflight (n : Neighbours W) (s : Sys W) (p : PACKET)
    (h : s.cache.MSHR.findIdx (eq_addr_PACKET p.address s.cache.OFFSET_BITS)
      ≠ s.cache.MSHR.length) :
    readlike_miss n s p = merge_miss n s
      (s.cache.MSHR.findIdx (eq_addr_PACKET p.address s.cache.OFFSET_BITS)) p := by
  unfold readlike_miss
  dsimp only
  rw [if_pos (by simpa using h)]

theorem merge_inflight_upgrade (c : CACHE) (p e : PACKET) (pre post : List PACKET)
    (hM : c.MSHR = pre ++ e :: post) (hty : e.type = PREFETCH) (hp : p.type ≠ PREFETCH) :
    (merge_inflight c pre.length p).MSHR
      = pre ++ { p with event_cycle := e.event_cycle } :: post := by
  have hget : c.MSHR.getD pre.length {} = e := by
    rw [hM]; exact getD_split pre post e {}
  have hup : ((mshr_merge e p).type == PREFETCH && p.type != PREFETCH) = true := by
    simp [mshr_merge, hty, hp]
  unfold merge_inflight
  dsimp only
  rw [hget, if_pos hup]
  dsimp only
  rw [hM, set_split]
  rfl

/-- C15: a miss that is not a prefetch, on a cache whose MSHR holds a prefetch
entry `e` for the block at its first matching position, returns true and
leaves the MSHR as it was except that this position now holds the packet with
the `event_cycle` of `e`: same length, same position, the type of the packet,
and the entry is returned afterwards exactly when it was before. -/
theorem readlike_miss_prefetch_upgrade (n : Neighbours W) (s : Sys W) (p e : PACKET)
    (pre post : List PACKET) (hM : s.cache.MSHR = pre ++ e :: post)
    (hpre : ∀ x ∈ pre, x.address >>> s.cache.OFFSET_BITS ≠ p.address >>> s.cache.OFFSET_BITS)
    (he : e.address >>> s.cache.OFFSET_BITS = p.address >>> s.cache.OFFSET_BITS)
    (hty : e.type = PREFETCH) (hp : p.type ≠ PREFETCH) :
    (readlike_miss n s p).success = true ∧
    (readlike_miss n s p).sys.cache.MSHR =
      pre ++ { p with event_cycle := e.event_cycle } :: post := by
  have hidx : s.cache.MSHR.findIdx (eq_addr_PACKET p.address s.cache.OFFSET_BITS) = pre.length := by
    rw [hM]
    exact findIdx_split _ pre post e (by intro x hx; simpa [eq_addr_PACKET] using hpre x hx)
      (by simp [eq_addr_PACKET, he])
  have hne : s.cache.MSHR.findIdx (eq_addr_PACKET p.address s.cache.OFFSET_BITS)
      ≠ s.cache.MSHR.length := by
    rw [hidx, hM]; simp
  rw [readlike_miss_inflight n s p hne, hidx]
  refine ⟨rfl, ?_⟩
  unfold merge_miss
  dsimp only
  rw [(train_prefetcher_cache n _ p 0).1]
  exact merge_inflight_upgrade s.cache p e pre post hM hty hp

/-! ## C16: what a fill installs -/

@[simp] theorem call_add_wq_cache (n : Neighbours W) (s : Sys W) (p : PACKET) :
    (call_add_wq n s p).sys.cache = s.cache := rfl

@[simp] theorem call_add_ivq_cache (n : Neighbours W) (s : Sys W) (p : PACKET) :
    (call_add_ivq n s p).sys.cache = s.cache := rfl

@[simp] theorem call_upper_add_ivq_cache (n : Neighbours W) (i : Nat) (s : Sys W) (p : PACKET) :
    (call_upper_add_ivq n i s p).sys.cache = s.cache := rfl

theorem only_flags_refl (c : CACHE) : only_flags c c := rfl

theorem only_flags_trans {c d e : CACHE} (h1 : only_flags c d) (h2 : only_flags d e) :
    only_flags c e := by
  unfold only_flags at *
  rw [h2, h1]

theorem set_send_inv_valid_only_flags (c : CACHE) (i : Nat) (b : Bool) :
    only_flags c (set_send_inv_valid c i b) := by
  unfold set_send_inv_valid only_flags
  split <;> rfl

theorem send_invalidation_only_flags (n : Neighbours W) (i : Nat) (s : Sys W) (p : PACKET) :
    only_flags s.cache (send_invalidation n i s p).2.2.cache := by
  unfold send_invalidation
  split
  · dsimp only
    split
    · exact set_send_inv_valid_only_flags _ _ _
    · exact only_flags_refl _
  · exact only_flags_refl _

theorem send_writeback_only_flags (n : Neighbours W) (s : Sys W) (b : BLOCK) (d : Bool)
    (p : PACKET) : only_flags s.cache (send_writeback n s b d p).2.cache := by
  unfold send_writeback
  dsimp only
  split_ifs <;> rfl

theorem broadcast_only_flags (n : Neighbours W) (s : Sys W) (p : PACKET) :
    only_flags s.cache (broadcast n s p).2.cache := by
  unfold broadcast
  exact only_flags_trans (send_invalidation_only_flags n 0 s p)
    (send_invalidation_only_flags n 1 _ _)

theorem invalidate_uppers_only_flags (n : Neighbours W) (s : Sys W) (b : BLOCK)
    (p : PACKET) : only_flags s.cache (invalidate_uppers n s b p).2.cache := by
  unfold invalidate_uppers
  dsimp only
  have h := broadcast_only_flags n s (invalidation_packet n b p)
  split_ifs
  · exact h
  · exact only_flags_trans h rfl
  · rfl

theorem evict_only_flags (n : Neighbours W) (s : Sys W) (b : BLOCK) (d : Bool) (p : PACKET) :
    only_flags s.cache (evict n s b d p).2.cache := by
  unfold evict
  dsimp only
  have h1 := send_writeback_only_flags n s b d p
  have h2 := only_flags_trans h1 (invalidate_uppers_only_flags n (send_writeback n s b d p).2 b p)
  split_ifs
  · exact h1
  · exact h2
  · exact only_flags_trans h2 rfl

theorem fill_accounting_only_stats (n : Neighbours W) (s : Sys W) (set way : Nat) (p : PACKET)
    (ev : Nat) : only_stats s.cache (fill_accounting n s set way p ev).sys.cache := by
  unfold fill_accounting only_stats
  dsimp only
  split <;> rfl

theorem fill_accounting_success (n : Neighbours W) (s : Sys W) (set way : Nat) (p : PACKET)
    (ev : Nat) : (fill_accounting n s set way p ev).success = true := rfl

theorem victim_evict_only_flags (n : Neighbours W) (s : Sys W) (set way : Nat) (p : PACKET) :
    only_flags s.cache (victim_evict n s set way p).2.cache := by
  unfold victim_evict
  dsimp only
  split
  · exact evict_only_flags n s _ _ p
  · exact only_flags_refl _

theorem filllike_miss_bypass (n : Neighbours W) (s : Sys W) (set way : Nat) (p : PACKET)
    (hway : way = s.cache.NUM_WAY) :
    filllike_miss n s set way p = fill_accounting n s set way p 0 := by
  unfold filllike_miss
  rw [if_pos (by simpa using hway)]

theorem filllike_miss_stall (n : Neighbours W) (s : Sys W) (set way : Nat) (p : PACKET)
    (hway : way ≠ s.cache.NUM_WAY) (hev : (victim_evict n s set way p).1 = false) :
    filllike_miss n s set way p
      = Outcome.mk false p (victim_evict n s set way p).2 := by
  unfold filllike_miss
  rw [if_neg (by simpa using hway)]
  dsimp only
  rw [if_neg (by simp [hev])]

theorem filllike_miss_fill (n : Neighbours W) (s : Sys W) (set way : Nat) (p : PACKET)
    (hway : way ≠ s.cache.NUM_WAY) (hev : (victim_evict n s set way p).1 = true) :
    filllike_miss n s set way p
      = fill_accounting n
          (Sys.mk (install (victim_evict n s set way p).2.cache set way p)
            (victim_evict n s set way p).2.world (victim_evict n s set way p).2.trace)
          set way p (evicting_address (victim_evict n s set way p).2.cache set way) := by
  unfold filllike_miss
  rw [if_neg (by simpa using hway)]
  dsimp only
  rw [if_pos hev]

theorem filllike_miss_success (n : Neighbours W) (s : Sys W) (set way : Nat) (p : PACKET)
    (hway : way ≠ s.cache.NUM_WAY) :
    (filllike_miss n s set way p).success = (victim_evict n s set way p).1 := by
  cases hev : (victim_evict n s set way p).1
  · rw [filllike_miss_stall n s set way p hway hev]
  · rw [filllike_miss_fill n s set way p hway hev]; rfl

theorem install_block (c d : CACHE) (set way : Nat) (p : PACKET) (h : only_flags c d) :
    (install d set way p).block
      = List.modify (fun b => installed c b p) (set * c.NUM_WAY + way) c.block := by
  unfold only_flags at h
  unfold install
  dsimp only
  rw [h]
  rfl

theorem filllike_miss_block (n : Neighbours W) (s : Sys W) (set way : Nat) (p : PACKET)
    (hway : way ≠ s.cache.NUM_WAY) :
    ((filllike_miss n s set way p).success = true →
      (filllike_miss n s set way p).sys.cache.block =
        List.modify (fun b => installed s.cache b p) (set * s.cache.NUM_WAY + way)
          s.cache.block) ∧
    ((filllike_miss n s set way p).success = false →
      (filllike_miss n s set way p).sys.cache.block = s.cache.block) := by
  have hf := victim_evict_only_flags n s set way p
  rw [filllike_miss_success n s set way p hway]
  constructor
  · intro hev
    rw [filllike_miss_fill n s set way p hway hev, fill_accounting_only_stats]
    exact install_block s.cache _ set way p hf
  · intro hev
    rw [filllike_miss_stall n s set way p hway hev]
    unfold only_flags at hf
    dsimp only
    rw [hf]

theorem modify_length {α : Type} (f : α → α) (l : List α) (i : Nat) :
    (List.modify f i l).length = l.length := by
  simp

theorem getD_modify_same {α : Type} (f : α → α) (d : α) :
    ∀ (l : List α) (i : Nat), i < l.length →
      (List.modify f i l).getD i d = f (l.getD i d) := by
  intro l
  induction l with
  | nil => intro i h; simp at h
  | cons x xs ih =>
    intro i h
    cases i with
    | zero => simp
    | succ k =>
      have hk : k < xs.length := by simpa using h
      simpa using ih k hk

theorem getD_modify_other {α : Type} (f : α → α) (d : α) :
    ∀ (l : List α) (i j : Nat), j ≠ i →
      (List.modify f i l).getD j d = l.getD j d := by
  intro l
  induction l with
  | nil => intro i j _; simp
  | cons x xs ih =>
    intro i j h
    cases i with
    | zero =>
      cases j with
      | zero => exact absurd rfl h
      | succ m => simp
    | succ k =>
      cases j with
      | zero => simp
      | succ m =>
        have hm : m ≠ k := fun e => h (by rw [e])
        simpa using ih k m hm

/-- C16: a call of `filllike_miss` on a way below `NUM_WAY`, whose block index
lies in the block array, that returns true leaves `block[set * NUM_WAY + way]`
valid, with the prefetch bit, the dirty bit and the identity fields computed
from the packet as section 4.4 states, and every other block unchanged; a call
that returns false changes no block. -/
theorem filllike_miss_install (n : Neighbours W) (s : Sys W) (set way : Nat) (p : PACKET)
    (hway : way < s.cache.NUM_WAY)
    (hidx : set * s.cache.NUM_WAY + way < s.cache.block.length) :
    ((filllike_miss n s set way p).success = true →
      (block_at (filllike_miss n s set way p).sys.cache (set * s.cache.NUM_WAY + way)).valid = true ∧
      (block_at (filllike_miss n s set way p).sys.cache (set * s.cache.NUM_WAY + way)).prefetch
        = (p.type == PREFETCH && p.pf_origin_level == s.cache.fill_level) ∧
      (block_at (filllike_miss n s set way p).sys.cache (set * s.cache.NUM_WAY + way)).dirty
        = (p.type == WRITEBACK || (p.type == RFO && p.to_return.isEmpty) || p.data_valid) ∧
      (block_at (filllike_miss n s set way p).sys.cache (set * s.cache.NUM_WAY + way)).address
        = p.address ∧
      (block_at (filllike_miss n s set way p).sys.cache (set * s.cache.NUM_WAY + way)).v_address
        = p.v_address ∧
      (block_at (filllike_miss n s set way p).sys.cache (set * s.cache.NUM_WAY + way)).data
        = p.data ∧
      (block_at (filllike_miss n s set way p).sys.cache (set * s.cache.NUM_WAY + way)).ip
        = p.ip ∧
      (block_at (filllike_miss n s set way p).sys.cache (set * s.cache.NUM_WAY + way)).cpu
        = p.cpu ∧
      (block_at (filllike_miss n s set way p).sys.cache (set * s.cache.NUM_WAY + way)).instr_id
        = p.instr_id ∧
      (filllike_miss n s set way p).sys.cache.block.length = s.cache.block.length ∧
      ∀ j, j ≠ set * s.cache.NUM_WAY + way →
        block_at (filllike_miss n s set way p).sys.cache j = block_at s.cache j) ∧
    ((filllike_miss n s set way p).success = false →
      (filllike_miss n s set way p).sys.cache.block = s.cache.block) := by
  have h := filllike_miss_block n s set way p (Nat.ne_of_lt hway)
  refine ⟨fun hs => ?_, h.2⟩
  have hb := h.1 hs
  unfold block_at
  rw [hb, getD_modify_same _ _ _ _ hidx]
  refine ⟨rfl, rfl, rfl, rfl, rfl, rfl, rfl, rfl, rfl, modify_length _ _ _, ?_⟩
  intro j hj
  exact getD_modify_other _ _ _ _ _ hj

/-! ## What `readlike_miss` and `filllike_miss` leave alone -/

theorem only_miss_refl (c : CACHE) : only_miss c c := rfl

theorem only_miss_trans {c d e : CACHE} (h1 : only_miss c d) (h2 : only_miss d e) :
    only_miss c e := by
  unfold only_miss at *
  rw [h2, h1]

theorem only_miss_of_only_MSHR {c d : CACHE} (h : only_MSHR c d) : only_miss c d := by
  unfold only_MSHR at h
  unfold only_miss
  rw [h]

theorem train_prefetcher_only_miss (n : Neighbours W) (s : Sys W) (p : PACKET) (hit : Nat) :
    only_miss s.cache (train_prefetcher n s p hit).2.cache := by
  unfold train_prefetcher
  split <;> rfl

theorem train_prefetcher_MSHR (n : Neighbours W) (s : Sys W) (p : PACKET) (hit : Nat) :
    (train_prefetcher n s p hit).2.cache.MSHR = s.cache.MSHR := by
  unfold train_prefetcher
  split <;> rfl

theorem train_prefetcher_trace (n : Neighbours W) (s : Sys W) (p : PACKET) (hit : Nat) :
    (train_prefetcher n s p hit).2.trace = s.trace := by
  unfold train_prefetcher
  split <;> rfl

theorem merge_inflight_only_miss (c : CACHE) (i : Nat) (p : PACKET) :
    only_miss c (merge_inflight c i p) := by
  unfold merge_inflight
  dsimp only
  split <;> rfl

theorem merge_inflight_length (c : CACHE) (i : Nat) (p : PACKET) :
    (merge_inflight c i p).MSHR.length = c.MSHR.length := by
  unfold merge_inflight
  dsimp only
  split <;> simp

theorem probe_lower_only_MSHR (n : Neighbours W) (s : Sys W) (p : PACKET) :
    only_MSHR s.cache (probe_lower n s p).sys.cache := by
  unfold probe_lower
  split
  · exact deliver_only_MSHR _ _
  · exact only_MSHR_refl _

theorem probe_lower_length (n : Neighbours W) (s : Sys W) (p : PACKET) :
    (probe_lower n s p).sys.cache.MSHR.length = s.cache.MSHR.length := by
  unfold probe_lower
  split
  · exact deliver_length _ _
  · rfl

theorem forward_only_MSHR (n : Neighbours W) (s : Sys W) (read : Bool) (p : PACKET) :
    only_MSHR s.cache (forward n s read p).sys.cache := by
  unfold forward
  split <;> exact deliver_only_MSHR _ _

theorem forward_length (n : Neighbours W) (s : Sys W) (read : Bool) (p : PACKET) :
    (forward n s read p).sys.cache.MSHR.length = s.cache.MSHR.length := by
  unfold forward
  split <;> exact deliver_length _ _

theorem allocate_only_MSHR (n : Neighbours W) (probe : Called W) (read : Bool) :
    only_MSHR probe.sys.cache (allocate n probe read).sys.cache := by
  unfold allocate
  dsimp only
  refine only_MSHR_trans ?_ (forward_only_MSHR n _ read _)
  dsimp only
  split <;> rfl

theorem allocate_length (n : Neighbours W) (probe : Called W) (read : Bool) :
    (allocate n probe read).sys.cache.MSHR.length ≤ probe.sys.cache.MSHR.length + 1 := by
  unfold allocate
  dsimp only
  rw [forward_length]
  dsimp only
  split <;> simp

theorem issue_miss_only_miss (n : Neighbours W) (s : Sys W) (p : PACKET) :
    only_miss s.cache (issue_miss n s p).sys.cache := by
  unfold issue_miss
  dsimp only
  have h1 := only_miss_of_only_MSHR (probe_lower_only_MSHR n s p)
  split
  · exact h1
  · exact only_miss_trans (only_miss_trans h1
      (only_miss_of_only_MSHR (allocate_only_MSHR n _ _))) (train_prefetcher_only_miss n _ _ 0)

theorem issue_miss_length (n : Neighbours W) (s : Sys W) (p : PACKET) :
    (issue_miss n s p).sys.cache.MSHR.length ≤ s.cache.MSHR.length + 1 := by
  unfold issue_miss
  dsimp only
  split
  · dsimp only
    rw [probe_lower_length]
    exact Nat.le_succ _
  · dsimp only
    rw [train_prefetcher_MSHR]
    exact (allocate_length n _ _).trans (by rw [probe_lower_length])

theorem merge_miss_only_miss (n : Neighbours W) (s : Sys W) (i : Nat) (p : PACKET) :
    only_miss s.cache (merge_miss n s i p).sys.cache := by
  unfold merge_miss
  exact only_miss_trans (merge_inflight_only_miss s.cache i p) (train_prefetcher_only_miss n _ _ 0)

theorem merge_miss_length (n : Neighbours W) (s : Sys W) (i : Nat) (p : PACKET) :
    (merge_miss n s i p).sys.cache.MSHR.length = s.cache.MSHR.length := by
  unfold merge_miss
  dsimp only
  rw [train_prefetcher_MSHR]
  exact merge_inflight_length s.cache i p

theorem readlike_miss_only_miss (n : Neighbours W) (s : Sys W) (p : PACKET) :
    only_miss s.cache (readlike_miss n s p).sys.cache := by
  unfold readlike_miss
  dsimp only
  split
  · exact merge_miss_only_miss n s _ p
  · split
    · exact only_miss_refl _
    · exact issue_miss_only_miss n s p

theorem readlike_miss_length (n : Neighbours W) (s : Sys W) (p : PACKET)
    (h : s.cache.MSHR.length ≤ s.cache.MSHR_SIZE) :
    (readlike_miss n s p).sys.cache.MSHR.length ≤ s.cache.MSHR_SIZE := by
  unfold readlike_miss
  dsimp only
  split
  · rw [merge_miss_length]; exact h
  · split
    · exact h
    · rename_i _ hfull
      have hlt : s.cache.MSHR.length < s.cache.MSHR_SIZE :=
        lt_of_le_of_ne h (by simpa using hfull)
      exact (issue_miss_length n s p).trans hlt

theorem only_fill_refl (c : CACHE) : only_fill c c := rfl

theorem only_fill_trans {c d e : CACHE} (h1 : only_fill c d) (h2 : only_fill d e) :
    only_fill c e := by
  unfold only_fill at *
  rw [h2, h1]

theorem only_fill_of_only_flags {c d : CACHE} (h : only_flags c d) : only_fill c d := by
  unfold only_flags at h
  unfold only_fill
  rw [h]

theorem only_fill_of_only_stats {c d : CACHE} (h : only_stats c d) : only_fill c d := by
  unfold only_stats at h
  unfold only_fill
  rw [h]

theorem install_only_fill (c : CACHE) (set way : Nat) (p : PACKET) :
    only_fill c (install c set way p) := rfl

theorem filllike_miss_only_fill (n : Neighbours W) (s : Sys W) (set way : Nat) (p : PACKET) :
    only_fill s.cache (filllike_miss n s set way p).sys.cache := by
  by_cases hway : way = s.cache.NUM_WAY
  · rw [filllike_miss_bypass n s set way p hway]
    exact only_fill_of_only_stats (fill_accounting_only_stats n s set way p 0)
  · have hf := only_fill_of_only_flags (victim_evict_only_flags n s set way p)
    cases hev : (victim_evict n s set way p).1
    · rw [filllike_miss_stall n s set way p hway hev]
      exact hf
    · rw [filllike_miss_fill n s set way p hway hev]
      exact only_fill_trans (only_fill_trans hf (install_only_fill _ set way p))
        (only_fill_of_only_stats (fill_accounting_only_stats n _ set way p _))

theorem return_to_producers_cache (n : Neighbours W) (p : PACKET) :
    ∀ s : Sys W, (return_to_producers n s p).cache = s.cache := by
  unfold return_to_producers
  induction p.to_return with
  | nil => intro s; rfl
  | cons x xs ih => intro s; rw [List.foldl_cons, ih]

theorem choose_way_cache (n : Neighbours W) (s : Sys W) (set : Nat) (p : PACKET) :
    (choose_way n s set p).2.cache = s.cache := by
  unfold choose_way
  dsimp only
  split <;> rfl

theorem choose_way_trace (n : Neighbours W) (s : Sys W) (set : Nat) (p : PACKET) :
    (choose_way n s set p).2.trace = s.trace := by
  unfold choose_way
  dsimp only
  split <;> rfl

theorem fill_entry_only_fill (n : Neighbours W) (s : Sys W) (e : PACKET) :
    only_fill s.cache (fill_entry n s e).2.cache := by
  have h := filllike_miss_only_fill n (choose_way n s (get_set s.cache e.address) e).2
    (get_set s.cache e.address) (choose_way n s (get_set s.cache e.address) e).1 e
  rw [choose_way_cache] at h
  unfold fill_entry
  dsimp only
  split
  · split
    · rw [return_to_producers_cache]; exact h
    · exact h
  · exact h

theorem only_fill_MSHR {c d : CACHE} (h : only_fill c d) : d.MSHR = c.MSHR := by
  unfold only_fill at h; rw [h]

theorem only_fill_queues {c d : CACHE} (h : only_fill c d) : queues d = queues c := by
  unfold only_fill at h; rw [h]; rfl

theorem only_MSHR_queues {c d : CACHE} (h : only_MSHR c d) : queues d = queues c := by
  unfold only_MSHR at h; rw [h]; rfl

theorem only_miss_queues {c d : CACHE} (h : only_miss c d) : queues d = queues c := by
  unfold only_miss at h; rw [h]; rfl

theorem reallocate_only_MSHR (n : Neighbours W) (probe : Called W) (read : Bool) :
    only_MSHR probe.sys.cache (reallocate n probe read).sys.cache := by
  unfold reallocate
  dsimp only
  refine only_MSHR_trans ?_ (forward_only_MSHR n _ read _)
  rfl

theorem reallocate_length (n : Neighbours W) (probe : Called W) (read : Bool) :
    (reallocate n probe read).sys.cache.MSHR.length = probe.sys.cache.MSHR.length + 1 := by
  unfold reallocate
  dsimp only
  rw [forward_length]
  simp

theorem reissue_only_MSHR (n : Neighbours W) (s : Sys W) (e : PACKET) :
    only_MSHR s.cache (reissue n s e).cache := by
  unfold reissue
  dsimp only
  have h1 := probe_lower_only_MSHR n s (copy_packet e)
  split
  · exact h1
  · exact only_MSHR_trans (only_MSHR_trans h1 (reallocate_only_MSHR n _ _)) rfl

theorem reissue_queues (n : Neighbours W) (s : Sys W) (e : PACKET) :
    queues (reissue n s e).cache = queues s.cache :=
  only_MSHR_queues (reissue_only_MSHR n s e)

theorem reissue_length (n : Neighbours W) (s : Sys W) (e : PACKET) :
    (reissue n s e).cache.MSHR.length = s.cache.MSHR.length := by
  unfold reissue
  dsimp only
  split
  · rw [probe_lower_length]
  · unfold erase_first
    dsimp only
    rw [List.length_tail, reallocate_length, probe_lower_length]
    simp

theorem fill_frame_refl (c : CACHE) : fill_frame c c := ⟨rfl, le_refl _⟩

theorem fill_frame_trans {c d e : CACHE} (h1 : fill_frame c d) (h2 : fill_frame d e) :
    fill_frame c e := ⟨h2.1.trans h1.1, h2.2.trans h1.2⟩

theorem retire_fill_frame (k : Nat) (s : Sys W) : fill_frame s.cache (retire k s).cache := by
  unfold retire
  exact ⟨rfl, by simp⟩

theorem handle_fill_step_frame (n : Neighbours W) (k : Nat) (s : Sys W) :
    fill_frame s.cache (handle_fill_step n k s).2.cache := by
  unfold handle_fill_step
  split
  · exact fill_frame_refl _
  · rename_i e rest hM
    have hfe : fill_frame s.cache (fill_entry n s e).2.cache :=
      ⟨only_fill_queues (fill_entry_only_fill n s e),
        le_of_eq (congrArg List.length (only_fill_MSHR (fill_entry_only_fill n s e)))⟩
    dsimp only
    split_ifs
    · exact fill_frame_refl _
    · exact ⟨reissue_queues n s e, le_of_eq (reissue_length n s e)⟩
    · exact fill_frame_trans hfe (retire_fill_frame k _)
    · exact hfe
    · refine fill_frame_trans ?_ (retire_fill_frame k _)
      rw [return_to_producers_cache]
      exact fill_frame_refl _

theorem credit_loop_invariant (step : Nat → Sys W → Bool × Sys W) (P : Sys W → Prop)
    (hstep : ∀ k s, P s → P (step k s).2) : ∀ k s, P s → P (credit_loop step k s) := by
  intro k
  induction k with
  | zero => intro s h; exact h
  | succ k ih =>
    intro s h
    unfold credit_loop
    split
    · exact ih _ (hstep k s h)
    · exact hstep k s h

theorem handle_fill_frame (n : Neighbours W) (s : Sys W) :
    fill_frame s.cache (handle_fill n s).cache := by
  unfold handle_fill
  exact credit_loop_invariant (handle_fill_step n) (fun t => fill_frame s.cache t.cache)
    (fun k t h => fill_frame_trans h (handle_fill_step_frame n k t)) _ s (fill_frame_refl _)

/-! ## C11: the capacity bounds -/

theorem fits_modify_at (q : delay_queue) (i : Nat) (f : PACKET → PACKET) (h : fits q) :
    fits (q.modify_at i f) := by
  unfold fits at *
  rw [delay_queue.modify_at_occupancy]
  exact h

theorem fits_enqueue (c : CACHE) (q : delay_queue) (p : PACKET) (h : fits q)
    (hfull : q.full = false) : fits (enqueue c q p) := by
  unfold fits at *
  have hs : (enqueue c q p).size = q.size := by
    unfold enqueue
    split <;> rfl
  rw [enqueue_occupancy, hs]
  have hne : q.occupancy ≠ q.size := by
    simpa [delay_queue.full] using hfull
  omega

theorem fits_push_back (q : delay_queue) (p : PACKET) (h : fits q)
    (hfull : q.full = false) : fits (q.push_back p) := by
  unfold fits at *
  have hne : q.occupancy ≠ q.size := by
    simpa [delay_queue.full] using hfull
  have ho : (q.push_back p).occupancy = q.occupancy + 1 := by
    simp [delay_queue.push_back, delay_queue.occupancy]
  have hs : (q.push_back p).size = q.size := rfl
  rw [ho, hs]
  omega

theorem add_rq_capacity (c : CACHE) (p : PACKET) (h : capacity_ok c) :
    capacity_ok (add_rq c p).cache := by
  obtain ⟨h0, h1, h2, h3, h4, h5⟩ := h
  unfold add_rq
  dsimp only
  split_ifs with a b d e f
  · exact ⟨h0, h1, h2, h3, h4, h5⟩
  · exact ⟨h0, h1, h2, h3, h4, h5⟩
  · exact ⟨h0, h1, h2, h3, h4, h5⟩
  · exact ⟨h0, fits_modify_at _ _ _ h1, h2, h3, h4, h5⟩
  · exact ⟨h0, h1, h2, h3, h4, h5⟩
  · exact ⟨h0, fits_enqueue _ _ _ h1 (by simpa using f), h2, h3, h4, h5⟩

theorem add_wq_capacity (c : CACHE) (p : PACKET) (h : capacity_ok c) :
    capacity_ok (add_wq c p).cache := by
  obtain ⟨h0, h1, h2, h3, h4, h5⟩ := h
  unfold add_wq
  dsimp only
  split_ifs with a b d
  · exact ⟨h0, h1, h2, h3, h4, h5⟩
  · exact ⟨h0, h1, h2, h3, h4, h5⟩
  · exact ⟨h0, h1, h2, h3, h4, h5⟩
  · exact ⟨h0, h1, fits_enqueue _ _ _ h2 (by simpa using d), h3, h4, h5⟩

theorem add_pq_capacity (c : CACHE) (p : PACKET) (h : capacity_ok c) :
    capacity_ok (add_pq c p).cache := by
  obtain ⟨h0, h1, h2, h3, h4, h5⟩ := h
  unfold add_pq
  dsimp only
  split_ifs with a b d e
  · exact ⟨h0, h1, h2, h3, h4, h5⟩
  · exact ⟨h0, h1, h2, h3, h4, h5⟩
  · exact ⟨h0, h1, h2, fits_modify_at _ _ _ h3, h4, h5⟩
  · exact ⟨h0, h1, h2, h3, h4, h5⟩
  · exact ⟨h0, h1, h2, fits_enqueue _ _ _ h3 (by simpa using e), h4, h5⟩

theorem add_ivq_queue_capacity (c : CACHE) (p : PACKET) (h : capacity_ok c)
    (hfull : c.IVQ.full = false) : capacity_ok (add_ivq_queue c p).cache := by
  obtain ⟨h0, h1, h2, h3, h4, h5⟩ := h
  unfold add_ivq_queue
  dsimp only
  split_ifs with a
  · exact ⟨h0, h1, h2, h3, fits_modify_at _ _ _ h4, h5⟩
  · exact ⟨h0, h1, h2, h3, fits_enqueue _ _ _ h4 hfull, h5⟩

theorem add_ivq_capacity (c : CACHE) (p : PACKET) (h : capacity_ok c) :
    capacity_ok (add_ivq c p).cache := by
  obtain ⟨h0, h1, h2, h3, h4, h5⟩ := h
  unfold add_ivq
  dsimp only
  split_ifs with a
  all_goals first
    | exact ⟨h0, h1, h2, h3, h4, h5⟩
    | exact ⟨h0, h1, fits_modify_at _ _ _ h2, h3, h4, h5⟩
    | exact add_ivq_queue_capacity _ _ ⟨h0, h1, fits_modify_at _ _ _ h2, h3, h4, h5⟩
        (by simpa using a)
    | exact add_ivq_queue_capacity _ _ ⟨h0, h1, h2, h3, h4, h5⟩ (by simpa using a)

theorem prefetch_line_capacity (n : Neighbours W) (c : CACHE) (pf_addr : Nat)
    (fill_this_level : Bool) (prefetch_metadata : Nat) (h : capacity_ok c) :
    capacity_ok (prefetch_line n c pf_addr fill_this_level prefetch_metadata).2 := by
  have hc : capacity_ok { c with pf_requested := c.pf_requested + 1 } := h
  unfold prefetch_line
  dsimp only
  obtain ⟨h0, h1, h2, h3, h4, h5⟩ := h
  split_ifs
  all_goals first
    | exact ⟨h0, h1, h2, h3, h4, h5⟩
    | exact add_pq_capacity _ _ hc
    | exact ⟨h0, h1, h2, h3, h4, fits_push_back _ _ h5 (by simp_all)⟩

theorem capacity_of_queues {c d : CACHE} (hq : queues d = queues c)
    (hl : d.MSHR.length ≤ d.MSHR_SIZE) (h : capacity_ok c) : capacity_ok d := by
  unfold queues at hq
  simp only [Prod.mk.injEq] at hq
  obtain ⟨q0, q1, q2, q3, q4, q5⟩ := hq
  obtain ⟨_, h1, h2, h3, h4, h5⟩ := h
  exact ⟨hl, q1 ▸ h1, q2 ▸ h2, q3 ▸ h3, q4 ▸ h4, q5 ▸ h5⟩

theorem queues_MSHR_SIZE {c d : CACHE} (hq : queues d = queues c) :
    d.MSHR_SIZE = c.MSHR_SIZE := congrArg Prod.fst hq

/-- C11: the capacity bounds, `|MSHR| <= MSHR_SIZE` and each queue within its
capacity, are kept by `add_rq`, `add_wq`, `add_pq`, `add_ivq`, `prefetch_line`,
`readlike_miss` and `handle_fill`, whatever the neighbours answer. -/
theorem capacity_invariant (n : Neighbours W) (s : Sys W) (p : PACKET) (pf_addr : Nat)
    (fill_this_level : Bool) (prefetch_metadata : Nat) (h : capacity_ok s.cache) :
    capacity_ok (add_rq s.cache p).cache ∧ capacity_ok (add_wq s.cache p).cache ∧
    capacity_ok (add_pq s.cache p).cache ∧ capacity_ok (add_ivq s.cache p).cache ∧
    capacity_ok (prefetch_line n s.cache pf_addr fill_this_level prefetch_metadata).2 ∧
    capacity_ok (readlike_miss n s p).sys.cache ∧ capacity_ok (handle_fill n s).cache := by
  refine ⟨add_rq_capacity _ _ h, add_wq_capacity _ _ h, add_pq_capacity _ _ h,
    add_ivq_capacity _ _ h, prefetch_line_capacity n _ _ _ _ h, ?_, ?_⟩
  · have hq := only_miss_queues (readlike_miss_only_miss n s p)
    refine capacity_of_queues hq ?_ h
    rw [queues_MSHR_SIZE hq]
    exact readlike_miss_length n s p h.1
  · have hf := handle_fill_frame n s
    refine capacity_of_queues hf.1 ?_ h
    rw [queues_MSHR_SIZE hf.1]
    exact hf.2.trans h.1

/-! ## C12: the returned entries come first -/

theorem iter_swap_same (pre post : List PACKET) (e : PACKET) :
    iter_swap (pre ++ e :: post) pre.length pre.length = pre ++ e :: post := by
  unfold iter_swap
  rw [if_pos (by simp), getD_split, set_split, set_split]

theorem iter_swap_split (pre mid post : List PACKET) (u e : PACKET) :
    iter_swap (pre ++ u :: mid ++ e :: post) (pre ++ u :: mid).length pre.length
      = pre ++ e :: mid ++ u :: post := by
  unfold iter_swap
  rw [if_pos (by simp)]
  have h1 : (pre ++ u :: mid ++ e :: post).getD pre.length {} = u := by
    rw [List.append_assoc, List.cons_append]
    exact getD_split pre _ u {}
  have h2 : (pre ++ u :: mid ++ e :: post).getD (pre ++ u :: mid).length {} = e :=
    getD_split (pre ++ u :: mid) post e {}
  rw [h1, h2, set_split (pre ++ u :: mid) post e u, List.append_assoc, List.cons_append,
    set_split pre (mid ++ u :: post) u e]
  simp

theorem return_data_shape (c : CACHE) (p e : PACKET) (R U1 U2 : List PACKET)
    (hM : c.MSHR = R ++ U1 ++ e :: U2)
    (hR : ∀ x ∈ R, is_returned x = true)
    (hU1 : ∀ x ∈ U1, is_returned x = false) (he : is_returned e = false)
    (hno : ∀ x ∈ R ++ U1, eq_addr_PACKET p.address c.OFFSET_BITS x = false)
    (hmatch : eq_addr_PACKET p.address c.OFFSET_BITS e = true) :
    (return_data c p).MSHR = R ++ take_data c p e :: (U1.drop 1 ++ U1.take 1 ++ U2) := by
  have hun : ∀ x : PACKET, (x.event_cycle == UINT64_MAX) = !is_returned x := by
    intro x
    show (x.event_cycle == UINT64_MAX) = !(!(x.event_cycle == UINT64_MAX))
    rw [Bool.not_not]
  have hi : c.MSHR.findIdx (eq_addr_PACKET p.address c.OFFSET_BITS) = (R ++ U1).length := by
    rw [hM]; exact findIdx_split _ (R ++ U1) U2 e hno hmatch
  have hne : (R ++ U1).length ≠ c.MSHR.length := by rw [hM]; simp
  have hRun : ∀ x ∈ R, (fun x : PACKET => x.event_cycle == UINT64_MAX) x = false := by
    intro x hx; simp [hun, hR x hx]
  unfold return_data
  dsimp only
  rw [hi, if_neg hne]
  dsimp only
  cases U1 with
  | nil =>
    have hk : c.MSHR.findIdx (fun x => x.event_cycle == UINT64_MAX) = R.length := by
      rw [hM, List.append_nil]
      exact findIdx_split _ R U2 e hRun (by simp [hun, he])
    rw [hk, hM]
    simp only [List.append_nil, List.drop_nil, List.take_nil, List.nil_append]
    rw [modify_split, iter_swap_same]
  | cons u U1t =>
    have hk : c.MSHR.findIdx (fun x => x.event_cycle == UINT64_MAX) = R.length := by
      rw [hM, List.append_assoc, List.cons_append]
      exact findIdx_split _ R _ u hRun (by simp [hun, hU1 u (List.mem_cons_self _ _)])
    rw [hk, hM, modify_split, iter_swap_split]
    simp

theorem all_unreturned_returned_first (l : List PACKET)
    (h : ∀ x ∈ l, is_returned x = false) : returned_first l = true := by
  cases l with
  | nil => rfl
  | cons x xs =>
    unfold returned_first
    rw [if_neg (by simp [h x (List.mem_cons_self _ _)])]
    simp only [List.all_eq_true, Bool.not_eq_true']
    intro y hy
    exact h y (List.mem_cons_of_mem _ hy)

theorem returned_first_append (R U : List PACKET) (hR : ∀ x ∈ R, is_returned x = true)
    (hU : ∀ x ∈ U, is_returned x = false) : returned_first (R ++ U) = true := by
  induction R with
  | nil => exact all_unreturned_returned_first U hU
  | cons x xs ih =>
    rw [List.cons_append]
    unfold returned_first
    rw [if_pos (hR x (List.mem_cons_self _ _))]
    exact ih (fun y hy => hR y (List.mem_cons_of_mem _ hy))

theorem returned_first_tail (l : List PACKET) (h : returned_first l = true) :
    returned_first l.tail = true := by
  cases l with
  | nil => rfl
  | cons x xs =>
    unfold returned_first at h
    split at h
    · exact h
    · refine all_unreturned_returned_first xs ?_
      simpa using h

theorem returned_first_snoc (l : List PACKET) (e : PACKET) (h : returned_first l = true)
    (he : is_returned e = false) : returned_first (l ++ [e]) = true := by
  induction l with
  | nil => simp [returned_first, he]
  | cons x xs ih =>
    rw [List.cons_append]
    unfold returned_first at h ⊢
    split
    · rename_i hx
      rw [if_pos hx] at h
      exact ih h
    · rename_i hx
      rw [if_neg hx] at h
      simp only [List.all_eq_true, Bool.not_eq_true'] at h ⊢
      intro y hy
      rcases List.mem_append.mp hy with hy | hy
      · exact h y hy
      · simp at hy; rw [hy]; exact he

theorem all_not_map (l : List PACKET) :
    l.all (fun x => !is_returned x) = (l.map is_returned).all (fun t => !t) := by
  induction l with
  | nil => rfl
  | cons x xs ih => simp [ih]

theorem returned_first_congr : ∀ (l m : List PACKET),
    l.map is_returned = m.map is_returned → returned_first l = returned_first m := by
  intro l
  induction l with
  | nil =>
    intro m h
    cases m with
    | nil => rfl
    | cons y ys => simp at h
  | cons x xs ih =>
    intro m h
    cases m with
    | nil => simp at h
    | cons y ys =>
      simp only [List.map_cons, List.cons.injEq] at h
      unfold returned_first
      rw [h.1, ih ys h.2]
      rw [all_not_map xs, all_not_map ys, h.2]

theorem map_set_same {α β : Type} (f : α → β) (d x : α) :
    ∀ (l : List α) (i : Nat), f x = f (l.getD i d) → (l.set i x).map f = l.map f := by
  intro l
  induction l with
  | nil => intro i _; rfl
  | cons y ys ih =>
    intro i h
    cases i with
    | zero => simp at h ⊢; exact h
    | succ k =>
      simp only [List.set_cons_succ, List.map_cons, List.cons.injEq, true_and]
      exact ih k (by simpa using h)

theorem call_add_rq_quiet (n : Neighbours W) (hq : quiet n) (s : Sys W) (p : PACKET) :
    (call_add_rq n s p).sys.cache = s.cache := by
  unfold call_add_rq called
  dsimp only
  rw [(hq s.world p).1]
  rfl

theorem call_add_pq_quiet (n : Neighbours W) (hq : quiet n) (s : Sys W) (p : PACKET) :
    (call_add_pq n s p).sys.cache = s.cache := by
  unfold call_add_pq called
  dsimp only
  rw [(hq s.world p).2]
  rfl

theorem probe_lower_quiet (n : Neighbours W) (hq : quiet n) (s : Sys W) (p : PACKET) :
    (probe_lower n s p).sys.cache = s.cache := by
  unfold probe_lower
  split
  · exact call_add_rq_quiet n hq s _
  · rfl

theorem forward_quiet (n : Neighbours W) (hq : quiet n) (s : Sys W) (read : Bool)
    (p : PACKET) : (forward n s read p).sys.cache = s.cache := by
  unfold forward
  split
  · exact call_add_rq_quiet n hq s _
  · exact call_add_pq_quiet n hq s _

theorem merge_inflight_returned_first (c : CACHE) (i : Nat) (p : PACKET) :
    returned_first (merge_inflight c i p).MSHR = returned_first c.MSHR := by
  unfold merge_inflight
  dsimp only
  split
  · exact returned_first_congr _ _ (map_set_same is_returned {} _ c.MSHR i rfl)
  · exact returned_first_congr _ _ (map_set_same is_returned {} _ c.MSHR i rfl)

theorem is_returned_unreturned (p : PACKET) (h : p.event_cycle = UINT64_MAX) :
    is_returned p = false := by
  unfold is_returned
  rw [h]
  exact bne_self_eq_false _

theorem allocate_MSHR_quiet (n : Neighbours W) (hq : quiet n) (probe : Called W)
    (read : Bool) :
    (allocate n probe read).sys.cache.MSHR
      = if probe.packet.fill_level ≤ probe.sys.cache.fill_level then
          probe.sys.cache.MSHR ++
            [{ probe.packet with test_packet := false,
                                 cycle_enqueued := probe.sys.cache.current_cycle,
                                 event_cycle := UINT64_MAX }]
        else probe.sys.cache.MSHR := by
  unfold allocate
  dsimp only
  rw [forward_quiet n hq]
  dsimp only
  split <;> rfl

theorem reallocate_MSHR_quiet (n : Neighbours W) (hq : quiet n) (probe : Called W)
    (read : Bool) :
    (reallocate n probe read).sys.cache.MSHR
      = probe.sys.cache.MSHR ++
          [{ probe.packet with test_packet := false, event_cycle := UINT64_MAX }] := by
  unfold reallocate
  dsimp only
  rw [forward_quiet n hq]

theorem reissue_MSHR_quiet (n : Neighbours W) (hq : quiet n) (s : Sys W) (e : PACKET) :
    (reissue n s e).cache.MSHR
      = if probe_refused n (probe_lower n s (copy_packet e)) (is_read s.cache e) then s.cache.MSHR
        else (s.cache.MSHR ++
          [{ (probe_lower n s (copy_packet e)).packet with
             test_packet := false, event_cycle := UINT64_MAX }]).tail := by
  unfold reissue
  dsimp only
  split
  · rw [probe_lower_quiet n hq]
  · unfold erase_first
    dsimp only
    rw [reallocate_MSHR_quiet n hq, probe_lower_quiet n hq]

theorem fill_entry_MSHR (n : Neighbours W) (s : Sys W) (e : PACKET) :
    (fill_entry n s e).2.cache.MSHR = s.cache.MSHR :=
  only_fill_MSHR (fill_entry_only_fill n s e)

theorem deliver_echo {p : PACKET} {r : Reply W} (h : echo p r) (hp : p.to_return.length ≤ 1)
    (c : CACHE) :
    deliver c r.returned = c ∨
    ∃ q, q.address = p.address ∧ deliver c r.returned = return_data c q := by
  obtain ⟨_, hlen, hq⟩ := h
  cases hr : r.returned with
  | nil => exact Or.inl rfl
  | cons q l =>
    rw [hr] at hlen hq
    cases l with
    | nil => exact Or.inr ⟨q, hq q (List.mem_cons_self _ _), rfl⟩
    | cons q2 l2 =>
      simp only [List.length_cons] at hlen
      omega

theorem forwarded_to_return (c : CACHE) (p : PACKET) : (forwarded c p).to_return.length ≤ 1 := by
  unfold forwarded
  dsimp only
  split <;> simp

theorem probe_lower_echo (n : Neighbours W) (hn : echoes n) (s : Sys W) (p : PACKET) :
    (probe_lower n s p).sys.cache = s.cache ∧ (probe_lower n s p).packet.address = p.address := by
  unfold probe_lower
  split
  · have h := hn s.world { p with test_packet := true }
    unfold call_add_rq called
    dsimp only
    rw [h.2.2 rfl]
    exact ⟨rfl, h.1.1⟩
  · exact ⟨rfl, rfl⟩

theorem forward_echo (n : Neighbours W) (hn : echoes n) (s : Sys W) (read : Bool)
    (c : CACHE) (p : PACKET) :
    (forward n s read (forwarded c p)).sys.cache = s.cache ∨
    ∃ q, q.address = p.address ∧
      (forward n s read (forwarded c p)).sys.cache = return_data s.cache q := by
  unfold forward
  split
  · exact deliver_echo (hn s.world (forwarded c p)).1 (forwarded_to_return c p) s.cache
  · exact deliver_echo (hn s.world (forwarded c p)).2.1 (forwarded_to_return c p) s.cache

theorem return_data_no_match (c : CACHE) (q : PACKET)
    (h : c.MSHR.findIdx (eq_addr_PACKET q.address c.OFFSET_BITS) = c.MSHR.length) :
    return_data c q = c := by
  unfold return_data
  dsimp only
  rw [if_pos h]

theorem returned_first_split : ∀ l : List PACKET, returned_first l = true →
    ∃ R U, l = R ++ U ∧ (∀ x ∈ R, is_returned x = true) ∧ (∀ x ∈ U, is_returned x = false) := by
  intro l
  induction l with
  | nil => intro _; exact ⟨[], [], rfl, by simp, by simp⟩
  | cons x xs ih =>
    intro h
    unfold returned_first at h
    split at h
    · rename_i hx
      obtain ⟨R, U, hl, hR, hU⟩ := ih h
      refine ⟨x :: R, U, by rw [hl]; rfl, ?_, hU⟩
      intro y hy
      rcases List.mem_cons.mp hy with hy | hy
      · rw [hy]; exact hx
      · exact hR y hy
    · rename_i hx
      refine ⟨[], x :: xs, rfl, by simp, ?_⟩
      intro y hy
      rcases List.mem_cons.mp hy with hy | hy
      · rw [hy]; simpa using hx
      · have := List.all_eq_true.mp h y hy
        simpa using this

theorem returned_first_insert (R U : List PACKET) (e : PACKET)
    (hR : ∀ x ∈ R, is_returned x = true) (hU : ∀ x ∈ U, is_returned x = false) :
    returned_first (R ++ e :: U) = true := by
  cases hr : is_returned e
  · exact returned_first_append R _ hR (by
      intro x hx
      rcases List.mem_cons.mp hx with hx | hx
      · rw [hx]; exact hr
      · exact hU x hx)
  · have : R ++ e :: U = (R ++ [e]) ++ U := by simp
    rw [this]
    exact returned_first_append _ _ (by
      intro x hx
      rcases List.mem_append.mp hx with hx | hx
      · exact hR x hx
      · simp at hx; rw [hx]; exact hr) hU

theorem return_data_returned_first (c : CACHE) (p e : PACKET) (R U1 U2 : List PACKET)
    (hM : c.MSHR = R ++ U1 ++ e :: U2)
    (hR : ∀ x ∈ R, is_returned x = true)
    (hU : ∀ x ∈ U1 ++ e :: U2, is_returned x = false)
    (hno : ∀ x ∈ R ++ U1, eq_addr_PACKET p.address c.OFFSET_BITS x = false)
    (hmatch : eq_addr_PACKET p.address c.OFFSET_BITS e = true) :
    (return_data c p).MSHR = R ++ take_data c p e :: (U1.drop 1 ++ U1.take 1 ++ U2) ∧
    returned_first (return_data c p).MSHR = true := by
  have hU1 : ∀ x ∈ U1, is_returned x = false :=
    fun x hx => hU x (List.mem_append_left _ hx)
  have he : is_returned e = false :=
    hU e (List.mem_append_right _ (List.mem_cons_self _ _))
  have hU2 : ∀ x ∈ U2, is_returned x = false :=
    fun x hx => hU x (List.mem_append_right _ (List.mem_cons_of_mem _ hx))
  have hshape := return_data_shape c p e R U1 U2 hM hR hU1 he hno hmatch
  refine ⟨hshape, ?_⟩
  rw [hshape]
  refine returned_first_insert R _ _ hR ?_
  intro x hx
  rcases List.mem_append.mp hx with hx | hx
  · rcases List.mem_append.mp hx with hx | hx
    · exact hU1 x (List.mem_of_mem_drop hx)
    · exact hU1 x (List.mem_of_mem_take hx)
  · exact hU2 x hx

theorem findIdx_none {α : Type} (pred : α → Bool) (l : List α)
    (h : l.findIdx pred = l.length) : ∀ x ∈ l, pred x = false := by
  intro x hx
  cases hp : pred x
  · rfl
  · have := List.findIdx_lt_length_of_exists ⟨x, hx, hp⟩
    omega

theorem eq_addr_PACKET_congr (a b shamt : Nat) (h : a = b) :
    eq_addr_PACKET a shamt = eq_addr_PACKET b shamt := by rw [h]

/-- The callback for a new miss: the entry appended last is the only one of
its block. -/
theorem return_data_appended (c : CACHE) (q e : PACKET) (M : List PACKET)
    (hM : c.MSHR = M ++ [e]) (hrf : returned_first M = true)
    (hno : ∀ x ∈ M, eq_addr_PACKET q.address c.OFFSET_BITS x = false)
    (hmatch : eq_addr_PACKET q.address c.OFFSET_BITS e = true)
    (he : is_returned e = false) :
    returned_first (return_data c q).MSHR = true := by
  obtain ⟨R, U, hl, hR, hU⟩ := returned_first_split M hrf
  refine (return_data_returned_first c q e R U [] (by rw [hM, hl]) hR ?_ ?_ hmatch).2
  · intro x hx
    rcases List.mem_append.mp hx with hx | hx
    · exact hU x hx
    · simp at hx; rw [hx]; exact he
  · intro x hx
    exact hno x (by rw [hl]; exact hx)

theorem allocate_returned_first_echo (n : Neighbours W) (hn : echoes n) (probe : Called W)
    (read : Bool) (hrf : returned_first probe.sys.cache.MSHR = true)
    (hno : probe.sys.cache.MSHR.findIdx
      (eq_addr_PACKET probe.packet.address probe.sys.cache.OFFSET_BITS)
        = probe.sys.cache.MSHR.length) :
    returned_first (allocate n probe read).sys.cache.MSHR = true := by
  have hnone := findIdx_none _ _ hno
  unfold allocate
  dsimp only
  by_cases hfl : probe.packet.fill_level ≤ probe.sys.cache.fill_level
  · rw [if_pos hfl]
    rcases forward_echo n hn _ read _ _ with h | ⟨q, hq, h⟩
    · rw [h]
      exact returned_first_snoc _ _ hrf (is_returned_unreturned _ rfl)
    · rw [h]
      have hqa : q.address = probe.packet.address := hq
      refine return_data_appended _ q _ probe.sys.cache.MSHR rfl hrf ?_ ?_
        (is_returned_unreturned _ rfl)
      · intro x hx
        rw [hqa]
        exact hnone x hx
      · rw [hqa]
        simp [eq_addr_PACKET]
  · rw [if_neg hfl]
    rcases forward_echo n hn _ read _ _ with h | ⟨q, hq, h⟩
    · rw [h]
      exact hrf
    · rw [h]
      have hqa : q.address = probe.packet.address := hq
      rw [return_data_no_match]
      · exact hrf
      · rw [hqa]
        exact hno

theorem readlike_miss_returned_first_echo (n : Neighbours W) (hn : echoes n) (s : Sys W)
    (p : PACKET) (h : returned_first s.cache.MSHR = true) :
    returned_first (readlike_miss n s p).sys.cache.MSHR = true := by
  unfold readlike_miss
  dsimp only
  split
  · unfold merge_miss
    dsimp only
    rw [train_prefetcher_MSHR]
    dsimp only
    rw [merge_inflight_returned_first]
    exact h
  · rename_i hfound
    have hidx : s.cache.MSHR.findIdx (eq_addr_PACKET p.address s.cache.OFFSET_BITS)
        = s.cache.MSHR.length := by simpa using hfound
    split
    · exact h
    · unfold issue_miss
      dsimp only
      obtain ⟨hpc, hpa⟩ := probe_lower_echo n hn s p
      have hp : returned_first (probe_lower n s p).sys.cache.MSHR = true := by
        rw [hpc]; exact h
      split
      · exact hp
      · dsimp only
        rw [train_prefetcher_MSHR]
        refine allocate_returned_first_echo n hn _ _ hp ?_
        rw [hpc, hpa]
        exact hidx

theorem iter_swap_comm (l : List PACKET) (i j : Nat) : iter_swap l i j = iter_swap l j i := by
  unfold iter_swap
  by_cases h : i < l.length ∧ j < l.length
  · rw [if_pos h, if_pos ⟨h.2, h.1⟩]
    by_cases hij : i = j
    · rw [hij]
    · exact List.set_comm _ _ _ hij
  · rw [if_neg h, if_neg (fun h2 => h ⟨h2.2, h2.1⟩)]

theorem unreturned_iff (x : PACKET) : (x.event_cycle == UINT64_MAX) = !is_returned x := by
  show (x.event_cycle == UINT64_MAX) = !(!(x.event_cycle == UINT64_MAX))
  rw [Bool.not_not]

/-- The callback for the first MSHR entry when it has not returned: the entry
takes the data where it is. -/
theorem return_data_front_unreturned (c : CACHE) (q e : PACKET) (T : List PACKET)
    (hM : c.MSHR = e :: T) (hmatch : eq_addr_PACKET q.address c.OFFSET_BITS e = true)
    (he : is_returned e = false) :
    (return_data c q).MSHR = take_data c q e :: T := by
  have h := return_data_shape c q e [] [] T (by rw [hM]; rfl) (by simp) (by simp) he (by simp)
    hmatch
  simpa using h

/-- The callback for the first MSHR entry when it has returned: the entry
changes places with the first entry that has not returned. -/
theorem return_data_front_returned (c : CACHE) (q e u : PACKET) (R Ut : List PACKET)
    (hM : c.MSHR = e :: R ++ u :: Ut) (hmatch : eq_addr_PACKET q.address c.OFFSET_BITS e = true)
    (he : is_returned e = true) (hR : ∀ x ∈ R, is_returned x = true)
    (hu : is_returned u = false) :
    (return_data c q).MSHR = u :: R ++ take_data c q e :: Ut := by
  have hi : c.MSHR.findIdx (eq_addr_PACKET q.address c.OFFSET_BITS) = 0 := by
    rw [hM]
    simp [List.findIdx_cons, hmatch]
  have hk : c.MSHR.findIdx (fun x => x.event_cycle == UINT64_MAX) = (e :: R).length := by
    rw [hM]
    refine findIdx_split _ (e :: R) Ut u ?_ (by simp [unreturned_iff, hu])
    intro x hx
    rcases List.mem_cons.mp hx with hx | hx
    · rw [hx]; simp [unreturned_iff, he]
    · simp [unreturned_iff, hR x hx]
  unfold return_data
  dsimp only
  rw [hi, hk, if_neg (by rw [hM]; simp)]
  dsimp only
  rw [hM, iter_swap_comm]
  have hm : List.modify (take_data c q) 0 (e :: R ++ u :: Ut) = take_data c q e :: R ++ u :: Ut := by
    simp
  rw [hm]
  exact iter_swap_split [] R Ut (take_data c q e) u

/-- The callback during a re-issue, followed by the erasure of the first MSHR
position: the returned entries still come first. -/
theorem callback_then_erase (c : CACHE) (q e copy : PACKET) (rest : List PACKET)
    (hM : c.MSHR = e :: rest ++ [copy])
    (hmatch : eq_addr_PACKET q.address c.OFFSET_BITS e = true)
    (hrest : returned_first rest = true) (hcopy : is_returned copy = false) :
    returned_first (return_data c q).MSHR.tail = true := by
  cases he : is_returned e
  · rw [return_data_front_unreturned c q e _ hM hmatch he]
    exact returned_first_snoc _ _ hrest hcopy
  · obtain ⟨R, U, hl, hR, hU⟩ := returned_first_split rest hrest
    cases U with
    | nil =>
      rw [return_data_front_returned c q e copy R [] (by rw [hM, hl]; simp) hmatch he hR hcopy]
      exact returned_first_insert R [] _ hR (by simp)
    | cons u Ut =>
      rw [return_data_front_returned c q e u R (Ut ++ [copy])
        (by rw [hM, hl]; simp) hmatch he hR (hU u (List.mem_cons_self _ _))]
      refine returned_first_insert R _ _ hR ?_
      intro x hx
      rcases List.mem_append.mp hx with hx | hx
      · exact hU x (List.mem_cons_of_mem _ hx)
      · simp at hx; rw [hx]; exact hcopy

theorem reallocate_returned_first_echo (n : Neighbours W) (hn : echoes n) (probe : Called W)
    (read : Bool) (e : PACKET) (rest : List PACKET)
    (hM : probe.sys.cache.MSHR = e :: rest) (ha : probe.packet.address = e.address)
    (hrf : returned_first probe.sys.cache.MSHR = true) :
    returned_first (reallocate n probe read).sys.cache.MSHR.tail = true := by
  have hrest : returned_first rest = true := by
    have := returned_first_tail _ hrf
    rw [hM] at this
    exact this
  unfold reallocate
  dsimp only
  rcases forward_echo n hn _ read _ _ with h | ⟨q, hq, h⟩
  · rw [h]
    dsimp only
    rw [hM]
    exact returned_first_snoc _ _ hrest (is_returned_unreturned _ rfl)
  · rw [h]
    have hqa : q.address = e.address := by rw [← ha]; exact hq
    refine callback_then_erase _ q e
      { probe.packet with test_packet := false, event_cycle := UINT64_MAX } rest ?_ ?_ hrest ?_
    · show probe.sys.cache.MSHR ++ [_] = _
      rw [hM]
    · rw [hqa]
      simp [eq_addr_PACKET]
    · exact is_returned_unreturned _ rfl

theorem reissue_returned_first_echo (n : Neighbours W) (hn : echoes n) (s : Sys W)
    (e : PACKET) (rest : List PACKET) (hM : s.cache.MSHR = e :: rest)
    (h : returned_first s.cache.MSHR = true) :
    returned_first (reissue n s e).cache.MSHR = true := by
  obtain ⟨hpc, hpa⟩ := probe_lower_echo n hn s (copy_packet e)
  unfold reissue
  dsimp only
  split
  · rw [hpc]; exact h
  · exact reallocate_returned_first_echo n hn _ _ e rest (by rw [hpc]; exact hM) hpa
      (by rw [hpc]; exact h)

theorem handle_fill_step_returned_first_echo (n : Neighbours W) (hn : echoes n) (k : Nat)
    (s : Sys W) (h : returned_first s.cache.MSHR = true) :
    returned_first (handle_fill_step n k s).2.cache.MSHR = true := by
  unfold handle_fill_step
  split
  · exact h
  · rename_i e rest hM
    have hfe : returned_first (fill_entry n s e).2.cache.MSHR = true := by
      rw [fill_entry_MSHR]; exact h
    dsimp only
    split_ifs
    · exact h
    · exact reissue_returned_first_echo n hn s e rest hM h
    · exact returned_first_tail _ hfe
    · exact hfe
    · unfold retire
      dsimp only
      rw [return_to_producers_cache]
      exact returned_first_tail _ h

theorem handle_fill_returned_first_echo (n : Neighbours W) (hn : echoes n) (s : Sys W)
    (h : returned_first s.cache.MSHR = true) :
    returned_first (handle_fill n s).cache.MSHR = true := by
  unfold handle_fill
  exact credit_loop_invariant (handle_fill_step n)
    (fun t => returned_first t.cache.MSHR = true)
    (fun k t ht => handle_fill_step_returned_first_echo n hn k t ht) _ s h

/-- C12, as the code has it: when the returned entries come first in the MSHR
as `R`, and the first entry of the block of `p` is an entry `e` that has not
returned, `return_data(p)` puts the entry, with the data of `p`, right after
`R` and before every entry that has not returned, so that the returned entries
still come first; `readlike_miss` and `handle_fill` keep the returned entries
first when the lower level, while `add_rq` or `add_pq` runs, hands back packets
of the block of the request only, at most one for every producer of the
request, and nothing to a probe of `add_rq`, as a lower cache that forwards
from its write queue does. -/
theorem returned_first_invariant (n : Neighbours W) (s : Sys W) (p : PACKET) :
    (∀ (R U1 U2 : List PACKET) (e : PACKET),
      s.cache.MSHR = R ++ U1 ++ e :: U2 →
      (∀ x ∈ R, is_returned x = true) →
      (∀ x ∈ U1 ++ e :: U2, is_returned x = false) →
      (∀ x ∈ R ++ U1, eq_addr_PACKET p.address s.cache.OFFSET_BITS x = false) →
      eq_addr_PACKET p.address s.cache.OFFSET_BITS e = true →
      (return_data s.cache p).MSHR
          = R ++ take_data s.cache p e :: (U1.drop 1 ++ U1.take 1 ++ U2) ∧
        returned_first (return_data s.cache p).MSHR = true) ∧
    (echoes n → returned_first s.cache.MSHR = true →
      returned_first (readlike_miss n s p).sys.cache.MSHR = true ∧
      returned_first (handle_fill n s).cache.MSHR = true) :=
  ⟨fun R U1 U2 e hM hR hU hno hmatch =>
      return_data_returned_first s.cache p e R U1 U2 hM hR hU hno hmatch,
   fun hn h => ⟨readlike_miss_returned_first_echo n hn s p h,
      handle_fill_returned_first_echo n hn s h⟩⟩

/-! ## C13: the invalidation counts -/

theorem mem_iter_swap (l : List PACKET) (i j : Nat) (x : PACKET) (h : x ∈ iter_swap l i j) :
    x ∈ l := by
  unfold iter_swap at h
  split at h
  · rename_i hij
    have hi : l.getD i {} ∈ l := by
      rw [List.getD_eq_getElem l {} hij.1]; exact List.getElem_mem _
    have hj : l.getD j {} ∈ l := by
      rw [List.getD_eq_getElem l {} hij.2]; exact List.getElem_mem _
    rcases List.mem_or_eq_of_mem_set h with h1 | h1
    · rcases List.mem_or_eq_of_mem_set h1 with h2 | h2
      · exact h2
      · rw [h2]; exact hj
    · rw [h1]; exact hi
  · exact h

theorem mem_modify_findIdx {α : Type} (pred : α → Bool) (f : α → α) (x : α) :
    ∀ l : List α, x ∈ List.modify f (l.findIdx pred) l →
      x ∈ l ∨ ∃ y ∈ l, pred y = true ∧ x = f y := by
  intro l
  induction l with
  | nil => intro h; simp at h
  | cons a as ih =>
    intro h
    rw [List.findIdx_cons] at h
    cases ha : pred a with
    | true =>
      rw [ha] at h
      simp only [cond_true, List.modify_zero_cons, List.mem_cons] at h
      rcases h with h | h
      · exact Or.inr ⟨a, List.mem_cons_self _ _, ha, h⟩
      · exact Or.inl (List.mem_cons_of_mem _ h)
    | false =>
      rw [ha] at h
      simp only [cond_false, List.modify_succ_cons, List.mem_cons] at h
      rcases h with h | h
      · exact Or.inl (by rw [h]; exact List.mem_cons_self _ _)
      · rcases ih h with h1 | ⟨y, hy, hp, hx⟩
        · exact Or.inl (List.mem_cons_of_mem _ h1)
        · exact Or.inr ⟨y, List.mem_cons_of_mem _ hy, hp, hx⟩

theorem return_data_counts (c : CACHE) (p : PACKET)
    (h : ∀ e ∈ c.MSHR, counts_ok e = true)
    (hp : ∀ e ∈ c.MSHR, eq_addr_PACKET p.address c.OFFSET_BITS e = true →
      p.mshr_invalid_count ≤ e.mshr_invalid_count) :
    ∀ e ∈ (return_data c p).MSHR, counts_ok e = true := by
  intro e he
  unfold return_data at he
  dsimp only at he
  split at he
  · exact h e he
  · have hm := mem_iter_swap _ _ _ _ he
    rcases mem_modify_findIdx _ _ _ _ hm with h1 | ⟨y, hy, hpy, hx⟩
    · exact h e h1
    · rw [hx]
      unfold counts_ok take_data
      simpa using hp y hy hpy

theorem count_invalidation_counts (c : CACHE) (p : PACKET)
    (h : ∀ e ∈ c.MSHR, counts_ok e = true) :
    ∀ e ∈ (count_invalidation c p).MSHR, counts_ok e = true := by
  intro e he
  unfold count_invalidation at he
  dsimp only at he
  rcases mem_modify_findIdx _ _ _ _ he with h1 | ⟨y, hy, _, hx⟩
  · exact h e h1
  · rw [hx]
    have hy' := h y hy
    unfold counts_ok at hy' ⊢
    simp only [decide_eq_true_eq] at hy' ⊢
    omega

theorem invalidate_entry_only_inval (c : CACHE) (a : Nat) :
    only_inval c (invalidate_entry c a).2 := by
  unfold invalidate_entry
  dsimp only
  split <;> rfl

theorem only_inval_trans {c d e : CACHE} (h1 : only_inval c d) (h2 : only_inval d e) :
    only_inval c e := by
  unfold only_inval at *
  rw [h2, h1]

theorem tally_passed_only_inval (c : CACHE) (hit : Bool) (p : PACKET) :
    only_inval c (tally_passed c hit p) := by
  unfold tally_passed
  split <;> rfl

theorem store_IVQ_front_only_inval (t : Sys W) (p : PACKET) :
    only_inval t.cache (store_IVQ_front t p).cache := rfl

theorem pop_IVQ_only_inval (k : Nat) (t : Sys W) (p : PACKET) :
    only_inval t.cache (pop_IVQ k t p).cache := rfl

theorem pass_down_only_inval (n : Neighbours W) (k : Nat) (s : Sys W) (p : PACKET) :
    only_inval s.cache (pass_down n k s p).2.cache := by
  unfold pass_down only_inval tally_passed invalidate_entry store_IVQ_front pop_IVQ
  dsimp only
  split_ifs <;> rfl

theorem end_here_only_inval (n : Neighbours W) (k : Nat) (s : Sys W) (p : PACKET) :
    only_inval s.cache (end_here n k s p).2.cache := by
  unfold end_here
  dsimp only
  split_ifs <;> rfl

theorem handle_invalid_step_MSHR (n : Neighbours W) (k : Nat) (s : Sys W) :
    (handle_invalid_step n k s).2.cache.MSHR = s.cache.MSHR ∨
    (handle_invalid_step n k s).2.cache.MSHR
      = (count_invalidation s.cache s.cache.IVQ.front).MSHR := by
  unfold handle_invalid_step
  dsimp only
  split
  · exact Or.inl rfl
  · right
    split
    · have h := pass_down_only_inval n k
        { s with cache := count_invalidation s.cache s.cache.IVQ.front } s.cache.IVQ.front
      unfold only_inval at h
      rw [h]
    · split
      · have h := end_here_only_inval n k
          { s with cache := count_invalidation s.cache s.cache.IVQ.front } s.cache.IVQ.front
        unfold only_inval at h
        rw [h]
      · rfl

theorem handle_invalid_counts (n : Neighbours W) (s : Sys W)
    (h : ∀ e ∈ s.cache.MSHR, counts_ok e = true) :
    ∀ e ∈ (handle_invalid n s).cache.MSHR, counts_ok e = true := by
  unfold handle_invalid
  refine credit_loop_invariant (handle_invalid_step n)
    (fun t => ∀ e ∈ t.cache.MSHR, counts_ok e = true) ?_ _ s h
  intro k t ht
  rcases handle_invalid_step_MSHR n k t with h1 | h1
  · rw [h1]; exact ht
  · rw [h1]; exact count_invalidation_counts _ _ ht

/-! ## C20: dirty blocks are valid -/

theorem mem_modify_getD {α : Type} (f : α → α) (d x : α) :
    ∀ (l : List α) (i : Nat), x ∈ List.modify f i l →
      x ∈ l ∨ (i < l.length ∧ x = f (l.getD i d)) := by
  intro l
  induction l with
  | nil => intro i h; simp at h
  | cons a as ih =>
    intro i h
    cases i with
    | zero =>
      simp only [List.modify_zero_cons, List.mem_cons] at h
      rcases h with h | h
      · exact Or.inr ⟨by simp, by simpa using h⟩
      · exact Or.inl (List.mem_cons_of_mem _ h)
    | succ k =>
      simp only [List.modify_succ_cons, List.mem_cons] at h
      rcases h with h | h
      · exact Or.inl (by rw [h]; exact List.mem_cons_self _ _)
      · rcases ih k h with h1 | ⟨h1, h2⟩
        · exact Or.inl (List.mem_cons_of_mem _ h1)
        · exact Or.inr ⟨by simpa using h1, by simpa using h2⟩

theorem dirty_valid_modify (l : List BLOCK) (i : Nat) (f : BLOCK → BLOCK)
    (h : ∀ b ∈ l, b.dirty = true → b.valid = true)
    (hf : i < l.length → (f (l.getD i {})).dirty = true → (f (l.getD i {})).valid = true) :
    ∀ b ∈ List.modify f i l, b.dirty = true → b.valid = true := by
  intro b hb
  rcases mem_modify_getD f {} b l i hb with h1 | ⟨h1, h2⟩
  · exact h b h1
  · rw [h2]; exact hf h1

theorem filllike_miss_dirty_valid (n : Neighbours W) (s : Sys W) (set way : Nat) (p : PACKET)
    (h : dirty_valid s.cache) : dirty_valid (filllike_miss n s set way p).sys.cache := by
  unfold dirty_valid at *
  by_cases hway : way = s.cache.NUM_WAY
  · rw [filllike_miss_bypass n s set way p hway, fill_accounting_only_stats]
    exact h
  · have hb := filllike_miss_block n s set way p hway
    cases hs : (filllike_miss n s set way p).success
    · rw [hb.2 hs]; exact h
    · rw [hb.1 hs]
      exact dirty_valid_modify _ _ _ h (fun _ _ => rfl)

theorem readlike_miss_block (n : Neighbours W) (s : Sys W) (p : PACKET) :
    (readlike_miss n s p).sys.cache.block = s.cache.block := by
  have h := readlike_miss_only_miss n s p
  unfold only_miss at h
  rw [h]

theorem writeback_miss_dirty_valid (n : Neighbours W) (s : Sys W) (set : Nat) (p : PACKET)
    (h : dirty_valid s.cache) : dirty_valid (writeback_miss n s set p).sys.cache := by
  unfold writeback_miss
  split
  · unfold dirty_valid
    rw [readlike_miss_block]
    exact h
  · exact filllike_miss_dirty_valid n _ set _ p (by
      unfold dirty_valid
      rw [choose_way_cache]
      exact h)

theorem handle_writeback_step_dirty_valid (n : Neighbours W) (k : Nat) (s : Sys W)
    (h : dirty_valid s.cache) : dirty_valid (handle_writeback_step n k s).2.cache := by
  unfold handle_writeback_step
  dsimp only
  split
  · exact h
  · split
    · exact h
    · split
      · rename_i hhit
        unfold dirty_valid pop_WQ
        dsimp only
        refine dirty_valid_modify _ _ _ h (fun _ _ => ?_)
        have hv := (Bool.and_eq_true _ _).mp hhit
        exact hv.2
      · have hm := writeback_miss_dirty_valid n s (get_set s.cache s.cache.WQ.front.address)
          s.cache.WQ.front h
        split
        · exact hm
        · exact hm

theorem handle_writeback_dirty_valid (n : Neighbours W) (s : Sys W)
    (h : dirty_valid s.cache) : dirty_valid (handle_writeback n s).cache := by
  unfold handle_writeback
  exact credit_loop_invariant (handle_writeback_step n) (fun t => dirty_valid t.cache)
    (fun k t ht => handle_writeback_step_dirty_valid n k t ht) _ s h

theorem train_prefetcher_block (n : Neighbours W) (s : Sys W) (p : PACKET) (hit : Nat) :
    (train_prefetcher n s p hit).2.cache.block = s.cache.block := by
  unfold train_prefetcher
  split <;> rfl

theorem train_prefetcher_cache_type (n : Neighbours W) (s : Sys W) (p : PACKET) (hit : Nat) :
    (train_prefetcher n s p hit).2.cache.cache_type = s.cache.cache_type := by
  unfold train_prefetcher
  split <;> rfl

theorem readlike_hit_block (n : Neighbours W) (s : Sys W) (set way : Nat) (p : PACKET)
    (hty : s.cache.cache_type ≠ EXCLUSIVE) :
    (readlike_hit n s set way p).2.cache.block = s.cache.block ∨
    (readlike_hit n s set way p).2.cache.block
      = List.modify (fun b => { b with prefetch := false }) (set * s.cache.NUM_WAY + way)
          s.cache.block := by
  have hc : ∀ q : PACKET, (return_to_producers n
      { (train_prefetcher n s q 1).2 with
        cache := tally_hit (exclusive_invalidate (train_prefetcher n s q 1).2.cache
          (train_prefetcher n s q 1).1.address) (train_prefetcher n s q 1).1,
        world := n.update_state (train_prefetcher n s q 1).2.world
          (train_prefetcher n s q 1).1.cpu set way
          (block_at (exclusive_invalidate (train_prefetcher n s q 1).2.cache
            (train_prefetcher n s q 1).1.address)
            (set * (exclusive_invalidate (train_prefetcher n s q 1).2.cache
            (train_prefetcher n s q 1).1.address).NUM_WAY + way)).address
          (train_prefetcher n s q 1).1.ip 0 (train_prefetcher n s q 1).1.type 1 }
      (train_prefetcher n s q 1).1).cache
      = tally_hit { s.cache with cpu := (train_prefetcher n s q 1).2.cache.cpu }
          (train_prefetcher n s q 1).1 := by
    intro q
    rw [return_to_producers_cache]
    dsimp only
    unfold exclusive_invalidate
    rw [if_neg (by rw [train_prefetcher_cache_type]; simpa using hty)]
    rw [← (train_prefetcher_cache n s q 1).1]
  unfold readlike_hit
  dsimp only
  rw [hc]
  unfold clear_prefetch tally_hit
  dsimp only
  split
  · right; rfl
  · left; rfl

theorem readlike_hit_dirty_valid (n : Neighbours W) (s : Sys W) (set way : Nat) (p : PACKET)
    (hty : s.cache.cache_type ≠ EXCLUSIVE) (h : dirty_valid s.cache) :
    dirty_valid (readlike_hit n s set way p).2.cache := by
  unfold dirty_valid at *
  rcases readlike_hit_block n s set way p hty with hb | hb
  · rw [hb]; exact h
  · rw [hb]
    refine dirty_valid_modify _ _ _ h (fun hi hd => ?_)
    have hmem : s.cache.block.getD (set * s.cache.NUM_WAY + way) {} ∈ s.cache.block := by
      rw [List.getD_eq_getElem _ _ hi]; exact List.getElem_mem _
    exact h (s.cache.block.getD (set * s.cache.NUM_WAY + way) {}) hmem hd

theorem invalidate_entry_keeps (c : CACHE) (a : Nat) (h : dirty_valid c)
    (hd : (block_at c (get_set c a * c.NUM_WAY + get_way c a (get_set c a))).dirty = false) :
    dirty_valid (invalidate_entry c a).2 := by
  unfold invalidate_entry
  dsimp only
  split
  · unfold dirty_valid at *
    dsimp only
    refine dirty_valid_modify _ _ _ h (fun _ hdirty => ?_)
    unfold block_at at hd
    dsimp only at hdirty
    rw [hd] at hdirty
    exact absurd hdirty (by simp)
  · exact h

theorem invalidate_entry_breaks (c : CACHE) (a : Nat)
    (hway : get_way c a (get_set c a) < c.NUM_WAY)
    (hidx : get_set c a * c.NUM_WAY + get_way c a (get_set c a) < c.block.length)
    (hd : (block_at c (get_set c a * c.NUM_WAY + get_way c a (get_set c a))).dirty = true) :
    ¬ dirty_valid (invalidate_entry c a).2 := by
  intro h
  unfold invalidate_entry at h
  dsimp only at h
  rw [if_pos hway] at h
  unfold dirty_valid at h
  dsimp only at h
  have hlen : get_set c a * c.NUM_WAY + get_way c a (get_set c a)
      < (List.modify (fun b : BLOCK => { b with valid := false })
          (get_set c a * c.NUM_WAY + get_way c a (get_set c a)) c.block).length := by
    rw [modify_length]; exact hidx
  have hmem := List.getElem_mem hlen
  rw [← List.getD_eq_getElem _ {} hlen,
    getD_modify_same _ _ _ _ hidx] at hmem
  have := h _ hmem hd
  simp at this

/-- C29: when `handle_writeback` is called with write credit `k + 1` and the
ready head of the WQ has type `NON_VALID`, the call pops the head, tallies one
hit and one access for the cpu and type of the head, leaves `k` write credits,
and changes nothing else: the blocks and the MSHR are as before, no call is
made on a neighbour, and no further WQ entry is handled. -/
theorem handle_writeback_cancelled (n : Neighbours W) (s : Sys W) (k : Nat)
    (hcredit : s.cache.writes_available_this_cycle = k + 1)
    (hready : s.cache.WQ.has_ready = true)
    (hty : s.cache.WQ.front.type = NON_VALID) :
    (handle_writeback n s).cache =
      { s.cache with
        sim_access := (s.cache.WQ.front.cpu, NON_VALID) :: s.cache.sim_access,
        sim_hit := (s.cache.WQ.front.cpu, NON_VALID) :: s.cache.sim_hit,
        writes_available_this_cycle := k,
        WQ := s.cache.WQ.pop_front } ∧
    (handle_writeback n s).trace = s.trace ∧
    (handle_writeback n s).world = s.world := by
  have hstep : handle_writeback_step n k s
      = (false, pop_WQ k { s with cache :=
          { s.cache with
            sim_access := (s.cache.WQ.front.cpu, s.cache.WQ.front.type) :: s.cache.sim_access,
            sim_hit := (s.cache.WQ.front.cpu, s.cache.WQ.front.type) :: s.cache.sim_hit } }) := by
    unfold handle_writeback_step
    dsimp only
    rw [if_neg (by simp [hready]), if_pos (by simp [hty])]
  unfold handle_writeback
  rw [hcredit]
  unfold credit_loop
  rw [hstep]
  simp only [Bool.false_eq_true, if_false]
  rw [hty]
  exact ⟨rfl, rfl, rfl⟩

/-! ## C14: an entry that was invalidated in flight -/

theorem probe_lower_eq (n : Neighbours W) (s : Sys W) (p : PACKET)
    (hty : s.cache.cache_type ≠ NOT_CACHE) :
    probe_lower n s p = call_add_rq n s { p with test_packet := true } := by
  unfold probe_lower
  rw [if_pos (by simpa using hty)]

theorem call_add_rq_trace (n : Neighbours W) (s : Sys W) (p : PACKET) :
    (call_add_rq n s p).sys.trace
      = s.trace ++ [Call.add_rq p (n.lower_add_rq s.world p).result] := rfl

theorem call_add_pq_trace (n : Neighbours W) (s : Sys W) (p : PACKET) :
    (call_add_pq n s p).sys.trace
      = s.trace ++ [Call.add_pq p (n.lower_add_pq s.world p).result] := rfl

theorem forwarded_only_MSHR {c d : CACHE} (h : only_MSHR c d) (p : PACKET) :
    forwarded d p = forwarded c p := by
  unfold only_MSHR at h
  rw [h]
  rfl

theorem forward_trace (n : Neighbours W) (s : Sys W) (read : Bool) (p : PACKET) :
    (forward n s read p).sys.trace
      = s.trace ++ [if read then Call.add_rq p (n.lower_add_rq s.world p).result
                    else Call.add_pq p (n.lower_add_pq s.world p).result] := by
  unfold forward
  cases read
  · rfl
  · rfl

theorem reissue_trace (n : Neighbours W) (s : Sys W) (e : PACKET)
    (hty : s.cache.cache_type ≠ NOT_CACHE) :
    (reissue n s e).trace = s.trace ++ reissue_calls n s e := by
  have hf := forwarded_only_MSHR (probe_lower_only_MSHR n s (copy_packet e))
  unfold reissue reissue_calls
  dsimp only
  split
  · rw [probe_lower_eq n s _ hty, call_add_rq_trace]
  · unfold erase_first reallocate
    dsimp only
    rw [forward_trace, hf]
    dsimp only
    rw [probe_lower_eq n s _ hty, call_add_rq_trace]
    cases is_read s.cache e <;> simp [call_add_rq, called]

theorem handle_fill_step_reissue (n : Neighbours W) (s : Sys W) (e : PACKET)
    (rest : List PACKET) (k : Nat) (hty : s.cache.cache_type ≠ NOT_CACHE)
    (hM : s.cache.MSHR = e :: rest) (hdue : e.event_cycle ≤ s.cache.current_cycle)
    (hinv : e.mshr_return_data_invalid_count < e.mshr_invalid_count) :
    handle_fill_step n k s = (false, reissue n s e) := by
  unfold handle_fill_step
  rw [hM]
  dsimp only
  rw [if_neg (by omega), if_pos (by simp [hty, hinv])]

theorem handle_fill_reissue_eq (n : Neighbours W) (s : Sys W) (e : PACKET)
    (rest : List PACKET) (k : Nat) (hty : s.cache.cache_type ≠ NOT_CACHE)
    (hcredit : s.cache.writes_available_this_cycle = k + 1)
    (hM : s.cache.MSHR = e :: rest) (hdue : e.event_cycle ≤ s.cache.current_cycle)
    (hinv : e.mshr_return_data_invalid_count < e.mshr_invalid_count) :
    handle_fill n s = reissue n s e := by
  unfold handle_fill
  rw [hcredit]
  unfold credit_loop
  rw [handle_fill_step_reissue n s e rest k hty hM hdue hinv]
  simp

/-- C14, as the code has it: on a cache that is not `NOT_CACHE`, a call of
`handle_fill` with write credit whose first MSHR entry `e` is due and has
`mshr_return_data_invalid_count < mshr_invalid_count` changes no block and
makes no call but the probe and, when the probe is accepted, the forward to the
read queue or the prefetch queue of the lower level: no producer receives
`return_data`.  When the lower level hands no data back during the calls, a
refused probe leaves the MSHR as it is, and an accepted probe removes `e` and
appends the packet the probe left, with `event_cycle` at the maximum. -/
theorem handle_fill_reissues (n : Neighbours W) (s : Sys W) (e : PACKET)
    (rest : List PACKET) (k : Nat) (hty : s.cache.cache_type ≠ NOT_CACHE)
    (hcredit : s.cache.writes_available_this_cycle = k + 1)
    (hM : s.cache.MSHR = e :: rest) (hdue : e.event_cycle ≤ s.cache.current_cycle)
    (hinv : e.mshr_return_data_invalid_count < e.mshr_invalid_count) :
    (handle_fill n s).cache.block = s.cache.block ∧
    (handle_fill n s).trace = s.trace ++ reissue_calls n s e ∧
    (∀ c ∈ reissue_calls n s e, ∀ ret pkt, c ≠ Call.return_data ret pkt) ∧
    (quiet n →
      (handle_fill n s).cache.MSHR
        = if probe_refused n (probe_lower n s (copy_packet e)) (is_read s.cache e) then
            e :: rest
          else rest ++ [{ (probe_lower n s (copy_packet e)).packet with
                          test_packet := false, event_cycle := UINT64_MAX }]) := by
  rw [handle_fill_reissue_eq n s e rest k hty hcredit hM hdue hinv]
  refine ⟨?_, reissue_trace n s e hty, ?_, ?_⟩
  · have h := reissue_only_MSHR n s e
    unfold only_MSHR at h
    rw [h]
  · intro c hc ret pkt heq
    subst heq
    unfold reissue_calls at hc
    dsimp only at hc
    split_ifs at hc <;> simp at hc
  · intro hq
    rw [reissue_MSHR_quiet n hq, hM]
    split <;> rfl

/-! ## Credits: C22, C23 and C27 -/

theorem credit_loop_balance (step : Nat → Sys W → Bool × Sys W) (credit m : Sys W → Nat)
    (hstep : ∀ k s, credit s = k + 1 →
      credit (step k s).2 + m s = credit s + m (step k s).2 ∧
      ((step k s).1 = true → credit (step k s).2 = k)) :
    ∀ k s, credit s = k →
      credit (credit_loop step k s) + m s = credit s + m (credit_loop step k s) := by
  intro k
  induction k with
  | zero => intro s _; rfl
  | succ k ih =>
    intro s hs
    have h := hstep k s hs
    unfold credit_loop
    split
    · rename_i hc
      have h2 := ih _ (h.2 hc)
      omega
    · exact h.1

theorem only_MSHR_writes {c d : CACHE} (h : only_MSHR c d) :
    d.writes_available_this_cycle = c.writes_available_this_cycle := by
  unfold only_MSHR at h; rw [h]

theorem only_fill_writes {c d : CACHE} (h : only_fill c d) :
    d.writes_available_this_cycle = c.writes_available_this_cycle := by
  unfold only_fill at h; rw [h]

theorem only_miss_writes {c d : CACHE} (h : only_miss c d) :
    d.writes_available_this_cycle = c.writes_available_this_cycle := by
  unfold only_miss at h; rw [h]

theorem only_fill_WQ {c d : CACHE} (h : only_fill c d) : d.WQ = c.WQ := by
  unfold only_fill at h; rw [h]

theorem only_miss_WQ {c d : CACHE} (h : only_miss c d) : d.WQ = c.WQ := by
  unfold only_miss at h; rw [h]

theorem handle_fill_step_balance (n : Neighbours W) (k : Nat) (s : Sys W)
    (hs : s.cache.writes_available_this_cycle = k + 1) :
    (handle_fill_step n k s).2.cache.writes_available_this_cycle + s.cache.MSHR.length
      = s.cache.writes_available_this_cycle + (handle_fill_step n k s).2.cache.MSHR.length ∧
    ((handle_fill_step n k s).1 = true →
      (handle_fill_step n k s).2.cache.writes_available_this_cycle = k) := by
  unfold handle_fill_step
  split
  · exact ⟨rfl, fun h => by simp at h⟩
  · rename_i e rest hM
    have hfe := fill_entry_only_fill n s e
    dsimp only
    split_ifs
    · exact ⟨rfl, fun h => by simp at h⟩
    · refine ⟨?_, fun h => by simp at h⟩
      dsimp only
      rw [only_MSHR_writes (reissue_only_MSHR n s e), reissue_length]
    · refine ⟨?_, fun _ => rfl⟩
      unfold retire
      dsimp only
      rw [only_fill_MSHR hfe, hs, hM]
      simp
      omega
    · refine ⟨?_, fun h => by simp at h⟩
      dsimp only
      rw [only_fill_MSHR hfe, only_fill_writes hfe]
    · refine ⟨?_, fun _ => rfl⟩
      unfold retire
      dsimp only
      rw [return_to_producers_cache, hs, hM]
      simp
      omega

theorem handle_fill_balance (n : Neighbours W) (s : Sys W) :
    (handle_fill n s).cache.writes_available_this_cycle + s.cache.MSHR.length
      = s.cache.writes_available_this_cycle + (handle_fill n s).cache.MSHR.length := by
  unfold handle_fill
  exact credit_loop_balance (handle_fill_step n)
    (fun t => t.cache.writes_available_this_cycle) (fun t => t.cache.MSHR.length)
    (fun k t ht => handle_fill_step_balance n k t ht) _ s rfl

theorem handle_fill_step_fills (n : Neighbours W) (s : Sys W) (k : Nat) (e : PACKET)
    (rest : List PACKET) (hM : s.cache.MSHR = e :: rest)
    (hdue : e.event_cycle ≤ s.cache.current_cycle)
    (hnore : s.cache.cache_type = NOT_CACHE
      ∨ e.mshr_invalid_count ≤ e.mshr_return_data_invalid_count)
    (hfill : s.cache.cache_type = EXCLUSIVE ∨ (fill_entry n s e).1 = true) :
    (handle_fill_step n k s).1 = true ∧
    (handle_fill_step n k s).2.cache.MSHR = rest ∧
    (handle_fill_step n k s).2.cache.writes_available_this_cycle = k := by
  have hre : (s.cache.cache_type != NOT_CACHE
      && decide (e.mshr_return_data_invalid_count < e.mshr_invalid_count)) = false := by
    rcases hnore with h | h
    · simp [h]
    · simp; intro _; exact h
  unfold handle_fill_step
  split
  · rename_i h0
    rw [hM] at h0
    cases h0
  · rename_i f tl hf
    rw [hM] at hf
    cases hf
    rw [if_neg (by omega), hre]
    simp only [Bool.false_eq_true, if_false]
    by_cases hx : s.cache.cache_type = EXCLUSIVE
    · rw [if_neg (by simp [hx])]
      refine ⟨rfl, ?_, rfl⟩
      show (return_to_producers n s e).cache.MSHR.tail = rest
      rw [return_to_producers_cache, hM]
      rfl
    · have hf1 : (fill_entry n s e).1 = true := by
        rcases hfill with h | h
        · exact absurd h hx
        · exact h
      rw [if_pos (by simp [hx])]
      rw [if_pos hf1]
      refine ⟨rfl, ?_, rfl⟩
      show (fill_entry n s e).2.cache.MSHR.tail = rest
      rw [fill_entry_MSHR, hM]
      rfl

theorem handle_fill_unroll (n : Neighbours W) (s : Sys W) (k : Nat)
    (hcredit : s.cache.writes_available_this_cycle = k + 1)
    (hgo : (handle_fill_step n k s).1 = true)
    (hk : (handle_fill_step n k s).2.cache.writes_available_this_cycle = k) :
    handle_fill n s = handle_fill n (handle_fill_step n k s).2 := by
  unfold handle_fill
  rw [hcredit, hk]
  show (if (handle_fill_step n k s).1 then _ else _) = _
  rw [if_pos hgo]

/-- C27, as the code has it: every MSHR entry that `handle_fill` retires takes
one write credit, so that a call retires at most as many entries as there are
write credits: the MSHR shrinks by exactly the number of credits taken.  And
the loop goes on after a fill: when the call is entered with `k + 1` write
credits and the first MSHR entry is due, is not issued again and its fill does
not stall, the round removes the entry, leaves `k` credits, and the call is
`handle_fill` on the state the round left. -/
theorem handle_fill_throttle (n : Neighbours W) (s : Sys W) :
    ((handle_fill n s).cache.MSHR.length ≤ s.cache.MSHR.length ∧
      (handle_fill n s).cache.writes_available_this_cycle
        ≤ s.cache.writes_available_this_cycle ∧
      s.cache.MSHR.length - (handle_fill n s).cache.MSHR.length
        = s.cache.writes_available_this_cycle
          - (handle_fill n s).cache.writes_available_this_cycle ∧
      s.cache.MSHR.length - (handle_fill n s).cache.MSHR.length
        ≤ s.cache.writes_available_this_cycle) ∧
    ∀ (k : Nat) (e : PACKET) (rest : List PACKET),
      s.cache.writes_available_this_cycle = k + 1 →
      s.cache.MSHR = e :: rest →
      e.event_cycle ≤ s.cache.current_cycle →
      (s.cache.cache_type = NOT_CACHE
        ∨ e.mshr_invalid_count ≤ e.mshr_return_data_invalid_count) →
      (s.cache.cache_type = EXCLUSIVE ∨ (fill_entry n s e).1 = true) →
      (handle_fill_step n k s).2.cache.MSHR = rest ∧
      (handle_fill_step n k s).2.cache.writes_available_this_cycle = k ∧
      handle_fill n s = handle_fill n (handle_fill_step n k s).2 := by
  constructor
  · have h := handle_fill_balance n s
    have hl := (handle_fill_frame n s).2
    omega
  · intro k e rest hcredit hM hdue hnore hfill
    obtain ⟨h1, h2, h3⟩ := handle_fill_step_fills n s k e rest hM hdue hnore hfill
    exact ⟨h2, h3, handle_fill_unroll n s k hcredit h1 h3⟩

/-- C27, witness: the two entries of `sys_two_due` are due and the write credit
is 2; after the fill of the first the call goes on with the second. -/
theorem handle_fill_throttle_witness :
    (handle_fill_step nbrs 1 sys_two_due).2.cache.MSHR = [due_b] ∧
    (handle_fill_step nbrs 1 sys_two_due).2.cache.writes_available_this_cycle = 1 ∧
    handle_fill nbrs sys_two_due = handle_fill nbrs (handle_fill_step nbrs 1 sys_two_due).2 :=
  (handle_fill_throttle nbrs sys_two_due).2 1 due_a [due_b] rfl rfl (by decide)
    (Or.inr (by decide)) (Or.inr (by decide))

theorem has_ready_pos (q : delay_queue) (h : q.has_ready = true) : 0 < q.occupancy := by
  unfold delay_queue.has_ready at h
  unfold delay_queue.occupancy
  cases hb : q.buf with
  | nil => rw [hb] at h; simp at h
  | cons x xs => simp

theorem pop_front_occupancy (q : delay_queue) :
    q.pop_front.occupancy = q.occupancy - 1 := by
  simp [delay_queue.pop_front, delay_queue.occupancy]

theorem writeback_miss_WQ (n : Neighbours W) (s : Sys W) (set : Nat) (p : PACKET) :
    (writeback_miss n s set p).sys.cache.WQ = s.cache.WQ ∧
    (writeback_miss n s set p).sys.cache.writes_available_this_cycle
      = s.cache.writes_available_this_cycle := by
  unfold writeback_miss
  split
  · exact ⟨only_miss_WQ (readlike_miss_only_miss n s p),
      only_miss_writes (readlike_miss_only_miss n s p)⟩
  · have h := filllike_miss_only_fill n (choose_way n s set p).2 set (choose_way n s set p).1 p
    rw [choose_way_cache] at h
    exact ⟨only_fill_WQ h, only_fill_writes h⟩

theorem handle_writeback_step_balance (n : Neighbours W) (k : Nat) (s : Sys W)
    (hs : s.cache.writes_available_this_cycle = k + 1) :
    (handle_writeback_step n k s).2.cache.writes_available_this_cycle + s.cache.WQ.occupancy
      = s.cache.writes_available_this_cycle
        + (handle_writeback_step n k s).2.cache.WQ.occupancy ∧
    ((handle_writeback_step n k s).1 = true →
      (handle_writeback_step n k s).2.cache.writes_available_this_cycle = k) := by
  unfold handle_writeback_step
  dsimp only
  split
  · exact ⟨rfl, fun h => by simp at h⟩
  · rename_i hr
    have hpos := has_ready_pos s.cache.WQ (by simpa using hr)
    have hm := writeback_miss_WQ n s (get_set s.cache s.cache.WQ.front.address)
      s.cache.WQ.front
    split
    · refine ⟨?_, fun h => by simp at h⟩
      unfold pop_WQ
      dsimp only
      rw [pop_front_occupancy, hs]
      omega
    · split
      · refine ⟨?_, fun _ => rfl⟩
        unfold pop_WQ
        dsimp only
        rw [pop_front_occupancy, hs]
        omega
      · split
        · refine ⟨?_, fun _ => rfl⟩
          unfold pop_WQ
          dsimp only
          rw [pop_front_occupancy, hm.1, hs]
          omega
        · refine ⟨?_, fun h => by simp at h⟩
          dsimp only
          rw [delay_queue.modify_at_occupancy, hm.1, hm.2]

theorem handle_writeback_balance (n : Neighbours W) (s : Sys W) :
    (handle_writeback n s).cache.writes_available_this_cycle + s.cache.WQ.occupancy
      = s.cache.writes_available_this_cycle + (handle_writeback n s).cache.WQ.occupancy := by
  unfold handle_writeback
  exact credit_loop_balance (handle_writeback_step n)
    (fun t => t.cache.writes_available_this_cycle) (fun t => t.cache.WQ.occupancy)
    (fun k t ht => handle_writeback_step_balance n k t ht) _ s rfl

theorem invalidate_entry_IVQ (c : CACHE) (a : Nat) :
    (invalidate_entry c a).2.IVQ = c.IVQ ∧
    (invalidate_entry c a).2.invalid_available_this_cycle = c.invalid_available_this_cycle := by
  unfold invalidate_entry
  dsimp only
  split <;> exact ⟨rfl, rfl⟩

theorem tally_passed_IVQ (c : CACHE) (hit : Bool) (p : PACKET) :
    (tally_passed c hit p).IVQ = c.IVQ ∧
    (tally_passed c hit p).invalid_available_this_cycle = c.invalid_available_this_cycle := by
  unfold tally_passed
  split <;> exact ⟨rfl, rfl⟩

theorem pass_down_balance (n : Neighbours W) (k : Nat) (s : Sys W) (p : PACKET)
    (hs : s.cache.invalid_available_this_cycle = k + 1) (hpos : 0 < s.cache.IVQ.occupancy) :
    (pass_down n k s p).2.cache.invalid_available_this_cycle + s.cache.IVQ.occupancy
      = s.cache.invalid_available_this_cycle + (pass_down n k s p).2.cache.IVQ.occupancy ∧
    ((pass_down n k s p).1 = true →
      (pass_down n k s p).2.cache.invalid_available_this_cycle = k) := by
  unfold pass_down
  dsimp only
  split
  · refine ⟨?_, fun h => by simp at h⟩
    unfold store_IVQ_front
    dsimp only
    rw [delay_queue.modify_at_occupancy]
    rfl
  · refine ⟨?_, fun _ => rfl⟩
    unfold pop_IVQ
    dsimp only
    rw [pop_front_occupancy, (invalidate_entry_IVQ _ _).1, (tally_passed_IVQ _ _ _).1]
    unfold store_IVQ_front
    dsimp only
    rw [delay_queue.modify_at_occupancy]
    show k + s.cache.IVQ.occupancy = s.cache.invalid_available_this_cycle
      + (s.cache.IVQ.occupancy - 1)
    omega

theorem end_here_balance (n : Neighbours W) (k : Nat) (s : Sys W) (p : PACKET)
    (hs : s.cache.invalid_available_this_cycle = k + 1) (hpos : 0 < s.cache.IVQ.occupancy) :
    (end_here n k s p).2.cache.invalid_available_this_cycle + s.cache.IVQ.occupancy
      = s.cache.invalid_available_this_cycle + (end_here n k s p).2.cache.IVQ.occupancy ∧
    ((end_here n k s p).1 = true →
      (end_here n k s p).2.cache.invalid_available_this_cycle = k) := by
  have hpop : k + s.cache.IVQ.occupancy
      = s.cache.invalid_available_this_cycle + s.cache.IVQ.pop_front.occupancy := by
    rw [pop_front_occupancy]; omega
  unfold end_here
  dsimp only
  split
  · exact ⟨hpop, fun _ => rfl⟩
  · split
    · split
      · refine ⟨?_, fun h => by simp at h⟩
        unfold store_IVQ_front
        dsimp only
        rw [delay_queue.modify_at_occupancy]
        rfl
      · refine ⟨?_, fun _ => rfl⟩
        unfold pop_IVQ store_IVQ_front
        dsimp only
        rw [pop_front_occupancy, delay_queue.modify_at_occupancy]
        rw [pop_front_occupancy] at hpop
        exact hpop
    · exact ⟨hpop, fun _ => rfl⟩

theorem handle_invalid_step_balance (n : Neighbours W) (k : Nat) (s : Sys W)
    (hs : s.cache.invalid_available_this_cycle = k + 1) :
    (handle_invalid_step n k s).2.cache.invalid_available_this_cycle + s.cache.IVQ.occupancy
      = s.cache.invalid_available_this_cycle
        + (handle_invalid_step n k s).2.cache.IVQ.occupancy ∧
    ((handle_invalid_step n k s).1 = true →
      (handle_invalid_step n k s).2.cache.invalid_available_this_cycle = k) := by
  unfold handle_invalid_step
  dsimp only
  split
  · exact ⟨rfl, fun h => by simp at h⟩
  · rename_i hr
    have hpos := has_ready_pos s.cache.IVQ (by simpa using hr)
    split
    · exact pass_down_balance n k
        { s with cache := count_invalidation s.cache s.cache.IVQ.front } _ hs hpos
    · split
      · exact end_here_balance n k
          { s with cache := count_invalidation s.cache s.cache.IVQ.front } _ hs hpos
      · refine ⟨?_, fun _ => rfl⟩
        unfold pop_IVQ
        dsimp only
        rw [pop_front_occupancy]
        show k + s.cache.IVQ.occupancy = s.cache.invalid_available_this_cycle
          + (s.cache.IVQ.occupancy - 1)
        omega

theorem handle_invalid_balance (n : Neighbours W) (s : Sys W) :
    (handle_invalid n s).cache.invalid_available_this_cycle + s.cache.IVQ.occupancy
      = s.cache.invalid_available_this_cycle + (handle_invalid n s).cache.IVQ.occupancy := by
  unfold handle_invalid
  exact credit_loop_balance (handle_invalid_step n)
    (fun t => t.cache.invalid_available_this_cycle) (fun t => t.cache.IVQ.occupancy)
    (fun k t ht => handle_invalid_step_balance n k t ht) _ s rfl

theorem only_hit_trans {c d e : CACHE} (h1 : only_hit c d) (h2 : only_hit d e) :
    only_hit c e := by
  unfold only_hit at *
  rw [h2, h1]

theorem train_prefetcher_only_hit (n : Neighbours W) (s : Sys W) (p : PACKET) (hit : Nat) :
    only_hit s.cache (train_prefetcher n s p hit).2.cache := by
  unfold train_prefetcher
  split <;> rfl

theorem exclusive_invalidate_only_hit (c : CACHE) (a : Nat) :
    only_hit c (exclusive_invalidate c a) := by
  unfold exclusive_invalidate invalidate_entry
  dsimp only
  split_ifs <;> rfl

theorem clear_prefetch_only_hit (c : CACHE) (set way : Nat) :
    only_hit c (clear_prefetch c set way) := by
  unfold clear_prefetch
  split <;> rfl

theorem readlike_hit_only_hit (n : Neighbours W) (s : Sys W) (set way : Nat) (p : PACKET) :
    only_hit s.cache (readlike_hit n s set way p).2.cache := by
  unfold readlike_hit
  dsimp only
  refine only_hit_trans ?_ (clear_prefetch_only_hit _ set way)
  rw [return_to_producers_cache]
  dsimp only
  exact only_hit_trans (only_hit_trans (train_prefetcher_only_hit n s _ 1)
    (exclusive_invalidate_only_hit _ _)) rfl

theorem read_queue_set (is_rq : Bool) (c : CACHE) (q : delay_queue) :
    read_queue is_rq (set_read_queue is_rq c q) = q ∧
    (set_read_queue is_rq c q).reads_available_this_cycle = c.reads_available_this_cycle := by
  unfold read_queue set_read_queue
  cases is_rq <;> exact ⟨rfl, rfl⟩

theorem only_hit_read_queue {c d : CACHE} (h : only_hit c d) (is_rq : Bool) :
    read_queue is_rq d = read_queue is_rq c ∧
    d.reads_available_this_cycle = c.reads_available_this_cycle := by
  unfold only_hit at h
  rw [h]
  exact ⟨rfl, rfl⟩

theorem only_miss_read_queue {c d : CACHE} (h : only_miss c d) (is_rq : Bool) :
    read_queue is_rq d = read_queue is_rq c ∧
    d.reads_available_this_cycle = c.reads_available_this_cycle := by
  unfold only_miss at h
  rw [h]
  exact ⟨rfl, rfl⟩

theorem pop_read_balance (is_rq : Bool) (k : Nat) (t : Sys W) :
    (read_queue is_rq (pop_read is_rq k t).cache).occupancy
      = (read_queue is_rq t.cache).occupancy - 1 ∧
    (pop_read is_rq k t).cache.reads_available_this_cycle = k := by
  unfold pop_read
  dsimp only
  refine ⟨?_, rfl⟩
  have h := (read_queue_set is_rq t.cache (read_queue is_rq t.cache).pop_front).1
  have h2 : read_queue is_rq
      { set_read_queue is_rq t.cache (read_queue is_rq t.cache).pop_front with
        reads_available_this_cycle := k }
      = read_queue is_rq (set_read_queue is_rq t.cache (read_queue is_rq t.cache).pop_front) := by
    unfold read_queue
    cases is_rq <;> rfl
  rw [h2, h, pop_front_occupancy]

/-! ## The eviction of an inclusive victim -/

theorem inv_results_append (i : Nat) (t u : List Call) :
    inv_results i (t ++ u) = inv_results i t ++ inv_results i u := by
  unfold inv_results
  exact List.filterMap_append _ _ _

theorem wq_calls_append (t u : List Call) : wq_calls (t ++ u) = wq_calls t ++ wq_calls u := by
  unfold wq_calls
  exact List.filterMap_append _ _ _

theorem all_refused_snoc (rs : List Int) (h : all_refused rs = true) :
    all_refused (rs ++ [-2]) = true := by
  unfold all_refused at *
  simp only [List.all_append, h, Bool.true_and]
  rfl

theorem refused_then_accepted_snoc (rs : List Int) (r : Int) (h : all_refused rs = true)
    (hr : r ≠ -2) : refused_then_accepted (rs ++ [r]) = true := by
  unfold refused_then_accepted
  rw [List.getLast?_append]
  simp [h, hr]

theorem send_inv_valid_set (c : CACHE) (i j : Nat) (b : Bool) (hi : i < 2) (hj : j < 2) :
    send_inv_valid (set_send_inv_valid c i b) j = if j = i then b else send_inv_valid c j := by
  unfold send_inv_valid set_send_inv_valid
  interval_cases i <;> interval_cases j <;> simp

theorem send_invalidation_trace (n : Neighbours W) (i : Nat) (s : Sys W) (p : PACKET) :
    (send_invalidation n i s p).2.2.trace = s.trace ++ inv_call n i s p := by
  unfold send_invalidation inv_call
  split
  · dsimp only
    split <;> rfl
  · simp

theorem wq_calls_inv_call (n : Neighbours W) (i : Nat) (s : Sys W) (p : PACKET) :
    wq_calls (inv_call n i s p) = [] := by
  unfold inv_call wq_calls
  split <;> rfl

theorem send_invalidation_other (n : Neighbours W) (i j : Nat) (s : Sys W) (p : PACKET)
    (hi : i < 2) (hj : j < 2) (hne : j ≠ i) :
    send_inv_valid (send_invalidation n i s p).2.2.cache j = send_inv_valid s.cache j := by
  unfold send_invalidation
  split
  · dsimp only
    split
    · dsimp only
      rw [send_inv_valid_set _ i j false hi hj, if_neg hne]
      rfl
    · rfl
  · rfl

theorem send_invalidation_done (n : Neighbours W) (i : Nat) (s : Sys W) (p : PACKET)
    (hi : i < 2) (hskip : (send_invalidation n i s p).1 = false)
    (hpres : n.upper_present i = true) :
    send_inv_valid (send_invalidation n i s p).2.2.cache i = false := by
  unfold send_invalidation at hskip ⊢
  split
  · rename_i hc
    rw [if_pos hc] at hskip
    dsimp only at hskip ⊢
    split
    · dsimp only
      rw [send_inv_valid_set _ i i false hi hi, if_pos rfl]
    · rename_i hr
      rw [if_neg hr] at hskip
      simp at hskip
  · rename_i hc
    simpa [hpres] using hc

theorem send_invalidation_record (n : Neighbours W) (i j : Nat) (s : Sys W) (p : PACKET)
    (rs : List Int) (hi : i < 2) (hj : j < 2)
    (h : upper_record n j (send_inv_valid s.cache j) rs) :
    upper_record n j (send_inv_valid (send_invalidation n i s p).2.2.cache j)
      (rs ++ inv_results j (inv_call n i s p)) := by
  by_cases hne : j = i
  · subst hne
    unfold send_invalidation inv_call
    split
    · rename_i hc
      have hc2 := (Bool.and_eq_true _ _).mp hc
      have hall := h.2.1 hc2.2
      dsimp only
      split
      · rename_i hr
        dsimp only
        rw [send_inv_valid_set _ j j false hi hi, if_pos rfl]
        refine ⟨fun hab => by rw [hc2.1] at hab; simp at hab, fun hf => by simp at hf, fun _ => ?_⟩
        have : inv_results j [Call.upper_add_ivq j p (n.upper_add_ivq j s.world p).result]
            = [(n.upper_add_ivq j s.world p).result] := by
          simp [inv_results]
        rw [this]
        exact refused_then_accepted_snoc rs _ hall (by simpa using hr)
      · rename_i hr
        have hr2 : (n.upper_add_ivq j s.world p).result = -2 := by simpa using hr
        have : inv_results j [Call.upper_add_ivq j p (n.upper_add_ivq j s.world p).result]
            = [-2] := by
          simp [inv_results, hr2]
        rw [this]
        show upper_record n j (send_inv_valid s.cache j) (rs ++ [-2])
        rw [hc2.2]
        exact ⟨fun hab => by rw [hc2.1] at hab; simp at hab,
          fun _ => all_refused_snoc rs hall, fun hf => by simp at hf⟩
    · simpa [inv_results] using h
  · rw [send_invalidation_other n i j s p hi hj hne]
    have : inv_results j (inv_call n i s p) = [] := by
      unfold inv_call inv_results
      split
      · simp [Ne.symm hne]
      · rfl
    rw [this, List.append_nil]
    exact h

theorem send_invalidation_wb (n : Neighbours W) (i : Nat) (s : Sys W) (p : PACKET) :
    (send_invalidation n i s p).2.2.cache.send_wb_valid = s.cache.send_wb_valid := by
  unfold send_invalidation set_send_inv_valid
  dsimp only
  split_ifs <;> rfl

theorem broadcast_record (n : Neighbours W) (t : Sys W) (p : PACKET) (base seg : List Call)
    (htr : t.trace = base ++ seg)
    (h0 : upper_record n 0 (send_inv_valid t.cache 0) (inv_results 0 seg))
    (h1 : upper_record n 1 (send_inv_valid t.cache 1) (inv_results 1 seg)) :
    (broadcast n t p).2.cache.send_wb_valid = t.cache.send_wb_valid ∧
    ((broadcast n t p).1 = false → ∀ i, i < 2 → n.upper_present i = true →
      send_inv_valid (broadcast n t p).2.cache i = false) ∧
    ∃ seg2, (broadcast n t p).2.trace = base ++ seg2 ∧ wq_calls seg2 = wq_calls seg ∧
      upper_record n 0 (send_inv_valid (broadcast n t p).2.cache 0) (inv_results 0 seg2) ∧
      upper_record n 1 (send_inv_valid (broadcast n t p).2.cache 1) (inv_results 1 seg2) := by
  unfold broadcast
  dsimp only
  refine ⟨?_, ?_, ?_⟩
  · rw [send_invalidation_wb, send_invalidation_wb]
  · intro hskip i hi hpres
    have hs := (Bool.or_eq_false_iff).mp hskip
    interval_cases i
    · rw [send_invalidation_other n 1 0 _ _ (by decide) (by decide) (by decide)]
      exact send_invalidation_done n 0 t p (by decide) hs.1 hpres
    · exact send_invalidation_done n 1 _ _ (by decide) hs.2 hpres
  · refine ⟨seg ++ inv_call n 0 t p ++ inv_call n 1 (send_invalidation n 0 t p).2.2
      (send_invalidation n 0 t p).2.1, ?_, ?_, ?_, ?_⟩
    · rw [send_invalidation_trace, send_invalidation_trace, htr]
      simp
    · rw [wq_calls_append, wq_calls_append, wq_calls_inv_call, wq_calls_inv_call]
      simp
    · rw [inv_results_append, inv_results_append]
      exact send_invalidation_record n 1 0 _ _ _ (by decide) (by decide)
        (send_invalidation_record n 0 0 t p _ (by decide) (by decide) h0)
    · rw [inv_results_append, inv_results_append]
      exact send_invalidation_record n 1 1 _ _ _ (by decide) (by decide)
        (send_invalidation_record n 0 1 t p _ (by decide) (by decide) h1)

theorem invalidate_uppers_skip (n : Neighbours W) (t : Sys W) (fb : BLOCK) (p : PACKET)
    (hinc : t.cache.cache_type = INCLUSIVE)
    (hb : (broadcast n t (invalidation_packet n fb p)).1 = true) :
    invalidate_uppers n t fb p = (false, (broadcast n t (invalidation_packet n fb p)).2) := by
  unfold invalidate_uppers
  rw [if_pos (by rw [hinc]; rfl)]
  dsimp only
  rw [if_pos hb]

theorem invalidate_uppers_go (n : Neighbours W) (t : Sys W) (fb : BLOCK) (p : PACKET)
    (hinc : t.cache.cache_type = INCLUSIVE)
    (hb : (broadcast n t (invalidation_packet n fb p)).1 = false) :
    invalidate_uppers n t fb p
      = (true, Sys.mk
          { (broadcast n t (invalidation_packet n fb p)).2.cache with
            send_inv_valid0 := true, send_inv_valid1 := true }
          (broadcast n t (invalidation_packet n fb p)).2.world
          (broadcast n t (invalidation_packet n fb p)).2.trace) := by
  unfold invalidate_uppers
  rw [if_pos (by rw [hinc]; rfl)]
  dsimp only
  rw [if_neg (by rw [hb]; exact Bool.false_ne_true)]

theorem evict_after_writeback (n : Neighbours W) (s t : Sys W) (fb : BLOCK) (d : Bool)
    (p : PACKET) (hsw : send_writeback n s fb d p = (true, t)) :
    evict n s fb d p
      = if (invalidate_uppers n t fb p).1 then
          (true, Sys.mk { (invalidate_uppers n t fb p).2.cache with send_wb_valid := true }
            (invalidate_uppers n t fb p).2.world (invalidate_uppers n t fb p).2.trace)
        else (false, (invalidate_uppers n t fb p).2) := by
  unfold evict
  rw [hsw]
  dsimp only
  cases (invalidate_uppers n t fb p).1 <;> rfl

theorem evict_pending (n : Neighbours W) (t : Sys W) (fb : BLOCK) (d : Bool) (p : PACKET)
    (base : List Call) (wb : PACKET) (hinc : t.cache.cache_type = INCLUSIVE)
    (hp : fill_pending n base wb t) :
    ((evict n t fb d p).1 = false → fill_pending n base wb (evict n t fb d p).2) ∧
    ((evict n t fb d p).1 = true → fill_done n base wb (evict n t fb d p).2) := by
  obtain ⟨hwb, seg, htr, hwq, h0, h1⟩ := hp
  have hsw : send_writeback n t fb d p = (true, t) := by
    unfold send_writeback
    rw [if_neg (by rw [hwb]; exact Bool.false_ne_true)]
  obtain ⟨bwb, bdone, seg2, btr, bwq, b0, b1⟩ :=
    broadcast_record n t (invalidation_packet n fb p) base seg htr h0 h1
  rw [evict_after_writeback n t t fb d p hsw]
  cases hb : (broadcast n t (invalidation_packet n fb p)).1
  · rw [invalidate_uppers_go n t fb p hinc hb]
    dsimp only
    rw [if_pos rfl]
    refine ⟨fun h => by simp at h, fun _ => ⟨rfl, rfl, rfl, seg2, btr, bwq.trans hwq, ?_⟩⟩
    intro i hi
    have hdone := bdone hb i hi
    interval_cases i
    · exact ⟨fun hpres => b0.2.2 (hdone hpres), fun hab => (b0.1 hab).1⟩
    · exact ⟨fun hpres => b1.2.2 (hdone hpres), fun hab => (b1.1 hab).1⟩
  · rw [invalidate_uppers_skip n t fb p hinc hb]
    dsimp only
    rw [if_neg Bool.false_ne_true]
    exact ⟨fun _ => ⟨bwb.trans hwb, seg2, btr, bwq.trans hwq, b0, b1⟩, fun h => by simp at h⟩

theorem victim_evict_valid (n : Neighbours W) (t : Sys W) (set way : Nat) (p : PACKET)
    (hvalid : (block_at t.cache (set * t.cache.NUM_WAY + way)).valid = true) :
    victim_evict n t set way p
      = evict n t (block_at t.cache (set * t.cache.NUM_WAY + way))
          (n.lower_present && (block_at t.cache (set * t.cache.NUM_WAY + way)).dirty) p := by
  unfold victim_evict
  dsimp only
  rw [if_pos hvalid]

theorem fill_accounting_trace (n : Neighbours W) (s : Sys W) (set way : Nat) (p : PACKET)
    (ev : Nat) : (fill_accounting n s set way p ev).sys.trace = s.trace := rfl

theorem fill_accounting_flags (n : Neighbours W) (s : Sys W) (set way : Nat) (p : PACKET)
    (ev : Nat) :
    (fill_accounting n s set way p ev).sys.cache.send_wb_valid = s.cache.send_wb_valid ∧
    send_inv_valid (fill_accounting n s set way p ev).sys.cache 0 = send_inv_valid s.cache 0 ∧
    send_inv_valid (fill_accounting n s set way p ev).sys.cache 1
      = send_inv_valid s.cache 1 := by
  have h := fill_accounting_only_stats n s set way p ev
  unfold only_stats at h
  rw [h]
  exact ⟨rfl, rfl, rfl⟩

theorem filllike_miss_pending (n : Neighbours W) (t : Sys W) (set way : Nat) (p : PACKET)
    (base : List Call) (wb : PACKET) (hinc : t.cache.cache_type = INCLUSIVE)
    (hway : way ≠ t.cache.NUM_WAY)
    (hvalid : (block_at t.cache (set * t.cache.NUM_WAY + way)).valid = true)
    (hp : fill_pending n base wb t) :
    ((filllike_miss n t set way p).success = false →
      fill_pending n base wb (filllike_miss n t set way p).sys ∧
      only_flags t.cache (filllike_miss n t set way p).sys.cache) ∧
    ((filllike_miss n t set way p).success = true →
      fill_done n base wb (filllike_miss n t set way p).sys) := by
  have hve := victim_evict_valid n t set way p hvalid
  have hev := evict_pending n t (block_at t.cache (set * t.cache.NUM_WAY + way))
    (n.lower_present && (block_at t.cache (set * t.cache.NUM_WAY + way)).dirty) p base wb
    hinc hp
  rw [← hve] at hev
  have hfl := victim_evict_only_flags n t set way p
  rw [filllike_miss_success n t set way p hway]
  constructor
  · intro hs
    rw [filllike_miss_stall n t set way p hway hs]
    exact ⟨hev.1 hs, hfl⟩
  · intro hs
    rw [filllike_miss_fill n t set way p hway hs]
    obtain ⟨d1, d2, d3, seg, dtr, drest⟩ := hev.2 hs
    obtain ⟨f1, f2, f3⟩ := fill_accounting_flags n
      (Sys.mk (install (victim_evict n t set way p).2.cache set way p)
        (victim_evict n t set way p).2.world (victim_evict n t set way p).2.trace)
      set way p (evicting_address (victim_evict n t set way p).2.cache set way)
    exact ⟨f1.trans d1, f2.trans d2, f3.trans d3, seg, dtr, drest⟩

theorem send_writeback_inclusive (n : Neighbours W) (s : Sys W) (fb : BLOCK) (p : PACKET)
    (hinc : s.cache.cache_type = INCLUSIVE) (hlow : n.lower_present = true)
    (hwb : s.cache.send_wb_valid = true) :
    send_writeback n s fb (n.lower_present && fb.dirty) p
      = if (n.lower_add_wq s.world (victim_writeback n s fb p)).result = -2 then
          (false, (call_add_wq n s (victim_writeback n s fb p)).sys)
        else (true, written_back n s fb p) := by
  unfold send_writeback
  rw [if_pos hwb, if_neg (by rw [hinc]; decide), if_pos hlow]
  dsimp only
  unfold written_back victim_writeback
  dsimp only
  by_cases hr : (n.lower_add_wq s.world (writeback_packet n s.cache fb p
      (if (n.lower_present && fb.dirty) = true then WRITEBACK else WRITEBACK_EXCLUSIVE))).result
      = -2
  · rw [if_pos hr, if_pos (by simpa [call_add_wq, acked] using hr)]
  · rw [if_neg hr, if_neg (by simpa [call_add_wq, acked] using hr)]

theorem written_back_pending (n : Neighbours W) (s : Sys W) (fb : BLOCK) (p : PACKET)
    (h0 : s.cache.send_inv_valid0 = true) (h1 : s.cache.send_inv_valid1 = true) :
    fill_pending n s.trace (victim_writeback n s fb p) (written_back n s fb p) := by
  refine ⟨rfl, [Call.add_wq (victim_writeback n s fb p)
    (n.lower_add_wq s.world (victim_writeback n s fb p)).result], rfl, rfl, ?_, ?_⟩
  · exact ⟨fun _ => ⟨rfl, h0⟩, fun _ => rfl, fun hf => by
      have : send_inv_valid (written_back n s fb p).cache 0 = true := h0
      rw [this] at hf; simp at hf⟩
  · exact ⟨fun _ => ⟨rfl, h1⟩, fun _ => rfl, fun hf => by
      have : send_inv_valid (written_back n s fb p).cache 1 = true := h1
      rw [this] at hf; simp at hf⟩

theorem evict_written_back (n : Neighbours W) (s : Sys W) (fb : BLOCK) (p : PACKET)
    (hinc : s.cache.cache_type = INCLUSIVE) (hlow : n.lower_present = true)
    (hwb : s.cache.send_wb_valid = true)
    (hacc : (n.lower_add_wq s.world (victim_writeback n s fb p)).result ≠ -2) :
    evict n s fb (n.lower_present && fb.dirty) p
      = evict n (written_back n s fb p) fb (n.lower_present && fb.dirty) p := by
  have h1 : send_writeback n s fb (n.lower_present && fb.dirty) p
      = (true, written_back n s fb p) := by
    rw [send_writeback_inclusive n s fb p hinc hlow hwb, if_neg hacc]
  have h2 : send_writeback n (written_back n s fb p) fb (n.lower_present && fb.dirty) p
      = (true, written_back n s fb p) := by
    unfold send_writeback
    rw [if_neg (by
      have : (written_back n s fb p).cache.send_wb_valid = false := rfl
      rw [this]; exact Bool.false_ne_true)]
  rw [evict_after_writeback n s _ fb _ p h1, evict_after_writeback n _ _ fb _ p h2]

theorem filllike_miss_written_back (n : Neighbours W) (s : Sys W) (set way : Nat) (p : PACKET)
    (hinc : s.cache.cache_type = INCLUSIVE) (hlow : n.lower_present = true)
    (hwb : s.cache.send_wb_valid = true) (hway : way ≠ s.cache.NUM_WAY)
    (hvalid : (block_at s.cache (set * s.cache.NUM_WAY + way)).valid = true)
    (hacc : (n.lower_add_wq s.world (victim_writeback n s
      (block_at s.cache (set * s.cache.NUM_WAY + way)) p)).result ≠ -2) :
    filllike_miss n s set way p
      = filllike_miss n (written_back n s (block_at s.cache (set * s.cache.NUM_WAY + way)) p)
          set way p := by
  have hve : victim_evict n s set way p
      = victim_evict n (written_back n s (block_at s.cache (set * s.cache.NUM_WAY + way)) p)
          set way p := by
    rw [victim_evict_valid n s set way p hvalid,
      victim_evict_valid n (written_back n s _ p) set way p hvalid]
    exact evict_written_back n s _ p hinc hlow hwb hacc
  have hN : (written_back n s (block_at s.cache (set * s.cache.NUM_WAY + way)) p).cache.NUM_WAY
      = s.cache.NUM_WAY := rfl
  have hway2 : way ≠ (written_back n s
      (block_at s.cache (set * s.cache.NUM_WAY + way)) p).cache.NUM_WAY := by
    rw [hN]; exact hway
  cases hev : (victim_evict n s set way p).1
  · rw [filllike_miss_stall n s set way p hway hev,
      filllike_miss_stall n _ set way p hway2 (by rw [← hve]; exact hev), hve]
  · rw [filllike_miss_fill n s set way p hway hev,
      filllike_miss_fill n _ set way p hway2 (by rw [← hve]; exact hev), hve]

theorem inv_sent_append (i : Nat) (t u : List Call) :
    inv_sent i (t ++ u) = inv_sent i t ++ inv_sent i u := by
  unfold inv_sent
  exact List.filterMap_append _ _ _

theorem inv_sent_other (n : Neighbours W) (i j : Nat) (t : Sys W) (q : PACKET) (hne : j ≠ i) :
    inv_sent j (inv_call n i t q) = [] := by
  unfold inv_call inv_sent
  split
  · simp [Ne.symm hne]
  · rfl

theorem inv_sent_absent (n : Neighbours W) (i j : Nat) (t : Sys W) (q : PACKET)
    (h : n.upper_present i = false) : inv_sent j (inv_call n i t q) = [] := by
  unfold inv_call
  rw [h]
  rfl

theorem inv_sent_accepted (n : Neighbours W) (i : Nat) (t : Sys W) (q : PACKET)
    (hpres : n.upper_present i = true) (hflag : send_inv_valid t.cache i = true)
    (hskip : (send_invalidation n i t q).1 = false) :
    (n.upper_add_ivq i t.world q).result ≠ -2 ∧
    inv_sent i (inv_call n i t q) = [(q, (n.upper_add_ivq i t.world q).result)] := by
  have hc : (n.upper_present i && send_inv_valid t.cache i) = true := by
    rw [hpres, hflag]; rfl
  constructor
  · intro hr
    unfold send_invalidation at hskip
    rw [if_pos hc] at hskip
    dsimp only at hskip
    rw [if_neg (by
      have : (call_upper_add_ivq n i t q).result = -2 := hr
      rw [this]; decide)] at hskip
    simp at hskip
  · unfold inv_call
    rw [if_pos hc]
    simp [inv_sent]

theorem evict_refused (n : Neighbours W) (s t : Sys W) (fb : BLOCK) (d : Bool) (p : PACKET)
    (hsw : send_writeback n s fb d p = (false, t)) : evict n s fb d p = (false, t) := by
  unfold evict
  rw [hsw]
  rfl

theorem broadcast_trace (n : Neighbours W) (t : Sys W) (q : PACKET) :
    (broadcast n t q).2.trace
      = t.trace ++ (inv_call n 0 t q
          ++ inv_call n 1 (send_invalidation n 0 t q).2.2 (send_invalidation n 0 t q).2.1) := by
  unfold broadcast
  dsimp only
  rw [send_invalidation_trace, send_invalidation_trace, List.append_assoc]

/-- The eviction when no earlier fill has left a flag cleared: a call of
`filllike_miss` that returns true on an `INCLUSIVE` cache with a lower level,
entered with the three flags set, over a valid victim, makes these calls and no
other: `add_wq` of the lower level once,
accepted, with the address of the victim, as a `WRITEBACK` when the victim is
dirty and as a `WRITEBACK_EXCLUSIVE` when it is clean; then one accepted
`add_ivq` on every upper level that is present, with the `INVALIDATE` packet
of the victim on upper level 0.  The victim is written back and invalidated
above, both, whether it is dirty or clean. -/
theorem inclusive_eviction (n : Neighbours W) (s : Sys W) (set way : Nat) (p : PACKET)
    (hinc : s.cache.cache_type = INCLUSIVE) (hlow : n.lower_present = true)
    (hwb : s.cache.send_wb_valid = true) (h0 : s.cache.send_inv_valid0 = true)
    (h1 : s.cache.send_inv_valid1 = true) (hway : way ≠ s.cache.NUM_WAY)
    (hvalid : (block_at s.cache (set * s.cache.NUM_WAY + way)).valid = true)
    (hsucc : (filllike_miss n s set way p).success = true) :
    (n.lower_add_wq s.world (victim_writeback n s
      (block_at s.cache (set * s.cache.NUM_WAY + way)) p)).result ≠ -2 ∧
    (filllike_miss n s set way p).sys.trace
      = s.trace ++ eviction_calls n s (block_at s.cache (set * s.cache.NUM_WAY + way)) p ∧
    wq_calls (eviction_calls n s (block_at s.cache (set * s.cache.NUM_WAY + way)) p)
      = [victim_writeback n s (block_at s.cache (set * s.cache.NUM_WAY + way)) p] ∧
    (victim_writeback n s (block_at s.cache (set * s.cache.NUM_WAY + way)) p).address
      = (block_at s.cache (set * s.cache.NUM_WAY + way)).address ∧
    (victim_writeback n s (block_at s.cache (set * s.cache.NUM_WAY + way)) p).type
      = (if (block_at s.cache (set * s.cache.NUM_WAY + way)).dirty then WRITEBACK
         else WRITEBACK_EXCLUSIVE) ∧
    (n.upper_present 0 = true → ∃ r, r ≠ -2 ∧
      inv_sent 0 (eviction_calls n s (block_at s.cache (set * s.cache.NUM_WAY + way)) p)
        = [(invalidation_packet n (block_at s.cache (set * s.cache.NUM_WAY + way)) p, r)]) ∧
    (n.upper_present 1 = true → ∃ q r, r ≠ -2 ∧
      inv_sent 1 (eviction_calls n s (block_at s.cache (set * s.cache.NUM_WAY + way)) p)
        = [(q, r)]) ∧
    (∀ i, i < 2 → n.upper_present i = false →
      inv_sent i (eviction_calls n s (block_at s.cache (set * s.cache.NUM_WAY + way)) p)
        = []) := by
  have hacc : (n.lower_add_wq s.world (victim_writeback n s
      (block_at s.cache (set * s.cache.NUM_WAY + way)) p)).result ≠ -2 := by
    intro hr
    have hsw := send_writeback_inclusive n s (block_at s.cache (set * s.cache.NUM_WAY + way)) p
      hinc hlow hwb
    rw [if_pos hr] at hsw
    have hev := evict_refused n s _ _ _ p hsw
    rw [← victim_evict_valid n s set way p hvalid] at hev
    rw [filllike_miss_success n s set way p hway, hev] at hsucc
    simp at hsucc
  have heq := filllike_miss_written_back n s set way p hinc hlow hwb hway hvalid hacc
  generalize hfb : block_at s.cache (set * s.cache.NUM_WAY + way) = fb at *
  have hvalid2 : (block_at (written_back n s fb p).cache
      (set * (written_back n s fb p).cache.NUM_WAY + way)).valid = true := by
    have : block_at (written_back n s fb p).cache
        (set * (written_back n s fb p).cache.NUM_WAY + way) = fb := hfb
    rw [this]; exact hvalid
  have hway2 : way ≠ (written_back n s fb p).cache.NUM_WAY := hway
  have hfb2 : block_at (written_back n s fb p).cache
      (set * (written_back n s fb p).cache.NUM_WAY + way) = fb := hfb
  rw [heq] at hsucc
  have hev1 : (victim_evict n (written_back n s fb p) set way p).1 = true := by
    rw [← filllike_miss_success n _ set way p hway2]; exact hsucc
  have hve := victim_evict_valid n (written_back n s fb p) set way p hvalid2
  rw [hfb2] at hve
  have hsw2 : send_writeback n (written_back n s fb p) fb (n.lower_present && fb.dirty) p
      = (true, written_back n s fb p) := by
    unfold send_writeback
    rw [if_neg (by
      have : (written_back n s fb p).cache.send_wb_valid = false := rfl
      rw [this]; exact Bool.false_ne_true)]
  have hinc2 : (written_back n s fb p).cache.cache_type = INCLUSIVE := hinc
  have hev2 := evict_after_writeback n _ _ fb (n.lower_present && fb.dirty) p hsw2
  have hb : (broadcast n (written_back n s fb p) (invalidation_packet n fb p)).1 = false := by
    cases hbb : (broadcast n (written_back n s fb p) (invalidation_packet n fb p)).1
    · rfl
    · rw [hve, hev2, invalidate_uppers_skip n _ fb p hinc2 hbb] at hev1
      simp at hev1
  have hskips := (Bool.or_eq_false_iff).mp (by
    have := hb
    unfold broadcast at this
    exact this)
  have hflag0 : send_inv_valid (written_back n s fb p).cache 0 = true := h0
  have hflag1 : send_inv_valid (send_invalidation n 0 (written_back n s fb p)
      (invalidation_packet n fb p)).2.2.cache 1 = true := by
    rw [send_invalidation_other n 0 1 _ _ (by decide) (by decide) (by decide)]
    exact h1
  refine ⟨hacc, ?_, ?_, rfl, ?_, ?_, ?_, ?_⟩
  · rw [heq, filllike_miss_fill n _ set way p hway2 hev1, fill_accounting_trace]
    dsimp only
    rw [hve, hev2, invalidate_uppers_go n _ fb p hinc2 hb]
    dsimp only
    rw [if_pos rfl]
    dsimp only
    rw [broadcast_trace]
    unfold eviction_calls
    dsimp only
    have : (written_back n s fb p).trace
        = s.trace ++ [Call.add_wq (victim_writeback n s fb p)
            (n.lower_add_wq s.world (victim_writeback n s fb p)).result] := rfl
    rw [this]
    simp
  · unfold eviction_calls
    dsimp only
    rw [show ∀ (c : Call) (l : List Call), c :: l = [c] ++ l from fun _ _ => rfl,
      wq_calls_append, wq_calls_append, wq_calls_inv_call, wq_calls_inv_call]
    rfl
  · unfold victim_writeback writeback_packet
    rw [hlow]
    simp
  · intro hp0
    obtain ⟨hr, hs⟩ := inv_sent_accepted n 0 _ _ hp0 hflag0 hskips.1
    refine ⟨_, hr, ?_⟩
    unfold eviction_calls
    dsimp only
    rw [show ∀ (c : Call) (l : List Call), c :: l = [c] ++ l from fun _ _ => rfl,
      inv_sent_append, inv_sent_append, hs, inv_sent_other n 1 0 _ _ (by decide)]
    rfl
  · intro hp1
    obtain ⟨hr, hs⟩ := inv_sent_accepted n 1 _ _ hp1 hflag1 hskips.2
    refine ⟨(send_invalidation n 0 (written_back n s fb p)
      (invalidation_packet n fb p)).2.1, _, hr, ?_⟩
    unfold eviction_calls
    dsimp only
    rw [show ∀ (c : Call) (l : List Call), c :: l = [c] ++ l from fun _ _ => rfl,
      inv_sent_append, inv_sent_append, hs, inv_sent_other n 0 1 _ _ (by decide)]
    rfl
  · intro i hi hab
    unfold eviction_calls
    dsimp only
    rw [show ∀ (c : Call) (l : List Call), c :: l = [c] ++ l from fun _ _ => rfl,
      inv_sent_append, inv_sent_append]
    interval_cases i
    · rw [inv_sent_absent n 0 0 _ _ hab, inv_sent_other n 1 0 _ _ (by decide)]
      rfl
    · rw [inv_sent_absent n 1 1 _ _ hab, inv_sent_other n 0 1 _ _ (by decide)]
      rfl

/-! ## C22 and C23: the credits of a cycle -/

theorem seen_data_read_queue (is_rq : Bool) (c : CACHE) (b : Bool) :
    read_queue is_rq (if is_rq then { c with ever_seen_data := b } else c) = read_queue is_rq c ∧
    (if is_rq then { c with ever_seen_data := b } else c).reads_available_this_cycle
      = c.reads_available_this_cycle := by
  cases is_rq <;> exact ⟨rfl, rfl⟩

theorem handle_readlike_step_balance (n : Neighbours W) (is_rq : Bool) (k : Nat) (s : Sys W)
    (hs : s.cache.reads_available_this_cycle = k + 1) :
    (handle_readlike_step n is_rq k s).2.cache.reads_available_this_cycle
        + (read_queue is_rq s.cache).occupancy
      = s.cache.reads_available_this_cycle
        + (read_queue is_rq (handle_readlike_step n is_rq k s).2.cache).occupancy ∧
    ((handle_readlike_step n is_rq k s).1 = true →
      (handle_readlike_step n is_rq k s).2.cache.reads_available_this_cycle = k) := by
  unfold handle_readlike_step
  dsimp only
  split
  · exact ⟨rfl, fun h => by simp at h⟩
  · rename_i hr
    have hpos := has_ready_pos (read_queue is_rq s.cache) (by simpa using hr)
    generalize hc : (if is_rq = true then
      { s.cache with ever_seen_data := s.cache.ever_seen_data
          || (read_queue is_rq s.cache).front.v_address != (read_queue is_rq s.cache).front.ip }
      else s.cache) = c
    have hcq : read_queue is_rq c = read_queue is_rq s.cache ∧
        c.reads_available_this_cycle = s.cache.reads_available_this_cycle := by
      rw [← hc]; exact seen_data_read_queue is_rq s.cache _
    split
    · refine ⟨?_, fun _ => (pop_read_balance is_rq k _).2⟩
      rw [(pop_read_balance is_rq k _).1, (pop_read_balance is_rq k _).2,
        (only_hit_read_queue (readlike_hit_only_hit n { s with cache := c } _ _ _) is_rq).1]
      dsimp only
      rw [hcq.1, hs]
      omega
    · have hm := only_miss_read_queue
        (readlike_miss_only_miss n { s with cache := c } (read_queue is_rq s.cache).front) is_rq
      dsimp only at hm
      split
      · refine ⟨?_, fun _ => (pop_read_balance is_rq k _).2⟩
        rw [(pop_read_balance is_rq k _).1, (pop_read_balance is_rq k _).2, hm.1, hcq.1, hs]
        omega
      · refine ⟨?_, fun h => by simp at h⟩
        dsimp only
        rw [(read_queue_set is_rq _ _).1, (read_queue_set is_rq _ _).2,
          delay_queue.modify_at_occupancy, hm.1, hm.2, hcq.1, hcq.2]

theorem handle_read_balance (n : Neighbours W) (s : Sys W) :
    (handle_read n s).cache.reads_available_this_cycle + s.cache.RQ.occupancy
      = s.cache.reads_available_this_cycle + (handle_read n s).cache.RQ.occupancy := by
  unfold handle_read
  exact credit_loop_balance (handle_readlike_step n true)
    (fun t => t.cache.reads_available_this_cycle) (fun t => t.cache.RQ.occupancy)
    (fun k t ht => handle_readlike_step_balance n true k t ht) _ s rfl

theorem handle_prefetch_balance (n : Neighbours W) (s : Sys W) :
    (handle_prefetch n s).cache.reads_available_this_cycle + s.cache.PQ.occupancy
      = s.cache.reads_available_this_cycle + (handle_prefetch n s).cache.PQ.occupancy := by
  unfold handle_prefetch
  exact credit_loop_balance (handle_readlike_step n false)
    (fun t => t.cache.reads_available_this_cycle) (fun t => t.cache.PQ.occupancy)
    (fun k t ht => handle_readlike_step_balance n false k t ht) _ s rfl

theorem credit_loop_le (step : Nat → Sys W → Bool × Sys W) (credit : Sys W → Nat)
    (hstep : ∀ k s, credit s = k + 1 →
      (credit (step k s).2 = k ∨ credit (step k s).2 = credit s) ∧
      ((step k s).1 = true → credit (step k s).2 = k)) :
    ∀ k s, credit s = k → credit (credit_loop step k s) ≤ credit s := by
  intro k
  induction k with
  | zero => intro s _; exact le_refl _
  | succ k ih =>
    intro s hs
    have h := hstep k s hs
    unfold credit_loop
    split
    · rename_i hc
      have h2 := ih _ (h.2 hc)
      have h3 := h.2 hc
      omega
    · rcases h.1 with h1 | h1 <;> omega

theorem handle_writeback_step_credit (n : Neighbours W) (k : Nat) (s : Sys W) :
    (handle_writeback_step n k s).2.cache.writes_available_this_cycle = k ∨
    (handle_writeback_step n k s).2.cache.writes_available_this_cycle
      = s.cache.writes_available_this_cycle := by
  have hm := writeback_miss_WQ n s (get_set s.cache s.cache.WQ.front.address)
    s.cache.WQ.front
  unfold handle_writeback_step
  dsimp only
  split
  · exact Or.inr rfl
  · split
    · exact Or.inl rfl
    · split
      · exact Or.inl rfl
      · split
        · exact Or.inl rfl
        · exact Or.inr hm.2

theorem handle_writeback_credit_le (n : Neighbours W) (s : Sys W) :
    (handle_writeback n s).cache.writes_available_this_cycle
      ≤ s.cache.writes_available_this_cycle := by
  unfold handle_writeback
  exact credit_loop_le (handle_writeback_step n) (fun t => t.cache.writes_available_this_cycle)
    (fun k t ht => ⟨handle_writeback_step_credit n k t,
      (handle_writeback_step_balance n k t ht).2⟩) _ s rfl

theorem handle_invalid_step_credit (n : Neighbours W) (k : Nat) (s : Sys W) :
    (handle_invalid_step n k s).2.cache.invalid_available_this_cycle = k ∨
    (handle_invalid_step n k s).2.cache.invalid_available_this_cycle
      = s.cache.invalid_available_this_cycle := by
  unfold handle_invalid_step
  dsimp only
  split
  · exact Or.inr rfl
  · split
    · unfold pass_down
      dsimp only
      split
      · exact Or.inr rfl
      · exact Or.inl rfl
    · split
      · unfold end_here
        dsimp only
        split
        · exact Or.inl rfl
        · split
          · split
            · exact Or.inr rfl
            · exact Or.inl rfl
          · exact Or.inl rfl
      · exact Or.inl rfl

theorem handle_invalid_credit_le (n : Neighbours W) (s : Sys W) :
    (handle_invalid n s).cache.invalid_available_this_cycle
      ≤ s.cache.invalid_available_this_cycle := by
  unfold handle_invalid
  exact credit_loop_le (handle_invalid_step n) (fun t => t.cache.invalid_available_this_cycle)
    (fun k t ht => ⟨handle_invalid_step_credit n k t,
      (handle_invalid_step_balance n k t ht).2⟩) _ s rfl

theorem handle_readlike_step_credit (n : Neighbours W) (is_rq : Bool) (k : Nat) (s : Sys W) :
    (handle_readlike_step n is_rq k s).2.cache.reads_available_this_cycle = k ∨
    (handle_readlike_step n is_rq k s).2.cache.reads_available_this_cycle
      = s.cache.reads_available_this_cycle := by
  unfold handle_readlike_step
  dsimp only
  split
  · exact Or.inr rfl
  · generalize hc : (if is_rq = true then
      { s.cache with ever_seen_data := s.cache.ever_seen_data
          || (read_queue is_rq s.cache).front.v_address != (read_queue is_rq s.cache).front.ip }
      else s.cache) = c
    have hcq : read_queue is_rq c = read_queue is_rq s.cache ∧
        c.reads_available_this_cycle = s.cache.reads_available_this_cycle := by
      rw [← hc]; exact seen_data_read_queue is_rq s.cache _
    split
    · exact Or.inl (pop_read_balance is_rq k _).2
    · have hm := only_miss_read_queue
        (readlike_miss_only_miss n { s with cache := c } (read_queue is_rq s.cache).front) is_rq
      dsimp only at hm
      split
      · exact Or.inl (pop_read_balance is_rq k _).2
      · right
        dsimp only
        rw [(read_queue_set is_rq _ _).2, hm.2, hcq.2]

theorem handle_read_credit_le (n : Neighbours W) (s : Sys W) :
    (handle_read n s).cache.reads_available_this_cycle
      ≤ s.cache.reads_available_this_cycle := by
  unfold handle_read
  exact credit_loop_le (handle_readlike_step n true)
    (fun t => t.cache.reads_available_this_cycle)
    (fun k t ht => ⟨handle_readlike_step_credit n true k t,
      (handle_readlike_step_balance n true k t ht).2⟩) _ s rfl

theorem handle_prefetch_credit_le (n : Neighbours W) (s : Sys W) :
    (handle_prefetch n s).cache.reads_available_this_cycle
      ≤ s.cache.reads_available_this_cycle := by
  unfold handle_prefetch
  exact credit_loop_le (handle_readlike_step n false)
    (fun t => t.cache.reads_available_this_cycle)
    (fun k t ht => ⟨handle_readlike_step_credit n false k t,
      (handle_readlike_step_balance n false k t ht).2⟩) _ s rfl

/-- C23: in a cycle, the write credit at the start of the fill and writeback
phase is `MAX_WRITE` less the IVQ entries that `handle_invalid` popped, and the
IVQ entries popped, the MSHR entries retired by `handle_fill` and the WQ
entries popped by `handle_writeback` together are `MAX_WRITE` less the write
credit that is left, so at most `MAX_WRITE`. -/
theorem shared_write_credit (n : Neighbours W) (s : Sys W) :
    (after_invalid n s).cache.IVQ.occupancy ≤ s.cache.IVQ.occupancy ∧
    (start_writes (operate_invalid n s)).cache.writes_available_this_cycle
      = s.cache.MAX_WRITE - (s.cache.IVQ.occupancy - (after_invalid n s).cache.IVQ.occupancy) ∧
    (after_fill n s).cache.MSHR.length ≤ (after_invalid n s).cache.MSHR.length ∧
    (after_writeback n s).cache.WQ.occupancy ≤ (after_fill n s).cache.WQ.occupancy ∧
    (s.cache.IVQ.occupancy - (after_invalid n s).cache.IVQ.occupancy)
      + ((after_invalid n s).cache.MSHR.length - (after_fill n s).cache.MSHR.length)
      + ((after_fill n s).cache.WQ.occupancy - (after_writeback n s).cache.WQ.occupancy)
      + (after_writeback n s).cache.writes_available_this_cycle = s.cache.MAX_WRITE ∧
    (s.cache.IVQ.occupancy - (after_invalid n s).cache.IVQ.occupancy)
      + ((after_invalid n s).cache.MSHR.length - (after_fill n s).cache.MSHR.length)
      + ((after_fill n s).cache.WQ.occupancy - (after_writeback n s).cache.WQ.occupancy)
      ≤ s.cache.MAX_WRITE := by
  have hi := handle_invalid_balance n (start_invalid s)
  have hil := handle_invalid_credit_le n (start_invalid s)
  have hf := handle_fill_balance n (start_writes (operate_invalid n s))
  have hfl := (handle_fill_frame n (start_writes (operate_invalid n s))).2
  have hw := handle_writeback_balance n (after_fill n s)
  have hwl := handle_writeback_credit_le n (after_fill n s)
  have e1 : (start_invalid s).cache.invalid_available_this_cycle = s.cache.MAX_WRITE := rfl
  have e2 : (start_invalid s).cache.IVQ = s.cache.IVQ := rfl
  have e3 : (start_writes (operate_invalid n s)).cache.writes_available_this_cycle
      = (after_invalid n s).cache.invalid_available_this_cycle := rfl
  have e4 : (start_writes (operate_invalid n s)).cache.MSHR = (after_invalid n s).cache.MSHR :=
    rfl
  have e5 : handle_invalid n (start_invalid s) = after_invalid n s := rfl
  have e6 : handle_fill n (start_writes (operate_invalid n s)) = after_fill n s := rfl
  have e7 : handle_writeback n (after_fill n s) = after_writeback n s := rfl
  rw [e5, e1, e2] at hi
  rw [e5, e1] at hil
  rw [e6, e3, e4] at hf
  rw [e6, e4] at hfl
  rw [e7] at hw hwl
  rw [e3]
  omega

theorem add_pq_frame (c : CACHE) (p : PACKET) :
    (add_pq c p).cache.reads_available_this_cycle = c.reads_available_this_cycle ∧
    (add_pq c p).cache.VAPQ = c.VAPQ ∧
    (add_pq c p).cache.pf_issued = c.pf_issued ∧
    (add_pq c p).cache.pf_requested = c.pf_requested := by
  unfold add_pq
  dsimp only
  split_ifs <;> exact ⟨rfl, rfl, rfl, rfl⟩

theorem foldl_notify_cache (n : Neighbours W) (l : List (Nat × PACKET)) :
    ∀ u : Sys W, (l.foldl
      (fun u x => { u with world := n.producer_return_data x.1 u.world x.2,
                           trace := u.trace ++ [Call.return_data x.1 x.2] }) u).cache
      = u.cache := by
  induction l with
  | nil => intro u; rfl
  | cons x xs ih => intro u; rw [List.foldl_cons, ih]

theorem va_translate_frame (n : Neighbours W) (s : Sys W) :
    (va_translate_prefetches n s).cache.reads_available_this_cycle
      = s.cache.reads_available_this_cycle ∧
    (va_translate_prefetches n s).cache.VAPQ.occupancy ≤ s.cache.VAPQ.occupancy ∧
    s.cache.VAPQ.occupancy ≤ (va_translate_prefetches n s).cache.VAPQ.occupancy + 1 := by
  unfold va_translate_prefetches
  dsimp only
  split
  · rw [foldl_notify_cache]
    dsimp only
    split_ifs
    all_goals
      dsimp only
      refine ⟨(add_pq_frame _ _).1, ?_, ?_⟩
      all_goals
        first
          | (rw [pop_front_occupancy, delay_queue.modify_at_occupancy, (add_pq_frame _ _).2.1,
              delay_queue.modify_at_occupancy] <;> omega)
          | (rw [delay_queue.modify_at_occupancy, (add_pq_frame _ _).2.1,
              delay_queue.modify_at_occupancy] <;> omega)
  · exact ⟨rfl, le_refl _, Nat.le_succ _⟩

/-- C22, as the code has it: in `operate_reads` the entries dequeued from the
RQ by `handle_read` and from the PQ by `handle_prefetch` together are
`MAX_READ` less the read credit that is left, so at most `MAX_READ`;
`va_translate_prefetches` dequeues at most one entry from the VAPQ and takes no
read credit for it. -/
theorem read_credit_budget (n : Neighbours W) (s : Sys W) :
    (after_read n s).cache.RQ.occupancy ≤ s.cache.RQ.occupancy ∧
    (after_prefetch n s).cache.PQ.occupancy ≤ (after_translate n s).cache.PQ.occupancy ∧
    (s.cache.RQ.occupancy - (after_read n s).cache.RQ.occupancy)
      + ((after_translate n s).cache.PQ.occupancy - (after_prefetch n s).cache.PQ.occupancy)
      + (after_prefetch n s).cache.reads_available_this_cycle = s.cache.MAX_READ ∧
    (after_read n s).cache.VAPQ.occupancy - (after_translate n s).cache.VAPQ.occupancy ≤ 1 ∧
    (after_translate n s).cache.reads_available_this_cycle
      = (after_read n s).cache.reads_available_this_cycle ∧
    (operate_reads n s).cache.reads_available_this_cycle
      = (after_prefetch n s).cache.reads_available_this_cycle := by
  have hr := handle_read_balance n (start_reads s)
  have hrl := handle_read_credit_le n (start_reads s)
  have hv := va_translate_frame n (after_read n s)
  have hp := handle_prefetch_balance n (after_translate n s)
  have hpl := handle_prefetch_credit_le n (after_translate n s)
  have e1 : (start_reads s).cache.reads_available_this_cycle = s.cache.MAX_READ := rfl
  have e2 : (start_reads s).cache.RQ = s.cache.RQ := rfl
  have e3 : handle_read n (start_reads s) = after_read n s := rfl
  have e4 : va_translate_prefetches n (after_read n s) = after_translate n s := rfl
  have e5 : handle_prefetch n (after_translate n s) = after_prefetch n s := rfl
  rw [e3, e1, e2] at hr
  rw [e3, e1] at hrl
  rw [e4] at hv
  rw [e5] at hp hpl
  refine ⟨by omega, by omega, by omega, by omega, hv.1, rfl⟩

/-! ## C25: the accounting of `prefetch_line` -/

/-- C25, as the code has it: on a cache without virtual prefetch,
`prefetch_line` raises `pf_requested` by one, returns 1 when `add_pq` of the
prefetch packet returned something else than `-2` and 0 otherwise, and raises
`pf_issued` by one exactly when `add_pq` returned a positive value, that is
when the packet was pushed onto the PQ: a request that is merged or forwarded
is accepted and not counted as issued. -/
theorem prefetch_line_accounting (n : Neighbours W) (c : CACHE) (pf_addr : Nat)
    (fill_this_level : Bool) (prefetch_metadata : Nat) (hv : c.virtual_prefetch = false) :
    (prefetch_line n c pf_addr fill_this_level prefetch_metadata).2.pf_requested
      = c.pf_requested + 1 ∧
    (prefetch_line n c pf_addr fill_this_level prefetch_metadata).1
      = (if (add_pq { c with pf_requested := c.pf_requested + 1 }
              (pf_packet n c pf_addr fill_this_level prefetch_metadata)).result = -2
         then 0 else 1) ∧
    (prefetch_line n c pf_addr fill_this_level prefetch_metadata).2.pf_issued
      = c.pf_issued
        + (if 0 < (add_pq { c with pf_requested := c.pf_requested + 1 }
              (pf_packet n c pf_addr fill_this_level prefetch_metadata)).result
           then 1 else 0) := by
  have hpk : pf_packet n { c with pf_requested := c.pf_requested + 1 } pf_addr fill_this_level
      prefetch_metadata = pf_packet n c pf_addr fill_this_level prefetch_metadata := rfl
  have hf := add_pq_frame { c with pf_requested := c.pf_requested + 1 }
    (pf_packet n c pf_addr fill_this_level prefetch_metadata)
  unfold prefetch_line
  dsimp only
  rw [hpk, if_neg (by rw [hv]; exact Bool.false_ne_true)]
  by_cases hr : (add_pq { c with pf_requested := c.pf_requested + 1 }
      (pf_packet n c pf_addr fill_this_level prefetch_metadata)).result = -2
  · rw [if_neg (by simp [hr]), if_pos hr, if_neg (by rw [hr]; decide)]
    exact ⟨hf.2.2.2, rfl, hf.2.2.1⟩
  · rw [if_pos (by simpa using hr), if_neg hr]
    refine ⟨?_, rfl, ?_⟩
    · dsimp only
      split
      · exact hf.2.2.2
      · exact hf.2.2.2
    · dsimp only
      by_cases hp : 0 < (add_pq { c with pf_requested := c.pf_requested + 1 }
          (pf_packet n c pf_addr fill_this_level prefetch_metadata)).result
      · rw [if_pos hp, if_pos hp]
        show (add_pq _ _).cache.pf_issued + 1 = _
        rw [hf.2.2.1]
      · rw [if_neg hp, if_neg hp]
        exact hf.2.2.1

/-! ## C28: the packet of a read hit -/

theorem train_prefetcher_data (n : Neighbours W) (s : Sys W) (q : PACKET) (hit : Nat) :
    (train_prefetcher n s q hit).1.data = q.data ∧
    (train_prefetcher n s q hit).1.data_valid = q.data_valid := by
  unfold train_prefetcher
  split <;> exact ⟨rfl, rfl⟩

/-- C28, as the code has it: after `readlike_hit(set, way, p)` the packet
carries the data of the block, and its `data_valid` is set when the block was
dirty and otherwise is what it was before the call. -/
theorem readlike_hit_packet (n : Neighbours W) (s : Sys W) (set way : Nat) (p : PACKET) :
    (readlike_hit n s set way p).1.data
      = (block_at s.cache (set * s.cache.NUM_WAY + way)).data ∧
    (readlike_hit n s set way p).1.data_valid
      = ((block_at s.cache (set * s.cache.NUM_WAY + way)).dirty || p.data_valid) := by
  unfold readlike_hit
  dsimp only
  rw [(train_prefetcher_data n s _ 1).1, (train_prefetcher_data n s _ 1).2]
  unfold hit_packet
  dsimp only
  refine ⟨rfl, ?_⟩
  cases (block_at s.cache (set * s.cache.NUM_WAY + way)).dirty <;> rfl

/-! ## C24: an invalidation that passes through -/

theorem geometry_fields {c d : CACHE} (h : geometry d = geometry c) :
    d.NUM_SET = c.NUM_SET ∧ d.NUM_WAY = c.NUM_WAY ∧ d.OFFSET_BITS = c.OFFSET_BITS ∧
    d.block = c.block := by
  unfold geometry at h
  simp only [Prod.mk.injEq] at h
  exact h

theorem geometry_lookup {c d : CACHE} (h : geometry d = geometry c) (a : Nat) :
    get_set d a = get_set c a ∧ (∀ set, get_way d a set = get_way c a set) ∧
    (∀ i, block_at d i = block_at c i) := by
  obtain ⟨h1, h2, h3, h4⟩ := geometry_fields h
  unfold get_set get_way block_at
  rw [h1, h2, h3, h4]
  exact ⟨rfl, fun _ => rfl, fun _ => rfl⟩

theorem invalidate_entry_geometry {c d : CACHE} (h : geometry d = geometry c) (a : Nat) :
    (invalidate_entry d a).2.block = (invalidate_entry c a).2.block := by
  obtain ⟨h1, h2, h3, h4⟩ := geometry_fields h
  have hl := geometry_lookup h a
  unfold invalidate_entry
  dsimp only
  rw [hl.1, hl.2.1, h2, h4]
  split
  · rfl
  · exact h4

theorem with_local_data_geometry {c d : CACHE} (h : geometry d = geometry c) (p : PACKET) :
    with_local_data d p = with_local_data c p := by
  obtain ⟨h1, h2, h3, h4⟩ := geometry_fields h
  have hl := geometry_lookup h p.address
  unfold with_local_data local_hit
  dsimp only
  rw [hl.1, hl.2.1, hl.2.2, h2]

theorem get_way_le (c : CACHE) (a set : Nat)
    (hlen : c.block.length = c.NUM_SET * c.NUM_WAY) (hs : set < c.NUM_SET) :
    get_way c a set ≤ c.NUM_WAY := by
  have := @List.findIdx_le_length _ (eq_addr_BLOCK a c.OFFSET_BITS)
    ((c.block.drop (set * c.NUM_WAY)).take c.NUM_WAY)
  rw [set_slice_length c set hlen hs] at this
  exact this

theorem slice_getElem (c : CACHE) (set w : Nat) (hw : w < c.NUM_WAY)
    (hl : w < ((c.block.drop (set * c.NUM_WAY)).take c.NUM_WAY).length) :
    ((c.block.drop (set * c.NUM_WAY)).take c.NUM_WAY)[w] = block_at c (set * c.NUM_WAY + w) := by
  have h := set_slice_get c set w hw
  rw [List.getElem?_eq_getElem hl] at h
  unfold block_at
  rw [List.getD_eq_getElem?_getD, ← h]
  rfl

theorem index_in_set (c : CACHE) (set w : Nat)
    (hlen : c.block.length = c.NUM_SET * c.NUM_WAY) (hs : set < c.NUM_SET)
    (hw : w < c.NUM_WAY) :
    set * c.NUM_WAY + w < c.block.length ∧ (set * c.NUM_WAY + w) / c.NUM_WAY = set := by
  constructor
  · rw [hlen]
    have : (set + 1) * c.NUM_WAY ≤ c.NUM_SET * c.NUM_WAY := Nat.mul_le_mul_right _ hs
    rw [Nat.add_mul, Nat.one_mul] at this
    omega
  · have hpos : 0 < c.NUM_WAY := by omega
    rw [Nat.add_comm, Nat.add_mul_div_right _ _ hpos, Nat.div_eq_of_lt hw, Nat.zero_add]

theorem eq_addr_BLOCK_iff (a shamt : Nat) (b : BLOCK) :
    eq_addr_BLOCK a shamt b = true ↔ b.valid = true ∧ b.address >>> shamt = a >>> shamt := by
  simp [eq_addr_BLOCK]

theorem get_way_hit (c : CACHE) (a set : Nat)
    (hlen : c.block.length = c.NUM_SET * c.NUM_WAY) (hs : set < c.NUM_SET)
    (hw : get_way c a set < c.NUM_WAY) :
    eq_addr_BLOCK a c.OFFSET_BITS (block_at c (set * c.NUM_WAY + get_way c a set)) = true := by
  have hL := set_slice_length c set hlen hs
  have hl : get_way c a set < ((c.block.drop (set * c.NUM_WAY)).take c.NUM_WAY).length := by
    rw [hL]; exact hw
  rw [← slice_getElem c set _ hw hl]
  exact List.findIdx_getElem

theorem get_way_before (c : CACHE) (a set w : Nat)
    (hlen : c.block.length = c.NUM_SET * c.NUM_WAY) (hs : set < c.NUM_SET)
    (hw : w < get_way c a set) (hwW : w < c.NUM_WAY) :
    eq_addr_BLOCK a c.OFFSET_BITS (block_at c (set * c.NUM_WAY + w)) = false := by
  have hL := set_slice_length c set hlen hs
  have hl : w < ((c.block.drop (set * c.NUM_WAY)).take c.NUM_WAY).length := by
    rw [hL]; exact hwW
  rw [← slice_getElem c set _ hwW hl]
  exact @List.not_of_lt_findIdx _ (eq_addr_BLOCK a c.OFFSET_BITS)
    ((c.block.drop (set * c.NUM_WAY)).take c.NUM_WAY) w hw

theorem get_way_eq_NUM_WAY (c : CACHE) (a set : Nat)
    (hlen : c.block.length = c.NUM_SET * c.NUM_WAY) (hs : set < c.NUM_SET)
    (h : ∀ w, w < c.NUM_WAY →
      eq_addr_BLOCK a c.OFFSET_BITS (block_at c (set * c.NUM_WAY + w)) = false) :
    get_way c a set = c.NUM_WAY := by
  have hL := set_slice_length c set hlen hs
  unfold get_way
  rw [List.findIdx_eq_length_of_false, hL]
  intro x hx
  obtain ⟨w, hw, hwx⟩ := List.getElem_of_mem hx
  have hwW : w < c.NUM_WAY := by rw [← hL]; exact hw
  rw [← hwx, slice_getElem c set w hwW hw]
  exact h w hwW

theorem invalidate_entry_clears (c : CACHE) (a : Nat)
    (hlen : c.block.length = c.NUM_SET * c.NUM_WAY) (hs : get_set c a < c.NUM_SET)
    (huniq : unique_residency c) :
    get_way (invalidate_entry c a).2 a (get_set c a) = c.NUM_WAY ∧
    ∀ j, j ≠ get_set c a * c.NUM_WAY + get_way c a (get_set c a) →
      block_at (invalidate_entry c a).2 j = block_at c j := by
  have hle := get_way_le c a (get_set c a) hlen hs
  unfold invalidate_entry
  dsimp only
  split
  · rename_i hw
    have hidx := index_in_set c (get_set c a) _ hlen hs hw
    have hhit := (eq_addr_BLOCK_iff _ _ _).mp (get_way_hit c a (get_set c a) hlen hs hw)
    constructor
    · refine get_way_eq_NUM_WAY _ a (get_set c a) ?_ hs ?_
      · show (List.modify _ _ c.block).length = _
        rw [modify_length]; exact hlen
      · intro w hwW
        show eq_addr_BLOCK a c.OFFSET_BITS ((List.modify _ _ c.block).getD
          (get_set c a * c.NUM_WAY + w) {}) = false
        by_cases hww : w = get_way c a (get_set c a)
        · rw [hww, getD_modify_same _ _ _ _ hidx.1]
          simp [eq_addr_BLOCK]
        · rw [getD_modify_other _ _ _ _ _ (by omega)]
          rcases Nat.lt_or_gt_of_ne hww with hlt | hgt
          · exact get_way_before c a (get_set c a) w hlen hs hlt hwW
          · cases hp : eq_addr_BLOCK a c.OFFSET_BITS
              (c.block.getD (get_set c a * c.NUM_WAY + w) {})
            · rfl
            · exfalso
              have hp2 := (eq_addr_BLOCK_iff _ _ _).mp hp
              have hj := index_in_set c (get_set c a) w hlen hs hwW
              have hcl := huniq _ hj.1 (get_set c a * c.NUM_WAY + get_way c a (get_set c a))
                (by omega)
              unfold clash at hcl
              rw [hidx.2, hj.2, hhit.1] at hcl
              unfold block_at at hcl hhit
              rw [hp2.1, hhit.2, hp2.2] at hcl
              simp at hcl
    · intro j hj
      show (List.modify _ _ c.block).getD j {} = c.block.getD j {}
      exact getD_modify_other _ _ _ _ _ hj
  · rename_i hw
    refine ⟨?_, fun _ _ => rfl⟩
    show get_way c a (get_set c a) = c.NUM_WAY
    omega

theorem invalidate_entry_same_geometry {c d : CACHE} (h : geometry d = geometry c) (a : Nat) :
    geometry (invalidate_entry d a).2 = geometry (invalidate_entry c a).2 := by
  have hb := invalidate_entry_geometry h a
  obtain ⟨h1, h2, h3, _⟩ := geometry_fields h
  have e1 : ∀ x : CACHE, (invalidate_entry x a).2.NUM_SET = x.NUM_SET ∧
      (invalidate_entry x a).2.NUM_WAY = x.NUM_WAY ∧
      (invalidate_entry x a).2.OFFSET_BITS = x.OFFSET_BITS := by
    intro x
    unfold invalidate_entry
    dsimp only
    split <;> exact ⟨rfl, rfl, rfl⟩
  unfold geometry
  rw [(e1 d).1, (e1 d).2.1, (e1 d).2.2, (e1 c).1, (e1 c).2.1, (e1 c).2.2, hb, h1, h2, h3]

theorem pass_down_popped (n : Neighbours W) (k : Nat) (s : Sys W) (p : PACKET)
    (h : (pass_down n k s p).1 = true) :
    geometry (pass_down n k s p).2.cache =
      geometry (invalidate_entry s.cache
        (n.lower_add_ivq s.world (with_local_data s.cache p)).packet.address).2 ∧
    (pass_down n k s p).2.trace = s.trace ++ [Call.add_ivq (with_local_data s.cache p)
      (n.lower_add_ivq s.world (with_local_data s.cache p)).result] ∧
    (pass_down n k s p).2.cache.IVQ.buf = s.cache.IVQ.buf.drop 1 := by
  unfold pass_down at h ⊢
  dsimp only at h ⊢
  split_ifs at h ⊢ with hr
  refine ⟨?_, rfl, ?_⟩
  · have hg : geometry (tally_passed (store_IVQ_front (call_add_ivq n s
        (with_local_data s.cache p)).sys (call_add_ivq n s
        (with_local_data s.cache p)).packet).cache (local_hit s.cache p)
        (call_add_ivq n s (with_local_data s.cache p)).packet) = geometry s.cache := by
      unfold tally_passed
      split <;> rfl
    exact invalidate_entry_same_geometry hg _
  · show (delay_queue.pop_front (invalidate_entry _ _).2.IVQ).buf = _
    rw [(invalidate_entry_IVQ _ _).1, (tally_passed_IVQ _ _ _).1]
    unfold delay_queue.pop_front store_IVQ_front delay_queue.modify_at
    dsimp only
    cases hb : s.cache.IVQ.buf with
    | nil => simp [call_add_ivq, acked, hb, List.modify]
    | cons x xs => simp [call_add_ivq, acked, hb, List.modify]

theorem unique_residency_geometry {c d : CACHE} (h : geometry d = geometry c)
    (hu : unique_residency c) : unique_residency d := by
  obtain ⟨_, h2, h3, h4⟩ := geometry_fields h
  intro j hj i hij
  have := hu j (by rw [← h4]; exact hj) i hij
  unfold clash block_at at this ⊢
  rw [h2, h3, h4]
  exact this

theorem handle_invalid_step_pass (n : Neighbours W) (k : Nat) (s : Sys W)
    (hready : s.cache.IVQ.has_ready = true)
    (hfl : s.cache.IVQ.front.fill_level > s.cache.fill_level) :
    handle_invalid_step n k s =
      pass_down n k (Sys.mk (count_invalidation s.cache s.cache.IVQ.front) s.world s.trace)
        s.cache.IVQ.front := by
  unfold handle_invalid_step
  rw [hready]
  dsimp only
  have h2 : s.cache.IVQ.front.fill_level > (count_invalidation s.cache s.cache.IVQ.front).fill_level :=
    hfl
  simp only [Bool.not_true, Bool.false_eq_true, if_false]
  rw [if_pos h2]

theorem invalidate_entry_frame (c : CACHE) (a : Nat)
    (hlen : c.block.length = c.NUM_SET * c.NUM_WAY) (hs : get_set c a < c.NUM_SET) :
    (∀ j, (get_way c a (get_set c a) < c.NUM_WAY →
        j ≠ get_set c a * c.NUM_WAY + get_way c a (get_set c a)) →
      block_at (invalidate_entry c a).2 j = block_at c j) ∧
    (get_way c a (get_set c a) < c.NUM_WAY →
      block_at (invalidate_entry c a).2 (get_set c a * c.NUM_WAY + get_way c a (get_set c a))
        = { block_at c (get_set c a * c.NUM_WAY + get_way c a (get_set c a)) with
            valid := false }) := by
  unfold invalidate_entry
  dsimp only
  split
  · rename_i hw
    have hidx := index_in_set c (get_set c a) _ hlen hs hw
    constructor
    · intro j hj
      show (List.modify _ _ c.block).getD j {} = c.block.getD j {}
      exact getD_modify_other _ _ _ _ _ (hj hw)
    · intro _
      show (List.modify _ _ c.block).getD _ {} = _
      rw [getD_modify_same _ _ _ _ hidx.1]
      rfl
  · rename_i hw
    exact ⟨fun _ _ => rfl, fun h => absurd h hw⟩

/-- C24: a round of `handle_invalid` that pops a ready head whose `fill_level`
is above the one of this cache, on a block array of `NUM_SET * NUM_WAY` blocks
in which no set holds two valid blocks of one block address, with a lower
level that leaves the address of the packet alone: afterwards `get_way` finds
no block of the address of the head in its set; when `get_way` found no block
before, every block is unchanged, and when it found one, that block has lost
`valid` and nothing else, and every other block is unchanged; the head has left
the IVQ, the one call made is `add_ivq` of the lower level with the packet
`with_local_data` builds, and when the local block was valid and dirty and the
head carried no data, that packet carries the data of the block with
`data_valid` set. -/
theorem pass_through_invalidation (n : Neighbours W) (s : Sys W) (k : Nat)
    (hlen : s.cache.block.length = s.cache.NUM_SET * s.cache.NUM_WAY)
    (hset : get_set s.cache s.cache.IVQ.front.address < s.cache.NUM_SET)
    (huniq : unique_residency s.cache)
    (hready : s.cache.IVQ.has_ready = true)
    (hfl : s.cache.IVQ.front.fill_level > s.cache.fill_level)
    (hkeep : (n.lower_add_ivq s.world (with_local_data s.cache s.cache.IVQ.front)).packet.address
      = s.cache.IVQ.front.address)
    (hstep : (handle_invalid_step n k s).1 = true) :
    get_way (handle_invalid_step n k s).2.cache s.cache.IVQ.front.address
        (get_set (handle_invalid_step n k s).2.cache s.cache.IVQ.front.address)
      = (handle_invalid_step n k s).2.cache.NUM_WAY ∧
    (∀ j, (get_way s.cache s.cache.IVQ.front.address
            (get_set s.cache s.cache.IVQ.front.address) < s.cache.NUM_WAY →
          j ≠ get_set s.cache s.cache.IVQ.front.address * s.cache.NUM_WAY +
            get_way s.cache s.cache.IVQ.front.address
              (get_set s.cache s.cache.IVQ.front.address)) →
      block_at (handle_invalid_step n k s).2.cache j = block_at s.cache j) ∧
    (get_way s.cache s.cache.IVQ.front.address
        (get_set s.cache s.cache.IVQ.front.address) < s.cache.NUM_WAY →
      block_at (handle_invalid_step n k s).2.cache
          (get_set s.cache s.cache.IVQ.front.address * s.cache.NUM_WAY +
            get_way s.cache s.cache.IVQ.front.address
              (get_set s.cache s.cache.IVQ.front.address))
        = { block_at s.cache (get_set s.cache s.cache.IVQ.front.address * s.cache.NUM_WAY +
              get_way s.cache s.cache.IVQ.front.address
                (get_set s.cache s.cache.IVQ.front.address)) with valid := false }) ∧
    (handle_invalid_step n k s).2.cache.IVQ.buf = s.cache.IVQ.buf.drop 1 ∧
    (handle_invalid_step n k s).2.trace =
      s.trace ++ [Call.add_ivq (with_local_data s.cache s.cache.IVQ.front)
        (n.lower_add_ivq s.world (with_local_data s.cache s.cache.IVQ.front)).result] ∧
    (local_hit s.cache s.cache.IVQ.front = true →
      (block_at s.cache (get_set s.cache s.cache.IVQ.front.address * s.cache.NUM_WAY +
        get_way s.cache s.cache.IVQ.front.address
          (get_set s.cache s.cache.IVQ.front.address))).dirty = true →
      s.cache.IVQ.front.data_valid = false →
      with_local_data s.cache s.cache.IVQ.front =
        { s.cache.IVQ.front with
          data := (block_at s.cache (get_set s.cache s.cache.IVQ.front.address * s.cache.NUM_WAY +
            get_way s.cache s.cache.IVQ.front.address
              (get_set s.cache s.cache.IVQ.front.address))).data,
          data_valid := true }) := by
  have hp := handle_invalid_step_pass n k s hready hfl
  rw [hp] at hstep ⊢
  have hg : geometry (count_invalidation s.cache s.cache.IVQ.front) = geometry s.cache := rfl
  have hw := with_local_data_geometry hg s.cache.IVQ.front
  obtain ⟨h1, h2, h3⟩ := pass_down_popped n k _ s.cache.IVQ.front hstep
  dsimp only at h1 h2 h3
  rw [hw] at h1 h2
  rw [hkeep] at h1
  have h1b := h1.trans (invalidate_entry_same_geometry hg _)
  obtain ⟨c1, _⟩ := invalidate_entry_clears s.cache s.cache.IVQ.front.address hlen hset huniq
  obtain ⟨f1, f2⟩ := invalidate_entry_frame s.cache s.cache.IVQ.front.address hlen hset
  have hl := geometry_lookup h1b s.cache.IVQ.front.address
  have hf := geometry_fields h1b
  have hi : ∀ x : CACHE, (invalidate_entry x s.cache.IVQ.front.address).2.NUM_SET = x.NUM_SET ∧
      (invalidate_entry x s.cache.IVQ.front.address).2.NUM_WAY = x.NUM_WAY ∧
      (invalidate_entry x s.cache.IVQ.front.address).2.OFFSET_BITS = x.OFFSET_BITS := by
    intro x
    unfold invalidate_entry
    dsimp only
    split <;> exact ⟨rfl, rfl, rfl⟩
  have hgs : get_set (invalidate_entry s.cache s.cache.IVQ.front.address).2
      s.cache.IVQ.front.address = get_set s.cache s.cache.IVQ.front.address := by
    unfold get_set
    rw [(hi s.cache).1, (hi s.cache).2.2]
  refine ⟨?_, ?_, ?_, h3, h2, ?_⟩
  · rw [hl.1, hl.2.1, hf.2.1, hgs, c1, (hi s.cache).2.1]
  · intro j hj
    rw [hl.2.2, f1 j hj]
  · intro hway
    rw [hl.2.2, f2 hway]
  · intro hhit hd hv
    unfold with_local_data
    dsimp only
    rw [hhit, hv, hd]
    rfl

/-- C24, witness: the cache `cache_pass_through` holds block 2 valid and dirty
in way 0 and the invalidation `inval_b` of block 2, bound for a lower level,
ready in the IVQ. -/
theorem pass_through_invalidation_witness :
    get_way (handle_invalid_step nbrs 0 sys_pass_through).2.cache 0x80 0 = 2 ∧
    (handle_invalid_step nbrs 0 sys_pass_through).2.cache.block
      = [{ valid := false, dirty := true, address := 0x80, data := 4 }, {}] ∧
    (handle_invalid_step nbrs 0 sys_pass_through).2.trace =
      [Call.add_ivq { inval_b with data := 4, data_valid := true } 1] := by
  have h := pass_through_invalidation nbrs sys_pass_through 0 (by decide) (by decide)
    (by decide) (by decide) (by decide) (by decide) (by decide)
  exact ⟨h.1, by decide, h.2.2.2.2.1⟩

/-! ## C13: the invalidation counts on every run -/

theorem counts_ok_default : counts_ok ({} : PACKET) = true := by decide

theorem counts_ok_congr {a b : PACKET}
    (h1 : a.mshr_invalid_count = b.mshr_invalid_count)
    (h2 : a.mshr_return_data_invalid_count = b.mshr_return_data_invalid_count) :
    counts_ok a = counts_ok b := by
  unfold counts_ok
  rw [h1, h2]

theorem queue_counts_ok_front (q : delay_queue) (h : queue_counts_ok q) :
    counts_ok q.front = true := by
  unfold delay_queue.front delay_queue.deref delay_queue.packets
  cases hb : q.buf with
  | nil => exact counts_ok_default
  | cons x xs =>
    simp only [List.map_cons, List.getD_cons_zero]
    exact h x (by rw [hb]; exact List.mem_cons_self _ _)

theorem queue_counts_ok_pop (q : delay_queue) (h : queue_counts_ok q) :
    queue_counts_ok q.pop_front := by
  intro x hx
  exact h x (List.mem_of_mem_tail hx)

theorem queue_counts_ok_operate (q : delay_queue) (h : queue_counts_ok q) :
    queue_counts_ok q.operate := by
  intro x hx
  unfold delay_queue.operate at hx
  simp only [List.mem_map] at hx
  obtain ⟨y, hy, hxy⟩ := hx
  rw [← hxy]
  exact h y hy

theorem queue_counts_ok_push (q : delay_queue) (p : PACKET) (d : Nat)
    (h : queue_counts_ok q) (hp : counts_ok p = true) :
    queue_counts_ok { q with buf := q.buf ++ [(p, d)] } := by
  intro x hx
  rcases List.mem_append.mp hx with hx | hx
  · exact h x hx
  · simp at hx; rw [hx]; exact hp

theorem queue_counts_ok_enqueue (c : CACHE) (q : delay_queue) (p : PACKET)
    (h : queue_counts_ok q) (hp : counts_ok p = true) : queue_counts_ok (enqueue c q p) := by
  unfold enqueue
  split
  · exact queue_counts_ok_push q p _ h hp
  · exact queue_counts_ok_push q p _ h hp

theorem mem_modify {α : Type} (f : α → α) (x : α) :
    ∀ (l : List α) (i : Nat), x ∈ List.modify f i l → x ∈ l ∨ ∃ y ∈ l, x = f y := by
  intro l
  induction l with
  | nil => intro i h; simp at h
  | cons a as ih =>
    intro i h
    cases i with
    | zero =>
      simp only [List.modify_zero_cons, List.mem_cons] at h
      rcases h with h | h
      · exact Or.inr ⟨a, List.mem_cons_self _ _, h⟩
      · exact Or.inl (List.mem_cons_of_mem _ h)
    | succ k =>
      simp only [List.modify_succ_cons, List.mem_cons] at h
      rcases h with h | h
      · exact Or.inl (by rw [h]; exact List.mem_cons_self _ _)
      · rcases ih k h with h2 | ⟨y, hy, hxy⟩
        · exact Or.inl (List.mem_cons_of_mem _ h2)
        · exact Or.inr ⟨y, List.mem_cons_of_mem _ hy, hxy⟩

theorem queue_counts_ok_modify_at (q : delay_queue) (i : Nat) (f : PACKET → PACKET)
    (h : queue_counts_ok q) (hf : ∀ e, counts_ok e = true → counts_ok (f e) = true) :
    queue_counts_ok (q.modify_at i f) := by
  intro x hx
  unfold delay_queue.modify_at at hx
  rcases mem_modify _ x q.buf i hx with hx | ⟨y, hy, hxy⟩
  · exact h x hx
  · rw [hxy]
    exact hf y.1 (h y hy)

theorem counts_kept_congr {c d : CACHE} (hM : d.MSHR = c.MSHR) (hR : d.RQ = c.RQ)
    (hW : d.WQ = c.WQ) (hP : d.PQ = c.PQ) (hV : d.VAPQ = c.VAPQ) (h : counts_kept c) :
    counts_kept d := by
  unfold counts_kept at h ⊢
  rw [hM, hR, hW, hP, hV]
  exact h

theorem queues_fields {c d : CACHE} (h : queues d = queues c) :
    d.RQ = c.RQ ∧ d.WQ = c.WQ ∧ d.PQ = c.PQ ∧ d.VAPQ = c.VAPQ := by
  unfold queues at h
  simp only [Prod.mk.injEq] at h
  exact ⟨h.2.1, h.2.2.1, h.2.2.2.1, h.2.2.2.2.2⟩

theorem counts_kept_MSHR {c d : CACHE} (hq : queues d = queues c) (h : counts_kept c)
    (hM : ∀ e ∈ d.MSHR, counts_ok e = true) : counts_kept d := by
  obtain ⟨hR, hW, hP, hV⟩ := queues_fields hq
  unfold counts_kept at h ⊢
  rw [hR, hW, hP, hV]
  exact ⟨hM, h.2⟩

theorem add_rq_counts (c : CACHE) (p : PACKET) (h : counts_kept c) (hp : counts_ok p = true) :
    counts_kept (add_rq c p).cache ∧ counts_ok (add_rq c p).packet = true := by
  unfold add_rq
  dsimp only
  split_ifs
  all_goals first
    | exact ⟨h, hp⟩
    | exact ⟨counts_kept_congr rfl rfl rfl rfl rfl h, hp⟩
    | exact ⟨⟨h.1, queue_counts_ok_modify_at _ _ _ h.2.1 (fun e he => he), h.2.2⟩, hp⟩
    | exact ⟨⟨h.1, queue_counts_ok_enqueue _ _ _ h.2.1 hp, h.2.2⟩, hp⟩

theorem add_wq_counts (c : CACHE) (p : PACKET) (h : counts_kept c) (hp : counts_ok p = true) :
    counts_kept (add_wq c p).cache ∧ counts_ok (add_wq c p).packet = true := by
  unfold add_wq
  dsimp only
  split_ifs
  all_goals first
    | exact ⟨h, hp⟩
    | exact ⟨counts_kept_congr rfl rfl rfl rfl rfl h, hp⟩
    | exact ⟨⟨h.1, h.2.1, queue_counts_ok_enqueue _ _ _ h.2.2.1 hp, h.2.2.2⟩, hp⟩

theorem add_pq_counts (c : CACHE) (p : PACKET) (h : counts_kept c) (hp : counts_ok p = true) :
    counts_kept (add_pq c p).cache ∧ counts_ok (add_pq c p).packet = true := by
  unfold add_pq
  dsimp only
  split_ifs
  all_goals first
    | exact ⟨h, hp⟩
    | exact ⟨counts_kept_congr rfl rfl rfl rfl rfl h, hp⟩
    | exact ⟨⟨h.1, h.2.1, h.2.2.1, queue_counts_ok_modify_at _ _ _ h.2.2.2.1 (fun e he => he),
        h.2.2.2.2⟩, hp⟩
    | exact ⟨⟨h.1, h.2.1, h.2.2.1, queue_counts_ok_enqueue _ _ _ h.2.2.2.1 hp, h.2.2.2.2⟩, hp⟩

theorem add_ivq_queue_counts (c : CACHE) (p : PACKET) (h : counts_kept c) :
    counts_kept (add_ivq_queue c p).cache := by
  unfold add_ivq_queue
  dsimp only
  split_ifs
  all_goals exact counts_kept_congr rfl rfl rfl rfl rfl h

theorem add_ivq_counts (c : CACHE) (p : PACKET) (h : counts_kept c) :
    counts_kept (add_ivq c p).cache := by
  unfold add_ivq
  dsimp only
  split_ifs
  all_goals first
    | exact counts_kept_congr rfl rfl rfl rfl rfl h
    | exact ⟨h.1, h.2.1, queue_counts_ok_modify_at _ _ _ h.2.2.1 (fun e he => he), h.2.2.2⟩
    | exact add_ivq_queue_counts _ _ (counts_kept_congr rfl rfl rfl rfl rfl h)
    | exact add_ivq_queue_counts _ _
        ⟨h.1, h.2.1, queue_counts_ok_modify_at _ _ _ h.2.2.1 (fun e he => he), h.2.2.2⟩

theorem prefetch_line_counts (n : Neighbours W) (c : CACHE) (a : Nat) (f : Bool) (m : Nat)
    (h : counts_kept c) : counts_kept (prefetch_line n c a f m).2 := by
  have h1 : counts_kept { c with pf_requested := c.pf_requested + 1 } :=
    counts_kept_congr rfl rfl rfl rfl rfl h
  have hp : ∀ c1 : CACHE, counts_ok (pf_packet n c1 a f m) = true := fun _ => rfl
  unfold prefetch_line
  dsimp only
  split_ifs
  all_goals first
    | exact h1
    | exact ⟨h1.1, h1.2.1, h1.2.2.1, h1.2.2.2.1, queue_counts_ok_push _ _ _ h1.2.2.2.2 (hp _)⟩
    | exact (add_pq_counts _ _ h1 (hp _)).1

theorem mem_modify_find {α : Type} (pred : α → Bool) (f : α → α) (x : α) :
    ∀ l : List α, x ∈ List.modify f (l.findIdx pred) l →
      x ∈ l ∨ ∃ e, l.find? pred = some e ∧ x = f e := by
  intro l
  induction l with
  | nil => intro h; simp at h
  | cons a as ih =>
    intro h
    cases hp : pred a
    · simp only [List.findIdx_cons, hp, cond_false, List.modify_succ_cons, List.mem_cons] at h
      rcases h with h | h
      · exact Or.inl (by rw [h]; exact List.mem_cons_self _ _)
      · rcases ih h with h2 | ⟨e, he, hxe⟩
        · exact Or.inl (List.mem_cons_of_mem _ h2)
        · exact Or.inr ⟨e, by simp [List.find?_cons, hp, he], hxe⟩
    · simp only [List.findIdx_cons, hp, cond_true, List.modify_zero_cons, List.mem_cons] at h
      rcases h with h | h
      · exact Or.inr ⟨a, by simp [List.find?_cons, hp], h⟩
      · exact Or.inl (List.mem_cons_of_mem _ h)

/-- The counts after `return_data`: the entry that takes the data is the first
of the block, and its stored count is the count of the packet. -/
theorem return_data_counts_first (c : CACHE) (p : PACKET)
    (h : ∀ e ∈ c.MSHR, counts_ok e = true) (hl : legal c (Event.return_data p) = true) :
    ∀ e ∈ (return_data c p).MSHR, counts_ok e = true := by
  unfold return_data
  dsimp only
  split
  · exact h
  · intro x hx
    have hx1 := mem_iter_swap _ _ _ x hx
    rcases mem_modify_find _ _ x c.MSHR hx1 with hx2 | ⟨e, he, hxe⟩
    · exact h x hx2
    · simp only [legal, he] at hl
      rw [hxe]
      unfold counts_ok take_data
      simpa using hl

theorem find_append_last {α : Type} (pred : α → Bool) (l : List α) (e : α)
    (hno : ∀ x ∈ l, pred x = false) (he : pred e = true) :
    (l ++ [e]).find? pred = some e := by
  induction l with
  | nil => simp [List.find?_cons, he]
  | cons a as ih =>
    have ha := hno a (List.mem_cons_self _ _)
    simp only [List.cons_append, List.find?_cons, ha]
    exact ih (fun x hx => hno x (List.mem_cons_of_mem _ hx))

theorem find_none_of_all {α : Type} (pred : α → Bool) (l : List α)
    (hno : ∀ x ∈ l, pred x = false) : l.find? pred = none := by
  induction l with
  | nil => rfl
  | cons a as ih =>
    have ha := hno a (List.mem_cons_self _ _)
    simp only [List.find?_cons, ha]
    exact ih (fun x hx => hno x (List.mem_cons_of_mem _ hx))

theorem getD_counts (l : List PACKET) (i : Nat) (h : ∀ e ∈ l, counts_ok e = true) :
    counts_ok (l.getD i {}) = true := by
  by_cases hi : i < l.length
  · rw [List.getD_eq_getElem _ _ hi]
    exact h _ (List.getElem_mem _)
  · rw [List.getD_eq_default _ _ (by omega)]
    exact counts_ok_default

theorem train_prefetcher_counts (n : Neighbours W) (s : Sys W) (p : PACKET) (hit : Nat) :
    counts_ok (train_prefetcher n s p hit).1 = counts_ok p := by
  unfold train_prefetcher
  split <;> rfl

theorem deliver_faithful {p : PACKET} {r : Reply W} (h : echo p r) (hk : keeps_counts p r)
    (hp : p.to_return.length ≤ 1) (c : CACHE) :
    deliver c r.returned = c ∨
    ∃ q, q.address = p.address ∧ q.mshr_invalid_count = p.mshr_invalid_count ∧
      deliver c r.returned = return_data c q := by
  obtain ⟨_, hlen, hq⟩ := h
  cases hr : r.returned with
  | nil => exact Or.inl rfl
  | cons q l =>
    rw [hr] at hlen hq
    cases l with
    | nil =>
      exact Or.inr ⟨q, hq q (List.mem_cons_self _ _),
        hk.2.2 q (by rw [hr]; exact List.mem_cons_self _ _), rfl⟩
    | cons q2 l2 =>
      simp only [List.length_cons] at hlen
      omega

theorem forward_faithful (n : Neighbours W) (hn : faithful n) (s : Sys W) (read : Bool)
    (c : CACHE) (p : PACKET) :
    counts_ok (forward n s read (forwarded c p)).packet = counts_ok p ∧
    ((forward n s read (forwarded c p)).sys.cache = s.cache ∨
      ∃ q, q.address = p.address ∧ q.mshr_invalid_count = p.mshr_invalid_count ∧
        (forward n s read (forwarded c p)).sys.cache = return_data s.cache q) := by
  unfold forward
  split
  · exact ⟨counts_ok_congr (hn.2 s.world (forwarded c p)).1.1 (hn.2 s.world (forwarded c p)).1.2.1,
      deliver_faithful (hn.1 s.world (forwarded c p)).1 (hn.2 s.world (forwarded c p)).1
        (forwarded_to_return c p) s.cache⟩
  · exact ⟨counts_ok_congr (hn.2 s.world (forwarded c p)).2.1 (hn.2 s.world (forwarded c p)).2.2.1,
      deliver_faithful (hn.1 s.world (forwarded c p)).2.1 (hn.2 s.world (forwarded c p)).2
        (forwarded_to_return c p) s.cache⟩

theorem probe_lower_counts (n : Neighbours W) (hn : faithful n) (s : Sys W) (p : PACKET) :
    (probe_lower n s p).packet.mshr_invalid_count = p.mshr_invalid_count ∧
    (probe_lower n s p).packet.mshr_return_data_invalid_count
      = p.mshr_return_data_invalid_count := by
  unfold probe_lower
  split
  · have h := (hn.2 s.world { p with test_packet := true }).1
    exact ⟨h.1, h.2.1⟩
  · exact ⟨rfl, rfl⟩

theorem merge_inflight_counts (c : CACHE) (i : Nat) (p : PACKET)
    (h : ∀ e ∈ c.MSHR, counts_ok e = true) (hp : counts_ok p = true) :
    ∀ e ∈ (merge_inflight c i p).MSHR, counts_ok e = true := by
  have hg := getD_counts c.MSHR i h
  unfold merge_inflight
  dsimp only
  split
  · intro x hx
    rcases List.mem_or_eq_of_mem_set hx with hx | hx
    · exact h x hx
    · rw [hx]; exact hp
  · intro x hx
    rcases List.mem_or_eq_of_mem_set hx with hx | hx
    · exact h x hx
    · rw [hx]; exact hg

theorem allocate_counts (n : Neighbours W) (hn : faithful n) (probe : Called W) (read : Bool)
    (h : ∀ e ∈ probe.sys.cache.MSHR, counts_ok e = true)
    (hp : counts_ok probe.packet = true)
    (hno : probe.sys.cache.MSHR.findIdx
      (eq_addr_PACKET probe.packet.address probe.sys.cache.OFFSET_BITS)
        = probe.sys.cache.MSHR.length) :
    (∀ e ∈ (allocate n probe read).sys.cache.MSHR, counts_ok e = true) ∧
    counts_ok (allocate n probe read).packet = true := by
  have hnone := findIdx_none _ _ hno
  have hsnoc : ∀ e ∈ probe.sys.cache.MSHR ++
      [({ probe.packet with test_packet := false,
                            cycle_enqueued := probe.sys.cache.current_cycle,
                            event_cycle := UINT64_MAX } : PACKET)], counts_ok e = true := by
    intro x hx
    rcases List.mem_append.mp hx with hx | hx
    · exact h x hx
    · simp at hx; rw [hx]; exact hp
  unfold allocate
  dsimp only
  by_cases hfl : probe.packet.fill_level ≤ probe.sys.cache.fill_level
  · rw [if_pos hfl]
    obtain ⟨hpk, hc⟩ := forward_faithful n hn _ read _ _
    refine ⟨?_, ?_⟩
    · rcases hc with hc | ⟨q, hqa, hqi, hc⟩
      · rw [hc]; exact hsnoc
      · rw [hc]
        refine return_data_counts_first _ q hsnoc ?_
        have hqa2 : q.address = probe.packet.address := hqa
        have hqi2 : q.mshr_invalid_count = probe.packet.mshr_invalid_count := hqi
        simp only [legal]
        rw [find_append_last _ _ _ (by rw [hqa2]; exact hnone)
          (by rw [hqa2]; simp [eq_addr_PACKET])]
        simp [hqi2]
    · rw [hpk]; exact hp
  · rw [if_neg hfl]
    obtain ⟨hpk, hc⟩ := forward_faithful n hn _ read _ _
    refine ⟨?_, ?_⟩
    · rcases hc with hc | ⟨q, hqa, _, hc⟩
      · rw [hc]; exact h
      · rw [hc]
        have hqa2 : q.address = probe.packet.address := hqa
        rw [return_data_no_match _ _ (by rw [hqa2]; exact hno)]
        exact h
    · rw [hpk]; exact hp

theorem readlike_miss_counts (n : Neighbours W) (hn : faithful n) (s : Sys W) (p : PACKET)
    (h : counts_kept s.cache) (hp : counts_ok p = true) :
    counts_kept (readlike_miss n s p).sys.cache ∧
    counts_ok (readlike_miss n s p).packet = true := by
  have hq := only_miss_queues (readlike_miss_only_miss n s p)
  suffices hs : (∀ e ∈ (readlike_miss n s p).sys.cache.MSHR, counts_ok e = true) ∧
      counts_ok (readlike_miss n s p).packet = true from
    ⟨counts_kept_MSHR hq h hs.1, hs.2⟩
  unfold readlike_miss
  dsimp only
  split
  · unfold merge_miss
    dsimp only
    rw [train_prefetcher_MSHR, train_prefetcher_counts]
    exact ⟨merge_inflight_counts _ _ _ h.1 hp, hp⟩
  · rename_i hfound
    have hidx : s.cache.MSHR.findIdx (eq_addr_PACKET p.address s.cache.OFFSET_BITS)
        = s.cache.MSHR.length := by simpa using hfound
    split
    · exact ⟨h.1, hp⟩
    · unfold issue_miss
      dsimp only
      obtain ⟨hpc, hpa⟩ := probe_lower_echo n hn.1 s p
      obtain ⟨hpi, hpr⟩ := probe_lower_counts n hn s p
      have hpp : counts_ok (probe_lower n s p).packet = true := by
        rw [counts_ok_congr hpi hpr]; exact hp
      have hpM : ∀ e ∈ (probe_lower n s p).sys.cache.MSHR, counts_ok e = true := by
        rw [hpc]; exact h.1
      split
      · exact ⟨hpM, hpp⟩
      · dsimp only
        rw [train_prefetcher_MSHR, train_prefetcher_counts]
        exact allocate_counts n hn _ _ hpM hpp (by rw [hpc, hpa]; exact hidx)

theorem tail_counts (l : List PACKET) (h : ∀ e ∈ l, counts_ok e = true) :
    ∀ e ∈ l.tail, counts_ok e = true :=
  fun e he => h e (List.mem_of_mem_tail he)

theorem reallocate_counts (n : Neighbours W) (hn : faithful n) (probe : Called W)
    (read : Bool) (e : PACKET) (rest : List PACKET)
    (hM : probe.sys.cache.MSHR = e :: rest) (ha : probe.packet.address = e.address)
    (hi : probe.packet.mshr_invalid_count = e.mshr_invalid_count)
    (hp : counts_ok probe.packet = true)
    (h : ∀ x ∈ probe.sys.cache.MSHR, counts_ok x = true) :
    ∀ x ∈ (reallocate n probe read).sys.cache.MSHR, counts_ok x = true := by
  have hsnoc : ∀ x ∈ probe.sys.cache.MSHR ++
      [({ probe.packet with test_packet := false, event_cycle := UINT64_MAX } : PACKET)],
      counts_ok x = true := by
    intro x hx
    rcases List.mem_append.mp hx with hx | hx
    · exact h x hx
    · simp at hx; rw [hx]; exact hp
  unfold reallocate
  dsimp only
  obtain ⟨_, hc⟩ := forward_faithful n hn _ read _ _
  rcases hc with hc | ⟨q, hqa, hqi, hc⟩
  · rw [hc]; exact hsnoc
  · rw [hc]
    refine return_data_counts_first _ q hsnoc ?_
    have hqa2 : q.address = e.address := by rw [← ha]; exact hqa
    have hqi2 : q.mshr_invalid_count = e.mshr_invalid_count := by rw [← hi]; exact hqi
    have hfind : (probe.sys.cache.MSHR ++
        [({ probe.packet with test_packet := false, event_cycle := UINT64_MAX } : PACKET)]).find?
        (eq_addr_PACKET q.address probe.sys.cache.OFFSET_BITS) = some e := by
      rw [hM, hqa2]
      simp [List.find?_cons, eq_addr_PACKET]
    simp only [legal]
    rw [hfind]
    simp [hqi2]

theorem reissue_counts (n : Neighbours W) (hn : faithful n) (s : Sys W) (e : PACKET)
    (rest : List PACKET) (hM : s.cache.MSHR = e :: rest)
    (h : ∀ x ∈ s.cache.MSHR, counts_ok x = true) :
    ∀ x ∈ (reissue n s e).cache.MSHR, counts_ok x = true := by
  obtain ⟨hpc, hpa⟩ := probe_lower_echo n hn.1 s (copy_packet e)
  obtain ⟨hpi, hpr⟩ := probe_lower_counts n hn s (copy_packet e)
  have he : counts_ok e = true := h e (by rw [hM]; exact List.mem_cons_self _ _)
  have hpp : counts_ok (probe_lower n s (copy_packet e)).packet = true := by
    rw [counts_ok_congr hpi hpr]; exact he
  unfold reissue
  dsimp only
  split
  · rw [hpc]; exact h
  · exact tail_counts _ (reallocate_counts n hn _ _ e rest (by rw [hpc]; exact hM) hpa hpi hpp
      (by rw [hpc]; exact h))

theorem handle_fill_step_counts (n : Neighbours W) (hn : faithful n) (k : Nat) (s : Sys W)
    (h : ∀ x ∈ s.cache.MSHR, counts_ok x = true) :
    ∀ x ∈ (handle_fill_step n k s).2.cache.MSHR, counts_ok x = true := by
  unfold handle_fill_step
  split
  · exact h
  · rename_i e rest hM
    have hfe : ∀ x ∈ (fill_entry n s e).2.cache.MSHR, counts_ok x = true := by
      rw [fill_entry_MSHR]; exact h
    dsimp only
    split_ifs
    · exact h
    · exact reissue_counts n hn s e rest hM h
    · exact tail_counts _ hfe
    · exact hfe
    · unfold retire
      dsimp only
      rw [return_to_producers_cache]
      exact tail_counts _ h

theorem handle_fill_counts (n : Neighbours W) (hn : faithful n) (s : Sys W)
    (h : counts_kept s.cache) : counts_kept (handle_fill n s).cache := by
  refine counts_kept_MSHR (handle_fill_frame n s).1 h ?_
  unfold handle_fill
  exact credit_loop_invariant (handle_fill_step n)
    (fun t => ∀ x ∈ t.cache.MSHR, counts_ok x = true)
    (fun k t ht => handle_fill_step_counts n hn k t ht) _ s h.1

theorem filllike_miss_packet_counts (n : Neighbours W) (s : Sys W) (set way : Nat)
    (p : PACKET) : counts_ok (filllike_miss n s set way p).packet = counts_ok p := by
  unfold filllike_miss fill_accounting
  dsimp only
  split_ifs <;> rfl

theorem counts_kept_only_fill {c d : CACHE} (hf : only_fill c d) (h : counts_kept c) :
    counts_kept d := by
  obtain ⟨hR, hW, hP, hV⟩ := queues_fields (only_fill_queues hf)
  exact counts_kept_congr (only_fill_MSHR hf) hR hW hP hV h

theorem writeback_miss_counts (n : Neighbours W) (hn : faithful n) (s : Sys W) (set : Nat)
    (p : PACKET) (h : counts_kept s.cache) (hp : counts_ok p = true) :
    counts_kept (writeback_miss n s set p).sys.cache ∧
    counts_ok (writeback_miss n s set p).packet = true := by
  unfold writeback_miss
  split
  · exact readlike_miss_counts n hn s p h hp
  · dsimp only
    refine ⟨?_, by rw [filllike_miss_packet_counts]; exact hp⟩
    have hf := filllike_miss_only_fill n (choose_way n s set p).2 set (choose_way n s set p).1 p
    rw [choose_way_cache] at hf
    exact counts_kept_only_fill hf h

theorem counts_kept_pop_WQ (k : Nat) (s : Sys W) (h : counts_kept s.cache) :
    counts_kept (pop_WQ k s).cache :=
  ⟨h.1, h.2.1, queue_counts_ok_pop _ h.2.2.1, h.2.2.2⟩

theorem handle_writeback_step_counts (n : Neighbours W) (hn : faithful n) (k : Nat)
    (s : Sys W) (h : counts_kept s.cache) :
    counts_kept (handle_writeback_step n k s).2.cache := by
  have hfront := queue_counts_ok_front _ h.2.2.1
  unfold handle_writeback_step
  dsimp only
  split_ifs
  · exact h
  · exact counts_kept_pop_WQ k _ (counts_kept_congr rfl rfl rfl rfl rfl h)
  · exact counts_kept_pop_WQ k _ (counts_kept_congr rfl rfl rfl rfl rfl h)
  · exact counts_kept_pop_WQ k _ (writeback_miss_counts n hn s _ _ h hfront).1
  · obtain ⟨h1, h2⟩ := writeback_miss_counts n hn s (get_set s.cache s.cache.WQ.front.address)
      s.cache.WQ.front h hfront
    exact ⟨h1.1, h1.2.1, queue_counts_ok_modify_at _ _ _ h1.2.2.1 (fun _ _ => h2), h1.2.2.2⟩

theorem handle_writeback_counts (n : Neighbours W) (hn : faithful n) (s : Sys W)
    (h : counts_kept s.cache) : counts_kept (handle_writeback n s).cache := by
  unfold handle_writeback
  exact credit_loop_invariant (handle_writeback_step n) (fun t => counts_kept t.cache)
    (fun k t ht => handle_writeback_step_counts n hn k t ht) _ s h

theorem only_inval_reads {c d : CACHE} (h : only_inval c d) :
    d.RQ = c.RQ ∧ d.WQ = c.WQ ∧ d.PQ = c.PQ ∧ d.VAPQ = c.VAPQ := by
  unfold only_inval at h
  rw [h]
  exact ⟨rfl, rfl, rfl, rfl⟩

theorem handle_invalid_step_reads (n : Neighbours W) (k : Nat) (s : Sys W) :
    (handle_invalid_step n k s).2.cache.RQ = s.cache.RQ ∧
    (handle_invalid_step n k s).2.cache.WQ = s.cache.WQ ∧
    (handle_invalid_step n k s).2.cache.PQ = s.cache.PQ ∧
    (handle_invalid_step n k s).2.cache.VAPQ = s.cache.VAPQ := by
  unfold handle_invalid_step
  dsimp only
  split
  · exact ⟨rfl, rfl, rfl, rfl⟩
  · split
    · have h := only_inval_reads (pass_down_only_inval n k
        { s with cache := count_invalidation s.cache s.cache.IVQ.front } s.cache.IVQ.front)
      exact h
    · split
      · have h := only_inval_reads (end_here_only_inval n k
          { s with cache := count_invalidation s.cache s.cache.IVQ.front } s.cache.IVQ.front)
        exact h
      · exact ⟨rfl, rfl, rfl, rfl⟩

theorem handle_invalid_step_counts (n : Neighbours W) (k : Nat) (s : Sys W)
    (h : counts_kept s.cache) : counts_kept (handle_invalid_step n k s).2.cache := by
  obtain ⟨hR, hW, hP, hV⟩ := handle_invalid_step_reads n k s
  unfold counts_kept at h ⊢
  rw [hR, hW, hP, hV]
  refine ⟨?_, h.2⟩
  rcases handle_invalid_step_MSHR n k s with hM | hM
  · rw [hM]; exact h.1
  · rw [hM]; exact count_invalidation_counts _ _ h.1

theorem handle_invalid_counts_kept (n : Neighbours W) (s : Sys W) (h : counts_kept s.cache) :
    counts_kept (handle_invalid n s).cache := by
  unfold handle_invalid
  exact credit_loop_invariant (handle_invalid_step n) (fun t => counts_kept t.cache)
    (fun k t ht => handle_invalid_step_counts n k t ht) _ s h

theorem counts_kept_read_queue (is_rq : Bool) (c : CACHE) (h : counts_kept c) :
    queue_counts_ok (read_queue is_rq c) := by
  unfold read_queue
  split
  · exact h.2.1
  · exact h.2.2.2.1

theorem counts_kept_set_read_queue (is_rq : Bool) (c : CACHE) (q : delay_queue)
    (h : counts_kept c) (hq : queue_counts_ok q) : counts_kept (set_read_queue is_rq c q) := by
  unfold set_read_queue
  split
  · exact ⟨h.1, hq, h.2.2⟩
  · exact ⟨h.1, h.2.1, h.2.2.1, hq, h.2.2.2.2⟩

theorem counts_kept_pop_read (is_rq : Bool) (k : Nat) (t : Sys W) (h : counts_kept t.cache) :
    counts_kept (pop_read is_rq k t).cache := by
  unfold pop_read
  dsimp only
  exact counts_kept_congr rfl rfl rfl rfl rfl
    (counts_kept_set_read_queue is_rq _ _ h
      (queue_counts_ok_pop _ (counts_kept_read_queue is_rq _ h)))

theorem counts_kept_only_hit {c d : CACHE} (hf : only_hit c d) (h : counts_kept c) :
    counts_kept d := by
  unfold only_hit at hf
  rw [hf]
  exact counts_kept_congr rfl rfl rfl rfl rfl h

theorem handle_readlike_step_counts (n : Neighbours W) (hn : faithful n) (is_rq : Bool)
    (k : Nat) (s : Sys W) (h : counts_kept s.cache) :
    counts_kept (handle_readlike_step n is_rq k s).2.cache := by
  have hfront := queue_counts_ok_front _ (counts_kept_read_queue is_rq _ h)
  have hc : ∀ b : Bool, counts_kept (if is_rq then { s.cache with ever_seen_data := b }
      else s.cache) := by
    intro b
    split
    · exact counts_kept_congr rfl rfl rfl rfl rfl h
    · exact h
  unfold handle_readlike_step
  dsimp only
  generalize hceq : (if is_rq then ({ s.cache with ever_seen_data :=
      s.cache.ever_seen_data || (read_queue is_rq s.cache).front.v_address
        != (read_queue is_rq s.cache).front.ip } : CACHE) else s.cache) = c
  have hcc : counts_kept c := by rw [← hceq]; exact hc _
  split_ifs
  · exact h
  · exact counts_kept_pop_read is_rq k _
      (counts_kept_only_hit (readlike_hit_only_hit n _ _ _ _) hcc)
  · exact counts_kept_pop_read is_rq k _
      (readlike_miss_counts n hn (Sys.mk c s.world s.trace) _ hcc hfront).1
  · obtain ⟨h1, h2⟩ := readlike_miss_counts n hn (Sys.mk c s.world s.trace)
      (read_queue is_rq s.cache).front hcc hfront
    exact counts_kept_set_read_queue is_rq _ _ h1
      (queue_counts_ok_modify_at _ _ _ (counts_kept_read_queue is_rq _ h1) (fun _ _ => h2))

theorem handle_read_counts (n : Neighbours W) (hn : faithful n) (s : Sys W)
    (h : counts_kept s.cache) : counts_kept (handle_read n s).cache := by
  unfold handle_read
  exact credit_loop_invariant (handle_readlike_step n true) (fun t => counts_kept t.cache)
    (fun k t ht => handle_readlike_step_counts n hn true k t ht) _ s h

theorem handle_prefetch_counts (n : Neighbours W) (hn : faithful n) (s : Sys W)
    (h : counts_kept s.cache) : counts_kept (handle_prefetch n s).cache := by
  unfold handle_prefetch
  exact credit_loop_invariant (handle_readlike_step n false) (fun t => counts_kept t.cache)
    (fun k t ht => handle_readlike_step_counts n hn false k t ht) _ s h

theorem va_translate_counts (n : Neighbours W) (s : Sys W) (h : counts_kept s.cache) :
    counts_kept (va_translate_prefetches n s).cache := by
  have hfront := queue_counts_ok_front _ h.2.2.2.2
  unfold va_translate_prefetches
  dsimp only
  split
  · rw [foldl_notify_cache]
    dsimp only
    have hhead : counts_ok ({ s.cache.VAPQ.front with
        address := (n.va_to_pa s.world s.cache.cpu s.cache.VAPQ.front.v_address).1 } : PACKET)
        = true := hfront
    have h1 : counts_kept { s.cache with VAPQ := s.cache.VAPQ.modify_at 0 (fun _ =>
        { s.cache.VAPQ.front with
          address := (n.va_to_pa s.world s.cache.cpu s.cache.VAPQ.front.v_address).1 }) } :=
      ⟨h.1, h.2.1, h.2.2.1, h.2.2.2.1,
        queue_counts_ok_modify_at _ _ _ h.2.2.2.2 (fun _ _ => hhead)⟩
    obtain ⟨h2, h3⟩ := add_pq_counts _ _ h1 hhead
    have h4 : ∀ c : CACHE, counts_kept c →
        counts_kept { c with VAPQ := c.VAPQ.modify_at 0 (fun _ => (add_pq
          { s.cache with VAPQ := s.cache.VAPQ.modify_at 0 (fun _ =>
            { s.cache.VAPQ.front with
              address := (n.va_to_pa s.world s.cache.cpu s.cache.VAPQ.front.v_address).1 }) }
          { s.cache.VAPQ.front with
            address := (n.va_to_pa s.world s.cache.cpu
              s.cache.VAPQ.front.v_address).1 }).packet) } :=
      fun c hc => ⟨hc.1, hc.2.1, hc.2.2.1, hc.2.2.2.1,
        queue_counts_ok_modify_at _ _ _ hc.2.2.2.2 (fun _ _ => h3)⟩
    have h5 := h4 _ h2
    have hpop : ∀ c : CACHE, counts_kept c → counts_kept { c with VAPQ := c.VAPQ.pop_front } :=
      fun c hc => ⟨hc.1, hc.2.1, hc.2.2.1, hc.2.2.2.1, queue_counts_ok_pop _ hc.2.2.2.2⟩
    split_ifs
    all_goals first
      | exact h5
      | exact hpop _ h5
  · exact h

theorem operate_counts (n : Neighbours W) (hn : faithful n) (s : Sys W)
    (h : counts_kept s.cache) : counts_kept (operate n s).cache := by
  have h1 : counts_kept (operate_invalid n s).cache := by
    unfold operate_invalid
    dsimp only
    exact counts_kept_congr rfl rfl rfl rfl rfl
      (handle_invalid_counts_kept n (start_invalid s) (counts_kept_congr rfl rfl rfl rfl rfl h))
  have h2 : counts_kept (operate_writes n (operate_invalid n s)).cache := by
    unfold operate_writes
    dsimp only
    have := handle_writeback_counts n hn _ (handle_fill_counts n hn
      (start_writes (operate_invalid n s)) (counts_kept_congr rfl rfl rfl rfl rfl h1))
    exact ⟨this.1, this.2.1, queue_counts_ok_operate _ this.2.2.1, this.2.2.2⟩
  have h3 : counts_kept (operate_reads n (operate_writes n (operate_invalid n s))).cache := by
    unfold operate_reads
    dsimp only
    have := handle_prefetch_counts n hn _ (va_translate_counts n _ (handle_read_counts n hn
      (start_reads (operate_writes n (operate_invalid n s)))
      (counts_kept_congr rfl rfl rfl rfl rfl h2)))
    exact ⟨this.1, queue_counts_ok_operate _ this.2.1, this.2.2.1,
      queue_counts_ok_operate _ this.2.2.2.1, queue_counts_ok_operate _ this.2.2.2.2⟩
  exact h3

theorem after_call_cache (n : Neighbours W) (s : Sys W) (a : Admission) :
    (after_call n s a).cache = a.cache := by
  unfold after_call
  rw [foldl_notify_cache]

theorem apply_event_counts (n : Neighbours W) (hn : faithful n) (s : Sys W) (ev : Event)
    (h : counts_kept s.cache) (hl : legal s.cache ev = true) :
    counts_kept (apply_event n s ev).cache := by
  cases ev with
  | add_rq p => exact (after_call_cache n s _).symm ▸ (add_rq_counts _ _ h hl).1
  | add_wq p => exact (after_call_cache n s _).symm ▸ (add_wq_counts _ _ h hl).1
  | add_pq p => exact (after_call_cache n s _).symm ▸ (add_pq_counts _ _ h hl).1
  | add_ivq p => exact (after_call_cache n s _).symm ▸ add_ivq_counts _ _ h
  | prefetch_line a f m => exact prefetch_line_counts n _ a f m h
  | operate => exact operate_counts n hn s h
  | return_data p =>
    have hq : queues (return_data s.cache p) = queues s.cache :=
      only_MSHR_queues (return_data_only_MSHR s.cache p)
    exact counts_kept_MSHR hq h (return_data_counts_first _ _ h.1 hl)

theorem run_counts (n : Neighbours W) (hn : faithful n) (events : List Event) :
    ∀ s : Sys W, counts_kept s.cache → legal_run n events s = true →
      counts_kept (run n s events).cache := by
  induction events with
  | nil => intro s h _; exact h
  | cons ev events ih =>
    intro s h hl
    unfold legal_run at hl
    simp only [Bool.and_eq_true] at hl
    exact ih _ (apply_event_counts n hn s ev h hl.1) hl.2

/-- C13, as the code has it: the invalidation counts stay in order,
`mshr_return_data_invalid_count <= mshr_invalid_count` on every MSHR entry and
on every packet that waits in the RQ, the WQ, the PQ or the VAPQ, along every
sequence of calls `add_rq`, `add_wq`, `add_pq`, `add_ivq`, `prefetch_line`,
`operate` and `return_data` from a state in which they are in order (an empty
cache is one), when every packet offered to `add_rq`, `add_wq` or `add_pq` has
its counts in order, every packet handed to `return_data` carries an
`mshr_invalid_count` that is at most the one of the first MSHR entry of its
block, and the lower level hands back during `add_rq` and `add_pq` packets of
the block of the request only, at most one for every producer of the request
and none to a probe of `add_rq`, each with the `mshr_invalid_count` of the
request, and leaves the counts of the request alone. -/
theorem invalidation_counts_kept (n : Neighbours W) (s : Sys W) (events : List Event)
    (hn : faithful n) (hs : counts_kept s.cache) (hl : legal_run n events s = true) :
    counts_kept (run n s events).cache ∧
    ∀ e ∈ (run n s events).cache.MSHR,
      e.mshr_return_data_invalid_count ≤ e.mshr_invalid_count := by
  have h := run_counts n hn events s hs hl
  refine ⟨h, ?_⟩
  intro e he
  have := h.1 e he
  unfold counts_ok at this
  simpa using this

/-! ## Concrete runs: witnesses, counterexamples and failing inputs -/

theorem quiet_nbrs : quiet nbrs := fun _ _ => ⟨rfl, rfl⟩

theorem handed_to_length (i : Nat) (l : List (Nat × PACKET)) :
    (handed_to i l).length ≤ l.length := by
  unfold handed_to
  rw [List.length_map]
  exact List.length_filter_le _ _

theorem mem_handed_to {i : Nat} {l : List (Nat × PACKET)} {q : PACKET}
    (h : q ∈ handed_to i l) : ∃ x ∈ l, x.2 = q := by
  unfold handed_to at h
  rw [List.mem_map] at h
  obtain ⟨x, hx, rfl⟩ := h
  exact ⟨x, (List.mem_filter.mp hx).1, rfl⟩

/-- What `add_rq` leaves of the packet and what it hands back: the address and
the two invalidation counts stay, each producer in `to_return` gets the packet
itself, and a probe of a cache that is not `NOT_CACHE` hands nothing back. -/
theorem add_rq_reply (c : CACHE) (p : PACKET) :
    (add_rq c p).packet.address = p.address ∧
    (add_rq c p).packet.mshr_invalid_count = p.mshr_invalid_count ∧
    (add_rq c p).packet.mshr_return_data_invalid_count = p.mshr_return_data_invalid_count ∧
    (add_rq c p).returned.length ≤ p.to_return.length ∧
    (∀ x ∈ (add_rq c p).returned, x.2 = (add_rq c p).packet) ∧
    (p.test_packet = true → c.cache_type ≠ NOT_CACHE → (add_rq c p).returned = []) := by
  unfold add_rq
  dsimp only
  split_ifs <;> simp_all

/-- What `add_pq` leaves of the packet and what it hands back. -/
theorem add_pq_reply (c : CACHE) (p : PACKET) :
    (add_pq c p).packet.address = p.address ∧
    (add_pq c p).packet.mshr_invalid_count = p.mshr_invalid_count ∧
    (add_pq c p).packet.mshr_return_data_invalid_count = p.mshr_return_data_invalid_count ∧
    (add_pq c p).returned.length ≤ p.to_return.length ∧
    (∀ x ∈ (add_pq c p).returned, x.2 = (add_pq c p).packet) := by
  unfold add_pq
  dsimp only
  split_ifs <;> simp_all

/-- A lower level that is a cache of this model, not `NOT_CACHE`, hands back
during `add_rq` and `add_pq` at most the request itself. -/
theorem echoes_stacked_cache : echoes stacked_cache := by
  intro w p
  obtain ⟨h1, -, -, h4, h5, h6⟩ := add_rq_reply w.cache p
  obtain ⟨k1, -, -, k4, k5⟩ := add_pq_reply w.cache p
  refine ⟨⟨h1, le_trans (handed_to_length _ _) h4, ?_⟩,
    ⟨k1, le_trans (handed_to_length _ _) k4, ?_⟩, ?_⟩
  · intro q hq
    obtain ⟨x, hx, rfl⟩ := mem_handed_to hq
    rw [h5 x hx]; exact h1
  · intro q hq
    obtain ⟨x, hx, rfl⟩ := mem_handed_to hq
    rw [k5 x hx]; exact k1
  · intro ht
    show handed_to 0 (add_rq w.cache p).returned = []
    rw [h6 ht w.proper]
    rfl

/-- A lower level that is a cache of this model, not `NOT_CACHE`, leaves the
invalidation counts alone as well. -/
theorem faithful_stacked_cache : faithful stacked_cache := by
  refine ⟨echoes_stacked_cache, ?_⟩
  intro w p
  obtain ⟨-, h2, h3, -, h5, -⟩ := add_rq_reply w.cache p
  obtain ⟨-, k2, k3, -, k5⟩ := add_pq_reply w.cache p
  refine ⟨⟨h2, h3, ?_⟩, ⟨k2, k3, ?_⟩⟩
  · intro q hq
    obtain ⟨x, hx, rfl⟩ := mem_handed_to hq
    rw [h5 x hx]; exact h2
  · intro q hq
    obtain ⟨x, hx, rfl⟩ := mem_handed_to hq
    rw [k5 x hx]; exact k2

/-- The bound on what the lower level hands back is needed: when `add_rq` hands
the request back twice, the second `return_data` finds the new entry returned
already and moves it behind a miss that has not returned. -/
theorem second_hand_back_breaks_returned_first :
    returned_first sys_three_misses.cache.MSHR = true ∧
    (readlike_miss nbrs_twice sys_three_misses miss_d).sys.cache.MSHR.map
      (fun e => (e.address, is_returned e))
        = [(0x40, true), (0xC0, false), (0x100, true), (0x80, false)] ∧
    returned_first (readlike_miss nbrs_twice sys_three_misses miss_d).sys.cache.MSHR
      = false := by
  decide

/-- C11, witness: the cache of `sys_pref_inflight`, whose MSHR holds one
prefetch in flight, is within its capacities. -/
theorem capacity_invariant_witness :
    capacity_ok sys_pref_inflight.cache ∧
    capacity_ok (add_rq sys_pref_inflight.cache load_a).cache ∧
    capacity_ok (add_wq sys_pref_inflight.cache load_a).cache ∧
    capacity_ok (add_pq sys_pref_inflight.cache load_a).cache ∧
    capacity_ok (add_ivq sys_pref_inflight.cache load_a).cache ∧
    capacity_ok (prefetch_line nbrs sys_pref_inflight.cache 0x100 true 0).2 ∧
    capacity_ok (readlike_miss nbrs sys_pref_inflight load_a).sys.cache ∧
    capacity_ok (handle_fill nbrs sys_pref_inflight).cache :=
  ⟨by decide, capacity_invariant nbrs sys_pref_inflight load_a 0x100 true 0 (by decide)⟩

/-- C15, witness: the load `load_a` misses on the cache whose MSHR holds the
prefetch `pref_inflight` of the same block. -/
theorem readlike_miss_prefetch_upgrade_witness :
    (readlike_miss nbrs sys_pref_inflight load_a).success = true ∧
    (readlike_miss nbrs sys_pref_inflight load_a).sys.cache.MSHR =
      [] ++ { load_a with event_cycle := pref_inflight.event_cycle } :: [] :=
  readlike_miss_prefetch_upgrade nbrs sys_pref_inflight load_a pref_inflight [] [] rfl
    (by decide) (by decide) (by decide) (by decide)

/-- C12, counterexample: the returned entries come first in the MSHR of
`cache_two_misses`.  The data of block 1 returns once more: `return_data` finds
the entry of block 1, which has returned, at position 0 and swaps it with the
first entry that has not returned, so that afterwards a miss that has not
returned stands before a returned one. -/
theorem return_data_breaks_returned_first :
    returned_first cache_two_misses.MSHR = true ∧
    cache_two_misses.MSHR.findIdx
      (eq_addr_PACKET data_a_again.address cache_two_misses.OFFSET_BITS) = 0 ∧
    (return_data cache_two_misses data_a_again).MSHR
      = [miss_b, { miss_returned with data := 12, event_cycle := 10 }] ∧
    returned_first (return_data cache_two_misses data_a_again).MSHR = false := by
  decide

/-- C13, counterexample: the cache reached from the empty cache by `add_rq` of
one load and one `operate` holds the miss in its MSHR with both counts 0.  The
data comes back in a packet that carries `mshr_invalid_count = 1`, the count of
the level below: `return_data` stores it, and the entry has
`mshr_return_data_invalid_count = 1` above `mshr_invalid_count = 0`. -/
theorem return_data_breaks_counts :
    (operate nbrs sys_one_load).cache.MSHR.map counts_ok = [true] ∧
    (return_data (operate nbrs sys_one_load).cache data_invalidated).MSHR.map
      (fun e => (e.mshr_return_data_invalid_count, e.mshr_invalid_count)) = [(1, 0)] := by
  decide

/-- C13, witness: into the empty cache `cache_idle`, above a lower cache whose
write queue holds the block, a load is admitted; a cycle issues it to the lower
cache, which forwards it at once, so that its data returns during `add_rq`; an
invalidation of the block arrives, and the next cycle counts it on the MSHR
entry and issues the entry again, and the data that returns at once stores the
count 1. -/
theorem invalidation_counts_kept_witness :
    counts_kept cache_idle ∧
    (run stacked_cache (Sys.mk cache_idle lower_three_writebacks [])
        (load_then_invalidate.take 3)).cache.MSHR.map
      (fun e => (e.address, e.mshr_return_data_invalid_count, e.mshr_invalid_count))
        = [(0x80, 0, 0)] ∧
    (run stacked_cache (Sys.mk cache_idle lower_three_writebacks [])
        load_then_invalidate).cache.MSHR.map
      (fun e => (e.address, e.mshr_return_data_invalid_count, e.mshr_invalid_count))
        = [(0x80, 1, 1)] ∧
    counts_kept (run stacked_cache (Sys.mk cache_idle lower_three_writebacks [])
      load_then_invalidate).cache :=
  ⟨by decide, by decide, by decide,
   (invalidation_counts_kept stacked_cache (Sys.mk cache_idle lower_three_writebacks [])
      load_then_invalidate faithful_stacked_cache (by decide) (by decide)).1⟩

/-- C14, counterexample: on a `NOT_CACHE` instance the first MSHR entry is due
and saw an invalidation after it was issued, and `handle_fill` installs it all
the same: the block is written, producer 7 receives `return_data`, the entry is
retired and nothing is sent to the lower level. -/
theorem handle_fill_not_cache_installs :
    sys_not_cache_invalidated.cache.MSHR = [entry_invalidated] ∧
    entry_invalidated.event_cycle ≤ sys_not_cache_invalidated.cache.current_cycle ∧
    entry_invalidated.mshr_return_data_invalid_count < entry_invalidated.mshr_invalid_count ∧
    (handle_fill nbrs sys_not_cache_invalidated).cache.block
      = [{ valid := true, address := 0x40, data := 3 }] ∧
    (handle_fill nbrs sys_not_cache_invalidated).trace
      = [Call.return_data 7 entry_invalidated] ∧
    (handle_fill nbrs sys_not_cache_invalidated).cache.MSHR = [] := by
  decide

/-- A clean victim: the fill of `fill_a` over the valid clean block of an
`INCLUSIVE` cache, entered with the three flags set, returns true, and the clean victim was both written back, as
a `WRITEBACK_EXCLUSIVE` through `add_wq` of the lower level, and invalidated on
both upper levels. -/
theorem clean_victim_written_back_and_invalidated :
    (block_at sys_clean_victim.cache 0).valid = true ∧
    (block_at sys_clean_victim.cache 0).dirty = false ∧
    (filllike_miss nbrs sys_clean_victim 0 0 fill_a).success = true ∧
    (wq_calls (filllike_miss nbrs sys_clean_victim 0 0 fill_a).sys.trace).map
      (fun p => (p.address, p.type)) = [(0x80, WRITEBACK_EXCLUSIVE)] ∧
    (inv_sent 0 (filllike_miss nbrs sys_clean_victim 0 0 fill_a).sys.trace).map
      (fun x => (x.1.address, x.1.type, x.2)) = [(0x80, INVALIDATE, 1)] ∧
    (inv_sent 1 (filllike_miss nbrs sys_clean_victim 0 0 fill_a).sys.trace).map
      (fun x => (x.1.address, x.1.type, x.2)) = [(0x80, INVALIDATE, 1)] := by
  decide

/-- C19, failing input: a `NINE` cache of one set and two invalid ways, with a
miss on block 1 in flight and a writeback of block 1 ready in the WQ.
`operate` lets `handle_writeback` install block 1 in way 0; the data of the
miss returns; the next `operate` lets `handle_fill` install block 1 again in
way 1, the first invalid way, without a look at the set.  Unique residency
held before that call of `handle_fill` and fails after it. -/
theorem handle_fill_installs_resident_block :
    unique_residency sys_racing.cache ∧
    unique_residency sys_racing_written.cache ∧
    sys_racing_written.cache.block.map (fun b => (b.valid, b.address)) = [(true, 0x40), (false, 0)] ∧
    unique_residency sys_racing_returned.cache ∧
    sys_racing_filled.cache.block.map (fun b => (b.valid, b.address))
      = [(true, 0x40), (true, 0x40)] ∧
    ¬ unique_residency sys_racing_filled.cache := by
  decide

/-- C21, failing input: one invalidation of block 2, bound for the lower
level, is ready in the IVQ and a miss on block 2 is in the MSHR with
`mshr_invalid_count = 0`; the lower level refuses once.  The first
`handle_invalid` stalls: the head stays and no credit is taken, yet the count
of the MSHR entry is 1.  The second succeeds and the count is 2: one
invalidation, counted twice. -/
theorem handle_invalid_stall_counts_twice :
    (handle_invalid nbrs_busy sys_inval_pending).cache.IVQ = sys_inval_pending.cache.IVQ ∧
    (handle_invalid nbrs_busy sys_inval_pending).cache.invalid_available_this_cycle = 1 ∧
    sys_inval_pending.cache.MSHR.map (fun e => e.mshr_invalid_count) = [0] ∧
    (handle_invalid nbrs_busy sys_inval_pending).cache.MSHR.map
      (fun e => e.mshr_invalid_count) = [1] ∧
    (handle_invalid nbrs_busy
      (handle_invalid nbrs_busy sys_inval_pending)).cache.IVQ.occupancy = 0 ∧
    (handle_invalid nbrs_busy (handle_invalid nbrs_busy sys_inval_pending)).cache.MSHR.map
      (fun e => e.mshr_invalid_count) = [2] := by
  decide

/-- C22, counterexample: with `MAX_READ = 1`, one entry ready in the RQ and one
in the VAPQ, `operate_reads` dequeues both: the read credit ends at 0, one less
than `MAX_READ`, after two dequeues. -/
theorem operate_reads_dequeues_two :
    sys_read_and_translate.cache.MAX_READ = 1 ∧
    sys_read_and_translate.cache.RQ.occupancy = 1 ∧
    sys_read_and_translate.cache.VAPQ.occupancy = 1 ∧
    (operate_reads nbrs sys_read_and_translate).cache.RQ.occupancy = 0 ∧
    (operate_reads nbrs sys_read_and_translate).cache.VAPQ.occupancy = 0 ∧
    (operate_reads nbrs sys_read_and_translate).cache.reads_available_this_cycle = 0 := by
  decide

/-- C25, counterexample: a prefetch of block 2 from `cache_pq_held`, whose PQ
holds a prefetch of block 2 already: `add_pq` merges and returns 0, so
`prefetch_line` returns 1, the request is accepted, and `pf_issued` is as
before. -/
theorem prefetch_line_merged_not_issued :
    cache_pq_held.virtual_prefetch = false ∧
    (add_pq { cache_pq_held with pf_requested := cache_pq_held.pf_requested + 1 }
      (pf_packet nbrs cache_pq_held 0x80 true 0)).result = 0 ∧
    (prefetch_line nbrs cache_pq_held 0x80 true 0).1 = 1 ∧
    (prefetch_line nbrs cache_pq_held 0x80 true 0).2.pf_issued = cache_pq_held.pf_issued := by
  decide

/-- C26, failing input: the MSHR holds the prefetch `pref_from_above` of block
2, with `fill_level = 1` and producer 3 in `to_return`; the load `load_far` of
block 2, with `fill_level = 2` and producer 1, misses.  After `readlike_miss`
the entry has `fill_level = 2`, not the minimum 1, and its `to_return` is
producer 1 alone: producer 3 is gone. -/
theorem upgrade_drops_merged_routing :
    sys_pref_from_above.cache.MSHR = [pref_from_above] ∧
    (readlike_miss nbrs sys_pref_from_above load_far).success = true ∧
    (readlike_miss nbrs sys_pref_from_above load_far).sys.cache.MSHR.map
      (fun e => (e.fill_level, e.to_return)) = [(2, [1])] ∧
    min pref_from_above.fill_level load_far.fill_level = 1 ∧
    pref_from_above.to_return = [3] := by
  decide

/-- C27, counterexample: two MSHR entries are due and the write credit is 2:
one call of `handle_fill` installs both blocks and retires both entries. -/
theorem handle_fill_fills_twice :
    sys_two_due.cache.MSHR = [due_a, due_b] ∧
    (handle_fill nbrs sys_two_due).cache.MSHR = [] ∧
    (handle_fill nbrs sys_two_due).cache.block.map (fun b => (b.valid, b.address))
      = [(true, 0x40), (true, 0x80)] ∧
    (handle_fill nbrs sys_two_due).cache.writes_available_this_cycle = 0 := by
  decide

/-- C28, counterexample: a hit of a packet that carries `data_valid` already on
a valid clean block: after `readlike_hit` `data_valid` is still set, though the
block was not dirty. -/
theorem readlike_hit_keeps_data_valid :
    (block_at sys_clean_victim.cache 0).valid = true ∧
    (block_at sys_clean_victim.cache 0).dirty = false ∧
    (readlike_hit nbrs sys_clean_victim 0 0 load_with_data).1.data_valid = true := by
  decide

/-- C30, failing input: the MSHR holds a returned miss on block 1 that saw an
invalidation, followed by a miss on block 2 that has not returned; the lower
level is a cache whose WQ holds a writeback of block 1.  `handle_fill`
re-issues the miss of block 1: the probe is accepted, the copy is appended, and
`add_rq` of the lower level forwards from its WQ and calls `return_data` back
before it returns `-1`.  `return_data` finds the old entry, not the copy, and
swaps it with the miss on block 2, which the `erase` that follows removes: the
MSHR ends with two entries of block 1 and without the miss on block 2. -/
theorem reissue_duplicates_mshr_entry :
    mshr_blocks sys_reissue.cache = [1, 2] ∧
    (mshr_blocks sys_reissue.cache).Nodup ∧
    mshr_blocks (handle_fill stacked sys_reissue).cache = [1, 1] ∧
    ¬ (mshr_blocks (handle_fill stacked sys_reissue).cache).Nodup ∧
    (handle_fill stacked sys_reissue).trace.map
      (fun c => match c with
        | Call.add_rq p r => (p.test_packet, r)
        | _ => (false, 0)) = [(true, 0), (false, -1)] := by
  decide

/-- C31, failing input: the MSHR holds the prefetch `pref_from_above` of block
2 with `mshr_invalid_count = 1`; the load `load_far` of block 2 misses and
upgrades the entry, which afterwards is a `LOAD` whose `mshr_invalid_count`
is 0. -/
theorem upgrade_forgets_invalidation :
    sys_pref_from_above.cache.MSHR.map (fun e => e.mshr_invalid_count) = [1] ∧
    (readlike_miss nbrs sys_pref_from_above load_far).success = true ∧
    (readlike_miss nbrs sys_pref_from_above load_far).sys.cache.MSHR.map
      (fun e => (e.type, e.mshr_invalid_count)) = [(LOAD, 0)] := by
  decide

/-- C12, witness: the data of block 3 returns to an MSHR of the returned miss
`miss_returned` followed by the misses `miss_b` and `miss_c` that have not; and
above a lower cache whose write queue holds the blocks 1 and 3, with the MSHR
of `cache_reissue` (the returned, once invalidated miss on block 1 before the
miss on block 2 that has not returned), the miss `miss_c` on block 3 is
forwarded at once and its new entry takes its place before the miss on block
2, and `handle_fill` issues the miss on block 1 again, which returns during
`add_rq`, and puts its copy behind it. -/
theorem returned_first_invariant_witness :
    ((return_data sys_three_misses.cache data_c).MSHR
      = [miss_returned] ++ take_data sys_three_misses.cache data_c miss_c
          :: (([miss_b] : List PACKET).drop 1 ++ ([miss_b] : List PACKET).take 1 ++ []) ∧
      returned_first (return_data sys_three_misses.cache data_c).MSHR = true) ∧
    sys_stacked_reissue.cache.MSHR.map (fun e => (e.address, is_returned e))
      = [(0x40, true), (0x80, false)] ∧
    (readlike_miss stacked_cache sys_stacked_reissue miss_c).sys.cache.MSHR.map
      (fun e => (e.address, is_returned e)) = [(0x40, true), (0xC0, true), (0x80, false)] ∧
    (handle_fill stacked_cache sys_stacked_reissue).cache.MSHR.map
      (fun e => (e.address, is_returned e)) = [(0x40, true), (0x40, false)] ∧
    returned_first (readlike_miss stacked_cache sys_stacked_reissue miss_c).sys.cache.MSHR
      = true ∧
    returned_first (handle_fill stacked_cache sys_stacked_reissue).cache.MSHR = true :=
  ⟨(returned_first_invariant nbrs sys_three_misses data_c).1 [miss_returned] [miss_b] []
      miss_c rfl (by decide) (by decide) (by decide) (by decide),
   by decide, by decide, by decide,
   (returned_first_invariant stacked_cache sys_stacked_reissue miss_c).2
      echoes_stacked_cache (by decide)⟩

/-- C14, witness: the only MSHR entry of `cache_invalidated` is due and saw an
invalidation after it was issued. -/
theorem handle_fill_reissues_witness :
    (handle_fill nbrs sys_invalidated).cache.block = sys_invalidated.cache.block ∧
    (handle_fill nbrs sys_invalidated).trace
      = sys_invalidated.trace ++ reissue_calls nbrs sys_invalidated entry_invalidated :=
  have h := handle_fill_reissues nbrs sys_invalidated entry_invalidated [] 0 (by decide) rfl rfl
    (by decide) (by decide)
  ⟨h.1, h.2.1⟩

/-- C16, witness: the load `fill_a` fills way 0 of a set of two invalid
ways. -/
theorem filllike_miss_install_witness :
    (filllike_miss nbrs sys_two_ways 0 0 fill_a).success = true ∧
    (block_at (filllike_miss nbrs sys_two_ways 0 0 fill_a).sys.cache 0).address = 0x40 ∧
    (block_at (filllike_miss nbrs sys_two_ways 0 0 fill_a).sys.cache 0).data = 9 :=
  have h := (filllike_miss_install nbrs sys_two_ways 0 0 fill_a (by decide) (by decide)).1
    (by decide)
  ⟨by decide, h.2.2.2.1, h.2.2.2.2.2.1⟩

/-- C25, witness: a prefetch of block 2 from `cache_pq_held`, which does not
prefetch on virtual addresses. -/
theorem prefetch_line_accounting_witness :
    cache_pq_held.virtual_prefetch = false ∧
    (prefetch_line nbrs cache_pq_held 0x80 true 0).2.pf_requested
      = cache_pq_held.pf_requested + 1 :=
  ⟨by decide, (prefetch_line_accounting nbrs cache_pq_held 0x80 true 0 (by decide)).1⟩

/-- C29, witness: the head of the WQ of `cache_cancelled` is the cancelled
writeback `wb_cancelled`, and a writeback of block 1 waits behind it. -/
theorem handle_writeback_cancelled_witness :
    sys_cancelled.cache.WQ.front.type = NON_VALID ∧
    (handle_writeback nbrs sys_cancelled).trace = sys_cancelled.trace ∧
    (handle_writeback nbrs sys_cancelled).world = sys_cancelled.world :=
  ⟨by decide,
   (handle_writeback_cancelled nbrs sys_cancelled 0 rfl (by decide) (by decide)).2⟩

/-- C17, failing input: on `sys_shared_flags` the fill of block 2 over the
victim block 4 stalls in `handle_fill` of the first cycle, after `add_wq` of the
lower level accepted the writeback of block 4 and upper level 1 accepted the
invalidation, on the refusal of upper level 0; the flags are then `(false, true,
false)`.  `handle_writeback` of the same cycle fills block 3 through
`filllike_miss` with these flags and sets all three again.  The retry of the
fill of block 2 in the next cycle therefore sends the writeback of block 4 to
`add_wq` a second time and invalidates upper level 1, which had accepted, a
second time. -/
theorem stalled_fill_repeats_writeback :
    flags sys_shared_flags.cache = (true, true, true) ∧
    (wq_calls (handle_fill nbrs (start_writes (operate_invalid nbrs sys_shared_flags))).trace).map
      (fun p => (p.address, p.type)) = [(0x100, WRITEBACK)] ∧
    (inv_sent 0 (handle_fill nbrs (start_writes (operate_invalid nbrs sys_shared_flags))).trace).map
      (fun x => (x.1.address, x.2)) = [(0x100, -2)] ∧
    (inv_sent 1 (handle_fill nbrs (start_writes (operate_invalid nbrs sys_shared_flags))).trace).map
      (fun x => (x.1.address, x.2)) = [(0x100, 1)] ∧
    flags (handle_fill nbrs (start_writes (operate_invalid nbrs sys_shared_flags))).cache
      = (false, true, false) ∧
    (handle_fill nbrs (start_writes (operate_invalid nbrs sys_shared_flags))).cache.MSHR
      = [due_b] ∧
    flags (operate nbrs sys_shared_flags).cache = (true, true, true) ∧
    (operate nbrs sys_shared_flags).cache.MSHR = [due_b] ∧
    (operate nbrs (operate nbrs sys_shared_flags)).cache.MSHR = [] ∧
    (wq_calls (operate nbrs (operate nbrs sys_shared_flags)).trace).map
      (fun p => (p.address, p.type)) = [(0x100, WRITEBACK), (0x100, WRITEBACK)] ∧
    (inv_sent 1 (operate nbrs (operate nbrs sys_shared_flags)).trace).map
      (fun x => (x.1.address, x.2)) = [(0x100, 1), (0x100, 1)] := by
  decide

/-- C18, failing input: on `sys_shared_flags` the fill of block 2 stalls in
`handle_fill` with `send_wb_valid` and `send_inv_valid[1]` cleared.
`handle_writeback` of the same cycle then fills block 3 over the valid dirty
block 1 of set 1: `filllike_miss` returns true and the block is overwritten,
and in the whole run no writeback of block 1 goes to `add_wq` of the lower
level and no invalidation of block 1 goes to upper level 1, which is present;
only upper level 0 is sent one. -/
theorem dirty_victim_overwritten_silently :
    sys_shared_flags.cache.cache_type = INCLUSIVE ∧
    flags sys_shared_flags.cache = (true, true, true) ∧
    sys_shared_flags.cache.block.map (fun b => (b.valid, b.dirty, b.address))
      = [(true, true, 0x100), (true, true, 0x40)] ∧
    nbrs.upper_present 1 = true ∧
    (operate nbrs sys_shared_flags).cache.block.map (fun b => (b.valid, b.dirty, b.address))
      = [(true, true, 0x100), (true, true, 0xC0)] ∧
    (operate nbrs sys_shared_flags).cache.WQ.occupancy = 0 ∧
    (wq_calls (operate nbrs sys_shared_flags).trace).map (fun p => p.address) = [0x100] ∧
    (inv_sent 0 (operate nbrs sys_shared_flags).trace).map (fun x => (x.1.address, x.2))
      = [(0x100, -2), (0x40, 1)] ∧
    (inv_sent 1 (operate nbrs sys_shared_flags).trace).map (fun x => (x.1.address, x.2))
      = [(0x100, 1)] ∧
    (wq_calls (operate nbrs (operate nbrs sys_shared_flags)).trace).map (fun p => p.address)
      = [0x100, 0x100] ∧
    (inv_sent 1 (operate nbrs (operate nbrs sys_shared_flags)).trace).map
      (fun x => x.1.address) = [0x100, 0x100] := by
  decide

end ChampSim
